import Mathlib

/-!
Canary map core: node-tree decoder and bounded scalar stream.

A shallow embedding of `src/io/fileloader.hpp` and `fileloader.cpp` (the OTB node-tree
decoder) and of `src/io/filestream.hpp` and `filestream.cpp` (the bounded scalar
stream), followed by the properties proved about them.

Conventions of the embedding:

* a byte buffer is a `List Nat`, one element per byte (values `0 .. 255`);
* a pointer into the mapped file is the offset of the byte it points at;
* a C++ exception is the `.error` case of `Except`;
* a read outside the buffer (undefined behaviour in C++) is the `none` case of
  `Option` in the stream operations, so that bounds safety is a statement about
  the model and not an assumption of it.
-/

set_option autoImplicit false

namespace OTB

/-! ## Definitions: node-tree decoder (`fileloader.hpp`, `fileloader.cpp`) -/

/-- Sentinel `Node::ESCAPE`. -/
def ESCAPE : Nat := 0xFD

/-- Sentinel `Node::START`. -/
def START : Nat := 0xFE

/-- Sentinel `Node::END`. -/
def END : Nat := 0xFF

/-- The exceptions of `fileloader.hpp` that the decoder raises. -/
inductive LoadError where
  | invalidOTBFormat
  deriving DecidableEq

/-- The struct `OTB::Node`: children, property range `[propsBegin, propsEnd)` given as
offsets into the file contents, and the type byte. -/
inductive Node where
  | mk (children : List Node) (propsBegin : Nat) (propsEnd : Nat) (type : Nat)

namespace Node

/-- Field `children`. -/
def children : Node → List Node
  | mk c _ _ _ => c

/-- Field `propsBegin`. -/
def propsBegin : Node → Nat
  | mk _ b _ _ => b

/-- Field `propsEnd`. -/
def propsEnd : Node → Nat
  | mk _ _ e _ => e

/-- Field `type`. -/
def type : Node → Nat
  | mk _ _ _ t => t

/-- The statement `if (currentNode.children.empty()) currentNode.propsEnd = it;`. -/
def setPropsEndIfLeaf (n : Node) (it : Nat) : Node :=
  if n.children.isEmpty then mk n.children n.propsBegin it n.type else n

/-- A closed child takes its place at the back of the children of its parent. -/
def addChild (n child : Node) : Node :=
  mk (n.children ++ [child]) n.propsBegin n.propsEnd n.type

end Node

/-- The `while (it < end)` loop of `Loader::parseTree`.

The first argument is the part of the buffer from `it` on, the second the offset `it`.
`stack` is `parseStack`, top first. The source keeps pointers into the tree under
construction; here every stack entry is the node itself, holding the children closed so
far, and a node is appended to its parent when it is popped (the source appends it
when it is pushed; the top of the stack never has a child still open, so both agree on
every `children.empty()` test). `done` holds the root once the root has been popped. -/
def parseLoop : List Nat → Nat → List Node → Option Node →
    Except LoadError (List Node × Option Node)
  | [], _, stack, done => .ok (stack, done)
  | byte :: rest, it, stack, done =>
    if byte = START then
      match stack with
      | [] => .error .invalidOTBFormat
      | cur :: below =>
        match rest with
        | [] => .error .invalidOTBFormat
        | ty :: rest' =>
          parseLoop rest' (it + 2)
            (Node.mk [] (it + 2) 0 ty :: cur.setPropsEndIfLeaf it :: below) done
    else if byte = END then
      match stack with
      | [] => .error .invalidOTBFormat
      | cur :: below =>
        match below with
        | [] => parseLoop rest (it + 1) [] (some (cur.setPropsEndIfLeaf it))
        | parent :: above =>
          parseLoop rest (it + 1) (parent.addChild (cur.setPropsEndIfLeaf it) :: above) done
    else if byte = ESCAPE then
      match rest with
      | [] => .error .invalidOTBFormat
      | _ :: rest' => parseLoop rest' (it + 2) stack done
    else parseLoop rest (it + 1) stack done

/-- The class `OTB::Loader`, reduced to the mapped file contents. -/
structure Loader where
  fileContents : List Nat

namespace Loader

/-- Method `isLoaded`. -/
def isLoaded (l : Loader) : Bool := !l.fileContents.isEmpty

/-- The end of `Loader::parseTree`, after the loop:
`if (!parseStack.empty()) throw InvalidOTBFormat; return root;`. -/
def afterLoop : Except LoadError (List Node × Option Node) → Except LoadError Node
  | .error e => .error e
  | .ok (_ :: _, _) => .error .invalidOTBFormat
  | .ok ([], some root) => .ok root
  | .ok ([], none) => .error .invalidOTBFormat

/-- Method `Loader::parseTree`, on a loader that has not parsed before (`root` is still
a default-constructed node). The constructor admits only files of more than seven bytes,
so the two reads at offsets 4 and 5 are inside the buffer for every loader that exists;
for a shorter buffer the model reports the error the constructor raises. A null
`propsEnd` is the offset 0. -/
def parseTree (l : Loader) : Except LoadError Node :=
  if !l.isLoaded then .error .invalidOTBFormat
  else
    match l.fileContents[4]? with
    | none => .error .invalidOTBFormat
    | some first =>
      if first ≠ START then .error .invalidOTBFormat
      else
        match l.fileContents[5]? with
        | none => .error .invalidOTBFormat
        | some rootType =>
          afterLoop (parseLoop (l.fileContents.drop 6) 6 [Node.mk [] 6 0 rootType] none)

/-- The `for` loop of `Loader::getProps`: copies the range, dropping an ESCAPE byte
unless the byte before it was itself a dropped ESCAPE. -/
def unescapeLoop : List Nat → Bool → List Nat
  | [], _ => []
  | c :: rest, lastEscaped =>
    if c = ESCAPE ∧ lastEscaped = false then unescapeLoop rest true
    else c :: unescapeLoop rest false

/-- The bytes of the file in `[b, e)`. -/
def range (l : Loader) (b e : Nat) : List Nat :=
  (l.fileContents.drop b).take (e - b)

/-- Method `Loader::getProps`: `none` is the result `false`, `some p` is the result `true`
with the cursor `props` initialised on the bytes `p`. -/
def getProps (l : Loader) (node : Node) : Option (List Nat) :=
  if node.propsEnd ≤ node.propsBegin then none
  else some (unescapeLoop (l.range node.propsBegin node.propsEnd) false)

end Loader

/-! ### Reference notions used to state the properties of the decoder -/

/-- The ways in which the framing of a buffer can be malformed. -/
inductive Malformed where
  | nodeOpenAtEnd
  | sentinelAfterRoot
  | truncatedEscape
  deriving DecidableEq

/-- Reads the framing of a buffer keeping only the number of open nodes: START opens a
node and is followed by its type byte, END closes the innermost open node, ESCAPE makes
the next byte literal. -/
def framing : List Nat → Nat → Except Malformed Unit
  | [], 0 => .ok ()
  | [], _ + 1 => .error .nodeOpenAtEnd
  | byte :: rest, depth =>
    if byte = START then
      if depth = 0 then .error .sentinelAfterRoot
      else
        match rest with
        | [] => .error .nodeOpenAtEnd
        | _ :: rest' => framing rest' (depth + 1)
    else if byte = END then
      if depth = 0 then .error .sentinelAfterRoot
      else framing rest (depth - 1)
    else if byte = ESCAPE then
      match rest with
      | [] => .error .truncatedEscape
      | _ :: rest' => framing rest' depth
    else framing rest depth

/-- Offsets, counted from the head of the list, of the bytes that immediately follow an
unescaped ESCAPE byte: the walk steps over START and its type byte, over ESCAPE and the
byte it escapes, and over every other byte alone. -/
def escapedOffsets : List Nat → List Nat
  | [] => []
  | byte :: rest =>
    if byte = START then
      match rest with
      | [] => []
      | _ :: rest' => (escapedOffsets rest').map (· + 2)
    else if byte = ESCAPE then
      match rest with
      | [] => []
      | _ :: rest' => 1 :: (escapedOffsets rest').map (· + 2)
    else (escapedOffsets rest).map (· + 1)

/-- Removal of the escape framing from a range of property bytes, as the format defines
it: an unescaped ESCAPE byte is dropped and the byte after it is kept verbatim. -/
def unescape : List Nat → List Nat
  | [] => []
  | byte :: rest =>
    if byte = ESCAPE then
      match rest with
      | [] => []
      | x :: rest' => x :: unescape rest'
    else byte :: unescape rest

/-- The number of ESCAPE bytes that `unescape` drops. -/
def escapeCount : List Nat → Nat
  | [] => 0
  | byte :: rest =>
    if byte = ESCAPE then
      match rest with
      | [] => 1
      | _ :: rest' => escapeCount rest' + 1
    else escapeCount rest

/-- A run of property bytes in the framing: it holds no unescaped START or END and does
not stop between an ESCAPE and the byte it escapes. -/
def isRawProps : List Nat → Bool
  | [] => true
  | byte :: rest =>
    if byte = ESCAPE then
      match rest with
      | [] => false
      | _ :: rest' => isRawProps rest'
    else if byte = START ∨ byte = END then false
    else isRawProps rest

mutual
/-- A node followed by all its descendants. -/
def Node.subtree : Node → List Node
  | .mk children b e t => .mk children b e t :: subtreeList children
/-- The nodes of a list of trees. -/
def subtreeList : List Node → List Node
  | [] => []
  | c :: cs => c.subtree ++ subtreeList cs
end

/-- Where the property range of a closed node lies in the buffer: it starts right after
the START and type byte of the node, it is a run of property bytes, and it stops at the
START of the first child, or at the END of the node when the node has no child. -/
def Node.Framed (buf : List Nat) (n : Node) : Prop :=
  2 ≤ n.propsBegin ∧ buf[n.propsBegin - 2]? = some START ∧
  buf[n.propsBegin - 1]? = some n.type ∧
  n.propsBegin ≤ n.propsEnd ∧
  isRawProps (Loader.range ⟨buf⟩ n.propsBegin n.propsEnd) = true ∧
  (match n.children with
   | [] => buf[n.propsEnd]? = some END
   | c :: _ => buf[n.propsEnd]? = some START ∧ c.propsBegin = n.propsEnd + 2)

/-- Invariant of the node on top of the parse stack when the loop is at offset `it`. -/
def FrameOpen (buf : List Nat) (it : Nat) (f : Node) : Prop :=
  2 ≤ f.propsBegin ∧ buf[f.propsBegin - 2]? = some START ∧
  buf[f.propsBegin - 1]? = some f.type ∧
  (∀ m ∈ subtreeList f.children, m.Framed buf) ∧
  (match f.children with
   | [] => f.propsBegin ≤ it ∧ isRawProps (Loader.range ⟨buf⟩ f.propsBegin it) = true
   | c :: _ =>
     f.propsBegin ≤ f.propsEnd ∧
     isRawProps (Loader.range ⟨buf⟩ f.propsBegin f.propsEnd) = true ∧
     buf[f.propsEnd]? = some START ∧ c.propsBegin = f.propsEnd + 2)

/-- Invariant of a node below the top of the parse stack; `aboveBegin` is `propsBegin` of
the stack entry right above it, its child still open. -/
def FrameWaiting (buf : List Nat) (aboveBegin : Nat) (f : Node) : Prop :=
  2 ≤ f.propsBegin ∧ buf[f.propsBegin - 2]? = some START ∧
  buf[f.propsBegin - 1]? = some f.type ∧
  (∀ m ∈ subtreeList f.children, m.Framed buf) ∧
  f.propsBegin ≤ f.propsEnd ∧
  isRawProps (Loader.range ⟨buf⟩ f.propsBegin f.propsEnd) = true ∧
  buf[f.propsEnd]? = some START ∧
  (match f.children with
   | [] => aboveBegin = f.propsEnd + 2
   | c :: _ => c.propsBegin = f.propsEnd + 2)

/-- Invariant of the entries below the top of the parse stack. -/
def WaitingOk (buf : List Nat) : Nat → List Node → Prop
  | _, [] => True
  | aboveBegin, f :: below => FrameWaiting buf aboveBegin f ∧ WaitingOk buf f.propsBegin below

/-- Invariant of the parse stack when the loop is at offset `it`. -/
def StackOk (buf : List Nat) (it : Nat) : List Node → Prop
  | [] => True
  | top :: below => FrameOpen buf it top ∧ WaitingOk buf top.propsBegin below

/-- Invariant of the closed root. -/
def DoneOk (buf : List Nat) : Option Node → Prop
  | none => True
  | some root => ∀ m ∈ root.subtree, m.Framed buf

/-! ### The node-tree format as a data type, and its encoder -/

/-- A node tree: type byte, property bytes, ordered children. -/
inductive Tree where
  | node (type : Nat) (props : List Nat) (children : List Tree)

/-- Escaping of property bytes: each byte equal to ESCAPE, START or END is preceded by
an ESCAPE byte. -/
def escapeProps : List Nat → List Nat
  | [] => []
  | b :: rest =>
    if b = ESCAPE ∨ b = START ∨ b = END then ESCAPE :: b :: escapeProps rest
    else b :: escapeProps rest

mutual
/-- The OTB framing of a tree: START, type byte, escaped properties, children, END. -/
def encode : Tree → List Nat
  | .node ty props kids => START :: ty :: (escapeProps props ++ (encodeList kids ++ [END]))
/-- The framing of a list of trees, one after the other. -/
def encodeList : List Tree → List Nat
  | [] => []
  | k :: ks => encode k ++ encodeList ks
end

mutual
/-- The tree that a parsed node stands for: its type byte, the properties `getProps`
yields for it (none when `getProps` returns false) and its children. -/
def Loader.toTree (l : Loader) : Node → Tree
  | .mk children b e t =>
    .node t ((l.getProps (.mk children b e t)).getD []) (Loader.toTrees l children)
/-- The trees that a list of parsed nodes stands for. -/
def Loader.toTrees (l : Loader) : List Node → List Tree
  | [] => []
  | c :: cs => Loader.toTree l c :: Loader.toTrees l cs
end

/-- Decoding of a buffer: `parseTree`, then `getProps` on every node. -/
def Loader.decode (l : Loader) : Except LoadError Tree :=
  match l.parseTree with
  | .error e => .error e
  | .ok root => .ok (l.toTree root)

mutual
/-- The node that the parser builds for a tree whose START byte lies at offset `it`. -/
def layout : Tree → Nat → Node
  | .node ty props kids, it =>
    .mk (layoutList kids (it + 2 + (escapeProps props).length)) (it + 2)
      (it + 2 + (escapeProps props).length) ty
/-- The nodes that the parser builds for consecutive trees, the first at offset `it`. -/
def layoutList : List Tree → Nat → List Node
  | [], _ => []
  | k :: ks, it => layout k it :: layoutList ks (it + (encode k).length)
end

/-- The stack entry `top` after the trees `ts`, framed from offset `it` on, have been
parsed as children of it. -/
def addKids (top : Node) (it : Nat) : List Tree → Node
  | [] => top
  | k :: ks => addKids ((top.setPropsEndIfLeaf it).addChild (layout k it)) (it + (encode k).length) ks

end OTB

/-! ## Definitions: bounded scalar stream (`filestream.hpp`, `filestream.cpp`) -/

/-- The class `FileStream`: node depth `m_nodes`, cursor `m_pos`, byte span `m_data`.

Every operation below returns an `Option`: `none` stands for a read outside `m_data`.

`m_nodes` and `m_pos` are `uint32_t` in the source. The cursor is incremented only
while it is below `m_data.size()`, so it cannot wrap on a buffer of fewer than 2^32
bytes (the sizes `FileStream::size()` accepts), and the depth is incremented once per
successful `startNode`; the model keeps both in `Nat`. Where the source forms a 32-bit
sum with an operand that the caller or the file supplies (`skip`, and the bounds test of
`getString`) the model reduces it modulo 2^32. -/
structure FileStream where
  m_nodes : Nat
  m_pos : Nat
  m_data : List Nat
  deriving DecidableEq

namespace FileStream

/-- Method `seek`. -/
def seek (s : FileStream) (pos : Nat) : FileStream :=
  if pos > s.m_data.length then s else { s with m_pos := pos }

/-- Method `skip`: `newPos` is a `uint32_t` sum, and a wrapped sum is refused. -/
def skip (s : FileStream) (len : Nat) : FileStream :=
  let newPos := (s.m_pos + len) % 4294967296
  if newPos < s.m_pos then s else s.seek newPos

/-- Method `back`. -/
def back (s : FileStream) (pos : Nat) : FileStream :=
  if pos > s.m_pos then { s with m_pos := 0 } else { s with m_pos := s.m_pos - pos }

/-- Method `eof`. -/
def eof (s : FileStream) : Bool := decide (s.m_pos ≥ s.m_data.length)

/-- Method `getU8`. -/
def getU8 (s : FileStream) : Option (Nat × FileStream) :=
  if s.m_pos ≥ s.m_data.length then some (0, s)
  else
    match s.m_data[s.m_pos]? with
    | none => none
    | some b =>
      if s.m_nodes > 0 ∧ b = OTB.ESCAPE then
        if s.m_pos + 1 ≥ s.m_data.length then some (0, { s with m_pos := s.m_pos + 1 })
        else
          match s.m_data[s.m_pos + 1]? with
          | none => none
          | some c => some (c, { s with m_pos := s.m_pos + 2 })
      else some (b, { s with m_pos := s.m_pos + 1 })

/-- The value of a byte array under `std::bit_cast` or `memcpy` into an unsigned integer
(little-endian, as on the platforms the server targets). -/
def fromLittleEndian : List Nat → Nat
  | [] => 0
  | b :: rest => b + 256 * fromLittleEndian rest

/-- The bytes that `memcpy` or `assign` copies from `&m_data[pos]`, `n` of them; `none`
when the copy runs past the end of the span. -/
def bytesAt (data : List Nat) (pos n : Nat) : Option (List Nat) :=
  if pos + n ≤ data.length then some ((data.drop pos).take n) else none

/-- The `for` loop of `read<T>(ret, true)`, with the count of bytes still to collect: the
inner result is `none` when the loop returns false. -/
def readEscapedLoop : Nat → FileStream → List Nat → Option (Option (List Nat) × FileStream)
  | 0, s, array => some (some array, s)
  | n + 1, s, array =>
    if s.m_pos ≥ s.m_data.length then some (none, s)
    else
      match s.m_data[s.m_pos]? with
      | none => none
      | some b =>
        if b = OTB.ESCAPE then
          if s.m_pos + 1 ≥ s.m_data.length then some (none, { s with m_pos := s.m_pos + 1 })
          else
            match s.m_data[s.m_pos + 1]? with
            | none => none
            | some c => readEscapedLoop n { s with m_pos := s.m_pos + 2 } (array ++ [c])
        else readEscapedLoop n { s with m_pos := s.m_pos + 1 } (array ++ [b])

/-- Template `FileStream::read<T>(ret, escape)` for an unsigned integer `T` of `size`
bytes, `size` being 2, 4 or 8: the inner result is `none` when it returns false, leaving
`ret` untouched, and the value stored in `ret` when it returns true. -/
def read (s : FileStream) (size : Nat) (escape : Bool) : Option (Option Nat × FileStream) :=
  if s.m_pos + size > s.m_data.length then some (none, s)
  else if escape then
    match readEscapedLoop size s [] with
    | none => none
    | some (none, s') => some (none, s')
    | some (some array, s') => some (some (fromLittleEndian array), s')
  else
    match bytesAt s.m_data s.m_pos size with
    | none => none
    | some bytes => some (some (fromLittleEndian bytes), { s with m_pos := s.m_pos + size })

/-- The common body of `getU16`, `getU32` and `getU64`, which differ only in the size
of the integer read: `v` starts at 0 and is returned whether or not the read stored
something in it. -/
def getUnsigned (s : FileStream) (size : Nat) : Option (Nat × FileStream) :=
  if s.m_nodes > 0 then
    match read s size true with
    | none => none
    | some (ret, s') => some (ret.getD 0, s')
  else if s.m_pos + size ≤ s.m_data.length then
    match bytesAt s.m_data s.m_pos size with
    | none => none
    | some bytes => some (fromLittleEndian bytes, { s with m_pos := s.m_pos + size })
  else some (0, s)

/-- Method `getU16`. -/
def getU16 (s : FileStream) : Option (Nat × FileStream) := getUnsigned s 2

/-- Method `getU32`. -/
def getU32 (s : FileStream) : Option (Nat × FileStream) := getUnsigned s 4

/-- Method `getU64`. -/
def getU64 (s : FileStream) : Option (Nat × FileStream) := getUnsigned s 8

/-- The constant `maxStringLen` of `getString`. -/
def maxStringLen : Nat := 8192

/-- Method `getString`. In `m_pos + len > m_data.size()` the operands are a `uint32_t`
and a `uint16_t`, so the sum is formed in 32 bits before it is compared. -/
def getString (s : FileStream) : Option (List Nat × FileStream) :=
  match getU16 s with
  | none => none
  | some (len, s1) =>
    if len = 0 then some ([], s1)
    else if len ≥ maxStringLen then some ([], s1)
    else if (s1.m_pos + len) % 4294967296 > s1.m_data.length then some ([], s1)
    else
      match bytesAt s1.m_data s1.m_pos len with
      | none => none
      | some str => some (str, { s1 with m_pos := s1.m_pos + len })

/-- Method `isProp`. -/
def isProp (s : FileStream) (prop : Nat) (toNext : Bool) : Option (Bool × FileStream) :=
  if s.eof then some (false, s)
  else
    match getU8 s with
    | none => none
    | some (byte, s1) =>
      if byte = prop then
        if !toNext then some (true, { s1 with m_pos := s.m_pos })
        else some (true, s1)
      else some (false, { s1 with m_pos := s.m_pos })

/-- Method `startNode`; the default argument of the source is `type = 0`. -/
def startNode (s : FileStream) (type : Nat) : Option (Bool × FileStream) :=
  if s.eof then some (false, s)
  else
    match getU8 s with
    | none => none
    | some (byte, s1) =>
      if byte ≠ OTB.START then some (false, { s1 with m_pos := s.m_pos })
      else if type = 0 then some (true, { s1 with m_nodes := s1.m_nodes + 1 })
      else if s1.eof then some (false, { s1 with m_pos := s.m_pos })
      else
        match getU8 s1 with
        | none => none
        | some (nodeType, s2) =>
          if nodeType = type then some (true, { s2 with m_nodes := s2.m_nodes + 1 })
          else some (false, { s2 with m_pos := s.m_pos })

/-- Method `endNode`. -/
def endNode (s : FileStream) : Option (Bool × FileStream) :=
  if s.eof then some (false, s)
  else
    match getU8 s with
    | none => none
    | some (byte, s1) =>
      if byte ≠ OTB.END then some (false, { s1 with m_pos := s.m_pos })
      else if s1.m_nodes > 0 then some (true, { s1 with m_nodes := s1.m_nodes - 1 })
      else some (true, s1)

/-- One call on a stream, with its arguments. -/
inductive Call where
  | getU8 | getU16 | getU32 | getU64 | getString
  | isProp (prop : Nat) (toNext : Bool)
  | startNode (type : Nat)
  | endNode
  | seek (pos : Nat)
  | skip (len : Nat)
  | back (pos : Nat)

/-- The stream after one call; `none` when the call reads outside the buffer. -/
def step (s : FileStream) : Call → Option FileStream
  | .getU8 => (getU8 s).map Prod.snd
  | .getU16 => (getU16 s).map Prod.snd
  | .getU32 => (getU32 s).map Prod.snd
  | .getU64 => (getU64 s).map Prod.snd
  | .getString => (getString s).map Prod.snd
  | .isProp prop toNext => (isProp s prop toNext).map Prod.snd
  | .startNode type => (startNode s type).map Prod.snd
  | .endNode => (endNode s).map Prod.snd
  | .seek pos => some (s.seek pos)
  | .skip len => some (s.skip len)
  | .back pos => some (s.back pos)

/-- The stream after a sequence of calls; `none` when one of them reads outside the
buffer. -/
def run (s : FileStream) : List Call → Option FileStream
  | [] => some s
  | c :: cs =>
    match step s c with
    | none => none
    | some s' => run s' cs

end FileStream

/-! ## Definitions: content cache (`mapcache.hpp`, `mapcache.cpp`) -/

/-- The argument of one call of the template `stdext::hash_combine`, tagged with the C++
type it is instantiated at. The combiner itself (`utils/hash.hpp`) is a parameter of
the hash functions below. -/
inductive HashArg where
  | u8 (v : Nat)
  | u16 (v : Nat)
  | u32 (v : Nat)
  | int (v : Nat)
  | size (v : Nat)
  | str (s : List Nat)
  deriving DecidableEq

/-- The struct `BasicItem`; a string is the list of its bytes. -/
inductive BasicItem where
  | mk (text : List Nat) (id charges actionId uniqueId destX destY doorOrDepotId destZ : Nat)
      (items : List BasicItem)

namespace BasicItem

/-- Field `text`. -/
def text : BasicItem → List Nat
  | mk t _ _ _ _ _ _ _ _ _ => t

/-- Field `id`. -/
def id : BasicItem → Nat
  | mk _ i _ _ _ _ _ _ _ _ => i

/-- Field `charges`. -/
def charges : BasicItem → Nat
  | mk _ _ c _ _ _ _ _ _ _ => c

/-- Field `actionId`. -/
def actionId : BasicItem → Nat
  | mk _ _ _ a _ _ _ _ _ _ => a

/-- Field `uniqueId`. -/
def uniqueId : BasicItem → Nat
  | mk _ _ _ _ u _ _ _ _ _ => u

/-- Field `destX`. -/
def destX : BasicItem → Nat
  | mk _ _ _ _ _ x _ _ _ _ => x

/-- Field `destY`. -/
def destY : BasicItem → Nat
  | mk _ _ _ _ _ _ y _ _ _ => y

/-- Field `doorOrDepotId`. -/
def doorOrDepotId : BasicItem → Nat
  | mk _ _ _ _ _ _ _ d _ _ => d

/-- Field `destZ`. -/
def destZ : BasicItem → Nat
  | mk _ _ _ _ _ _ _ _ z _ => z

/-- Field `items`. -/
def items : BasicItem → List BasicItem
  | mk _ _ _ _ _ _ _ _ _ is => is

/-- A default-constructed `BasicItem`. -/
def fresh : BasicItem := mk [] 0 0 0 0 0 0 0 0 []

mutual
/-- The private method `BasicItem::hash(size_t &h)`: `h` before, `h` after. -/
def hashInto (combine : Nat → HashArg → Nat) : BasicItem → Nat → Nat
  | mk text id charges actionId uniqueId destX destY doorOrDepotId destZ items, h =>
    let h := if id > 0 then combine h (.u16 id) else h
    let h := if charges > 0 then combine h (.u16 charges) else h
    let h := if actionId > 0 then combine h (.u16 actionId) else h
    let h := if uniqueId > 0 then combine h (.u16 uniqueId) else h
    let h := if destX > 0 then combine h (.u16 destX) else h
    let h := if destY > 0 then combine h (.u16 destY) else h
    let h := if destZ > 0 then combine h (.u8 destZ) else h
    let h := if doorOrDepotId > 0 then combine h (.u16 doorOrDepotId) else h
    let h := if !text.isEmpty then combine h (.str text) else h
    if !items.isEmpty then hashItems combine items (combine h (.size items.length)) else h
/-- The loop `for (const auto &item : items) item->hash(h);`. -/
def hashItems (combine : Nat → HashArg → Nat) : List BasicItem → Nat → Nat
  | [], h => h
  | item :: rest, h => hashItems combine rest (hashInto combine item h)
end

/-- The public method `BasicItem::hash()`. -/
def hash (combine : Nat → HashArg → Nat) (item : BasicItem) : Nat :=
  hashInto combine item 0

end BasicItem

/-- The struct `BasicTile`; a null `ground` is `none`. -/
structure BasicTile where
  ground : Option BasicItem
  items : List BasicItem
  flags : Nat
  houseId : Nat
  type : Nat
  isStatic : Bool

namespace BasicTile

/-- A default-constructed `BasicTile`; `TILESTATE_NONE` is the value 0 of the field
`type`. -/
def fresh : BasicTile := ⟨none, [], 0, 0, 0, false⟩

/-- Method `isEmpty`. -/
def isEmpty (t : BasicTile) (ignoreFlag : Bool) : Bool :=
  (ignoreFlag || t.flags == 0) && t.ground.isNone && t.items.isEmpty

/-- Method `isHouse`. -/
def isHouse (t : BasicTile) : Bool := t.houseId != 0

/-- The private method `BasicTile::hash(size_t &h)`. -/
def hashInto (combine : Nat → HashArg → Nat) (t : BasicTile) (h : Nat) : Nat :=
  let h := if t.flags > 0 then combine h (.u32 t.flags) else h
  let h := if t.houseId > 0 then combine h (.u32 t.houseId) else h
  let h := if t.type > 0 then combine h (.u8 t.type) else h
  let h := if t.isStatic then combine h (.int 1) else h
  let h :=
    match t.ground with
    | some ground => BasicItem.hashInto combine ground h
    | none => h
  if !t.items.isEmpty then
    BasicItem.hashItems combine t.items (combine h (.size t.items.length))
  else h

/-- The public method `BasicTile::hash()`. -/
def hash (combine : Nat → HashArg → Nat) (t : BasicTile) : Nat :=
  hashInto combine t 0

end BasicTile

/-- The member `try_emplace` of a hash map, the map being a function from keys to the
stored values: the value found under the key if there is one, else the new value, which
is then stored. -/
def tryEmplace {P : Type} (m : Nat → Option P) (key : Nat) (value : P) :
    P × (Nat → Option P) :=
  match m key with
  | some found => (found, m)
  | none => (value, fun k => if k = key then some value else m k)

/-- The function `static_tryGetItemFromCache`. `P` is the type of the non-null values of
`std::shared_ptr<BasicItem>` and `obj` the object a pointer refers to; the loader below
uses the descriptors themselves as pointers. The first argument after the combiner is
the static map `items`. -/
def static_tryGetItemFromCache {P : Type} (obj : P → BasicItem)
    (combine : Nat → HashArg → Nat) (items : Nat → Option P) (ref : Option P) :
    Option P × (Nat → Option P) :=
  match ref with
  | none => (none, items)
  | some p =>
    let r := tryEmplace items ((obj p).hash combine) p
    (some r.1, r.2)

/-- The function `static_tryGetTileFromCache`, over the static map `tiles`. -/
def static_tryGetTileFromCache {P : Type} (obj : P → BasicTile)
    (combine : Nat → HashArg → Nat) (tiles : Nat → Option P) (ref : Option P) :
    Option P × (Nat → Option P) :=
  match ref with
  | none => (none, tiles)
  | some p =>
    let r := tryEmplace tiles ((obj p).hash combine) p
    (some r.1, r.2)

/-- The results of interning a sequence of item pointers, in order, and the map after. -/
def internItems {P : Type} (obj : P → BasicItem) (combine : Nat → HashArg → Nat) :
    (Nat → Option P) → List (Option P) → List (Option P) × (Nat → Option P)
  | items, [] => ([], items)
  | items, ref :: rest =>
    let r := static_tryGetItemFromCache obj combine items ref
    let rs := internItems obj combine r.2 rest
    (r.1 :: rs.1, rs.2)

/-- The results of interning a sequence of tile pointers, in order, and the map after. -/
def internTiles {P : Type} (obj : P → BasicTile) (combine : Nat → HashArg → Nat) :
    (Nat → Option P) → List (Option P) → List (Option P) × (Nat → Option P)
  | tiles, [] => ([], tiles)
  | tiles, ref :: rest =>
    let r := static_tryGetTileFromCache obj combine tiles ref
    let rs := internTiles obj combine r.2 rest
    (r.1 :: rs.1, rs.2)

/-- The earliest pointer of a sequence whose object has the given hash. -/
def firstWithHash {P : Type} (hash : P → Nat) (key : Nat) : List (Option P) → Option P
  | [] => none
  | none :: rest => firstWithHash hash key rest
  | some p :: rest => if hash p = key then some p else firstWithHash hash key rest

/-- The common shape of the two functions above, for a hash on pointers. -/
def tryGetWith {P : Type} (hash : P → Nat) (m : Nat → Option P) (ref : Option P) :
    Option P × (Nat → Option P) :=
  match ref with
  | none => (none, m)
  | some p =>
    let r := tryEmplace m (hash p) p
    (some r.1, r.2)

/-- Interning a sequence of pointers with `tryGetWith`. -/
def internWith {P : Type} (hash : P → Nat) :
    (Nat → Option P) → List (Option P) → List (Option P) × (Nat → Option P)
  | m, [] => ([], m)
  | m, ref :: rest =>
    let r := tryGetWith hash m ref
    let rs := internWith hash r.2 rest
    (r.1 :: rs.1, rs.2)

/-- What interning a sequence `refs` of pointers into flushed (empty) maps does, for a
hash `hash` on pointers, a function `get` that interns one pointer and a function `run`
that interns a sequence: the result for a non-null pointer is the earliest pointer of
the sequence so far with the same hash, a stored entry is never replaced, two pointers
whose objects `same` relates get the same result, and interning a result again returns
it and leaves the map as it is. -/
def InternSpec {P : Type} (hash : P → Nat) (same : P → P → Prop)
    (get : (Nat → Option P) → Option P → Option P × (Nat → Option P))
    (run : (Nat → Option P) → List (Option P) → List (Option P) × (Nat → Option P))
    (refs : List (Option P)) : Prop :=
  (∀ (i : Nat), i < refs.length →
    (run (fun _ => none) refs).1[i]? =
      some (match refs[i]? with
        | some (some p) => firstWithHash hash (hash p) (refs.take (i + 1))
        | _ => none)) ∧
  (∀ (i : Nat) (p : P), refs[i]? = some (some p) →
    ∃ r, (run (fun _ => none) refs).1[i]? = some (some r) ∧ hash r = hash p) ∧
  (∀ m ref k e, m k = some e → (get m ref).2 k = some e) ∧
  (∀ (i j : Nat) (p q : P), refs[i]? = some (some p) → refs[j]? = some (some q) → same p q →
    (run (fun _ => none) refs).1[i]? = (run (fun _ => none) refs).1[j]?) ∧
  (∀ (i : Nat) (r : P), (run (fun _ => none) refs).1[i]? = some (some r) →
    get (run (fun _ => none) refs).2 (some r) = (some r, (run (fun _ => none) refs).2))

/-! ## Definitions: spatial index (`mapcache.hpp`, `mapcache.cpp`, `map.cpp`) -/

/-- The struct `Position` (position.hpp): `x` and `y` are `uint16_t`, `z` is `uint8_t`. -/
structure Position where
  x : Nat
  y : Nat
  z : Nat
  deriving DecidableEq

/-- Modelled from the spec: the classes `StaticTile`, `DynamicTile` and `HouseTile`, which
the sources at hand do not contain. The spec: a live tile is a "variant over Static,
Dynamic, House-backed". -/
inductive TileKind where
  | staticTile
  | dynamicTile
  | houseTile (houseId : Nat)
  deriving DecidableEq

/-- Modelled from the spec: the class `Tile`, which the sources at hand do not contain. The
spec: a live tile "owns a ground item, an item list, a flags bitset, creature occupancy,
and zone memberships". `things` are the non-null items handed to `internalAddThing`, in
order; `I` is the type of live items. -/
structure Tile (I : Type) where
  pos : Position
  kind : TileKind
  things : List I
  flags : Nat
  creatures : List Nat
  zones : List Nat

/-- Modelled from the spec: `Tile::internalAddThing` for an item pointer (class `Tile` is
not in the sources); a null pointer adds nothing. -/
def Tile.internalAddThing {I : Type} (t : Tile I) (item : Option I) : Tile I :=
  match item with
  | none => t
  | some i => { t with things := t.things ++ [i] }

/-- Modelled from the spec: `Tile::setFlag` (class `Tile` is not in the sources), which
sets the bits of `flag` in the flags bitset. -/
def Tile.setFlag {I : Type} (t : Tile I) (flag : Nat) : Tile I :=
  { t with flags := t.flags ||| flag }

/-- Modelled from the spec: the constructors of the tile classes (not in the sources): a
tile at a position, with nothing on it. -/
def Tile.new {I : Type} (pos : Position) (kind : TileKind) : Tile I :=
  ⟨pos, kind, [], 0, [], []⟩

/-- Modelled from the spec: the class `Floor` of utils/mapsector.hpp, which the sources at
hand do not contain. The spec: a floor "holds two parallel coordinate-indexed arrays:
tile (materialized live tiles) and tileCache (pending basic-tile descriptors)". The slot
of a coordinate pair is the pair of its remainders by the sector size. -/
structure Floor (I : Type) where
  tiles : Nat → Nat → Option (Tile I)
  tileCache : Nat → Nat → Option BasicTile

/-- Modelled from the spec: a new floor, both arrays null (utils/mapsector.hpp is not in
the sources). -/
def Floor.new {I : Type} : Floor I := ⟨fun _ _ => none, fun _ _ => none⟩

/-- Modelled from the spec: `Floor::getTile` (utils/mapsector.hpp is not in the sources). -/
def Floor.getTile {I : Type} (SECTOR_SIZE : Nat) (f : Floor I) (x y : Nat) : Option (Tile I) :=
  f.tiles (x % SECTOR_SIZE) (y % SECTOR_SIZE)

/-- Modelled from the spec: `Floor::getTileCache` (utils/mapsector.hpp is not in the
sources). -/
def Floor.getTileCache {I : Type} (SECTOR_SIZE : Nat) (f : Floor I) (x y : Nat) :
    Option BasicTile :=
  f.tileCache (x % SECTOR_SIZE) (y % SECTOR_SIZE)

/-- Modelled from the spec: `Floor::setTile` (utils/mapsector.hpp is not in the sources). -/
def Floor.setTile {I : Type} (SECTOR_SIZE : Nat) (f : Floor I) (x y : Nat)
    (tile : Option (Tile I)) : Floor I :=
  { f with tiles := fun i j =>
      if i = x % SECTOR_SIZE ∧ j = y % SECTOR_SIZE then tile else f.tiles i j }

/-- Modelled from the spec: `Floor::setTileCache` (utils/mapsector.hpp is not in the
sources). -/
def Floor.setTileCache {I : Type} (SECTOR_SIZE : Nat) (f : Floor I) (x y : Nat)
    (tile : Option BasicTile) : Floor I :=
  { f with tileCache := fun i j =>
      if i = x % SECTOR_SIZE ∧ j = y % SECTOR_SIZE then tile else f.tileCache i j }

/-- Modelled from the spec: the class `MapSector` of utils/mapsector.hpp, which the sources
at hand do not contain: the floors by `z` and the neighbour pointers `sectorS` and
`sectorE` that `getBestMapSector` writes. A pointer to a sector is the key of the sector
in `mapSectors` (an `unordered_map` never moves its elements). -/
structure MapSector (I : Type) where
  floors : Nat → Option (Floor I)
  sectorS : Option Nat
  sectorE : Option Nat

/-- Modelled from the spec: a new sector, without floors and neighbours
(utils/mapsector.hpp is not in the sources). -/
def MapSector.new {I : Type} : MapSector I := ⟨fun _ => none, none, none⟩

/-- Modelled from the spec: `MapSector::getFloor` (utils/mapsector.hpp is not in the
sources). -/
def MapSector.getFloor {I : Type} (s : MapSector I) (z : Nat) : Option (Floor I) :=
  s.floors z

/-- Modelled from the spec: `MapSector::createFloor` (utils/mapsector.hpp is not in the
sources): the floor at `z`, made first when the sector has none; the sector after, and
the floor. -/
def MapSector.createFloor {I : Type} (s : MapSector I) (z : Nat) : MapSector I × Floor I :=
  match s.floors z with
  | some f => (s, f)
  | none => ({ s with floors := fun k => if k = z then some Floor.new else s.floors k }, Floor.new)

/-- The write `floors[z] = f` through a floor pointer got from a sector. -/
def MapSector.putFloor {I : Type} (s : MapSector I) (z : Nat) (f : Floor I) : MapSector I :=
  { s with floors := fun k => if k = z then some f else s.floors k }

/-- The key `x / SECTOR_SIZE | y / SECTOR_SIZE << 16` of `getMapSector` and
`createMapSector`, for `uint32_t` operands: the shift is reduced modulo 2^32. -/
def sectorIndex (SECTOR_SIZE x y : Nat) : Nat :=
  (x / SECTOR_SIZE) ||| (((y / SECTOR_SIZE) <<< 16) % 4294967296)

/-- Method `MapCache::getMapSector`: the pointer to the sector (its key) and the sector,
or `none` for the null pointer. -/
def getMapSector {I : Type} (SECTOR_SIZE : Nat) (mapSectors : Nat → Option (MapSector I))
    (x y : Nat) : Option (Nat × MapSector I) :=
  match mapSectors (sectorIndex SECTOR_SIZE x y) with
  | some s => some (sectorIndex SECTOR_SIZE x y, s)
  | none => none

/-- Method `MapCache::createMapSector`: the pointer returned, the value it leaves in
`MapSector::newSector` (which `getBestMapSector` has set to false before), and the map
after. -/
def createMapSector {I : Type} (SECTOR_SIZE : Nat) (mapSectors : Nat → Option (MapSector I))
    (x y : Nat) : Nat × Bool × (Nat → Option (MapSector I)) :=
  let index := sectorIndex SECTOR_SIZE x y
  match mapSectors index with
  | some _ => (index, false, mapSectors)
  | none => (index, true, fun k => if k = index then some MapSector.new else mapSectors k)

/-- The write `p->sectorS = q` through a sector pointer `p`. -/
def setSectorS {I : Type} (mapSectors : Nat → Option (MapSector I)) (p : Nat) (q : Nat) :
    Nat → Option (MapSector I) :=
  fun k => if k = p then (mapSectors k).map (fun s => { s with sectorS := some q })
    else mapSectors k

/-- The write `p->sectorE = q` through a sector pointer `p`. -/
def setSectorE {I : Type} (mapSectors : Nat → Option (MapSector I)) (p : Nat) (q : Nat) :
    Nat → Option (MapSector I) :=
  fun k => if k = p then (mapSectors k).map (fun s => { s with sectorE := some q })
    else mapSectors k

/-- Method `MapCache::getBestMapSector`, for `uint32_t` arguments: `y - SECTOR_SIZE` and
the three other neighbour coordinates are formed modulo 2^32. The pointer returned and
the map after. -/
def getBestMapSector {I : Type} (SECTOR_SIZE : Nat) (mapSectors : Nat → Option (MapSector I))
    (x y : Nat) : Nat × (Nat → Option (MapSector I)) :=
  let r := createMapSector SECTOR_SIZE mapSectors x y
  let sector := r.1
  if r.2.1 then
    let m0 := r.2.2
    let m1 :=
      match getMapSector SECTOR_SIZE m0 x ((y + 4294967296 - SECTOR_SIZE) % 4294967296) with
      | some (northSector, _) => setSectorS m0 northSector sector
      | none => m0
    let m2 :=
      match getMapSector SECTOR_SIZE m1 ((x + 4294967296 - SECTOR_SIZE) % 4294967296) y with
      | some (westSector, _) => setSectorE m1 westSector sector
      | none => m1
    let m3 :=
      match getMapSector SECTOR_SIZE m2 x ((y + SECTOR_SIZE) % 4294967296) with
      | some (southSector, _) => setSectorS m2 sector southSector
      | none => m2
    let m4 :=
      match getMapSector SECTOR_SIZE m3 ((x + SECTOR_SIZE) % 4294967296) y with
      | some (eastSector, _) => setSectorE m3 sector eastSector
      | none => m3
    (sector, m4)
  else (sector, r.2.2)

/-- The map after a sequence of `getBestMapSector` calls, given by their arguments. -/
def getBestMapSectors {I : Type} (SECTOR_SIZE : Nat) :
    (Nat → Option (MapSector I)) → List (Nat × Nat) → (Nat → Option (MapSector I))
  | mapSectors, [] => mapSectors
  | mapSectors, c :: rest =>
    getBestMapSectors SECTOR_SIZE (getBestMapSector SECTOR_SIZE mapSectors c.1 c.2).2 rest

/-- The null pointer when the map has no sector with key `k`, the pointer `k` otherwise. -/
def sectorPtr {I : Type} (mapSectors : Nat → Option (MapSector I)) (k : Nat) : Option Nat :=
  if (mapSectors k).isSome then some k else none

/-- The links of a sector map on a grid of `G` by `G` sectors are consistent: every key is
`cx + 65536 * cy` for a column `cx` and a row `cy` below `G`, and the sector with that
key points east to the sector with key `(cx + 1) + 65536 * cy` and south to the sector
with key `cx + 65536 * (cy + 1)`, with a null pointer where the map has no such sector. -/
def SectorLinks {I : Type} (G : Nat) (mapSectors : Nat → Option (MapSector I)) : Prop :=
  ∀ (k : Nat) (s : MapSector I), mapSectors k = some s →
    k % 65536 < G ∧ k / 65536 < G ∧
    s.sectorE = sectorPtr mapSectors (k + 1) ∧
    s.sectorS = sectorPtr mapSectors (k + 65536)

/-- The four neighbour updates of `getBestMapSector` for a new sector `sector`, given the
keys that its four `getMapSector` calls look up (north, west, south, east). -/
def linkNeighbours {I : Type} (mapSectors : Nat → Option (MapSector I))
    (sector north west south east : Nat) : Nat → Option (MapSector I) :=
  let m1 := if (mapSectors north).isSome then setSectorS mapSectors north sector else mapSectors
  let m2 := if (m1 west).isSome then setSectorE m1 west sector else m1
  let m3 := if (m2 south).isSome then setSectorS m2 sector south else m2
  if (m3 east).isSome then setSectorE m3 sector east else m3

/-- The member `mapSectors` of a new `MapCache`: no sector. -/
def noSectors (I : Type) : Nat → Option (MapSector I) := fun _ => none

/-- The declarations that the functions below use and the sources at hand do not contain,
taken as parameters. `I` is the type of live items, `HS` the state of the class `Houses`
and `ZS` the state of the zone registry of the class `Zone`.

* `MAP_MAX_LAYERS`, `SECTOR_SIZE`: constants of utils/mapsector.hpp (the spec gives 32 for
  the sector size);
* `combine`: `stdext::hash_combine` of utils/hash.hpp, as the new value of `h`;
* `createItem`: the result of `MapCache::createItem`, built by `Item::CreateItem` and the
  item classes;
* `getHouse`: whether `Houses::getHouse` returns a house; `addHouse`: the state after
  `Houses::addHouse`, `none` when it returns null; `houseAddTile`: `House::addTile`;
* `getZones`: `Zone::getZones`; `zoneAddPosition`: `Zone::getZone(id)->addPosition(pos)`;
* `isBed`, `isTrashHolder`, `movable`, `isGroundTile`: the table `Item::items`;
* the `OTBM_*`, `TILESTATE_*` and `ATTR_*` enumerators of items_definitions.hpp. -/
structure Env (I HS ZS : Type) where
  MAP_MAX_LAYERS : Nat
  SECTOR_SIZE : Nat
  combine : Nat → HashArg → Nat
  createItem : BasicItem → Position → Option I
  getHouse : HS → Nat → Bool
  addHouse : HS → Nat → Option HS
  houseAddTile : HS → Nat → Position → HS
  getZones : ZS → Position → List Nat
  zoneAddPosition : ZS → Nat → Position → ZS
  isBed : Nat → Bool
  isTrashHolder : Nat → Bool
  movable : Nat → Bool
  isGroundTile : Nat → Bool
  OTBM_MAP_DATA : Nat
  OTBM_TILE_AREA : Nat
  OTBM_TILE : Nat
  OTBM_ITEM : Nat
  OTBM_TOWNS : Nat
  OTBM_TOWN : Nat
  OTBM_HOUSETILE : Nat
  OTBM_WAYPOINTS : Nat
  OTBM_WAYPOINT : Nat
  OTBM_TILE_ZONE : Nat
  OTBM_ATTR_DESCRIPTION : Nat
  OTBM_ATTR_TILE_FLAGS : Nat
  OTBM_ATTR_ITEM : Nat
  OTBM_ATTR_EXT_SPAWN_MONSTER_FILE : Nat
  OTBM_ATTR_EXT_HOUSE_FILE : Nat
  OTBM_ATTR_EXT_SPAWN_NPC_FILE : Nat
  OTBM_ATTR_EXT_ZONE_FILE : Nat
  OTBM_TILEFLAG_PROTECTIONZONE : Nat
  OTBM_TILEFLAG_NOPVPZONE : Nat
  OTBM_TILEFLAG_NOLOGOUT : Nat
  OTBM_TILEFLAG_PVPZONE : Nat
  TILESTATE_PROTECTIONZONE : Nat
  TILESTATE_NOPVPZONE : Nat
  TILESTATE_NOLOGOUT : Nat
  TILESTATE_PVPZONE : Nat
  ATTR_DESC : Nat
  ATTR_ACTION_ID : Nat
  ATTR_UNIQUE_ID : Nat
  ATTR_TEXT : Nat
  ATTR_TELE_DEST : Nat
  ATTR_DEPOT_ID : Nat
  ATTR_HOUSEDOORID : Nat
  ATTR_COUNT : Nat
  ATTR_CHARGES : Nat

/-- The messages of the `IOMapException`s that iomap.cpp throws. -/
inductive IOMapException where
  | couldNotReadMapNode
  | unknownVersion
  | needsUpgrade
  | couldNotReadTileType
  | couldNotCreateHouse
  | failedToLoadItem
  | invalidZoneId
  | couldNotReadItemZoneNode
  | couldNotEndNode
  | couldNotReadTowns
  | couldNotReadWaypoints
  deriving DecidableEq

/-- How a call ends: it returns, it throws an `IOMapException`, it runs into undefined
behaviour (a null pointer is dereferenced, or a read leaves the buffer), or the model has
used up its loop budget. -/
inductive Outcome (α : Type) where
  | ok (value : α)
  | thrown (e : IOMapException)
  | fault
  | outOfFuel

/-- The state that `Map`, `MapCache` and `IOMap` work on: the members `mapSectors`,
`houses`, `width`, `height`, the four file names, `towns` and `waypoints` of the map, the
two static maps `items` and `tiles` of mapcache.cpp (the content cache), and the zone
registry. Strings are byte lists. `towns` gives name and temple position by town id,
`waypoints` the position by name. -/
structure Map (I HS ZS : Type) where
  mapSectors : Nat → Option (MapSector I)
  items : Nat → Option BasicItem
  tiles : Nat → Option BasicTile
  houses : HS
  zones : ZS
  width : Nat
  height : Nat
  monsterfile : List Nat
  npcfile : List Nat
  housefile : List Nat
  zonesfile : List Nat
  towns : Nat → Option (List Nat × Position)
  waypoints : List Nat → Option Position

/-- A new map: no sector, empty content cache, over given house and zone registries. -/
def Map.new {I HS ZS : Type} (houses : HS) (zones : ZS) : Map I HS ZS :=
  ⟨noSectors I, fun _ => none, fun _ => none, houses, zones, 0, 0, [], [], [], [],
    fun _ => none, fun _ => none⟩

/-- The write `sector->createFloor(z)->f(...)` through a sector pointer, `write` being the
effect of the `Floor` method `f` on the floor. -/
def writeFloor {I : Type} (mapSectors : Nat → Option (MapSector I)) (sector z : Nat)
    (write : Floor I → Floor I) : Nat → Option (MapSector I) :=
  fun k =>
    if k = sector then
      (mapSectors k).map (fun s => (s.createFloor z).1.putFloor z (write (s.createFloor z).2))
    else mapSectors k

/-- Method `MapCache::getOrCreateTileFromCache`. The floor pointer is given by the key
`sector` of its sector, its level `z` (the value of `floor->getZ()`) and the floor
`floor` it points to. The lambdas handed to `safeCall` are run in place. When the
descriptor names a house that `getHouse` does not find, `tile` is still null at
`tile->setFlag` (and at `tile->internalAddThing` before it, for a descriptor with ground
or items). -/
def getOrCreateTileFromCache {I HS ZS : Type} (env : Env I HS ZS) (m : Map I HS ZS)
    (sector z : Nat) (floor : Floor I) (x y : Nat) : Outcome (Option (Tile I) × Map I HS ZS) :=
  let oldTile := floor.getTile env.SECTOR_SIZE x y
  match floor.getTileCache env.SECTOR_SIZE x y with
  | none => .ok (oldTile, m)
  | some cachedTile =>
    let oldCreatureList :=
      match oldTile with
      | some t => t.creatures
      | none => []
    let pos : Position := ⟨x, y, z⟩
    let created : Option (Tile I) × HS :=
      if cachedTile.isHouse then
        if env.getHouse m.houses cachedTile.houseId then
          (some (Tile.new pos (.houseTile cachedTile.houseId)),
            env.houseAddTile m.houses cachedTile.houseId pos)
        else (none, m.houses)
      else if cachedTile.isStatic then (some (Tile.new pos .staticTile), m.houses)
      else (some (Tile.new pos .dynamicTile), m.houses)
    match created.1 with
    | none => .fault
    | some tile0 =>
      let tile1 :=
        match cachedTile.ground with
        | some ground => tile0.internalAddThing (env.createItem ground pos)
        | none => tile0
      let tile2 :=
        cachedTile.items.foldl (fun t basicItem => t.internalAddThing (env.createItem basicItem pos))
          tile1
      let tile3 := tile2.setFlag cachedTile.flags
      let tile : Tile I :=
        { tile3 with
          creatures := tile3.creatures ++ oldCreatureList
          zones := tile3.zones ++ env.getZones m.zones pos }
      let floor1 := (floor.setTile env.SECTOR_SIZE x y (some tile)).setTileCache
        env.SECTOR_SIZE x y none
      .ok (some tile,
        { m with
          houses := created.2
          mapSectors := (fun k =>
            if k = sector then (m.mapSectors k).map (fun s => s.putFloor z floor1)
            else m.mapSectors k) })

/-- Method `Map::getTile`. -/
def getTile {I HS ZS : Type} (env : Env I HS ZS) (m : Map I HS ZS) (x y z : Nat) :
    Outcome (Option (Tile I) × Map I HS ZS) :=
  if z ≥ env.MAP_MAX_LAYERS then .ok (none, m)
  else
    match getMapSector env.SECTOR_SIZE m.mapSectors x y with
    | none => .ok (none, m)
    | some (sector, s) =>
      match s.getFloor z with
      | none => .ok (none, m)
      | some floor => getOrCreateTileFromCache env m sector z floor x y

/-- Method `Map::getLoadedTile`. -/
def getLoadedTile {I HS ZS : Type} (env : Env I HS ZS) (m : Map I HS ZS) (x y z : Nat) :
    Option (Tile I) :=
  if z ≥ env.MAP_MAX_LAYERS then none
  else
    match getMapSector env.SECTOR_SIZE m.mapSectors x y with
    | none => none
    | some (_, leaf) =>
      match leaf.getFloor z with
      | none => none
      | some floor => floor.getTile env.SECTOR_SIZE x y

/-- Method `Map::setTile`. -/
def setTile {I HS ZS : Type} (env : Env I HS ZS) (m : Map I HS ZS) (x y z : Nat)
    (newTile : Option (Tile I)) : Map I HS ZS :=
  if z ≥ env.MAP_MAX_LAYERS then m
  else
    match getMapSector env.SECTOR_SIZE m.mapSectors x y with
    | some (sector, _) =>
      { m with mapSectors := (writeFloor m.mapSectors sector z
          (fun f => f.setTile env.SECTOR_SIZE x y newTile)) }
    | none =>
      let r := getBestMapSector env.SECTOR_SIZE m.mapSectors x y
      { m with mapSectors := (writeFloor r.2 r.1 z
          (fun f => f.setTile env.SECTOR_SIZE x y newTile)) }

/-- Method `MapCache::setBasicTile`. -/
def setBasicTile {I HS ZS : Type} (env : Env I HS ZS) (m : Map I HS ZS) (x y z : Nat)
    (newTile : Option BasicTile) : Map I HS ZS :=
  if z ≥ env.MAP_MAX_LAYERS then m
  else
    let r := static_tryGetTileFromCache (fun p => p) env.combine m.tiles newTile
    match getMapSector env.SECTOR_SIZE m.mapSectors x y with
    | some (sector, _) =>
      { m with
        tiles := r.2
        mapSectors := (writeFloor m.mapSectors sector z
          (fun f => f.setTileCache env.SECTOR_SIZE x y r.1)) }
    | none =>
      let b := getBestMapSector env.SECTOR_SIZE m.mapSectors x y
      { m with
        tiles := r.2
        mapSectors := (writeFloor b.2 b.1 z
          (fun f => f.setTileCache env.SECTOR_SIZE x y r.1)) }

/-- Method `Map::getOrCreateTile`. -/
def getOrCreateTile {I HS ZS : Type} (env : Env I HS ZS) (m : Map I HS ZS) (x y z : Nat)
    (isDynamic : Bool) : Outcome (Option (Tile I) × Map I HS ZS) :=
  match getTile env m x y z with
  | .ok (some tile, m1) => .ok (some tile, m1)
  | .ok (none, m1) =>
    let tile : Tile I := Tile.new ⟨x, y, z⟩ (if isDynamic then .dynamicTile else .staticTile)
    .ok (some tile, setTile env m1 x y z (some tile))
  | .thrown e => .thrown e
  | .fault => .fault
  | .outOfFuel => .outOfFuel

/-- Method `MapCache::tryReplaceItemFromCache`. -/
def tryReplaceItemFromCache {I HS ZS : Type} (env : Env I HS ZS) (m : Map I HS ZS)
    (ref : Option BasicItem) : Option BasicItem × Map I HS ZS :=
  let r := static_tryGetItemFromCache (fun p => p) env.combine m.items ref
  (r.1, { m with items := r.2 })

/-- Method `MapCache::flush`. -/
def flush {I HS ZS : Type} (m : Map I HS ZS) : Map I HS ZS :=
  { m with items := (fun _ => none), tiles := (fun _ => none) }

/-- Sequencing of calls: the second runs on the value the first returns. -/
def Outcome.bind {α β : Type} : Outcome α → (α → Outcome β) → Outcome β
  | .ok a, f => f a
  | .thrown e, _ => .thrown e
  | .fault, _ => .fault
  | .outOfFuel, _ => .outOfFuel

/-- The pending descriptor at a coordinate: the `tileCache` slot, read the way
`getLoadedTile` reads the `tile` slot. The sources have no such function; it is used to
state conditions on calls. -/
def pendingTile {I HS ZS : Type} (env : Env I HS ZS) (m : Map I HS ZS) (x y z : Nat) :
    Option BasicTile :=
  if z ≥ env.MAP_MAX_LAYERS then none
  else
    match getMapSector env.SECTOR_SIZE m.mapSectors x y with
    | none => none
    | some (_, leaf) =>
      match leaf.getFloor z with
      | none => none
      | some floor => floor.getTileCache env.SECTOR_SIZE x y

/-- One call on the map, with its arguments. -/
inductive MapCall (I : Type) where
  | setBasicTile (x y z : Nat) (newTile : Option BasicTile)
  | setTile (x y z : Nat) (newTile : Option (Tile I))
  | getTile (x y z : Nat)
  | getOrCreateTile (x y z : Nat) (isDynamic : Bool)

/-- The map after one call. -/
def callMap {I HS ZS : Type} (env : Env I HS ZS) (m : Map I HS ZS) :
    MapCall I → Outcome (Map I HS ZS)
  | .setBasicTile x y z newTile => .ok (setBasicTile env m x y z newTile)
  | .setTile x y z newTile => .ok (setTile env m x y z newTile)
  | .getTile x y z => (getTile env m x y z).bind (fun r => .ok r.2)
  | .getOrCreateTile x y z isDynamic => (getOrCreateTile env m x y z isDynamic).bind (fun r => .ok r.2)

/-- The map after a sequence of calls. -/
def callsMap {I HS ZS : Type} (env : Env I HS ZS) (m : Map I HS ZS) :
    List (MapCall I) → Outcome (Map I HS ZS)
  | [] => .ok m
  | c :: rest => (callMap env m c).bind (fun m1 => callsMap env m1 rest)

/-- No slot of the floor has both a live tile and a pending descriptor. -/
def FloorExclusive {I : Type} (f : Floor I) : Prop :=
  ∀ (i j : Nat), f.tiles i j = none ∨ f.tileCache i j = none

/-- Floor exclusivity: no slot of any floor of any sector has both a live tile and a
pending descriptor. -/
def Exclusive {I : Type} (mapSectors : Nat → Option (MapSector I)) : Prop :=
  ∀ (k : Nat) (s : MapSector I) (z : Nat) (f : Floor I),
    mapSectors k = some s → s.floors z = some f → FloorExclusive f

/-- A call that does not store a descriptor where a live tile is, nor a live tile where a
pending descriptor is. -/
def Admissible {I HS ZS : Type} (env : Env I HS ZS) (m : Map I HS ZS) : MapCall I → Prop
  | .setBasicTile x y z (some _) => getLoadedTile env m x y z = none
  | .setTile x y z (some _) => pendingTile env m x y z = none
  | _ => True

/-- A sequence of calls each of which is admissible in the state it runs in. -/
def AdmissibleRun {I HS ZS : Type} (env : Env I HS ZS) :
    Map I HS ZS → List (MapCall I) → Prop
  | _, [] => True
  | m, c :: rest =>
    Admissible env m c ∧ ∀ m1, callMap env m c = .ok m1 → AdmissibleRun env m1 rest

/-- An instance of the parameters, for evaluating the definitions on concrete inputs:
sector size 32 as in the spec, 16 layers, houses as the list of registered ids, no
zones, items standing for their ids, and numbers for the enumerators. Nothing that is
proved for every `env` depends on it. -/
def sampleEnv : Env Nat (List Nat) Unit where
  MAP_MAX_LAYERS := 16
  SECTOR_SIZE := 32
  combine := fun h a =>
    31 * h +
      (match a with
        | .u8 v => v
        | .u16 v => v
        | .u32 v => v
        | .int v => v
        | .size v => v
        | .str s => s.length)
  createItem := fun basicItem _ => some basicItem.id
  getHouse := fun houses id => houses.contains id
  addHouse := fun houses id => some (if houses.contains id then houses else id :: houses)
  houseAddTile := fun houses _ _ => houses
  getZones := fun _ _ => []
  zoneAddPosition := fun zones _ _ => zones
  isBed := fun id => id == 1754
  isTrashHolder := fun id => id == 1777
  movable := fun id => id == 2148
  isGroundTile := fun id => id == 100
  OTBM_MAP_DATA := 2
  OTBM_TILE_AREA := 4
  OTBM_TILE := 5
  OTBM_ITEM := 6
  OTBM_TOWNS := 12
  OTBM_TOWN := 13
  OTBM_HOUSETILE := 14
  OTBM_WAYPOINTS := 15
  OTBM_WAYPOINT := 16
  OTBM_TILE_ZONE := 19
  OTBM_ATTR_DESCRIPTION := 1
  OTBM_ATTR_TILE_FLAGS := 3
  OTBM_ATTR_ITEM := 9
  OTBM_ATTR_EXT_SPAWN_MONSTER_FILE := 11
  OTBM_ATTR_EXT_HOUSE_FILE := 13
  OTBM_ATTR_EXT_SPAWN_NPC_FILE := 23
  OTBM_ATTR_EXT_ZONE_FILE := 24
  OTBM_TILEFLAG_PROTECTIONZONE := 1
  OTBM_TILEFLAG_NOPVPZONE := 4
  OTBM_TILEFLAG_NOLOGOUT := 8
  OTBM_TILEFLAG_PVPZONE := 16
  TILESTATE_PROTECTIONZONE := 256
  TILESTATE_NOPVPZONE := 512
  TILESTATE_NOLOGOUT := 1024
  TILESTATE_PVPZONE := 2048
  ATTR_DESC := 7
  ATTR_ACTION_ID := 4
  ATTR_UNIQUE_ID := 5
  ATTR_TEXT := 6
  ATTR_TELE_DEST := 8
  ATTR_DEPOT_ID := 10
  ATTR_HOUSEDOORID := 14
  ATTR_COUNT := 15
  ATTR_CHARGES := 22

/-! ## Definitions: map loader (`iomap.cpp`, `mapcache.cpp`, `fileloader.cpp`) -/

/-- The constructor `OTB::Loader::Loader`, on the contents of the file it maps: files of
`minimalSize` (4 + 1 + 1 + 1) bytes or fewer are refused, and so are files whose first
four bytes are neither the accepted identifier nor the wildcard of four zero bytes. -/
def OTB.Loader.new (fileContents : List Nat) (acceptedIdentifier : List Nat) :
    Except OTB.LoadError OTB.Loader :=
  if fileContents.length ≤ 7 then .error .invalidOTBFormat
  else if fileContents.take 4 ≠ acceptedIdentifier ∧ fileContents.take 4 ≠ [0, 0, 0, 0] then
    .error .invalidOTBFormat
  else .ok ⟨fileContents⟩

instance : Monad Outcome where
  pure := Outcome.ok
  bind := Outcome.bind

/-- The result of a stream call: a read outside the buffer is undefined behaviour. -/
def Outcome.ofRead {α : Type} : Option α → Outcome α
  | some a => .ok a
  | none => .fault

/-- The function `static_tryGetItemFromCache` for a non-null pointer `ref`, which it never
maps to null: `items.try_emplace(ref->hash(), ref).first->second`, and the map after. -/
def internItem (combine : Nat → HashArg → Nat) (items : Nat → Option BasicItem)
    (ref : BasicItem) : BasicItem × (Nat → Option BasicItem) :=
  tryEmplace items (ref.hash combine) ref

namespace BasicItem

/-- The assignment `doorOrDepotId = v`. -/
def setDoorOrDepotId : BasicItem → Nat → BasicItem
  | mk t i c a u x y _ z is, v => mk t i c a u x y v z is

/-- The assignments `destX = x; destY = y; destZ = z`. -/
def setDest : BasicItem → Nat → Nat → Nat → BasicItem
  | mk t i c a u _ _ d _ is, x, y, z => mk t i c a u x y d z is

/-- The assignment `charges = v`. -/
def setCharges : BasicItem → Nat → BasicItem
  | mk t i _ a u x y d z is, v => mk t i v a u x y d z is

/-- The assignment `actionId = v`. -/
def setActionId : BasicItem → Nat → BasicItem
  | mk t i c _ u x y d z is, v => mk t i c v u x y d z is

/-- The assignment `uniqueId = v`. -/
def setUniqueId : BasicItem → Nat → BasicItem
  | mk t i c a _ x y d z is, v => mk t i c a v x y d z is

/-- The assignment `text = str`. -/
def setText : BasicItem → List Nat → BasicItem
  | mk _ i c a u x y d z is, str => mk str i c a u x y d z is

/-- The assignment `id = v`. -/
def setId : BasicItem → Nat → BasicItem
  | mk t _ c a u x y d z is, v => mk t v c a u x y d z is

/-- The call `items.emplace_back(item)`. -/
def pushItem : BasicItem → BasicItem → BasicItem
  | mk t i c a u x y d z is, item => mk t i c a u x y d z (is ++ [item])

/-- Method `BasicItem::readAttr`; `fuel` bounds the iterations of its loop. -/
def readAttr {I HS ZS : Type} (env : Env I HS ZS) :
    Nat → BasicItem → FileStream → Outcome (BasicItem × FileStream)
  | 0, _, _ => .outOfFuel
  | fuel + 1, item, s => do
    let (attr, s1) ← Outcome.ofRead s.getU8
    if attr = env.ATTR_DEPOT_ID then
      let (v, s2) ← Outcome.ofRead s1.getU16
      readAttr env fuel (item.setDoorOrDepotId v) s2
    else if attr = env.ATTR_HOUSEDOORID then
      let (v, s2) ← Outcome.ofRead s1.getU8
      readAttr env fuel (item.setDoorOrDepotId v) s2
    else if attr = env.ATTR_TELE_DEST then
      let (x, s2) ← Outcome.ofRead s1.getU16
      let (y, s3) ← Outcome.ofRead s2.getU16
      let (z, s4) ← Outcome.ofRead s3.getU8
      readAttr env fuel (item.setDest x y z) s4
    else if attr = env.ATTR_COUNT then
      let (v, s2) ← Outcome.ofRead s1.getU8
      readAttr env fuel (item.setCharges v) s2
    else if attr = env.ATTR_CHARGES then
      let (v, s2) ← Outcome.ofRead s1.getU16
      readAttr env fuel (item.setCharges v) s2
    else if attr = env.ATTR_ACTION_ID then
      let (v, s2) ← Outcome.ofRead s1.getU16
      readAttr env fuel (item.setActionId v) s2
    else if attr = env.ATTR_UNIQUE_ID then
      let (v, s2) ← Outcome.ofRead s1.getU16
      readAttr env fuel (item.setUniqueId v) s2
    else if attr = env.ATTR_TEXT then
      let (str, s2) ← Outcome.ofRead s1.getString
      readAttr env fuel (if str.isEmpty then item else item.setText str) s2
    else if attr = env.ATTR_DESC then
      let (_, s2) ← Outcome.ofRead s1.getString
      readAttr env fuel item s2
    else pure (item, s1.back 1)

mutual
/-- Method `BasicItem::unserializeItemNode`, on the static map `items` of mapcache.cpp:
the Boolean is false when it returns an `unexpected`. `fuel` bounds the depth of
nesting and the iterations of the loop. -/
def unserializeItemNode {I HS ZS : Type} (env : Env I HS ZS) :
    Nat → BasicItem → FileStream → (Nat → Option BasicItem) →
      Outcome (Bool × BasicItem × FileStream × (Nat → Option BasicItem))
  | 0, _, _, _ => .outOfFuel
  | fuel + 1, item, s, items => do
    let (isEnd, s1) ← Outcome.ofRead (s.isProp OTB.END true)
    if isEnd then pure (true, item, s1.back 1, items)
    else
      let (item1, s2) ← readAttr env (s1.m_data.length + 1) item s1
      unserializeItemNodes env fuel item1 s2 items
/-- The loop `while (stream.startNode())` of `unserializeItemNode`. -/
def unserializeItemNodes {I HS ZS : Type} (env : Env I HS ZS) :
    Nat → BasicItem → FileStream → (Nat → Option BasicItem) →
      Outcome (Bool × BasicItem × FileStream × (Nat → Option BasicItem))
  | 0, _, _, _ => .outOfFuel
  | fuel + 1, item, s, items => do
    let (started, s1) ← Outcome.ofRead (s.startNode 0)
    if !started then pure (true, item, s1, items)
    else
      let (type, s2) ← Outcome.ofRead s1.getU8
      if type ≠ env.OTBM_ITEM then pure (false, item, s2, items)
      else
        let (streamId, s3) ← Outcome.ofRead s2.getU16
        let (result, child, s4, items1) ←
          unserializeItemNode env fuel (BasicItem.fresh.setId streamId) s3 items
        if !result then pure (false, item, s4, items1)
        else
          let r := internItem env.combine items1 child
          let (ended, s5) ← Outcome.ofRead s4.endNode
          if !ended then pure (false, item.pushItem r.1, s5, r.2)
          else unserializeItemNodes env fuel (item.pushItem r.1) s5 r.2
end

end BasicItem

/-- The flag decoding of `parseTileArea` (the body of `if (stream.isProp(
OTBM_ATTR_TILE_FLAGS))` after the read): the value of `tile->flags` after it, from its
value before and the 32-bit `flags` read from the file. -/
def applyTileFlags {I HS ZS : Type} (env : Env I HS ZS) (tileFlags flags : Nat) : Nat :=
  let zoned :=
    if flags &&& env.OTBM_TILEFLAG_PROTECTIONZONE ≠ 0 then
      tileFlags ||| env.TILESTATE_PROTECTIONZONE
    else if flags &&& env.OTBM_TILEFLAG_NOPVPZONE ≠ 0 then
      tileFlags ||| env.TILESTATE_NOPVPZONE
    else if flags &&& env.OTBM_TILEFLAG_PVPZONE ≠ 0 then
      tileFlags ||| env.TILESTATE_PVPZONE
    else tileFlags
  if flags &&& env.OTBM_TILEFLAG_NOLOGOUT ≠ 0 then zoned ||| env.TILESTATE_NOLOGOUT
  else zoned

/-- The placement of an item of a tile in `parseTileArea`, shared by its two uses: a
movable item on a house tile is left out with a warning, a ground item becomes the
ground, any other item is appended. -/
def placeOnTile {I HS ZS : Type} (env : Env I HS ZS) (tile : BasicTile) (id : Nat)
    (item : BasicItem) (m : Map I HS ZS) : BasicTile × Map I HS ZS :=
  if tile.isHouse && env.movable id then (tile, m)
  else if env.isGroundTile id then
    let r := tryReplaceItemFromCache env m (some item)
    ({ tile with ground := r.1 }, r.2)
  else
    let r := internItem env.combine m.items item
    ({ tile with items := tile.items ++ [r.1] }, { m with items := r.2 })

/-- The body of `if (stream.isProp(OTBM_ATTR_ITEM))` of `parseTileArea` after the read of
the id: a bed on a house tile is left out. -/
def placeAttrItem {I HS ZS : Type} (env : Env I HS ZS) (tile : BasicTile) (id : Nat)
    (m : Map I HS ZS) : BasicTile × Map I HS ZS :=
  if !tile.isHouse || !env.isBed id then placeOnTile env tile id (BasicItem.fresh.setId id) m
  else (tile, m)

/-- The placement of an `OTBM_ITEM` child of a tile in `parseTileArea`: a bed or a trash
holder on a house tile is left out. -/
def placeNodeItem {I HS ZS : Type} (env : Env I HS ZS) (tile : BasicTile) (id : Nat)
    (item : BasicItem) (m : Map I HS ZS) : BasicTile × Map I HS ZS :=
  if tile.isHouse && (env.isBed id || env.isTrashHolder id) then (tile, m)
  else placeOnTile env tile id item m

/-- The loop over the zone ids of an `OTBM_TILE_ZONE` node, `count` of them to read. -/
def parseTileZones {I HS ZS : Type} (env : Env I HS ZS) (pos : Position) :
    Nat → FileStream → Map I HS ZS → Outcome (FileStream × Map I HS ZS)
  | 0, s, m => pure (s, m)
  | count + 1, s, m => do
    let (zoneId, s1) ← Outcome.ofRead s.getU16
    if zoneId = 0 then .thrown .invalidZoneId
    else parseTileZones env pos count s1 { m with zones := env.zoneAddPosition m.zones zoneId pos }

/-- The inner loop `while (stream.startNode())` of a tile in `parseTileArea`, over the
item and zone children of the tile; `fuel` bounds its iterations. -/
def parseTileChildren {I HS ZS : Type} (env : Env I HS ZS) (pos : Position) :
    Nat → BasicTile → FileStream → Map I HS ZS → Outcome (BasicTile × FileStream × Map I HS ZS)
  | 0, _, _, _ => .outOfFuel
  | fuel + 1, tile, s, m => do
    let (started, s1) ← Outcome.ofRead (s.startNode 0)
    if !started then pure (tile, s1, m)
    else
      let (type, s2) ← Outcome.ofRead s1.getU8
      let (tile1, s3, m1) ←
        (if type = env.OTBM_ITEM then do
          let (id, s3) ← Outcome.ofRead s2.getU16
          let (result, item, s4, items1) ←
            BasicItem.unserializeItemNode env (s3.m_data.length + 1) (BasicItem.fresh.setId id)
              s3 m.items
          if !result then .thrown .failedToLoadItem
          else
            let r := placeNodeItem env tile id item { m with items := items1 }
            pure (r.1, s4, r.2)
        else if type = env.OTBM_TILE_ZONE then do
          let (zoneCount, s3) ← Outcome.ofRead s2.getU16
          let (s4, m1) ← parseTileZones env pos zoneCount s3 m
          pure (tile, s4, m1)
        else .thrown .couldNotReadItemZoneNode :
          Outcome (BasicTile × FileStream × Map I HS ZS))
      let (ended, s4) ← Outcome.ofRead s3.endNode
      if !ended then .thrown .couldNotEndNode
      else parseTileChildren env pos fuel tile1 s4 m1

/-- The body of the loop over the tiles of a tile area in `parseTileArea`, from the read
of the tile type to the test of the tile's END: the descriptor parsed, its coordinate,
the stream and the map after. `base` is the base coordinate of the area and `pos` the
offset given to `loadMap`; `x` and `y` are `uint16_t` and `z` is `uint8_t`. -/
def parseTile {I HS ZS : Type} (env : Env I HS ZS) (base pos : Position) (s : FileStream)
    (m : Map I HS ZS) : Outcome (BasicTile × Position × FileStream × Map I HS ZS) := do
  let (tileType, s1) ← Outcome.ofRead s.getU8
  if tileType ≠ env.OTBM_HOUSETILE ∧ tileType ≠ env.OTBM_TILE then
    .thrown .couldNotReadTileType
  else
    let (tileCoordsX, s2) ← Outcome.ofRead s1.getU8
    let (tileCoordsY, s3) ← Outcome.ofRead s2.getU8
    let p : Position :=
      ⟨(base.x + tileCoordsX + pos.x) % 65536, (base.y + tileCoordsY + pos.y) % 65536,
        (base.z + pos.z) % 256⟩
    let (tile1, s4, m1) ←
      (if tileType = env.OTBM_HOUSETILE then do
        let (houseId, s4) ← Outcome.ofRead s3.getU32
        match env.addHouse m.houses houseId with
        | none => .thrown .couldNotCreateHouse
        | some houses => pure ({ BasicTile.fresh with houseId := houseId }, s4, { m with houses := houses })
      else pure (BasicTile.fresh, s3, m) : Outcome (BasicTile × FileStream × Map I HS ZS))
    let (hasFlags, s5) ← Outcome.ofRead (s4.isProp env.OTBM_ATTR_TILE_FLAGS true)
    let (tile2, s6) ←
      (if hasFlags then do
        let (flags, s6) ← Outcome.ofRead s5.getU32
        pure ({ tile1 with flags := applyTileFlags env tile1.flags flags }, s6)
      else pure (tile1, s5) : Outcome (BasicTile × FileStream))
    let (hasItem, s7) ← Outcome.ofRead (s6.isProp env.OTBM_ATTR_ITEM true)
    let (tile3, s8, m2) ←
      (if hasItem then do
        let (id, s8) ← Outcome.ofRead s7.getU16
        let r := placeAttrItem env tile2 id m1
        pure (r.1, s8, r.2)
      else pure (tile2, s7, m1) : Outcome (BasicTile × FileStream × Map I HS ZS))
    let (tile4, s9, m3) ← parseTileChildren env p (s8.m_data.length + 1) tile3 s8 m2
    let (ended, s10) ← Outcome.ofRead s9.endNode
    if !ended then .thrown .couldNotEndNode
    else pure (tile4, p, s10, m3)

/-- One iteration of the loop over the tiles of a tile area, after its `startNode()`:
`parseTile`, then `if (tile->isEmpty(true)) continue; map.setBasicTile(x, y, z, tile)`. -/
def parseTileNode {I HS ZS : Type} (env : Env I HS ZS) (base pos : Position) (s : FileStream)
    (m : Map I HS ZS) : Outcome (FileStream × Map I HS ZS) := do
  let (tile, p, s1, m1) ← parseTile env base pos s m
  if tile.isEmpty true then pure (s1, m1)
  else pure (s1, setBasicTile env m1 p.x p.y p.z (some tile))

/-- The loop `while (stream.startNode())` over the tiles of a tile area; `fuel` bounds
its iterations. -/
def parseTiles {I HS ZS : Type} (env : Env I HS ZS) (base pos : Position) :
    Nat → FileStream → Map I HS ZS → Outcome (FileStream × Map I HS ZS)
  | 0, _, _ => .outOfFuel
  | fuel + 1, s, m => do
    let (started, s1) ← Outcome.ofRead (s.startNode 0)
    if !started then pure (s1, m)
    else
      let (s2, m1) ← parseTileNode env base pos s1 m
      parseTiles env base pos fuel s2 m1

/-- Function `IOMap::parseTileArea`; `fuel` bounds the iterations of its outer loop. -/
def parseTileArea {I HS ZS : Type} (env : Env I HS ZS) (pos : Position) :
    Nat → FileStream → Map I HS ZS → Outcome (FileStream × Map I HS ZS)
  | 0, _, _ => .outOfFuel
  | fuel + 1, s, m => do
    let (started, s1) ← Outcome.ofRead (s.startNode env.OTBM_TILE_AREA)
    if !started then pure (s1, m)
    else
      let (base_x, s2) ← Outcome.ofRead s1.getU16
      let (base_y, s3) ← Outcome.ofRead s2.getU16
      let (base_z, s4) ← Outcome.ofRead s3.getU8
      let (s5, m1) ← parseTiles env ⟨base_x, base_y, base_z⟩ pos (s4.m_data.length + 1) s4 m
      let (ended, s6) ← Outcome.ofRead s5.endNode
      if !ended then .thrown .couldNotEndNode
      else parseTileArea env pos fuel s6 m1

/-- Function `IOMap::parseMapDataAttributes`; `baseDir` is the directory part of the path
of the map and `fuel` bounds the iterations of the loop. The `std::string_view` that the
source makes of the string `getString` returns is read as that string. -/
def parseMapDataAttributes {I HS ZS : Type} (env : Env I HS ZS) (baseDir : List Nat) :
    Nat → FileStream → Map I HS ZS → Outcome (FileStream × Map I HS ZS)
  | 0, _, _ => .outOfFuel
  | fuel + 1, s, m => do
    let (attrValue, s1) ← Outcome.ofRead s.getU8
    if attrValue = 0 ∨ attrValue > env.OTBM_ATTR_EXT_ZONE_FILE then pure (s1.back 1, m)
    else
      let (fileName, s2) ← Outcome.ofRead s1.getString
      let m1 : Map I HS ZS :=
        if attrValue = env.OTBM_ATTR_DESCRIPTION then m
        else if attrValue = env.OTBM_ATTR_EXT_SPAWN_MONSTER_FILE then
          { m with monsterfile := baseDir ++ fileName }
        else if attrValue = env.OTBM_ATTR_EXT_SPAWN_NPC_FILE then
          { m with npcfile := baseDir ++ fileName }
        else if attrValue = env.OTBM_ATTR_EXT_HOUSE_FILE then
          { m with housefile := baseDir ++ fileName }
        else if attrValue = env.OTBM_ATTR_EXT_ZONE_FILE then
          { m with zonesfile := baseDir ++ fileName }
        else m
      parseMapDataAttributes env baseDir fuel s2 m1

/-- The loop `while (stream.startNode(OTBM_TOWN))` of `parseTowns`, collecting the towns
read; `fuel` bounds its iterations. -/
def parseTownNodes {I HS ZS : Type} (env : Env I HS ZS) :
    Nat → FileStream → List (Nat × List Nat × Position) →
      Outcome (FileStream × List (Nat × List Nat × Position))
  | 0, _, _ => .outOfFuel
  | fuel + 1, s, towns => do
    let (started, s1) ← Outcome.ofRead (s.startNode env.OTBM_TOWN)
    if !started then pure (s1, towns)
    else
      let (townId, s2) ← Outcome.ofRead s1.getU32
      let (townName, s3) ← Outcome.ofRead s2.getString
      let (x, s4) ← Outcome.ofRead s3.getU16
      let (y, s5) ← Outcome.ofRead s4.getU16
      let (z, s6) ← Outcome.ofRead s5.getU8
      let (ended, s7) ← Outcome.ofRead s6.endNode
      if !ended then .thrown .couldNotEndNode
      else parseTownNodes env fuel s7 (towns ++ [(townId, townName, ⟨x, y, z⟩)])

/-- Function `IOMap::parseTowns`: the towns read are created in order, each
`getOrCreateTown(id)` followed by `setName` and `setTemplePos`. -/
def parseTowns {I HS ZS : Type} (env : Env I HS ZS) (s : FileStream) (m : Map I HS ZS) :
    Outcome (FileStream × Map I HS ZS) := do
  let (started, s1) ← Outcome.ofRead (s.startNode env.OTBM_TOWNS)
  if !started then .thrown .couldNotReadTowns
  else
    let (s2, towns) ← parseTownNodes env (s1.m_data.length + 1) s1 []
    let m1 : Map I HS ZS :=
      towns.foldl
        (fun acc town =>
          { acc with towns := fun id => if id = town.1 then some town.2 else acc.towns id })
        m
    let (ended, s3) ← Outcome.ofRead s2.endNode
    if !ended then .thrown .couldNotEndNode
    else pure (s3, m1)

/-- The loop `while (stream.startNode(OTBM_WAYPOINT))` of `parseWaypoints`; `emplace`
keeps the position of a name that the map already has. `fuel` bounds the iterations. -/
def parseWaypointNodes {I HS ZS : Type} (env : Env I HS ZS) :
    Nat → FileStream → Map I HS ZS → Outcome (FileStream × Map I HS ZS)
  | 0, _, _ => .outOfFuel
  | fuel + 1, s, m => do
    let (started, s1) ← Outcome.ofRead (s.startNode env.OTBM_WAYPOINT)
    if !started then pure (s1, m)
    else
      let (name, s2) ← Outcome.ofRead s1.getString
      let (x, s3) ← Outcome.ofRead s2.getU16
      let (y, s4) ← Outcome.ofRead s3.getU16
      let (z, s5) ← Outcome.ofRead s4.getU8
      let m1 : Map I HS ZS :=
        match m.waypoints name with
        | some _ => m
        | none =>
          { m with waypoints := fun n => if n = name then some ⟨x, y, z⟩ else m.waypoints n }
      let (ended, s6) ← Outcome.ofRead s5.endNode
      if !ended then .thrown .couldNotEndNode
      else parseWaypointNodes env fuel s6 m1

/-- Function `IOMap::parseWaypoints`. -/
def parseWaypoints {I HS ZS : Type} (env : Env I HS ZS) (s : FileStream) (m : Map I HS ZS) :
    Outcome (FileStream × Map I HS ZS) := do
  let (started, s1) ← Outcome.ofRead (s.startNode env.OTBM_WAYPOINTS)
  if !started then .thrown .couldNotReadWaypoints
  else
    let (s2, m1) ← parseWaypointNodes env (s1.m_data.length + 1) s1 m
    let (ended, s3) ← Outcome.ofRead s2.endNode
    if !ended then .thrown .couldNotEndNode
    else pure (s3, m1)

/-- The header part of `IOMap::loadMap`, from the first `startNode()` to the two version
tests: the stream and the map (with `width` and `height` set) when the header is
accepted. -/
def loadMapHeader {I HS ZS : Type} (s : FileStream) (m : Map I HS ZS) :
    Outcome (FileStream × Map I HS ZS) := do
  let (started, s1) ← Outcome.ofRead (s.startNode 0)
  if !started then .thrown .couldNotReadMapNode
  else
    let s2 := s1.skip 1
    let (version, s3) ← Outcome.ofRead s2.getU32
    let (width, s4) ← Outcome.ofRead s3.getU16
    let (height, s5) ← Outcome.ofRead s4.getU16
    let (majorVersionItems, s6) ← Outcome.ofRead s5.getU32
    let (_, s7) ← Outcome.ofRead s6.getU32
    if version > 2 then .thrown .unknownVersion
    else if majorVersionItems < 3 then .thrown .needsUpgrade
    else pure (s7, { m with width := width, height := height })

/-- The part of `IOMap::loadMap` after the header: map data, towns, waypoints, and the
flush of the content cache. -/
def loadMapBody {I HS ZS : Type} (env : Env I HS ZS) (baseDir : List Nat) (pos : Position)
    (s : FileStream) (m : Map I HS ZS) : Outcome (Map I HS ZS) := do
  let (hasData, s1) ← Outcome.ofRead (s.startNode env.OTBM_MAP_DATA)
  let (s2, m1) ←
    (if hasData then do
      let (s2, m1) ← parseMapDataAttributes env baseDir (s1.m_data.length + 1) s1 m
      let (s3, m2) ← parseTileArea env pos (s2.m_data.length + 1) s2 m1
      let (_, s4) ← Outcome.ofRead s3.endNode
      pure (s4, m2)
    else pure (s1, m) : Outcome (FileStream × Map I HS ZS))
  let (s3, m2) ← parseTowns env s2 m1
  let (_, m3) ← parseWaypoints env s3 m2
  pure (flush m3)

/-- Function `IOMap::loadMap`, on the bytes `fileByte` of the mapped file: the stream
starts `sizeof(OTB::Identifier)` = 4 bytes into the file, and the four bytes before it
are not read. A file of fewer than four bytes puts `begin` past the end. -/
def loadMap {I HS ZS : Type} (env : Env I HS ZS) (fileByte : List Nat) (baseDir : List Nat)
    (pos : Position) (m : Map I HS ZS) : Outcome (Map I HS ZS) :=
  if fileByte.length < 4 then .fault
  else do
    let (s, m1) ← loadMapHeader ⟨0, 0, fileByte.drop 4⟩ m
    loadMapBody env baseDir pos s m1

/-- The bytes of a map file: four identifier bytes, the START of the root node, its type
byte, the header fields in escaped form (version, width, height, items major version,
items minor version, each as its little-endian bytes), and the rest of the file. -/
def mapFileBytes (i0 i1 i2 i3 type : Nat) (version width height major minor rest : List Nat) :
    List Nat :=
  i0 :: i1 :: i2 :: i3 :: OTB.START :: type ::
    (OTB.escapeProps (version ++ (width ++ (height ++ (major ++ minor)))) ++ rest)

/-- The bytes that follow the identifier in a small map file, with the enumerators of
`sampleEnv`: the root node with version 2, size 16 by 16 and items version 3.0; a map
data node with one tile area at (100, 100, 7) holding one tile with ground item 100;
an empty towns node and an empty waypoints node. -/
def sampleMapBody : List Nat :=
  [0xFE, 0, 2, 0, 0, 0, 16, 0, 16, 0, 3, 0, 0, 0, 0, 0, 0, 0,
    0xFE, 2,
      0xFE, 4, 100, 0, 100, 0, 7,
        0xFE, 5, 0, 0, 9, 100, 0, 0xFF,
      0xFF,
    0xFF,
    0xFE, 12, 0xFF,
    0xFE, 15, 0xFF,
   0xFF]

/-- A flags bitset contains a flag: every bit of the flag is set in it. -/
def containsFlag (flags flag : Nat) : Prop := flags &&& flag = flag

instance (flags flag : Nat) : Decidable (containsFlag flags flag) :=
  inferInstanceAs (Decidable (flags &&& flag = flag))

/-- The four tile states that the flag decoding sets are flags proper: none is zero and
no two of them share a bit. -/
def DistinctTileStates {I HS ZS : Type} (env : Env I HS ZS) : Prop :=
  env.TILESTATE_PROTECTIONZONE ≠ 0 ∧ env.TILESTATE_NOPVPZONE ≠ 0 ∧
  env.TILESTATE_PVPZONE ≠ 0 ∧ env.TILESTATE_NOLOGOUT ≠ 0 ∧
  env.TILESTATE_PROTECTIONZONE &&& env.TILESTATE_NOPVPZONE = 0 ∧
  env.TILESTATE_PROTECTIONZONE &&& env.TILESTATE_PVPZONE = 0 ∧
  env.TILESTATE_PROTECTIONZONE &&& env.TILESTATE_NOLOGOUT = 0 ∧
  env.TILESTATE_NOPVPZONE &&& env.TILESTATE_PVPZONE = 0 ∧
  env.TILESTATE_NOPVPZONE &&& env.TILESTATE_NOLOGOUT = 0 ∧
  env.TILESTATE_PVPZONE &&& env.TILESTATE_NOLOGOUT = 0

instance {I HS ZS : Type} (env : Env I HS ZS) : Decidable (DistinctTileStates env) := by
  unfold DistinctTileStates
  infer_instance

/-- A call that returns, returns a value with the property `P`. -/
def Outcome.Holds {α : Type} (P : α → Prop) : Outcome α → Prop
  | .ok a => P a
  | _ => True

/-- Two states of the map with the same spatial index and the same tile content cache. -/
def SameIndex {I HS ZS : Type} (m m1 : Map I HS ZS) : Prop :=
  m1.mapSectors = m.mapSectors ∧ m1.tiles = m.tiles

/-! ## Definitions: line of sight and throwing (`map.cpp`, `position.hpp`) -/

namespace Position

/-- Static method `Position::getOffsetX`. -/
def getOffsetX (p1 p2 : Position) : Int := (p1.x : Int) - (p2.x : Int)

/-- Static method `Position::getOffsetY`. -/
def getOffsetY (p1 p2 : Position) : Int := (p1.y : Int) - (p2.y : Int)

/-- Static method `Position::getOffsetZ`. -/
def getOffsetZ (p1 p2 : Position) : Int := (p1.z : Int) - (p2.z : Int)

/-- Static method `Position::getDistanceX`. -/
def getDistanceX (p1 p2 : Position) : Int := |getOffsetX p1 p2|

/-- Static method `Position::getDistanceY`. -/
def getDistanceY (p1 p2 : Position) : Int := |getOffsetY p1 p2|

/-- Static method `Position::getDistanceZ`. -/
def getDistanceZ (p1 p2 : Position) : Int := |getOffsetZ p1 p2|

/-- Static method template `Position::areInRange<deltax, deltay>`. -/
def areInRange (deltax deltay : Int) (p1 p2 : Position) : Bool :=
  decide (getDistanceX p1 p2 ≤ deltax) && decide (getDistanceY p1 p2 ≤ deltay)

end Position

/-- What the sight functions read of the map. `getTile x y z` is the tile that
`Map::getTile` returns at a coordinate, `none` for the null pointer: the functions below
only read tiles, and a materialization inside `Map::getTile` does not change which tile a
later call finds at any coordinate. The classes `Tile` and `Item` are not in the sources:
`blockProjectile tile` stands for `tile->hasProperty(CONST_PROP_BLOCKPROJECTILE)` and
`getGround tile` for `tile->getGround()` being non-null; both are parameters. -/
structure SightMap (T : Type) where
  getTile : Nat → Nat → Nat → Option T
  blockProjectile : T → Bool
  getGround : T → Bool

/-- The constants of the sight functions whose declarations are not in the sources, as
parameters: `MAP_INIT_SURFACE_LAYER`, `MAP_LAYER_VIEW_LIMIT` and the two enumerators of
`SightLines_t` that `canThrowObjectTo` tests. -/
structure SightConsts where
  MAP_INIT_SURFACE_LAYER : Nat
  MAP_LAYER_VIEW_LIMIT : Nat
  SightLine_CheckSightLine : Nat
  SightLine_FloorCheck : Nat

/-- The test `tile && tile->hasProperty(CONST_PROP_BLOCKPROJECTILE)` on the tile at a
coordinate. -/
def SightMap.blocksAt {T : Type} (w : SightMap T) (x y z : Nat) : Bool :=
  match w.getTile x y z with
  | some tile => w.blockProjectile tile
  | none => false

/-- The test `tile && (tile->getGround() || tile->hasProperty(CONST_PROP_BLOCKPROJECTILE))`
on the tile at a coordinate. -/
def SightMap.groundOrBlocksAt {T : Type} (w : SightMap T) (x y z : Nat) : Bool :=
  match w.getTile x y z with
  | some tile => w.getGround tile || w.blockProjectile tile
  | none => false

/-- The loop `while (--distanceX > 0)` of the horizontal case of `checkSightLine`. The
first argument is `distanceX` before the decrement, the second `start.x`; `start.x += delta`
is an addition of `uint16_t`. -/
def sightRow {T : Type} (w : SightMap T) (delta y z : Nat) : Nat → Nat → Bool
  | 0, _ => true
  | n + 1, x =>
    if 0 < n then
      if w.blocksAt ((x + delta) % 65536) y z then false
      else sightRow w delta y z n ((x + delta) % 65536)
    else true

/-- The loop `while (--distanceY > 0)` of the vertical case of `checkSightLine`. -/
def sightColumn {T : Type} (w : SightMap T) (delta x z : Nat) : Nat → Nat → Bool
  | 0, _ => true
  | n + 1, y =>
    if 0 < n then
      if w.blocksAt x ((y + delta) % 65536) z then false
      else sightColumn w delta x z n ((y + delta) % 65536)
    else true

/-- The loop `while (--distanceY > 0)` of the steep diagonal case of `checkSightLine`
(`distanceY > distanceX`, `deltaY` is 1). Arguments: `distanceY` before the decrement,
`eAcc`, `start.x`, `start.y`; `eAcc`, `start.x` and `start.y` are `uint16_t`, and the
coordinates handed to `getTile` are converted to `uint16_t`. -/
def sightSteep {T : Type} (w : SightMap T) (eAdj deltaX : Nat) (destination : Position)
    (z : Nat) : Nat → Nat → Nat → Nat → Bool
  | 0, _, _, _ => true
  | n + 1, eAcc, x, y =>
    if 0 < n then
      let eAccTemp := eAcc
      let eAcc1 := (eAcc + eAdj) % 65536
      let xIncrease := if eAcc1 ≤ eAccTemp then deltaX else 0
      if w.blocksAt ((x + xIncrease) % 65536) ((y + 1) % 65536) z then
        Position.areInRange 1 1 ⟨x, y, z⟩ destination
      else
        sightSteep w eAdj deltaX destination z n eAcc1 ((x + xIncrease) % 65536)
          ((y + 1) % 65536)
    else true

/-- The loop `while (--distanceX > 0)` of the shallow diagonal case of `checkSightLine`
(`deltaX` is 1). Arguments: `distanceX` before the decrement, `eAcc`, `start.x`,
`start.y`. -/
def sightShallow {T : Type} (w : SightMap T) (eAdj deltaY : Nat) (destination : Position)
    (z : Nat) : Nat → Nat → Nat → Nat → Bool
  | 0, _, _, _ => true
  | n + 1, eAcc, x, y =>
    if 0 < n then
      let eAccTemp := eAcc
      let eAcc1 := (eAcc + eAdj) % 65536
      let yIncrease := if eAcc1 ≤ eAccTemp then deltaY else 0
      if w.blocksAt ((x + 1) % 65536) ((y + yIncrease) % 65536) z then
        Position.areInRange 1 1 ⟨x, y, z⟩ destination
      else
        sightShallow w eAdj deltaY destination z n eAcc1 ((x + 1) % 65536)
          ((y + yIncrease) % 65536)
    else true

/-- Method `Map::checkSightLine`. `eAdj` is the quotient of two `uint32_t` stored in a
`uint16_t`; the two `std::swap` calls exchange `x` and `y` and leave `z`. -/
def checkSightLine {T : Type} (w : SightMap T) (start destination : Position) : Bool :=
  if start.x = destination.x ∧ start.y = destination.y then true
  else
    let distanceX := (Position.getDistanceX start destination).toNat
    let distanceY := (Position.getDistanceY start destination).toNat
    if start.y = destination.y then
      let delta := if start.x < destination.x then 1 else 65535
      sightRow w delta start.y start.z distanceX start.x
    else if start.x = destination.x then
      let delta := if start.y < destination.y then 1 else 65535
      sightColumn w delta start.x start.z distanceY start.y
    else if distanceY > distanceX then
      let eAdj := (((distanceX <<< 16) % 4294967296) / distanceY) % 65536
      let start1 : Position :=
        if start.y > destination.y then ⟨destination.x, destination.y, start.z⟩ else start
      let destination1 : Position :=
        if start.y > destination.y then ⟨start.x, start.y, destination.z⟩ else destination
      let deltaX := if start1.x > destination1.x then 65535 else 1
      let eAcc := if start1.x > destination1.x then (0 + 65536 - eAdj) % 65536 else 0
      sightSteep w eAdj deltaX destination1 start1.z distanceY eAcc start1.x start1.y
    else
      let eAdj := (((distanceY <<< 16) % 4294967296) / distanceX) % 65536
      let start1 : Position :=
        if start.x > destination.x then ⟨destination.x, destination.y, start.z⟩ else start
      let destination1 : Position :=
        if start.x > destination.x then ⟨start.x, start.y, destination.z⟩ else destination
      let deltaY := if start1.y > destination1.y then 65535 else 1
      let eAcc := if start1.y > destination1.y then (0 + 65536 - eAdj) % 65536 else 0
      sightShallow w eAdj deltaY destination1 start1.z distanceX eAcc start1.x start1.y

/-- The loop `for (; startZ != toPos.z; ++startZ)` of `isSightClear` over the `uint8_t`
`startZ`: it runs `(toPos.z - startZ) mod 256` times, which is the first argument; the
second is `startZ`. -/
def sightFloors {T : Type} (w : SightMap T) (x y : Nat) : Nat → Nat → Bool
  | 0, _ => true
  | n + 1, startZ =>
    if w.groundOrBlocksAt x y startZ then false
    else sightFloors w x y n ((startZ + 1) % 256)

/-- Method `Map::isSightClear`. `fromPos.z - 1` and `toPos.z - 1` are converted to
`uint8_t` where they are used. -/
def isSightClear {T : Type} (w : SightMap T) (fromPos toPos : Position) (floorCheck : Bool) :
    Bool :=
  if floorCheck = true ∧ fromPos.z ≠ toPos.z then false
  else if fromPos.z = toPos.z ∧
      (Position.areInRange 1 1 fromPos toPos = true ∨ (floorCheck = false ∧ fromPos.z = 0)) then
    true
  else if fromPos.z > toPos.z ∧ Position.getDistanceZ fromPos toPos > 1 then false
  else
    let sightClear := checkSightLine w fromPos toPos
    if floorCheck = true ∨ (fromPos.z = toPos.z ∧ sightClear = true) then sightClear
    else if sightClear = true ∧ (fromPos.z < toPos.z ∨ fromPos.z = toPos.z) then
      sightFloors w toPos.x toPos.y ((toPos.z + 256 - fromPos.z) % 256) fromPos.z
    else
      let upZ := (fromPos.z + 255) % 256
      if w.groundOrBlocksAt fromPos.x fromPos.y upZ = true ∨
          checkSightLine w ⟨fromPos.x, fromPos.y, upZ⟩
            ⟨toPos.x, toPos.y, (toPos.z + 255) % 256⟩ = false then
        false
      else if fromPos.z > toPos.z then true
      else sightFloors w toPos.x toPos.y ((toPos.z + 256 - upZ) % 256) upZ

/-- Method `Map::canThrowObjectTo`. `lineOfSight` is the value of the `SightLines_t`
argument; `lineOfSight & SightLine_FloorCheck` becomes the `bool` argument of
`isSightClear`. -/
def canThrowObjectTo {T : Type} (k : SightConsts) (w : SightMap T) (fromPos toPos : Position)
    (lineOfSight : Nat) (rangex rangey : Int) : Bool :=
  if (fromPos.z ≥ 8 ∧ toPos.z ≤ k.MAP_INIT_SURFACE_LAYER) ∨
      (toPos.z ≥ k.MAP_INIT_SURFACE_LAYER + 1 ∧ fromPos.z ≤ k.MAP_INIT_SURFACE_LAYER) then
    false
  else
    let deltaz := Position.getDistanceZ fromPos toPos
    if deltaz > (k.MAP_LAYER_VIEW_LIMIT : Int) then false
    else if Position.getDistanceX fromPos toPos - deltaz > rangex then false
    else if Position.getDistanceY fromPos toPos - deltaz > rangey then false
    else if lineOfSight &&& k.SightLine_CheckSightLine = 0 then true
    else isSightClear w fromPos toPos (lineOfSight &&& k.SightLine_FloorCheck != 0)

/-- Values for the constants of the sight functions, used where a concrete call is
evaluated: surface layer 7, view limit 2, and the sight-line bits 1 and 2. -/
def sampleSightConsts : SightConsts := ⟨7, 2, 1, 2⟩

/-- A map for concrete sight calls: a tile is a pair (has ground, blocks projectiles);
the only tile that blocks is at (103, 100, 7), and every coordinate of level 7 has a
tile with ground. -/
def sampleSightMap : SightMap (Bool × Bool) where
  getTile := fun x y z =>
    if z = 7 then some (true, x == 103 && y == 100) else none
  blockProjectile := fun t => t.2
  getGround := fun t => t.1

/-! ## Definitions: spectators (`spectators.cpp`) -/

/-- Modelled from the spec: the class `Creature`, which the sources at hand do not
contain, as far as `spectators.cpp` reads it: `id` stands for the identity of the object
(the address a `shared_ptr` compares and sorts by), `position` for `getPosition()`, and
the three flags for `getPlayer()`, `getMonster()` and `getNpc()` being non-null. -/
structure Creature where
  id : Nat
  position : Position
  player : Bool
  monster : Bool
  npc : Bool
  deriving DecidableEq

/-- Modelled from the spec: `SpectatorsCache::FloorData` of map/spectators.hpp, which the
sources at hand do not contain: the two optional creature lists that `find` and
`checkCache` read and write. -/
structure FloorData where
  floor : Option (List Creature)
  multiFloor : Option (List Creature)

/-- Modelled from the spec: `SpectatorsCache` of map/spectators.hpp, which the sources at
hand do not contain: the recorded range and one `FloorData` per category, the fields that
`find` reads and writes. -/
structure SpectatorsCache where
  minRangeX : Int
  maxRangeX : Int
  minRangeY : Int
  maxRangeY : Int
  creatures : FloorData
  monsters : FloorData
  npcs : FloorData
  players : FloorData

/-- The cache entry that `find` emplaces: the designated initializers set the range, the
lists are empty optionals. -/
def SpectatorsCache.new (minRangeX maxRangeX minRangeY maxRangeY : Int) : SpectatorsCache :=
  ⟨minRangeX, maxRangeX, minRangeY, maxRangeY, ⟨none, none⟩, ⟨none, none⟩, ⟨none, none⟩,
    ⟨none, none⟩⟩

/-- The constants that `spectators.cpp` uses and whose declarations are not in the
sources, as parameters. -/
structure SpectatorConsts where
  MAP_MAX_VIEW_PORT_X : Int
  MAP_MAX_VIEW_PORT_Y : Int
  MAP_INIT_SURFACE_LAYER : Int
  MAP_LAYER_VIEW_LIMIT : Int
  MAP_MAX_LAYERS : Int
  SECTOR_SIZE : Nat
  SECTOR_MASK : Nat

/-- The world that `getSpectators` reads: the sectors of `g_game().map` and, by sector key,
the four creature lists of a sector. Modelled from the spec: the fields `creature_list`,
`player_list`, `monster_list` and `npc_list` of the class `MapSector`, which the sources at
hand do not contain. -/
structure SpectatorWorld (I : Type) where
  mapSectors : Nat → Option (MapSector I)
  creature_list : Nat → List Creature
  player_list : Nat → List Creature
  monster_list : Nat → List Creature
  npc_list : Nat → List Creature

/-- Conversion of an `int` to `int8_t`. -/
def toInt8 (i : Int) : Int := (i + 128) % 256 - 128

/-- Conversion of an `int` to `uint8_t`. -/
def toUInt8 (i : Int) : Int := i % 256

/-- Conversion of an `int` to `uint32_t`. -/
def toUInt32 (i : Int) : Int := i % 4294967296

/-- The removal of duplicates in `insertAll` for more than 100 elements: the first
occurrence of every creature is kept. -/
def uniqueCreatures : List Creature → List Creature → List Creature
  | seen, [] => seen.reverse
  | seen, c :: rest =>
    if seen.any (fun d => d.id == c.id) then uniqueCreatures seen rest
    else uniqueCreatures (c :: seen) rest

/-- The call `std::ranges::unique` of `insertAll`: of consecutive equal pointers the
first is kept. -/
def uniqueAdjacent : List Creature → List Creature
  | [] => []
  | c :: rest =>
    match uniqueAdjacent rest with
    | [] => [c]
    | d :: rest1 => if c.id = d.id then c :: rest1 else c :: d :: rest1

/-- Method `Spectators::insertAll`, on the field `creatures`. `std::ranges::sort` orders
the pointers, here the identities. -/
def insertAll (creatures list : List Creature) : List Creature :=
  if list.isEmpty then creatures
  else if creatures.isEmpty then list
  else
    let creatures1 := creatures ++ list
    if creatures1.length > 100 then uniqueCreatures [] creatures1
    else uniqueAdjacent (creatures1.insertionSort (fun a b => a.id ≤ b.id))

/-- Method `Spectators::checkCache`: the value returned and the field `creatures` after
the call. -/
def checkCache (creatures : List Creature) (specData : FloorData)
    (onlyPlayers onlyMonsters onlyNpcs : Bool) (centerPos : Position)
    (checkDistance multifloor : Bool) (minRangeX maxRangeX minRangeY maxRangeY : Int) :
    Bool × List Creature :=
  let list := if multifloor || specData.floor.isNone then specData.multiFloor else specData.floor
  match list with
  | none => (false, creatures)
  | some list =>
    if list.isEmpty then (false, creatures)
    else
      let checkDistance1 := if !multifloor && specData.floor.isNone then true else checkDistance
      if checkDistance1 then
        (true, creatures ++ list.filter (fun creature =>
          let specPos := creature.position
          if !multifloor && specPos.z != centerPos.z then false
          else
            let dx : Int := (centerPos.x : Int) - (specPos.x : Int)
            let dy : Int := (centerPos.y : Int) - (specPos.y : Int)
            if dx < minRangeX ∨ dx > maxRangeX ∨ dy < minRangeY ∨ dy > maxRangeY then false
            else if onlyPlayers then creature.player
            else if onlyMonsters then creature.monster
            else if onlyNpcs then creature.npc
            else true))
      else (true, insertAll creatures list)

/-- The inner loop over the creatures of one sector list in `getSpectators`: the test
that a creature passes to be added. `zDiff`, `offsetX` and `offsetY` are `uint32_t`. -/
def inSpectatorRange (centerPos : Position) (minRangeZ : Int) (depth width height : Int)
    (min_x min_y : Int) (creature : Creature) : Bool :=
  let cpos := creature.position
  let zDiff := toUInt32 ((cpos.z : Int) - minRangeZ)
  if zDiff > depth then false
  else
    let offsetZ := Position.getOffsetZ centerPos cpos
    let offsetX := toUInt32 ((cpos.x : Int) - offsetZ - min_x)
    let offsetY := toUInt32 ((cpos.y : Int) - offsetZ - min_y)
    decide (offsetX ≤ width) && decide (offsetY ≤ height)

/-- The loop `for (nx = startx1; nx <= endx2; nx += SECTOR_SIZE)` of `getSpectators`. The
first argument is the number of rounds left, `nx` the loop variable, `sectorE` the sector
pointer (a key of `mapSectors`), and the state is the vector `spectators` with the set
`processedSectors`. -/
def spectatorsRow {I : Type} (k : SpectatorConsts) (world : SpectatorWorld I)
    (onlyPlayers onlyMonsters onlyNpcs : Bool) (ny : Nat)
    (accept : Creature → Bool) :
    Nat → Nat → Option Nat → List Creature × List Nat → List Creature × List Nat
  | 0, _, _, state => state
  | n + 1, nx, sectorE, state =>
    match sectorE with
    | some sector =>
      let state1 :=
        if state.2.contains sector then state
        else
          let nodeList :=
            if onlyPlayers then world.player_list sector
            else if onlyMonsters then world.monster_list sector
            else if onlyNpcs then world.npc_list sector
            else world.creature_list sector
          (state.1 ++ nodeList.filter accept, sector :: state.2)
      let next :=
        match world.mapSectors sector with
        | some s => s.sectorE
        | none => none
      spectatorsRow k world onlyPlayers onlyMonsters onlyNpcs ny accept n (nx + k.SECTOR_SIZE)
        next state1
    | none =>
      spectatorsRow k world onlyPlayers onlyMonsters onlyNpcs ny accept n (nx + k.SECTOR_SIZE)
        ((getMapSector k.SECTOR_SIZE world.mapSectors (nx + k.SECTOR_SIZE) ny).map (fun p => p.1))
        state

/-- The number of rounds of a loop `for (n = a; n <= b; n += step)`. -/
def loopRounds (a b step : Nat) : Nat :=
  if a ≤ b then (b - a) / step + 1 else 0

/-- The loop `for (ny = starty1; ny <= endy2; ny += SECTOR_SIZE)` of `getSpectators`. The
first argument is the number of rounds left. -/
def spectatorsRows {I : Type} (k : SpectatorConsts) (world : SpectatorWorld I)
    (onlyPlayers onlyMonsters onlyNpcs : Bool) (startx1 endx2 : Nat)
    (accept : Creature → Bool) :
    Nat → Nat → Option Nat → List Creature × List Nat → List Creature × List Nat
  | 0, _, _, state => state
  | n + 1, ny, sectorS, state =>
    let state1 := spectatorsRow k world onlyPlayers onlyMonsters onlyNpcs ny accept
      (loopRounds startx1 endx2 k.SECTOR_SIZE) startx1 sectorS state
    let next :=
      match sectorS with
      | some sector =>
        (match world.mapSectors sector with
          | some s => s.sectorS
          | none => none)
      | none =>
        (getMapSector k.SECTOR_SIZE world.mapSectors startx1 (ny + k.SECTOR_SIZE)).map
          (fun p => p.1)
    spectatorsRows k world onlyPlayers onlyMonsters onlyNpcs startx1 endx2 accept n
      (ny + k.SECTOR_SIZE) next state1

/-- Method `Spectators::getSpectators`. `std::max<int8_t>` and `std::min<int8_t>` convert
both arguments to `int8_t`; `minRangeZ` and `maxRangeZ` are `uint8_t`; `width`, `height`
and `depth` are `uint32_t`. -/
def getSpectators {I : Type} (k : SpectatorConsts) (world : SpectatorWorld I)
    (centerPos : Position) (multifloor onlyPlayers onlyMonsters onlyNpcs : Bool)
    (minRangeX maxRangeX minRangeY maxRangeY : Int) : List Creature :=
  let z : Int := centerPos.z
  let rangeZ : Int × Int :=
    if multifloor then
      if z > k.MAP_INIT_SURFACE_LAYER then
        (toUInt8 (max (toInt8 (z - k.MAP_LAYER_VIEW_LIMIT)) (toInt8 0)),
          toUInt8 (min (toInt8 (z + k.MAP_LAYER_VIEW_LIMIT)) (toInt8 (k.MAP_MAX_LAYERS - 1))))
      else if z = k.MAP_INIT_SURFACE_LAYER - 1 then
        (0, toUInt8 ((k.MAP_INIT_SURFACE_LAYER - 1) + k.MAP_LAYER_VIEW_LIMIT))
      else if z = k.MAP_INIT_SURFACE_LAYER then
        (0, toUInt8 (k.MAP_INIT_SURFACE_LAYER + k.MAP_LAYER_VIEW_LIMIT))
      else (0, toUInt8 k.MAP_INIT_SURFACE_LAYER)
    else (z, z)
  let minRangeZ := rangeZ.1
  let maxRangeZ := rangeZ.2
  let min_y : Int := (centerPos.y : Int) + minRangeY
  let min_x : Int := (centerPos.x : Int) + minRangeX
  let max_y : Int := (centerPos.y : Int) + maxRangeY
  let max_x : Int := (centerPos.x : Int) + maxRangeX
  let width := toUInt32 (max_x - min_x)
  let height := toUInt32 (max_y - min_y)
  let depth := toUInt32 (maxRangeZ - minRangeZ)
  let minoffset : Int := z - maxRangeZ
  let x1 := (min 65535 (max 0 (min_x + minoffset))).toNat
  let y1 := (min 65535 (max 0 (min_y + minoffset))).toNat
  let maxoffset : Int := z - minRangeZ
  let x2 := (min 65535 (max 0 (max_x + maxoffset))).toNat
  let y2 := (min 65535 (max 0 (max_y + maxoffset))).toNat
  let startx1 := x1 - (x1 &&& k.SECTOR_MASK)
  let starty1 := y1 - (y1 &&& k.SECTOR_MASK)
  let endx2 := x2 - (x2 &&& k.SECTOR_MASK)
  let endy2 := y2 - (y2 &&& k.SECTOR_MASK)
  let startSector := (getMapSector k.SECTOR_SIZE world.mapSectors startx1 starty1).map
    (fun p => p.1)
  (spectatorsRows k world onlyPlayers onlyMonsters onlyNpcs startx1 endx2
    (inSpectatorRange centerPos minRangeZ depth width height min_x min_y)
    (loopRounds starty1 endy2 k.SECTOR_SIZE) starty1 startSector ([], [])).1

/-- The `FloorData` of a cache entry that `find` selects by the category flags. -/
def SpectatorsCache.select (cache : SpectatorsCache) (onlyPlayers onlyMonsters onlyNpcs : Bool) :
    FloorData :=
  if onlyPlayers then cache.players
  else if onlyMonsters then cache.monsters
  else if onlyNpcs then cache.npcs
  else cache.creatures

/-- The write through the reference `creatureList` of `find`: the list of the selected
category, `multiFloor` or `floor`, becomes the given list. -/
def SpectatorsCache.store (cache : SpectatorsCache)
    (multifloor onlyPlayers onlyMonsters onlyNpcs : Bool) (list : List Creature) :
    SpectatorsCache :=
  let put : FloorData → FloorData := fun d =>
    if multifloor then { d with multiFloor := some list } else { d with floor := some list }
  if onlyPlayers then { cache with players := put cache.players }
  else if onlyMonsters then { cache with monsters := put cache.monsters }
  else if onlyNpcs then { cache with npcs := put cache.npcs }
  else { cache with creatures := put cache.creatures }

/-- Method `Spectators::find`: the field `creatures` of the object after the call and the
static map `spectatorsCache` after the call. -/
def find {I : Type} (k : SpectatorConsts) (world : SpectatorWorld I)
    (spectatorsCache : Position → Option SpectatorsCache) (creatures : List Creature)
    (centerPos : Position) (multifloor onlyPlayers onlyMonsters onlyNpcs : Bool)
    (minRangeX maxRangeX minRangeY maxRangeY : Int) (useCache : Bool) :
    List Creature × (Position → Option SpectatorsCache) :=
  let minRangeX := if minRangeX = 0 then -k.MAP_MAX_VIEW_PORT_X else -minRangeX
  let maxRangeX := if maxRangeX = 0 then k.MAP_MAX_VIEW_PORT_X else maxRangeX
  let minRangeY := if minRangeY = 0 then -k.MAP_MAX_VIEW_PORT_Y else -minRangeY
  let maxRangeY := if maxRangeY = 0 then k.MAP_MAX_VIEW_PORT_Y else maxRangeY
  if !useCache then
    (insertAll creatures (getSpectators k world centerPos multifloor onlyPlayers onlyMonsters
      onlyNpcs minRangeX maxRangeX minRangeY maxRangeY), spectatorsCache)
  else
    -- the part of `find` after the cache lookup: compute, store, insert
    let compute := fun (entry : SpectatorsCache) (minRangeX maxRangeX minRangeY maxRangeY : Int) =>
      let spectators := getSpectators k world centerPos multifloor onlyPlayers onlyMonsters
        onlyNpcs minRangeX maxRangeX minRangeY maxRangeY
      let entry1 := entry.store multifloor onlyPlayers onlyMonsters onlyNpcs spectators
      ((if spectators.isEmpty then creatures else insertAll creatures spectators),
        fun p => if p = centerPos then some entry1 else spectatorsCache p)
    match spectatorsCache centerPos with
    | some cache =>
      if minRangeX ≥ cache.minRangeX ∧ maxRangeX ≤ cache.maxRangeX ∧
          minRangeY ≥ cache.minRangeY ∧ maxRangeY ≤ cache.maxRangeY then
        let checkDistance : Bool :=
          decide (minRangeX ≠ cache.minRangeX ∨ maxRangeX ≠ cache.maxRangeX ∨
            minRangeY ≠ cache.minRangeY ∨ maxRangeY ≠ cache.maxRangeY)
        if onlyPlayers || onlyMonsters || onlyNpcs then
          let creaturesCache := cache.select onlyPlayers onlyMonsters onlyNpcs
          let r1 := checkCache creatures creaturesCache onlyPlayers onlyMonsters onlyNpcs
            centerPos checkDistance multifloor minRangeX maxRangeX minRangeY maxRangeY
          if r1.1 then (r1.2, spectatorsCache)
          else
            let r2 := checkCache r1.2 cache.creatures onlyPlayers onlyMonsters onlyNpcs
              centerPos true multifloor minRangeX maxRangeX minRangeY maxRangeY
            if r2.1 then (r2.2, spectatorsCache)
            else compute cache minRangeX maxRangeX minRangeY maxRangeY
        else
          let r3 := checkCache creatures cache.creatures false false false centerPos
            checkDistance multifloor minRangeX maxRangeX minRangeY maxRangeY
          if r3.1 then (r3.2, spectatorsCache)
          else compute cache minRangeX maxRangeX minRangeY maxRangeY
      else
        let minRangeX1 := min minRangeX cache.minRangeX
        let minRangeY1 := min minRangeY cache.minRangeY
        let maxRangeX1 := max maxRangeX cache.maxRangeX
        let maxRangeY1 := max maxRangeY cache.maxRangeY
        compute
          { cache with
            minRangeX := minRangeX1, minRangeY := minRangeY1,
            maxRangeX := maxRangeX1, maxRangeY := maxRangeY1 }
          minRangeX1 maxRangeX1 minRangeY1 maxRangeY1
    | none =>
      compute (SpectatorsCache.new minRangeX maxRangeX minRangeY maxRangeY)
        minRangeX maxRangeX minRangeY maxRangeY

/-- The arguments of one call of `Spectators::find`. -/
structure FindQuery where
  centerPos : Position
  multifloor : Bool
  onlyPlayers : Bool
  onlyMonsters : Bool
  onlyNpcs : Bool
  minRangeX : Int
  maxRangeX : Int
  minRangeY : Int
  maxRangeY : Int
  useCache : Bool

/-- A call of `find` on a new `Spectators` object. -/
def findFresh {I : Type} (k : SpectatorConsts) (world : SpectatorWorld I)
    (spectatorsCache : Position → Option SpectatorsCache) (q : FindQuery) :
    List Creature × (Position → Option SpectatorsCache) :=
  find k world spectatorsCache [] q.centerPos q.multifloor q.onlyPlayers q.onlyMonsters
    q.onlyNpcs q.minRangeX q.maxRangeX q.minRangeY q.maxRangeY q.useCache

/-- A sequence of calls of `find`, each on a new `Spectators` object: the cache after the
last call. -/
def findAll {I : Type} (k : SpectatorConsts) (world : SpectatorWorld I) :
    (Position → Option SpectatorsCache) → List FindQuery → (Position → Option SpectatorsCache)
  | spectatorsCache, [] => spectatorsCache
  | spectatorsCache, q :: rest => findAll k world (findFresh k world spectatorsCache q).2 rest

/-- The range that `find` computes from its range arguments before anything else. -/
def FindQuery.range (k : SpectatorConsts) (q : FindQuery) : Int × Int × Int × Int :=
  (if q.minRangeX = 0 then -k.MAP_MAX_VIEW_PORT_X else -q.minRangeX,
    if q.maxRangeX = 0 then k.MAP_MAX_VIEW_PORT_X else q.maxRangeX,
    if q.minRangeY = 0 then -k.MAP_MAX_VIEW_PORT_Y else -q.minRangeY,
    if q.maxRangeY = 0 then k.MAP_MAX_VIEW_PORT_Y else q.maxRangeY)

/-- The recorded range of the second entry contains the recorded range of the first. -/
def SpectatorsCache.Widens (e e1 : SpectatorsCache) : Prop :=
  e1.minRangeX ≤ e.minRangeX ∧ e.maxRangeX ≤ e1.maxRangeX ∧
  e1.minRangeY ≤ e.minRangeY ∧ e.maxRangeY ≤ e1.maxRangeY

/-- The recorded range of the entry contains the range (minX, maxX, minY, maxY). -/
def SpectatorsCache.Covers (e : SpectatorsCache) (r : Int × Int × Int × Int) : Prop :=
  e.minRangeX ≤ r.1 ∧ r.2.1 ≤ e.maxRangeX ∧ e.minRangeY ≤ r.2.2.1 ∧ r.2.2.2 ≤ e.maxRangeY

/-- Values for the constants of `spectators.cpp`, used where a concrete call is evaluated:
view port 11 by 9, surface layer 7, view limit 2, 16 layers, sectors of 16 by 16. -/
def sampleSpectatorConsts : SpectatorConsts := ⟨11, 9, 7, 2, 16, 16, 15⟩

/-- A world for concrete calls: one sector, the one of (96, 96), with two monsters on
level 7, number 1 at (105, 100) and number 2 at (101, 100), and no other creature. -/
def sampleSpectatorWorld : SpectatorWorld Nat where
  mapSectors := fun key => if key = sectorIndex 16 96 96 then some MapSector.new else none
  creature_list := fun key =>
    if key = sectorIndex 16 96 96 then
      [⟨1, ⟨105, 100, 7⟩, false, true, false⟩, ⟨2, ⟨101, 100, 7⟩, false, true, false⟩]
    else []
  player_list := fun _ => []
  monster_list := fun key =>
    if key = sectorIndex 16 96 96 then
      [⟨1, ⟨105, 100, 7⟩, false, true, false⟩, ⟨2, ⟨101, 100, 7⟩, false, true, false⟩]
    else []
  npc_list := fun _ => []

/-- The empty cache, the state after `Spectators::clearCache`. -/
def clearCache : Position → Option SpectatorsCache := fun _ => none

/-! ## Definitions: pathfinder (`map.cpp`, `position.hpp`) -/

/-- The enum `Direction` (position.hpp). -/
inductive Direction where
  | DIRECTION_NORTH
  | DIRECTION_EAST
  | DIRECTION_SOUTH
  | DIRECTION_WEST
  | DIRECTION_SOUTHWEST
  | DIRECTION_SOUTHEAST
  | DIRECTION_NORTHWEST
  | DIRECTION_NORTHEAST
  | DIRECTION_NONE
  deriving DecidableEq

/-- The values of the enumerators of `Direction`: the diagonal ones are
`DIRECTION_DIAGONAL_MASK | 0`, ..., `DIRECTION_DIAGONAL_MASK | 3`. -/
def Direction.toNat : Direction → Nat
  | .DIRECTION_NORTH => 0
  | .DIRECTION_EAST => 1
  | .DIRECTION_SOUTH => 2
  | .DIRECTION_WEST => 3
  | .DIRECTION_SOUTHWEST => 4 ||| 0
  | .DIRECTION_SOUTHEAST => 4 ||| 1
  | .DIRECTION_NORTHWEST => 4 ||| 2
  | .DIRECTION_NORTHEAST => 4 ||| 3
  | .DIRECTION_NONE => 8

/-- The move of one step in a compass direction: the change of (x, y), with north towards
smaller y and east towards larger x. This is the meaning of a direction against which the
path reconstruction is compared. The sources at hand have no function that applies a
direction to a position; the convention is the one `getPathMatching` uses where it names
the side on which the parent of a node lies (`offset_y == -1 ? DIRECTION_NORTH`,
`offset_x == -1 ? DIRECTION_WEST`). -/
def Direction.offset : Direction → Int × Int
  | .DIRECTION_NORTH => (0, -1)
  | .DIRECTION_EAST => (1, 0)
  | .DIRECTION_SOUTH => (0, 1)
  | .DIRECTION_WEST => (-1, 0)
  | .DIRECTION_SOUTHWEST => (-1, 1)
  | .DIRECTION_SOUTHEAST => (1, 1)
  | .DIRECTION_NORTHWEST => (-1, -1)
  | .DIRECTION_NORTHEAST => (1, -1)
  | .DIRECTION_NONE => (0, 0)

/-- The coordinates reached from (x, y) by a sequence of moves, first move first. -/
def walkDirections : Int × Int → List Direction → Int × Int
  | p, [] => p
  | p, d :: rest => walkDirections (p.1 + d.offset.1, p.2 + d.offset.2) rest

/-- Modelled from the spec: the struct `AStarNode`, which the sources at hand do not
contain. The spec: a "search-graph node: grid coordinate, accumulated cost f, heuristic,
parent link"; `c` is the field that `getPathMatching` reads as the walk cost of the tile of
an existing node. The parent pointer is the index of the parent in the node pool. -/
structure AStarNode where
  parent : Option Nat
  f : Int
  c : Int
  heuristic : Int
  x : Nat
  y : Nat

/-- Modelled from the spec: the class `AStarNodes`, which the sources at hand do not
contain. The spec: the search tree is "index/arena-based via a node pool", the "open set
is a priority structure keyed by ascending f", and the search stops "when a closed-node
budget is reached". `nodes` is the pool, of which the first `curNode` slots are in use;
`openNodes` tells which of them are in the open set; `closedNodes` counts the calls of
`closeNode`. A pointer to a node is its index in the pool. -/
structure AStarNodes where
  nodes : Nat → AStarNode
  openNodes : Nat → Bool
  curNode : Nat
  closedNodes : Nat

namespace AStarNodes

/-- Modelled from the spec: the constructor `AStarNodes(x, y, extraCost)` (class not in
the sources): the pool holds the start node, open, with cost 0 and no parent. -/
def new (x y : Nat) (extraCost : Int) : AStarNodes :=
  ⟨fun _ => ⟨none, 0, extraCost, 0, x, y⟩, fun i => i == 0, 1, 0⟩

/-- Modelled from the spec: the scan behind `getBestNode` over the first slots of the
pool: the open node with the least `f`, the first of them in the pool. -/
def bestBelow (s : AStarNodes) : Nat → Option Nat
  | 0 => none
  | i + 1 =>
    match bestBelow s i with
    | none => if s.openNodes i then some i else none
    | some b => if s.openNodes i = true ∧ (s.nodes i).f < (s.nodes b).f then some i else some b

/-- Modelled from the spec: `AStarNodes::getBestNode` (class not in the sources): the
open node with the least `f`, null if the open set is empty. -/
def getBestNode (s : AStarNodes) : Option Nat := s.bestBelow s.curNode

/-- Modelled from the spec: the scan behind `getNodeByPosition` over the first slots of
the pool. -/
def findBelow (s : AStarNodes) (x y : Nat) : Nat → Option Nat
  | 0 => none
  | i + 1 =>
    match findBelow s x y i with
    | some j => some j
    | none => if (s.nodes i).x = x ∧ (s.nodes i).y = y then some i else none

/-- Modelled from the spec: `AStarNodes::getNodeByPosition` (class not in the sources):
the node of the pool at a coordinate, null if there is none. -/
def getNodeByPosition (s : AStarNodes) (x y : Nat) : Option Nat := s.findBelow x y s.curNode

/-- Modelled from the spec: `AStarNodes::createOpenNode` (class not in the sources): a new
open node in the next free slot of the pool; false, and no change, when the pool of
`MAX_NODES` slots is used up. -/
def createOpenNode (MAX_NODES : Nat) (s : AStarNodes) (parent : Nat) (x y : Nat)
    (f heuristic extraCost : Int) : Bool × AStarNodes :=
  if s.curNode ≥ MAX_NODES then (false, s)
  else
    (true,
      { s with
        nodes := (fun i => if i = s.curNode then ⟨some parent, f, extraCost, heuristic, x, y⟩
          else s.nodes i)
        openNodes := (fun i => if i = s.curNode then true else s.openNodes i)
        curNode := s.curNode + 1 })

/-- Modelled from the spec: `AStarNodes::openNode` (class not in the sources): the node
is put into the open set. -/
def openNode (s : AStarNodes) (node : Nat) : AStarNodes :=
  { s with openNodes := fun i => if i = node then true else s.openNodes i }

/-- Modelled from the spec: `AStarNodes::closeNode` (class not in the sources): the node
leaves the open set and counts against the closed-node budget. -/
def closeNode (s : AStarNodes) (node : Nat) : AStarNodes :=
  { s with
    openNodes := (fun i => if i = node then false else s.openNodes i)
    closedNodes := s.closedNodes + 1 }

/-- Modelled from the spec: `AStarNodes::getClosedNodes` (class not in the sources). -/
def getClosedNodes (s : AStarNodes) : Int := s.closedNodes

/-- The two writes `neighborNode->f = newf; neighborNode->parent = n;` of
`getPathMatching`. -/
def relink (s : AStarNodes) (neighborNode : Nat) (newf : Int) (n : Nat) : AStarNodes :=
  { s with
    nodes := fun i =>
      if i = neighborNode then { s.nodes neighborNode with f := newf, parent := some n }
      else s.nodes i }

end AStarNodes

/-- The fields of `FindPathParams` that `getPathMatching` reads; the struct is declared in
a header that the sources at hand do not contain. -/
structure FindPathParams where
  maxSearchDist : Int
  keepDistance : Bool

/-- Modelled from the spec: the class `Creature`, which the sources at hand do not
contain, as far as the pathfinder reads it: `getPosition()`, `getTile()` and
`isRemoved()`. -/
structure PathCreature (T : Type) where
  position : Position
  tile : Option T
  isRemoved : Bool

/-- What the pathfinder reads of the map and of its arguments, as parameters. `getTile` is
the tile that `Map::getTile` returns at a coordinate (see `SightMap`). Of the classes
`Tile`, `AStarNodes` and `FrozenPathingConditionCall`, which are not in the sources:
`queryAdd tile` stands for `tile->queryAdd(0, creature, 1, FLAG_PATHFINDING |
FLAG_IGNOREFIELDDAMAGE) == RETURNVALUE_NOERROR`, `getTileWalkCost tile` for
`AStarNodes::getTileWalkCost(creature, tile)`, `getMapWalkCost` for
`AStarNodes::getMapWalkCost`, `pathCondition startPos pos bestMatch` for the call
`pathCondition(startPos, pos, fpp, bestMatch)`: the value returned and the value left in
`bestMatch`; `isInRange` and `getTargetPos` are the methods of `pathCondition` with these
names. `MAX_NODES` is the size of the node pool. -/
structure PathEnv (T : Type) where
  MAX_NODES : Nat
  getTile : Nat → Nat → Nat → Option T
  queryAdd : T → Bool
  getTileWalkCost : T → Int
  getMapWalkCost : AStarNode → Position → Int
  pathCondition : Position → Position → Int → Bool × Int
  isInRange : Position → Position → Bool
  getTargetPos : Position

/-- Method `Map::canWalkTo`. The comparison of tile pointers is the comparison of the
tiles. -/
def canWalkTo {T : Type} [DecidableEq T] (env : PathEnv T)
    (creature : Option (PathCreature T)) (pos : Position) : Option T :=
  match creature with
  | none => none
  | some creature =>
    if creature.isRemoved then none
    else
      let tile := env.getTile pos.x pos.y pos.z
      if creature.tile ≠ tile then
        match tile with
        | none => none
        | some t => if env.queryAdd t then some t else none
      else tile

/-- Conversion of an `int` to `uint16_t`. -/
def toUInt16 (i : Int) : Nat := (i % 65536).toNat

/-- The table `allNeighbors` of `getPathMatching`. -/
def allNeighbors : List (Int × Int) :=
  [(-1, 0), (0, 1), (1, 0), (0, -1), (-1, -1), (1, -1), (1, 1), (-1, 1)]

/-- The table `dirNeighbors` of `getPathMatching`, by row index. -/
def dirNeighbors : Nat → List (Int × Int)
  | 0 => [(-1, 0), (0, 1), (1, 0), (1, 1), (-1, 1)]
  | 1 => [(-1, 0), (0, 1), (0, -1), (-1, -1), (-1, 1)]
  | 2 => [(-1, 0), (1, 0), (0, -1), (-1, -1), (1, -1)]
  | 3 => [(0, 1), (1, 0), (0, -1), (1, -1), (1, 1)]
  | 4 => [(1, 0), (0, -1), (-1, -1), (1, -1), (1, 1)]
  | 5 => [(-1, 0), (0, -1), (-1, -1), (1, -1), (-1, 1)]
  | 6 => [(0, 1), (1, 0), (1, -1), (1, 1), (-1, 1)]
  | 7 => [(-1, 0), (0, 1), (-1, -1), (1, 1), (-1, 1)]
  | _ => []

/-- The choice of `dirIndex` in `getPathMatching` from the offsets of the parent. -/
def dirIndex (offset_x offset_y : Int) : Direction :=
  if offset_y = 0 then
    if offset_x = -1 then .DIRECTION_WEST else .DIRECTION_EAST
  else if offset_x = 0 then
    if offset_y = -1 then .DIRECTION_NORTH else .DIRECTION_SOUTH
  else if offset_y = -1 then
    if offset_x = -1 then .DIRECTION_NORTHWEST else .DIRECTION_NORTHEAST
  else
    if offset_x = -1 then .DIRECTION_SOUTHWEST else .DIRECTION_SOUTHEAST

/-- Where `getPathMatching` and `getPathMatchingCond` differ inside the search loop.
`startPos pos` is the value of `startPos` while the variable `pos` has the value `pos`:
in `getPathMatching`, `startPos` is a reference to the variable `pos`
(`const auto &startPos = pos;`), in `getPathMatchingCond` it is a copy of the start
position. `targetPos` is the target of the heuristic, `tileFor` the tile test for a
coordinate that has no node yet. -/
structure PathVariant (T : Type) where
  startPos : Position → Position
  targetPos : Position
  tileFor : Position → Option T

/-- The local state of the search loop of `getPathMatching`: the node pool, `bestMatch`,
the pointer `found`, `endPos` and `cntDirs`. -/
structure SearchState where
  nodes : AStarNodes
  bestMatch : Int
  found : Option Nat
  endPos : Position
  cntDirs : Nat

/-- How the loop over the neighbours ends: after the last neighbour, or at a
`createOpenNode` that returned false. -/
inductive Expand where
  | done (nodes : AStarNodes)
  | poolFull (nodes : AStarNodes)

/-- The loop `for (i = 0; i < dirCount; ++i)` of `getPathMatching` over the rest of the
neighbour table. `n` is the node taken from the open set, at (`x`, `y`) with cost `f`;
`z` is the level of the search; `sX`, `sY` are the distances of the start to the
target. -/
def expandNeighbors {T : Type} (env : PathEnv T) (fpp : FindPathParams) (v : PathVariant T)
    (n : Nat) (x y : Int) (z : Nat) (f : Int) (sX sY : Int) :
    List (Int × Int) → AStarNodes → Expand
  | [], nodes => .done nodes
  | neighbor :: rest, nodes =>
    let pos : Position := ⟨toUInt16 (x + neighbor.1), toUInt16 (y + neighbor.2), z⟩
    if fpp.maxSearchDist ≠ 0 ∧
        (Position.getDistanceX (v.startPos pos) pos > fpp.maxSearchDist ∨
          Position.getDistanceY (v.startPos pos) pos > fpp.maxSearchDist) then
      expandNeighbors env fpp v n x y z f sX sY rest nodes
    else if fpp.keepDistance = true ∧ env.isInRange (v.startPos pos) pos = false then
      expandNeighbors env fpp v n x y z f sX sY rest nodes
    else
      match nodes.getNodeByPosition pos.x pos.y with
      | some neighborNode =>
        let extraCost := (nodes.nodes neighborNode).c
        let cost := env.getMapWalkCost (nodes.nodes n) pos
        let newf := f + cost + extraCost
        if (nodes.nodes neighborNode).f ≤ newf then
          expandNeighbors env fpp v n x y z f sX sY rest nodes
        else
          expandNeighbors env fpp v n x y z f sX sY rest
            ((nodes.relink neighborNode newf n).openNode neighborNode)
      | none =>
        match v.tileFor pos with
        | none => expandNeighbors env fpp v n x y z f sX sY rest nodes
        | some tile =>
          let extraCost := env.getTileWalkCost tile
          let cost := env.getMapWalkCost (nodes.nodes n) pos
          let newf := f + cost + extraCost
          let dX : Int := |(v.targetPos.x : Int) - (pos.x : Int)|
          let dY : Int := |(v.targetPos.y : Int) - (pos.y : Int)|
          let heuristic : Int := (dX - sX) * 8 + (dY - sY) * 8 + (max dX dY) * 8
          let r := nodes.createOpenNode env.MAX_NODES n pos.x pos.y newf heuristic extraCost
          if r.1 then expandNeighbors env fpp v n x y z f sX sY rest r.2
          else .poolFull r.2

/-- How one round of the body of the `do ... while` loop of `getPathMatching` ends: at
the end of the body, at a `break`, or at a `return false`. -/
inductive SearchStep where
  | next (s : SearchState)
  | leave (s : SearchState)
  | fail

/-- The neighbour table that the body of the search loop chooses for node `n`: five
neighbours by the offsets of the parent, or all eight for a node without parent. -/
def roundNeighbors (nodes : AStarNodes) (n : Nat) : List (Int × Int) :=
  match (nodes.nodes n).parent with
  | some parent =>
    let offset_x : Int := ((nodes.nodes parent).x : Int) - ((nodes.nodes n).x : Int)
    let offset_y : Int := ((nodes.nodes parent).y : Int) - ((nodes.nodes n).y : Int)
    dirNeighbors (dirIndex offset_x offset_y).toNat
  | none => allNeighbors

/-- The state of the search after the call `pathCondition(startPos, pos, fpp, bestMatch)`
for node `n` at `pos`, which returned `r.1` and left `r.2` in `bestMatch`: a true value
sets `found` and `endPos`. -/
def afterGoal (s : SearchState) (n : Nat) (pos : Position) (r : Bool × Int) : SearchState :=
  if r.1 then { s with bestMatch := r.2, found := some n, endPos := pos }
  else { s with bestMatch := r.2 }

/-- The end of the body of the search loop after the loop over the neighbours: at a
`createOpenNode` that failed, `return false` without a match and `break` out of the
loop over the neighbours with one; then `++cntDirs` (done before that loop) and
`nodes.closeNode(n)` have taken place. -/
def closeRound (s1 : SearchState) (n : Nat) : Expand → SearchStep
  | .poolFull nodes =>
    if s1.found.isSome then
      .next { s1 with nodes := nodes.closeNode n, cntDirs := s1.cntDirs + 1 }
    else .fail
  | .done nodes => .next { s1 with nodes := nodes.closeNode n, cntDirs := s1.cntDirs + 1 }

/-- The body of the `do ... while` loop of `getPathMatching`. A `break` inside the loop
over the neighbours leaves that loop only, so the node is closed after it. -/
def searchBody {T : Type} (env : PathEnv T) (fpp : FindPathParams) (v : PathVariant T)
    (z : Nat) (sX sY : Int) (s : SearchState) : SearchStep :=
  match s.nodes.getBestNode with
  | none => if s.found.isSome then .leave s else .fail
  | some n =>
    let x : Int := (s.nodes.nodes n).x
    let y : Int := (s.nodes.nodes n).y
    let pos : Position := ⟨toUInt16 x, toUInt16 y, z⟩
    let r := env.pathCondition (v.startPos pos) pos s.bestMatch
    let s1 := afterGoal s n pos r
    if r.1 = true ∧ r.2 = 0 then .leave s1
    else
      closeRound s1 n
        (expandNeighbors env fpp v n x y z (s.nodes.nodes n).f sX sY
          (roundNeighbors s.nodes n) s1.nodes)

/-- The `do ... while (fpp.maxSearchDist != 0 || nodes.getClosedNodes() < 100)` loop of
`getPathMatching`, with fuel for the rounds: `none` when the fuel runs out, `some none`
for `return false`, and `some (some s)` when the loop is left with state `s`. -/
def searchLoop {T : Type} (env : PathEnv T) (fpp : FindPathParams) (v : PathVariant T)
    (z : Nat) (sX sY : Int) : Nat → SearchState → Option (Option SearchState)
  | 0, _ => none
  | fuel + 1, s =>
    match searchBody env fpp v z sX sY s with
    | .fail => some none
    | .leave s1 => some (some s1)
    | .next s1 =>
      if fpp.maxSearchDist ≠ 0 ∨ s1.nodes.getClosedNodes < 100 then
        searchLoop env fpp v z sX sY fuel s1
      else some (some s1)

/-- The direction that the reconstruction loop of `getPathMatching` appends for the
differences `dx`, `dy`, if any. -/
def stepDirection (dx dy : Int) : Option Direction :=
  if dx = 1 then
    if dy = 1 then some .DIRECTION_NORTHWEST
    else if dy = -1 then some .DIRECTION_SOUTHWEST
    else some .DIRECTION_WEST
  else if dx = -1 then
    if dy = 1 then some .DIRECTION_NORTHEAST
    else if dy = -1 then some .DIRECTION_SOUTHEAST
    else some .DIRECTION_EAST
  else if dy = 1 then some .DIRECTION_NORTH
  else if dy = -1 then some .DIRECTION_SOUTH
  else none

/-- The loop `while (found)` of `getPathMatching` that walks the parent pointers, with
fuel for the rounds: `none` when the fuel runs out. Arguments: the pointer `found`,
`prevx`, `prevy` and `dirList`. -/
def reconstructPath (nodes : AStarNodes) :
    Nat → Option Nat → Int → Int → List Direction → Option (List Direction)
  | _, none, _, _, dirList => some dirList
  | 0, some _, _, _, _ => none
  | fuel + 1, some found, prevx, prevy, dirList =>
    let posx : Int := toUInt16 (nodes.nodes found).x
    let posy : Int := toUInt16 (nodes.nodes found).y
    let dx := posx - prevx
    let dy := posy - prevy
    let dirList1 :=
      match stepDirection dx dy with
      | some d => dirList ++ [d]
      | none => dirList
    reconstructPath nodes fuel (nodes.nodes found).parent posx posy dirList1

/-- The state in which the search loop starts: the pool with the start node, `bestMatch`
0, `found` null, `endPos` default-constructed and `cntDirs` 0. -/
def SearchState.initial {T : Type} (env : PathEnv T) (pos : Position) (startTile : T) :
    SearchState :=
  ⟨AStarNodes.new pos.x pos.y (env.getTileWalkCost startTile), 0, none, ⟨0, 0, 0⟩, 0⟩

/-- The part of `getPathMatching` and `getPathMatchingCond` from the construction of the
node pool on: the search loop and the reconstruction of the path. `pos` is the start
position and `startTile` the tile found there. The result is `none` when the fuel runs
out, else the value returned and `dirList` after the call. -/
def searchFrom {T : Type} (env : PathEnv T) (fpp : FindPathParams) (v : PathVariant T)
    (pos : Position) (startTile : T) (dirList : List Direction) (fuel : Nat) :
    Option (Bool × List Direction) :=
  let sX : Int := |(v.targetPos.x : Int) - (pos.x : Int)|
  let sY : Int := |(v.targetPos.y : Int) - (pos.y : Int)|
  match searchLoop env fpp v pos.z sX sY fuel (SearchState.initial env pos startTile) with
  | none => none
  | some none => some (false, dirList)
  | some (some s) =>
    match s.found with
    | none => some (false, dirList)
    | some found =>
      match reconstructPath s.nodes fuel (s.nodes.nodes found).parent s.endPos.x s.endPos.y
          dirList with
      | none => none
      | some dirList1 => some (true, dirList1)

/-- What `getPathMatching` hands to the search loop: `startPos` is a reference to the
variable `pos`, the target of the heuristic is `actualTargetPos`, and a coordinate without
node is tested with `getTile` for a null creature and with `canWalkTo` otherwise. -/
def pathVariant {T : Type} [DecidableEq T] (env : PathEnv T)
    (creature : Option (PathCreature T)) (targetPos : Position) : PathVariant T where
  startPos := fun p => p
  targetPos := if creature.isNone then env.getTargetPos else targetPos
  tileFor := fun p =>
    if creature.isNone then env.getTile p.x p.y p.z else canWalkTo env creature p

/-- What `getPathMatchingCond` hands to the search loop: `startPos` is a copy of the
start position, the target of the heuristic is `targetPos`, and a coordinate without node
is tested with `canWalkTo`. -/
def pathVariantCond {T : Type} [DecidableEq T] (env : PathEnv T)
    (creature : Option (PathCreature T)) (pos targetPos : Position) : PathVariant T where
  startPos := fun _ => pos
  targetPos := targetPos
  tileFor := fun p => canWalkTo env creature p

/-- The start position of `getPathMatching`: `targetPos` for a null creature, else the
position of the creature. -/
def pathStart {T : Type} (creature : Option (PathCreature T)) (targetPos : Position) :
    Position :=
  match creature with
  | none => targetPos
  | some c => c.position

/-- Method `Map::getPathMatching` (creature, targetPos, dirList, pathCondition, fpp); a
null `creature` is `none`. The result is `none` when the fuel runs out, else the value
returned and `dirList` after the call. -/
def getPathMatching {T : Type} [DecidableEq T] (env : PathEnv T)
    (creature : Option (PathCreature T)) (targetPos : Position) (dirList : List Direction)
    (fpp : FindPathParams) (fuel : Nat) : Option (Bool × List Direction) :=
  let pos : Position := pathStart creature targetPos
  match env.getTile pos.x pos.y pos.z with
  | none => some (false, dirList)
  | some startTile =>
    searchFrom env fpp (pathVariant env creature targetPos) pos startTile dirList fuel

/-- Method `Map::getPathMatchingCond`. -/
def getPathMatchingCond {T : Type} [DecidableEq T] (env : PathEnv T)
    (creature : Option (PathCreature T)) (targetPos : Position) (dirList : List Direction)
    (fpp : FindPathParams) (fuel : Nat) : Option (Bool × List Direction) :=
  match creature with
  | none => some (false, dirList)
  | some c =>
    let pos := c.position
    match c.tile with
    | none => some (false, dirList)
    | some tile =>
      searchFrom env fpp (pathVariantCond env creature pos targetPos) pos tile dirList fuel

/-- An environment for concrete pathfinder calls. A tile is its position; the tiles are
those of level 7 with 100 ≤ x, y ≤ 109, except at (102, 100) and (102, 101), where there
is no tile. A step costs 10, a diagonal step 25, a tile nothing; the goal predicate holds
at (104, 100) and leaves `bestMatch` at 0; the pool has 512 nodes. -/
def samplePathEnv : PathEnv Position where
  MAX_NODES := 512
  getTile := fun x y z =>
    if z = 7 ∧ 100 ≤ x ∧ x ≤ 109 ∧ 100 ≤ y ∧ y ≤ 109 ∧ ¬ (x = 102 ∧ y ≤ 101) then
      some ⟨x, y, z⟩
    else none
  queryAdd := fun _ => true
  getTileWalkCost := fun _ => 0
  getMapWalkCost := fun node pos => if node.x ≠ pos.x ∧ node.y ≠ pos.y then 25 else 10
  pathCondition := fun _ pos _ => (pos.x == 104 && pos.y == 100, 0)
  isInRange := fun _ _ => true
  getTargetPos := ⟨104, 100, 7⟩

/-- The search loop goes from a round that starts in state `s` to a round that starts in
state `s1`: the body ends at its end and the loop condition holds. -/
def NextRound {T : Type} (env : PathEnv T) (fpp : FindPathParams) (v : PathVariant T)
    (z : Nat) (sX sY : Int) (s s1 : SearchState) : Prop :=
  searchBody env fpp v z sX sY s = .next s1 ∧
    (fpp.maxSearchDist ≠ 0 ∨ s1.nodes.getClosedNodes < 100)

/-- The states in which the rounds of the search loop start, from a first state on. -/
inductive Round {T : Type} (env : PathEnv T) (fpp : FindPathParams) (v : PathVariant T)
    (z : Nat) (sX sY : Int) (s : SearchState) : SearchState → Prop where
  | first : Round env fpp v z sX sY s s
  | later (s1 s2 : SearchState) : Round env fpp v z sX sY s s1 →
      NextRound env fpp v z sX sY s1 s2 → Round env fpp v z sX sY s s2

/-- In the round that starts in state `s`, the open set is not empty and the goal
predicate returns true for the node taken from it. -/
def GoalAtBest {T : Type} (env : PathEnv T) (v : PathVariant T) (z : Nat) (s : SearchState) :
    Prop :=
  ∃ n, s.nodes.getBestNode = some n ∧
    (env.pathCondition
      (v.startPos ⟨toUInt16 (s.nodes.nodes n).x, toUInt16 (s.nodes.nodes n).y, z⟩)
      ⟨toUInt16 (s.nodes.nodes n).x, toUInt16 (s.nodes.nodes n).y, z⟩ s.bestMatch).1 = true

/-- The goal predicate returned true for a node taken from the open set in some round of
the search that `searchFrom` runs. -/
def GoalMet {T : Type} (env : PathEnv T) (fpp : FindPathParams) (v : PathVariant T)
    (pos : Position) (startTile : T) : Prop :=
  ∃ s, Round env fpp v pos.z |(v.targetPos.x : Int) - (pos.x : Int)|
      |(v.targetPos.y : Int) - (pos.y : Int)| (SearchState.initial env pos startTile) s ∧
    GoalAtBest env v pos.z s

/-- The assumption on the two cost functions of the class `AStarNodes`, which are
parameters: a step costs more than nothing and a tile costs nothing or more. -/
def PositiveCosts {T : Type} (env : PathEnv T) : Prop :=
  (∀ node pos, 0 < env.getMapWalkCost node pos) ∧ (∀ tile, 0 ≤ env.getTileWalkCost tile)

/-- Two nodes are neighbours on the grid: their x and their y differ by at most one, not
both by nothing, and the coordinates are values of `uint16_t`. -/
def AStarNode.Adjacent (a b : AStarNode) : Prop :=
  a.x < 65536 ∧ a.y < 65536 ∧ b.x < 65536 ∧ b.y < 65536 ∧
  |(a.x : Int) - (b.x : Int)| ≤ 1 ∧ |(a.y : Int) - (b.y : Int)| ≤ 1 ∧ (a.x ≠ b.x ∨ a.y ≠ b.y)

/-- A parent chain of the pool from a node to a node without parent: every node of the
list but the last has the next one as its parent and is a neighbour of it, and the last
has no parent. -/
def ParentChain (nodes : AStarNodes) : List Nat → Prop
  | [] => False
  | [i] => (nodes.nodes i).parent = none ∧ (nodes.nodes i).x < 65536 ∧ (nodes.nodes i).y < 65536
  | i :: j :: rest =>
    (nodes.nodes i).parent = some j ∧ (nodes.nodes i).Adjacent (nodes.nodes j) ∧
      ParentChain nodes (j :: rest)

/-- The coordinates of a node of the pool. -/
def AStarNodes.coords (nodes : AStarNodes) (i : Nat) : Int × Int :=
  ((nodes.nodes i).x, (nodes.nodes i).y)

/-- The moves along a parent chain, child by child: each direction of the list is the
compass direction of the move from the parent to the child. -/
def ChainMoves (nodes : AStarNodes) : List Direction → List Nat → Prop
  | [], [_] => True
  | d :: dirs, i :: j :: rest =>
    (nodes.coords j).1 + d.offset.1 = (nodes.coords i).1 ∧
    (nodes.coords j).2 + d.offset.2 = (nodes.coords i).2 ∧
    d ≠ .DIRECTION_NONE ∧ ChainMoves nodes dirs (j :: rest)
  | _, _ => False

/-- The pool that a loop over the neighbours leaves. -/
def Expand.nodes : Expand → AStarNodes
  | .done nodes => nodes
  | .poolFull nodes => nodes

/-- What the search keeps true of the node pool when steps cost more than nothing: a
parent is a node of the pool with a smaller `f`, and `f` and `c` are not negative. -/
structure AStarNodes.WellFormed (s : AStarNodes) : Prop where
  parent_lt : ∀ i, i < s.curNode → ∀ p, (s.nodes i).parent = some p →
    p < s.curNode ∧ (s.nodes p).f < (s.nodes i).f
  f_nonneg : ∀ i, i < s.curNode → 0 ≤ (s.nodes i).f
  c_nonneg : ∀ i, i < s.curNode → 0 ≤ (s.nodes i).c

/-- The sum of the costs `f` of the nodes of the pool; with the number of free slots and
the number of open nodes it measures how far the search is from its end. -/
def AStarNodes.sumF (s : AStarNodes) : Nat :=
  (Finset.range s.curNode).sum (fun i => (s.nodes i).f.toNat)

/-- The number of open nodes of the pool. -/
def AStarNodes.openCount (s : AStarNodes) : Nat :=
  ((Finset.range s.curNode).filter (fun i => s.openNodes i = true)).card

/-- The loop over the neighbours has changed nothing, or it has used a slot of the pool,
or it has lowered the cost of a node without using a slot. -/
def AStarNodes.Progress (MAX_NODES : Nat) (s s1 : AStarNodes) : Prop :=
  s1 = s ∨ MAX_NODES - s1.curNode < MAX_NODES - s.curNode ∨
    (s1.curNode = s.curNode ∧ s1.sumF < s.sumF)

/-- What the search loop keeps true of its state when steps cost more than nothing: the
pool is well formed, and `found` is a node of the pool. -/
def SearchState.Inv (s : SearchState) : Prop :=
  s.nodes.WellFormed ∧ ∀ n, s.found = some n → n < s.nodes.curNode

/-- What the loop over the neighbours of node `n`, entered with pool `s0` and the cost
`f` of `n`, keeps true of the pool `s`. -/
structure ExpandKeeps (M n : Nat) (f : Int) (s0 s : AStarNodes) : Prop where
  wf : s.WellFormed
  n_lt : n < s.curNode
  f_eq : (s.nodes n).f = f
  n_open : s.openNodes n = true
  cur_le : s0.curNode ≤ s.curNode
  closed : s.closedNodes = s0.closedNodes
  coords : ∀ i, i < s0.curNode →
    (s.nodes i).x = (s0.nodes i).x ∧ (s.nodes i).y = (s0.nodes i).y
  progress : AStarNodes.Progress M s0 s

/-- The coordinates that the search can reach from the start coordinates: the start, and
every neighbour, in one of the eight directions of the table `allNeighbors`, of a
coordinate that can be reached, if the tile test of the search accepts the neighbour. -/
inductive Reachable {T : Type} (v : PathVariant T) (z : Nat) (start : Nat × Nat) :
    Nat × Nat → Prop where
  | start : Reachable v z start start
  | step (p : Nat × Nat) (o : Int × Int) : Reachable v z start p → o ∈ allNeighbors →
      (v.tileFor ⟨toUInt16 ((p.1 : Int) + o.1), toUInt16 ((p.2 : Int) + o.2), z⟩).isSome = true →
      Reachable v z start (toUInt16 ((p.1 : Int) + o.1), toUInt16 ((p.2 : Int) + o.2))

/-- The node `found` of the state, if set, is a node of the pool at the coordinates
`endPos`. -/
def SearchState.FoundAtEnd (s : SearchState) : Prop :=
  ∀ n, s.found = some n → n < s.nodes.curNode ∧
    s.endPos.x = toUInt16 (s.nodes.nodes n).x ∧ s.endPos.y = toUInt16 (s.nodes.nodes n).y

/-- Every node of the pool is at coordinates that the search can reach from the start. -/
def AStarNodes.AllReachable {T : Type} (v : PathVariant T) (z : Nat) (start : Nat × Nat)
    (s : AStarNodes) : Prop :=
  ∀ i, i < s.curNode → Reachable v z start ((s.nodes i).x, (s.nodes i).y)

/-! ## Definitions: order of positions and neighbour tables (`position.hpp`, `map.cpp`) -/

/-- Method `Position::operator<=>`: the comparison of `z`, then of `y`, then of `x`. -/
def Position.threeWay (p q : Position) : Ordering :=
  match compare p.z q.z with
  | .eq =>
    (match compare p.y q.y with
      | .eq => compare p.x q.x
      | cmp => cmp)
  | cmp => cmp

/-- Method `Position::operator==`, defaulted: the comparison of the members. -/
def Position.equal (p q : Position) : Bool :=
  p.x == q.x && p.y == q.y && p.z == q.z

/-- The lexicographic order on (z, y, x), as the specification words it. -/
def Position.LexLess (p q : Position) : Prop :=
  p.z < q.z ∨ (p.z = q.z ∧ p.y < q.y) ∨ (p.z = q.z ∧ p.y = q.y ∧ p.x < q.x)

/-- Two of the eight neighbour offsets lie next to each other on the ring of
neighbours: they differ by one in exactly one coordinate. -/
def ringAdjacent (o p : Int × Int) : Bool :=
  decide (|o.1 - p.1| + |o.2 - p.2| = 1)

/-- The eight unit offsets, as the specification words them: the pairs of -1, 0, 1
without (0, 0). -/
def unitOffsets : List (Int × Int) :=
  [(-1, -1), (0, -1), (1, -1), (-1, 0), (1, 0), (-1, 1), (0, 1), (1, 1)]

/-! ### Property streams (`fileloader.hpp`) -/

/-- The object representation that `memcpy(buffer.data() + oldSize, &add, sizeof(T))` copies
for an unsigned value of `size` bytes (little-endian, as on the platforms the server
targets). -/
def toLittleEndian : Nat → Nat → List Nat
  | 0, _ => []
  | size + 1, v => v % 256 :: toLittleEndian size (v / 256)

/-- `PropStream`: the pointers `p` and `end` are offsets into the bytes handed to `init`
(`stop` stands for `end`). -/
structure PropStream where
  data : List Nat
  p : Nat
  stop : Nat
  deriving DecidableEq

/-- `PropStream::init`. -/
def PropStream.init (data : List Nat) : PropStream := ⟨data, 0, data.length⟩

/-- `PropStream::size`: `end - p`; `p` never passes `end`, every advance being guarded. -/
def PropStream.size (s : PropStream) : Nat := s.stop - s.p

/-- `PropStream::empty`. -/
def PropStream.empty (s : PropStream) : Bool := decide (s.stop ≤ s.p)

/-- `PropStream::read<T>` with `sizeof(T) = size`: the first component is `none` when the
call returns false (`ret` is then not assigned). -/
def PropStream.read (size : Nat) (s : PropStream) : Option Nat × PropStream :=
  if s.size < size then (none, s)
  else (some (FileStream.fromLittleEndian ((s.data.drop s.p).take size)),
    { s with p := s.p + size })

/-- `PropStream::readString`: the first component is `none` when the call returns false. -/
def PropStream.readString (s : PropStream) : Option (List Nat) × PropStream :=
  match s.read 2 with
  | (none, s1) => (none, s1)
  | (some strLen, s1) =>
    if s1.size < strLen then (none, s1)
    else
      let ret := if strLen > 0 then (s1.data.drop s1.p).take strLen else []
      (some ret, { s1 with p := s1.p + strLen })

/-- `PropStream::skip`. -/
def PropStream.skip (n : Nat) (s : PropStream) : Bool × PropStream :=
  if s.size < n then (false, s) else (true, { s with p := s.p + n })

/-- `PropWriteStream`: the byte vector `buffer`. -/
structure PropWriteStream where
  buffer : List Nat
  deriving DecidableEq

/-- `PropWriteStream::write<T>` with `sizeof(T) = size`. -/
def PropWriteStream.write (size add : Nat) (w : PropWriteStream) : PropWriteStream :=
  ⟨w.buffer ++ toLittleEndian size add⟩

/-- `PropWriteStream::writeString`. -/
def PropWriteStream.writeString (str : List Nat) (w : PropWriteStream) : PropWriteStream :=
  let strLength := str.length
  if strLength > 65535 then w.write 2 0
  else
    let w1 := w.write 2 (strLength % 65536)
    if strLength > 0 then ⟨w1.buffer ++ str⟩ else w1

/-- One call of a writer: `write<T>(value)` for a type of `size` bytes, or
`writeString(str)`. -/
inductive PropItem where
  | value (size v : Nat)
  | string (str : List Nat)
  deriving DecidableEq

/-- A sequence of writer calls, in order, on one `PropWriteStream`. -/
def writeItems : List PropItem → PropWriteStream → PropWriteStream
  | [], w => w
  | .value size v :: rest, w => writeItems rest (w.write size v)
  | .string str :: rest, w => writeItems rest (w.writeString str)

/-- The reader calls that mirror a sequence of writer calls, in the same order:
`read<T>` for a value, `readString` for a string; the first component is `none` as soon
as one call returns false, and holds what the calls returned otherwise. -/
def readItems : List PropItem → PropStream → Option (List PropItem) × PropStream
  | [], s => (some [], s)
  | .value size _ :: rest, s =>
    match s.read size with
    | (none, s1) => (none, s1)
    | (some v, s1) =>
      match readItems rest s1 with
      | (none, s2) => (none, s2)
      | (some items, s2) => (some (.value size v :: items), s2)
  | .string _ :: rest, s =>
    match s.readString with
    | (none, s1) => (none, s1)
    | (some str, s1) =>
      match readItems rest s1 with
      | (none, s2) => (none, s2)
      | (some items, s2) => (some (.string str :: items), s2)

/-- What a written item is expected to read back as: a string of more than 65535 bytes
comes back empty, everything else unchanged. -/
def PropItem.readBack : PropItem → PropItem
  | .value size v => .value size v
  | .string str => if str.length > 65535 then .string [] else .string str

/-- A value fits the width it is written with. -/
def PropItem.Fits : PropItem → Prop
  | .value size v => v < 256 ^ size
  | .string _ => True

/-- A world for concrete multifloor calls: one sector, the one of (96, 96), with one
monster, number 3, two levels above the surface layer at (104, 100, 5), and no other
creature. -/
def sampleFloorsWorld : SpectatorWorld Nat where
  mapSectors := fun key => if key = sectorIndex 16 96 96 then some MapSector.new else none
  creature_list := fun key =>
    if key = sectorIndex 16 96 96 then [⟨3, ⟨104, 100, 5⟩, false, true, false⟩] else []
  player_list := fun _ => []
  monster_list := fun key =>
    if key = sectorIndex 16 96 96 then [⟨3, ⟨104, 100, 5⟩, false, true, false⟩] else []
  npc_list := fun _ => []

/-! ### The attribute records of an item node -/

/-- The second stream reads the same buffer, with its cursor inside the buffer and not
before the cursor of the first. -/
def FileStream.Advances (s s1 : FileStream) : Prop :=
  s1.m_data = s.m_data ∧ s1.m_nodes = s.m_nodes ∧ s1.m_pos ≤ s1.m_data.length ∧
    s.m_pos ≤ s1.m_pos

/-- None of the attribute tags that `readAttr` decodes is 0, the value that `getU8` hands
out at the end of the buffer. -/
def Env.AttrTagsNonZero {I HS ZS : Type} (env : Env I HS ZS) : Prop :=
  env.ATTR_DEPOT_ID ≠ 0 ∧ env.ATTR_HOUSEDOORID ≠ 0 ∧ env.ATTR_TELE_DEST ≠ 0 ∧
  env.ATTR_COUNT ≠ 0 ∧ env.ATTR_CHARGES ≠ 0 ∧ env.ATTR_ACTION_ID ≠ 0 ∧
  env.ATTR_UNIQUE_ID ≠ 0 ∧ env.ATTR_TEXT ≠ 0 ∧ env.ATTR_DESC ≠ 0

/-- One attribute record of an item node, as the format lists them: depot id, house door
id, teleport destination, count, charges, action id, unique id, text and description. -/
inductive AttrRecord where
  | depotId (v : Nat)
  | houseDoorId (v : Nat)
  | teleDest (x y z : Nat)
  | count (v : Nat)
  | charges (v : Nat)
  | actionId (v : Nat)
  | uniqueId (v : Nat)
  | text (str : List Nat)
  | desc (str : List Nat)
  deriving DecidableEq

/-- The bytes of a tag or of an integer as they stand in the buffer: escaped inside a
node (`m_nodes > 0`, where the reads skip the escape byte), plain outside. -/
def streamBytes (m_nodes : Nat) (bytes : List Nat) : List Nat :=
  if m_nodes > 0 then OTB.escapeProps bytes else bytes

/-- The bytes of one attribute record: the tag, then the fields, integers little-endian;
a string is a u16 length followed by that many bytes, which `getString` copies as they
are. -/
def AttrRecord.encode {I HS ZS : Type} (env : Env I HS ZS) (m_nodes : Nat) :
    AttrRecord → List Nat
  | .depotId v => streamBytes m_nodes [env.ATTR_DEPOT_ID] ++
      streamBytes m_nodes (toLittleEndian 2 v)
  | .houseDoorId v => streamBytes m_nodes [env.ATTR_HOUSEDOORID] ++
      streamBytes m_nodes (toLittleEndian 1 v)
  | .teleDest x y z => streamBytes m_nodes [env.ATTR_TELE_DEST] ++
      (streamBytes m_nodes (toLittleEndian 2 x) ++ (streamBytes m_nodes (toLittleEndian 2 y) ++
        streamBytes m_nodes (toLittleEndian 1 z)))
  | .count v => streamBytes m_nodes [env.ATTR_COUNT] ++
      streamBytes m_nodes (toLittleEndian 1 v)
  | .charges v => streamBytes m_nodes [env.ATTR_CHARGES] ++
      streamBytes m_nodes (toLittleEndian 2 v)
  | .actionId v => streamBytes m_nodes [env.ATTR_ACTION_ID] ++
      streamBytes m_nodes (toLittleEndian 2 v)
  | .uniqueId v => streamBytes m_nodes [env.ATTR_UNIQUE_ID] ++
      streamBytes m_nodes (toLittleEndian 2 v)
  | .text str => streamBytes m_nodes [env.ATTR_TEXT] ++
      (streamBytes m_nodes (toLittleEndian 2 str.length) ++ str)
  | .desc str => streamBytes m_nodes [env.ATTR_DESC] ++
      (streamBytes m_nodes (toLittleEndian 2 str.length) ++ str)

/-- The bytes of a run of attribute records. -/
def encodeRecords {I HS ZS : Type} (env : Env I HS ZS) (m_nodes : Nat) :
    List AttrRecord → List Nat
  | [] => []
  | r :: rest => r.encode env m_nodes ++ encodeRecords env m_nodes rest

/-- The fields of a record fit their widths: u16 and u8 values, and strings shorter than
`maxStringLen`, the longest that `getString` copies. -/
def AttrRecord.Valid : AttrRecord → Prop
  | .depotId v => v < 65536
  | .houseDoorId v => v < 256
  | .teleDest x y z => x < 65536 ∧ y < 65536 ∧ z < 256
  | .count v => v < 256
  | .charges v => v < 65536
  | .actionId v => v < 65536
  | .uniqueId v => v < 65536
  | .text str => str.length < FileStream.maxStringLen
  | .desc str => str.length < FileStream.maxStringLen

/-- The nine attribute tags that `readAttr` decodes, in the order of its `switch`. -/
def Env.attrTags {I HS ZS : Type} (env : Env I HS ZS) : List Nat :=
  [env.ATTR_DEPOT_ID, env.ATTR_HOUSEDOORID, env.ATTR_TELE_DEST, env.ATTR_COUNT,
    env.ATTR_CHARGES, env.ATTR_ACTION_ID, env.ATTR_UNIQUE_ID, env.ATTR_TEXT, env.ATTR_DESC]

/-- The last record of a run that the selector picks, if there is one. -/
def lastRecord {α : Type} (f : AttrRecord → Option α) (recs : List AttrRecord) : Option α :=
  (recs.filterMap f).getLast?

/-- The destination of a teleport-destination record. -/
def AttrRecord.dest? : AttrRecord → Option (Nat × Nat × Nat)
  | .teleDest x y z => some (x, y, z)
  | _ => none

/-- The value of a count record or of a charges record. -/
def AttrRecord.charges? : AttrRecord → Option Nat
  | .count v => some v
  | .charges v => some v
  | _ => none

/-- The value of an action-id record. -/
def AttrRecord.actionId? : AttrRecord → Option Nat
  | .actionId v => some v
  | _ => none

/-- The value of a unique-id record. -/
def AttrRecord.uniqueId? : AttrRecord → Option Nat
  | .uniqueId v => some v
  | _ => none

/-- The value of a depot-id record or of a house-door-id record, which share the field
`doorOrDepotId`. -/
def AttrRecord.doorOrDepotId? : AttrRecord → Option Nat
  | .depotId v => some v
  | .houseDoorId v => some v
  | _ => none

/-- The string of a text record that is not empty. -/
def AttrRecord.text? : AttrRecord → Option (List Nat)
  | .text str => if str.isEmpty then none else some str
  | _ => none

/-- The assignment that the `switch` of `readAttr` makes for one record. -/
def AttrRecord.assign (item : BasicItem) : AttrRecord → BasicItem
  | .depotId v => item.setDoorOrDepotId v
  | .houseDoorId v => item.setDoorOrDepotId v
  | .teleDest x y z => item.setDest x y z
  | .count v => item.setCharges v
  | .charges v => item.setCharges v
  | .actionId v => item.setActionId v
  | .uniqueId v => item.setUniqueId v
  | .text str => if str.isEmpty then item else item.setText str
  | .desc _ => item

/-! ### The tiles that `checkSightLine` samples -/

/-- The coordinates that the loop of the horizontal case hands to `getTile`, in order, when
no tile makes it return: the loop `sightRow` without the test of the tile. -/
def rowSamples (delta y z : Nat) : Nat → Nat → List (Nat × Nat × Nat)
  | 0, _ => []
  | n + 1, x =>
    if 0 < n then
      ((x + delta) % 65536, y, z) :: rowSamples delta y z n ((x + delta) % 65536)
    else []

/-- The coordinates that the loop of the vertical case hands to `getTile`: the loop
`sightColumn` without the test of the tile. -/
def columnSamples (delta x z : Nat) : Nat → Nat → List (Nat × Nat × Nat)
  | 0, _ => []
  | n + 1, y =>
    if 0 < n then
      (x, (y + delta) % 65536, z) :: columnSamples delta x z n ((y + delta) % 65536)
    else []

/-- The coordinates that the loop of the steep diagonal case hands to `getTile`: the loop
`sightSteep` without the test of the tile. -/
def steepSamples (eAdj deltaX z : Nat) : Nat → Nat → Nat → Nat → List (Nat × Nat × Nat)
  | 0, _, _, _ => []
  | n + 1, eAcc, x, y =>
    if 0 < n then
      let eAccTemp := eAcc
      let eAcc1 := (eAcc + eAdj) % 65536
      let xIncrease := if eAcc1 ≤ eAccTemp then deltaX else 0
      ((x + xIncrease) % 65536, (y + 1) % 65536, z) ::
        steepSamples eAdj deltaX z n eAcc1 ((x + xIncrease) % 65536) ((y + 1) % 65536)
    else []

/-- The coordinates that the loop of the shallow diagonal case hands to `getTile`: the
loop `sightShallow` without the test of the tile. -/
def shallowSamples (eAdj deltaY z : Nat) : Nat → Nat → Nat → Nat → List (Nat × Nat × Nat)
  | 0, _, _, _ => []
  | n + 1, eAcc, x, y =>
    if 0 < n then
      let eAccTemp := eAcc
      let eAcc1 := (eAcc + eAdj) % 65536
      let yIncrease := if eAcc1 ≤ eAccTemp then deltaY else 0
      ((x + 1) % 65536, (y + yIncrease) % 65536, z) ::
        shallowSamples eAdj deltaY z n eAcc1 ((x + 1) % 65536) ((y + yIncrease) % 65536)
    else []

/-- The coordinates that `checkSightLine` hands to `getTile`, in order, when no tile makes
it return: `checkSightLine` with every loop replaced by its list of samples. -/
def sightSamples (start destination : Position) : List (Nat × Nat × Nat) :=
  if start.x = destination.x ∧ start.y = destination.y then []
  else
    let distanceX := (Position.getDistanceX start destination).toNat
    let distanceY := (Position.getDistanceY start destination).toNat
    if start.y = destination.y then
      let delta := if start.x < destination.x then 1 else 65535
      rowSamples delta start.y start.z distanceX start.x
    else if start.x = destination.x then
      let delta := if start.y < destination.y then 1 else 65535
      columnSamples delta start.x start.z distanceY start.y
    else if distanceY > distanceX then
      let eAdj := (((distanceX <<< 16) % 4294967296) / distanceY) % 65536
      let start1 : Position :=
        if start.y > destination.y then ⟨destination.x, destination.y, start.z⟩ else start
      let destination1 : Position :=
        if start.y > destination.y then ⟨start.x, start.y, destination.z⟩ else destination
      let deltaX := if start1.x > destination1.x then 65535 else 1
      let eAcc := if start1.x > destination1.x then (0 + 65536 - eAdj) % 65536 else 0
      steepSamples eAdj deltaX start1.z distanceY eAcc start1.x start1.y
    else
      let eAdj := (((distanceY <<< 16) % 4294967296) / distanceX) % 65536
      let start1 : Position :=
        if start.x > destination.x then ⟨destination.x, destination.y, start.z⟩ else start
      let destination1 : Position :=
        if start.x > destination.x then ⟨start.x, start.y, destination.z⟩ else destination
      let deltaY := if start1.y > destination1.y then 65535 else 1
      let eAcc := if start1.y > destination1.y then (0 + 65536 - eAdj) % 65536 else 0
      shallowSamples eAdj deltaY start1.z distanceX eAcc start1.x start1.y

/-- The test of a sampled coordinate: the tile there blocks projectiles. -/
def SightMap.blocksSample {T : Type} (w : SightMap T) (t : Nat × Nat × Nat) : Bool :=
  w.blocksAt t.1 t.2.1 t.2.2

/-! ### `getSpectators` as a filter -/

/-- The list of a sector that `getSpectators` reads for the category flags (`nodeList`). -/
def SpectatorWorld.nodeList {I : Type} (world : SpectatorWorld I)
    (onlyPlayers onlyMonsters onlyNpcs : Bool) (sector : Nat) : List Creature :=
  if onlyPlayers then world.player_list sector
  else if onlyMonsters then world.monster_list sector
  else if onlyNpcs then world.npc_list sector
  else world.creature_list sector

/-- The body of the inner loop of `getSpectators` for one sector pointer: nothing for the
null pointer and for a sector of `processedSectors`, else the creatures of the list that
pass the test are appended and the sector is recorded. -/
def visitSector {I : Type} (world : SpectatorWorld I)
    (onlyPlayers onlyMonsters onlyNpcs : Bool) (accept : Creature → Bool)
    (state : List Creature × List Nat) : Option Nat → List Creature × List Nat
  | none => state
  | some sector =>
    if state.2.contains sector then state
    else
      (state.1 ++ (world.nodeList onlyPlayers onlyMonsters onlyNpcs sector).filter accept,
        sector :: state.2)

/-- The values `minRangeZ` and `maxRangeZ` that `getSpectators` computes. -/
def spectatorRangeZ (k : SpectatorConsts) (centerPos : Position) (multifloor : Bool) :
    Int × Int :=
  let z : Int := centerPos.z
  if multifloor then
    if z > k.MAP_INIT_SURFACE_LAYER then
      (toUInt8 (max (toInt8 (z - k.MAP_LAYER_VIEW_LIMIT)) (toInt8 0)),
        toUInt8 (min (toInt8 (z + k.MAP_LAYER_VIEW_LIMIT)) (toInt8 (k.MAP_MAX_LAYERS - 1))))
    else if z = k.MAP_INIT_SURFACE_LAYER - 1 then
      (0, toUInt8 ((k.MAP_INIT_SURFACE_LAYER - 1) + k.MAP_LAYER_VIEW_LIMIT))
    else if z = k.MAP_INIT_SURFACE_LAYER then
      (0, toUInt8 (k.MAP_INIT_SURFACE_LAYER + k.MAP_LAYER_VIEW_LIMIT))
    else (0, toUInt8 k.MAP_INIT_SURFACE_LAYER)
  else (z, z)

/-- The sector pointers that the two loops of `getSpectators` meet when the links are
consistent: for `rows` rows from `ny` and `columns` columns from `nx`, the pointer that
`getMapSector` returns at each grid coordinate, row by row. -/
def sectorGrid {I : Type} (SECTOR_SIZE : Nat) (mapSectors : Nat → Option (MapSector I))
    (nx ny columns rows : Nat) : List (Option Nat) :=
  (List.range rows).flatMap (fun j =>
    (List.range columns).map (fun i =>
      sectorPtr mapSectors (sectorIndex SECTOR_SIZE (nx + i * SECTOR_SIZE)
        (ny + j * SECTOR_SIZE))))

/-- The corners `x1`, `y1`, `x2`, `y2` of the area that `getSpectators` scans, clamped to
the 16-bit range as in the source. -/
def spectatorCorners (k : SpectatorConsts) (centerPos : Position) (multifloor : Bool)
    (minRangeX maxRangeX minRangeY maxRangeY : Int) : Nat × Nat × Nat × Nat :=
  let z : Int := centerPos.z
  let minRangeZ := (spectatorRangeZ k centerPos multifloor).1
  let maxRangeZ := (spectatorRangeZ k centerPos multifloor).2
  let min_y : Int := (centerPos.y : Int) + minRangeY
  let min_x : Int := (centerPos.x : Int) + minRangeX
  let max_y : Int := (centerPos.y : Int) + maxRangeY
  let max_x : Int := (centerPos.x : Int) + maxRangeX
  let minoffset : Int := z - maxRangeZ
  let maxoffset : Int := z - minRangeZ
  ((min 65535 (max 0 (min_x + minoffset))).toNat,
    (min 65535 (max 0 (min_y + minoffset))).toNat,
    (min 65535 (max 0 (max_x + maxoffset))).toNat,
    (min 65535 (max 0 (max_y + maxoffset))).toNat)

/-! ## Theorems -/

namespace OTB

/-! ### Unfolding lemmas -/

theorem parseLoop_nil (it : Nat) (stack : List Node) (done : Option Node) :
    parseLoop [] it stack done = .ok (stack, done) := by
  rw [parseLoop.eq_def]

theorem parseLoop_start (ty : Nat) (rest : List Nat) (it : Nat) (cur : Node)
    (below : List Node) (done : Option Node) :
    parseLoop (START :: ty :: rest) it (cur :: below) done =
      parseLoop rest (it + 2)
        (Node.mk [] (it + 2) 0 ty :: cur.setPropsEndIfLeaf it :: below) done := by
  rw [parseLoop.eq_def]; simp

theorem parseLoop_end_root (rest : List Nat) (it : Nat) (cur : Node) (done : Option Node) :
    parseLoop (END :: rest) it [cur] done =
      parseLoop rest (it + 1) [] (some (cur.setPropsEndIfLeaf it)) := by
  rw [parseLoop.eq_def]; simp [START, END]

theorem parseLoop_end_child (rest : List Nat) (it : Nat) (cur parent : Node)
    (above : List Node) (done : Option Node) :
    parseLoop (END :: rest) it (cur :: parent :: above) done =
      parseLoop rest (it + 1) (parent.addChild (cur.setPropsEndIfLeaf it) :: above) done := by
  rw [parseLoop.eq_def]; simp [START, END]

theorem parseLoop_escape (x : Nat) (rest : List Nat) (it : Nat) (stack : List Node)
    (done : Option Node) :
    parseLoop (ESCAPE :: x :: rest) it stack done = parseLoop rest (it + 2) stack done := by
  rw [parseLoop.eq_def]; simp [START, END, ESCAPE]

theorem parseLoop_plain (byte : Nat) (rest : List Nat) (it : Nat) (stack : List Node)
    (done : Option Node) (h1 : byte ≠ START) (h2 : byte ≠ END) (h3 : byte ≠ ESCAPE) :
    parseLoop (byte :: rest) it stack done = parseLoop rest (it + 1) stack done := by
  rw [parseLoop.eq_def]; simp [h1, h2, h3]

theorem framing_cons (byte : Nat) (rest : List Nat) (depth : Nat) :
    framing (byte :: rest) depth =
      if byte = START then
        if depth = 0 then .error .sentinelAfterRoot
        else
          match rest with
          | [] => .error .nodeOpenAtEnd
          | _ :: rest' => framing rest' (depth + 1)
      else if byte = END then
        if depth = 0 then .error .sentinelAfterRoot
        else framing rest (depth - 1)
      else if byte = ESCAPE then
        match rest with
        | [] => .error .truncatedEscape
        | _ :: rest' => framing rest' depth
      else framing rest depth := by
  rw [framing.eq_def]

/-! ### Malformed framing is rejected -/

theorem afterLoop_parseLoop_of_framing_error (rest : List Nat) (it : Nat) (stack : List Node)
    (done : Option Node) (m : Malformed) (h : framing rest stack.length = .error m) :
    Loader.afterLoop (parseLoop rest it stack done) = .error .invalidOTBFormat := by
  induction rest, it, stack, done using parseLoop.induct with
  | case1 it stack done =>
    cases stack with
    | nil => simp [framing] at h
    | cons c cs => simp [parseLoop_nil, Loader.afterLoop]
  | case2 rest it done => rw [parseLoop.eq_def]; simp [Loader.afterLoop]
  | case3 it done cur below => rw [parseLoop.eq_def]; simp [Loader.afterLoop]
  | case4 it done cur below ty rest' ih =>
    rw [parseLoop_start]
    apply ih
    rw [framing_cons] at h
    simpa using h
  | case5 rest it done hne => rw [parseLoop.eq_def]; simp [Loader.afterLoop, hne]
  | case6 rest it done cur hne ih =>
    rw [parseLoop_end_root]
    apply ih
    rw [framing_cons] at h
    simpa [hne] using h
  | case7 rest it done cur parent below hne ih =>
    rw [parseLoop_end_child]
    apply ih
    rw [framing_cons] at h
    simpa [hne] using h
  | case8 it stack done h1 h2 => rw [parseLoop.eq_def]; simp [Loader.afterLoop, h1, h2]
  | case9 it stack done ty rest' h1 h2 ih =>
    rw [parseLoop_escape]
    apply ih
    rw [framing_cons] at h
    simpa [h1, h2] using h
  | case10 byte rest it stack done h1 h2 h3 ih =>
    rw [parseLoop_plain _ _ _ _ _ h1 h2 h3]
    apply ih
    rw [framing_cons] at h
    simpa [h1, h2, h3] using h

/-- C1: `Loader::parseTree` raises `InvalidOTBFormat`, and so returns no tree at all,
whenever the buffer is malformed: the byte after the four identifier bytes is not START,
or a node is still open when the buffer ends, or a START or END sentinel is met after the
root has been closed, or the buffer ends right after an unescaped ESCAPE byte. -/
theorem parseTree_raises_on_malformed (buf : List Nat)
    (h : buf[4]? ≠ some START ∨
      framing (buf.drop 6) 1 = .error .nodeOpenAtEnd ∨
      framing (buf.drop 6) 1 = .error .sentinelAfterRoot ∨
      framing (buf.drop 6) 1 = .error .truncatedEscape) :
    Loader.parseTree ⟨buf⟩ = .error .invalidOTBFormat := by
  unfold Loader.parseTree
  split
  · rfl
  · dsimp only
    cases h4 : buf[4]? with
    | none => rfl
    | some first =>
      dsimp only
      by_cases hs : first = START
      · subst hs
        have hm : ∃ m, framing (buf.drop 6) 1 = .error m := by
          rcases h with h | h | h | h
          · exact absurd h4 h
          · exact ⟨_, h⟩
          · exact ⟨_, h⟩
          · exact ⟨_, h⟩
        obtain ⟨m, hm⟩ := hm
        simp only [ne_eq, not_true_eq_false, if_false]
        cases h5 : buf[5]? with
        | none => rfl
        | some rootType =>
          exact afterLoop_parseLoop_of_framing_error _ _ [_] _ m hm
      · simp [hs]

/-- Witness for C1: one buffer for each of the four ways of being malformed. -/
theorem parseTree_raises_on_malformed_witness :
    Loader.parseTree ⟨[0, 0, 0, 0, 1, 1, 0xFF, 0]⟩ = .error .invalidOTBFormat ∧
    Loader.parseTree ⟨[0, 0, 0, 0, 0xFE, 1, 0xFE, 2, 0xFF]⟩ = .error .invalidOTBFormat ∧
    Loader.parseTree ⟨[0, 0, 0, 0, 0xFE, 1, 0xFF, 0xFF]⟩ = .error .invalidOTBFormat ∧
    Loader.parseTree ⟨[0, 0, 0, 0, 0xFE, 1, 0xFF, 0xFD]⟩ = .error .invalidOTBFormat :=
  ⟨parseTree_raises_on_malformed _ (Or.inl (by decide)),
   parseTree_raises_on_malformed _ (Or.inr (Or.inl rfl)),
   parseTree_raises_on_malformed _ (Or.inr (Or.inr (Or.inl rfl))),
   parseTree_raises_on_malformed _ (Or.inr (Or.inr (Or.inr rfl)))⟩

/-! ### Well-framed buffers are accepted -/

theorem afterLoop_parseLoop_of_framing_ok (rest : List Nat) (it : Nat) (stack : List Node)
    (done : Option Node) :
    framing rest stack.length = .ok () → (stack = [] → done.isSome = true) →
    ∃ root, Loader.afterLoop (parseLoop rest it stack done) = .ok root := by
  induction rest, it, stack, done using parseLoop.induct with
  | case1 it stack done =>
    intro h hd
    cases stack with
    | nil =>
      cases done with
      | none => simp at hd
      | some r => exact ⟨r, by rw [parseLoop_nil]; rfl⟩
    | cons c cs => simp [framing] at h
  | case2 rest it done => intro h; rw [framing_cons] at h; simp at h
  | case3 it done cur below => intro h; rw [framing_cons] at h; simp at h
  | case4 it done cur below ty rest' ih =>
    intro h _
    rw [parseLoop_start]
    refine ih ?_ (by simp)
    rw [framing_cons] at h
    simpa using h
  | case5 rest it done hne => intro h; rw [framing_cons] at h; simp [hne] at h
  | case6 rest it done cur hne ih =>
    intro h _
    rw [parseLoop_end_root]
    refine ih ?_ (by simp)
    rw [framing_cons] at h
    simpa [hne] using h
  | case7 rest it done cur parent below hne ih =>
    intro h _
    rw [parseLoop_end_child]
    refine ih ?_ (by simp)
    rw [framing_cons] at h
    simpa [hne] using h
  | case8 it stack done h1 h2 => intro h; rw [framing_cons] at h; simp [h1, h2] at h
  | case9 it stack done ty rest' h1 h2 ih =>
    intro h hd
    rw [parseLoop_escape]
    refine ih ?_ hd
    rw [framing_cons] at h
    simpa [h1, h2] using h
  | case10 byte rest it stack done h1 h2 h3 ih =>
    intro h hd
    rw [parseLoop_plain _ _ _ _ _ h1 h2 h3]
    refine ih ?_ hd
    rw [framing_cons] at h
    simpa [h1, h2, h3] using h

/-- Acceptance: a buffer with START at offset 4 and a well-formed framing after the root
type byte is parsed into a tree, so a malformed framing and a missing START are the only
reasons for `parseTree` to reject a buffer. -/
theorem parseTree_accepts_well_framed (buf : List Nat) (h4 : buf[4]? = some START)
    (hf : framing (buf.drop 6) 1 = .ok ()) : ∃ root, Loader.parseTree ⟨buf⟩ = .ok root := by
  have hne : buf.drop 6 ≠ [] := by
    intro h0
    rw [h0] at hf
    simp [framing] at hf
  have hlen : 6 < buf.length := by
    by_contra hc
    exact hne (List.drop_eq_nil_of_le (by omega))
  have hl : Loader.isLoaded ⟨buf⟩ = true := by
    cases buf with
    | nil => simp at hlen
    | cons b bs => rfl
  unfold Loader.parseTree
  rw [hl, h4, List.getElem?_eq_getElem (by omega : 5 < buf.length)]
  simp only [Bool.not_true, Bool.false_eq_true, if_false, ne_eq, not_true_eq_false]
  exact afterLoop_parseLoop_of_framing_ok _ 6 [_] none hf (by simp)

/-! ### Escaped bytes are literal data -/

theorem parseLoop_set_escaped (rest : List Nat) (k v : Nat) :
    k ∈ escapedOffsets rest → ∀ (it : Nat) (stack : List Node) (done : Option Node),
      parseLoop (rest.set k v) it stack done = parseLoop rest it stack done := by
  induction rest using escapedOffsets.induct generalizing k with
  | case1 => intro h; simp [escapedOffsets] at h
  | case2 => intro h; simp [escapedOffsets] at h
  | case3 ty rest' ih =>
    intro h it stack done
    simp only [escapedOffsets, if_true, List.mem_map] at h
    obtain ⟨j, hj, rfl⟩ := h
    cases stack with
    | nil => rw [parseLoop.eq_def, parseLoop.eq_def (START :: ty :: rest')]; simp
    | cons cur below =>
      simp only [List.set_cons_succ]
      rw [parseLoop_start, parseLoop_start]
      exact ih j hj _ _ _
  | case4 h1 => intro h; simp [escapedOffsets, h1] at h
  | case5 x rest' h1 ih =>
    intro h it stack done
    simp only [escapedOffsets, h1, if_false, if_true, List.mem_cons, List.mem_map] at h
    rcases h with rfl | ⟨j, hj, rfl⟩
    · simp only [List.set_cons_succ, List.set_cons_zero]
      rw [parseLoop_escape, parseLoop_escape]
    · simp only [List.set_cons_succ]
      rw [parseLoop_escape, parseLoop_escape]
      exact ih j hj _ _ _
  | case6 byte rest h1 h2 ih =>
    intro h it stack done
    rw [escapedOffsets.eq_def] at h
    simp only [h1, h2, if_false, List.mem_map] at h
    obtain ⟨j, hj, rfl⟩ := h
    simp only [List.set_cons_succ]
    by_cases h3 : byte = END
    · subst h3
      cases stack with
      | nil => rw [parseLoop.eq_def, parseLoop.eq_def (END :: rest)]; simp
      | cons cur below =>
        cases below with
        | nil =>
          rw [parseLoop_end_root, parseLoop_end_root]
          exact ih j hj _ _ _
        | cons parent above =>
          rw [parseLoop_end_child, parseLoop_end_child]
          exact ih j hj _ _ _
    · rw [parseLoop_plain _ _ _ _ _ h1 h3 h2, parseLoop_plain _ _ _ _ _ h1 h3 h2]
      exact ih j hj _ _ _

/-- C3: a byte that immediately follows an unescaped ESCAPE byte is literal data for
`Loader::parseTree`. Overwriting it with any value changes nothing in the outcome: the
same buffers are rejected, and an accepted buffer yields the same tree (same nodes, same
nesting and order, same type bytes, and also the same property offsets). -/
theorem parseTree_ignores_escaped_byte (buf : List Nat) (k v : Nat)
    (h : k ∈ escapedOffsets (buf.drop 6)) :
    Loader.parseTree ⟨buf.set (6 + k) v⟩ = Loader.parseTree ⟨buf⟩ := by
  have hdrop : (buf.set (6 + k) v).drop 6 = (buf.drop 6).set k v := by
    rw [List.drop_set]
    simp
  have h4 : (buf.set (6 + k) v)[4]? = buf[4]? := by
    rw [List.getElem?_set_ne (by omega)]
  have h5 : (buf.set (6 + k) v)[5]? = buf[5]? := by
    rw [List.getElem?_set_ne (by omega)]
  have hl : Loader.isLoaded ⟨buf.set (6 + k) v⟩ = Loader.isLoaded ⟨buf⟩ := by
    cases buf <;> simp [Loader.isLoaded]
  unfold Loader.parseTree
  rw [hl]
  simp only [h4, h5, hdrop]
  split
  · rfl
  · cases buf[4]? with
    | none => rfl
    | some first =>
      dsimp only
      split
      · rfl
      · cases buf[5]? with
        | none => rfl
        | some rootType =>
          dsimp only
          rw [parseLoop_set_escaped _ _ _ h]

/-- Witness for C3: in `FE 01 FD 41 FF` after the identifier, the byte `41` follows an
unescaped ESCAPE; overwriting it with END leaves the parse unchanged. -/
theorem parseTree_ignores_escaped_byte_witness :
    Loader.parseTree ⟨[0, 0, 0, 0, 0xFE, 1, 0xFD, 0xFF, 0xFF]⟩ =
      Loader.parseTree ⟨[0, 0, 0, 0, 0xFE, 1, 0xFD, 0x41, 0xFF]⟩ :=
  parseTree_ignores_escaped_byte [0, 0, 0, 0, 0xFE, 1, 0xFD, 0x41, 0xFF] 1 0xFF (by decide)


/-! ### Property ranges of parsed nodes -/

theorem range_self (buf : List Nat) (b : Nat) : Loader.range ⟨buf⟩ b b = [] := by
  simp [Loader.range]

theorem range_snoc (buf : List Nat) (b e x : Nat) (hbe : b ≤ e) (hx : buf[e]? = some x) :
    Loader.range ⟨buf⟩ b (e + 1) = Loader.range ⟨buf⟩ b e ++ [x] := by
  unfold Loader.range
  have h1 : e + 1 - b = (e - b) + 1 := by omega
  have h2 : b + (e - b) = e := by omega
  rw [h1, List.take_succ, List.getElem?_drop, h2, hx]
  rfl

theorem range_length (buf : List Nat) (b e : Nat) (he : e ≤ buf.length) :
    (Loader.range ⟨buf⟩ b e).length = e - b := by
  simp [Loader.range]
  omega

theorem isRawProps_append (xs ys : List Nat) (h : isRawProps xs = true) :
    isRawProps (xs ++ ys) = isRawProps ys := by
  induction xs using isRawProps.induct with
  | case1 => rfl
  | case2 => simp [isRawProps] at h
  | case3 x rest' ih =>
    simp only [isRawProps, if_true] at h
    simp only [List.cons_append, isRawProps, if_true]
    exact ih h
  | case4 byte rest h1 h2 =>
    rw [isRawProps.eq_def] at h
    simp [h1, h2] at h
  | case5 byte rest h1 h2 ih =>
    rw [isRawProps.eq_def] at h
    simp only [h1, h2, if_false] at h
    rw [List.cons_append, isRawProps.eq_def]
    simp only [h1, h2, if_false]
    exact ih h

theorem isRawProps_snoc_plain (xs : List Nat) (x : Nat) (h : isRawProps xs = true)
    (h1 : x ≠ START) (h2 : x ≠ END) (h3 : x ≠ ESCAPE) : isRawProps (xs ++ [x]) = true := by
  rw [isRawProps_append _ _ h, isRawProps.eq_def]
  simp [h1, h2, h3, isRawProps]

theorem isRawProps_snoc_escape (xs : List Nat) (x : Nat) (h : isRawProps xs = true) :
    isRawProps (xs ++ [ESCAPE] ++ [x]) = true := by
  rw [List.append_assoc, isRawProps_append _ _ h]
  simp [isRawProps]

theorem unescapeLoop_eq_unescape (xs : List Nat) :
    Loader.unescapeLoop xs false = unescape xs := by
  induction xs using unescape.induct with
  | case1 => rfl
  | case2 => simp [Loader.unescapeLoop, unescape]
  | case3 x rest' ih => simp [Loader.unescapeLoop, unescape, ih]
  | case4 byte rest h ih =>
    rw [unescape.eq_def]
    simp [Loader.unescapeLoop, h, ih]

theorem unescape_length (xs : List Nat) :
    (unescape xs).length + escapeCount xs = xs.length := by
  induction xs using unescape.induct with
  | case1 => rfl
  | case2 => simp [unescape, escapeCount]
  | case3 x rest' ih => simp [unescape, escapeCount]; omega
  | case4 byte rest h ih =>
    rw [unescape.eq_def, escapeCount.eq_def]
    simp [h]; omega

theorem subtree_mk (c : List Node) (b e t : Nat) :
    (Node.mk c b e t).subtree = Node.mk c b e t :: subtreeList c := by
  rw [Node.subtree]

theorem subtree_eq (n : Node) : n.subtree = n :: subtreeList n.children := by
  cases n with
  | mk c b e t => rw [subtree_mk]; rfl

theorem subtreeList_append (xs ys : List Node) :
    subtreeList (xs ++ ys) = subtreeList xs ++ subtreeList ys := by
  induction xs with
  | nil => simp [subtreeList]
  | cons x xs ih => simp [subtreeList, ih]


theorem drop_eq_cons {buf : List Nat} {it x : Nat} {rest : List Nat}
    (h : buf.drop it = x :: rest) : buf[it]? = some x ∧ buf.drop (it + 1) = rest := by
  constructor
  · have h0 : (buf.drop it)[0]? = some x := by rw [h]; simp
    rw [List.getElem?_drop] at h0
    simpa using h0
  · have h1 : (buf.drop it).drop 1 = rest := by rw [h]; rfl
    rw [List.drop_drop] at h1
    rw [← h1]

@[simp] theorem setPropsEndIfLeaf_propsBegin (n : Node) (it : Nat) :
    (n.setPropsEndIfLeaf it).propsBegin = n.propsBegin := by
  unfold Node.setPropsEndIfLeaf; split <;> rfl

@[simp] theorem setPropsEndIfLeaf_type (n : Node) (it : Nat) :
    (n.setPropsEndIfLeaf it).type = n.type := by
  unfold Node.setPropsEndIfLeaf; split <;> rfl

@[simp] theorem setPropsEndIfLeaf_children (n : Node) (it : Nat) :
    (n.setPropsEndIfLeaf it).children = n.children := by
  unfold Node.setPropsEndIfLeaf; split <;> rfl

theorem setPropsEndIfLeaf_leaf (n : Node) (it : Nat) (h : n.children = []) :
    (n.setPropsEndIfLeaf it).propsEnd = it := by
  unfold Node.setPropsEndIfLeaf; simp [h, Node.propsEnd]

theorem setPropsEndIfLeaf_inner (n : Node) (it : Nat) (h : n.children ≠ []) :
    n.setPropsEndIfLeaf it = n := by
  unfold Node.setPropsEndIfLeaf; simp [h]

@[simp] theorem addChild_propsBegin (n c : Node) : (n.addChild c).propsBegin = n.propsBegin := rfl

@[simp] theorem addChild_propsEnd (n c : Node) : (n.addChild c).propsEnd = n.propsEnd := rfl

@[simp] theorem addChild_type (n c : Node) : (n.addChild c).type = n.type := rfl

@[simp] theorem addChild_children (n c : Node) : (n.addChild c).children = n.children ++ [c] := rfl

theorem frameOpen_new (buf : List Nat) (it ty : Nat) (h0 : buf[it]? = some START)
    (h1 : buf[it + 1]? = some ty) : FrameOpen buf (it + 2) (Node.mk [] (it + 2) 0 ty) := by
  refine ⟨by simp [Node.propsBegin], ?_, ?_, ?_, ?_⟩
  · simpa [Node.propsBegin] using h0
  · simpa [Node.propsBegin, Node.type] using h1
  · intro m hm; simp [Node.children, subtreeList] at hm
  · simp [Node.children, Node.propsBegin, range_self, isRawProps]

theorem frameOpen_to_waiting (buf : List Nat) (it : Nat) (cur : Node)
    (h : FrameOpen buf it cur) (h0 : buf[it]? = some START) (aboveBegin : Nat)
    (ha : aboveBegin = it + 2) :
    FrameWaiting buf aboveBegin (cur.setPropsEndIfLeaf it) := by
  obtain ⟨p1, p2, p3, p4, p5⟩ := h
  cases hc : cur.children with
  | nil =>
    rw [hc] at p5
    refine ⟨by simpa using p1, by simpa using p2, by simpa using p3, by simpa using p4, ?_⟩
    simp only [setPropsEndIfLeaf_propsBegin, setPropsEndIfLeaf_children,
      setPropsEndIfLeaf_leaf _ _ hc, hc]
    exact ⟨p5.1, p5.2, h0, ha⟩
  | cons c cs =>
    rw [hc] at p5
    have hne : cur.children ≠ [] := by simp [hc]
    rw [setPropsEndIfLeaf_inner _ _ hne]
    refine ⟨p1, p2, p3, p4, p5.1, p5.2.1, p5.2.2.1, ?_⟩
    rw [hc]
    exact p5.2.2.2

theorem frameOpen_close (buf : List Nat) (it : Nat) (cur : Node)
    (h : FrameOpen buf it cur) (h0 : buf[it]? = some END) :
    ∀ m ∈ (cur.setPropsEndIfLeaf it).subtree, m.Framed buf := by
  obtain ⟨p1, p2, p3, p4, p5⟩ := h
  intro m hm
  rw [subtree_eq, List.mem_cons] at hm
  rcases hm with rfl | hm
  · cases hc : cur.children with
    | nil =>
      rw [hc] at p5
      refine ⟨by simpa using p1, by simpa using p2, by simpa using p3, ?_⟩
      simp only [setPropsEndIfLeaf_propsBegin, setPropsEndIfLeaf_children,
        setPropsEndIfLeaf_leaf _ _ hc, hc]
      exact ⟨p5.1, p5.2, h0⟩
    | cons c cs =>
      rw [hc] at p5
      have hne : cur.children ≠ [] := by simp [hc]
      rw [setPropsEndIfLeaf_inner _ _ hne]
      refine ⟨p1, p2, p3, p5.1, p5.2.1, ?_⟩
      rw [hc]
      exact ⟨p5.2.2.1, p5.2.2.2⟩
  · rw [setPropsEndIfLeaf_children] at hm
    exact p4 m hm

theorem frameWaiting_addChild (buf : List Nat) (it : Nat) (parent ch : Node)
    (h : FrameWaiting buf ch.propsBegin parent) (hch : ∀ m ∈ ch.subtree, m.Framed buf) :
    FrameOpen buf it (parent.addChild ch) := by
  obtain ⟨p1, p2, p3, p4, p5, p6, p7, p8⟩ := h
  refine ⟨by simpa using p1, by simpa using p2, by simpa using p3, ?_, ?_⟩
  · intro m hm
    rw [addChild_children, subtreeList_append, List.mem_append] at hm
    rcases hm with hm | hm
    · exact p4 m hm
    · simp only [subtreeList, List.append_nil] at hm
      exact hch m hm
  · rw [addChild_children]
    cases hc : parent.children with
    | nil =>
      rw [hc] at p8
      simp only [List.nil_append, addChild_propsBegin, addChild_propsEnd]
      exact ⟨p5, p6, p7, p8⟩
    | cons c cs =>
      rw [hc] at p8
      simp only [List.cons_append, addChild_propsBegin, addChild_propsEnd]
      exact ⟨p5, p6, p7, p8⟩

theorem frameOpen_step_plain (buf : List Nat) (it x : Nat) (f : Node)
    (h : FrameOpen buf it f) (h0 : buf[it]? = some x)
    (h1 : x ≠ START) (h2 : x ≠ END) (h3 : x ≠ ESCAPE) : FrameOpen buf (it + 1) f := by
  obtain ⟨p1, p2, p3, p4, p5⟩ := h
  refine ⟨p1, p2, p3, p4, ?_⟩
  cases hc : f.children with
  | nil =>
    rw [hc] at p5
    simp only
    refine ⟨by omega, ?_⟩
    rw [range_snoc _ _ _ _ p5.1 h0]
    exact isRawProps_snoc_plain _ _ p5.2 h1 h2 h3
  | cons c cs =>
    rw [hc] at p5
    exact p5

theorem frameOpen_step_escape (buf : List Nat) (it x : Nat) (f : Node)
    (h : FrameOpen buf it f) (h0 : buf[it]? = some ESCAPE) (h1 : buf[it + 1]? = some x) :
    FrameOpen buf (it + 2) f := by
  obtain ⟨p1, p2, p3, p4, p5⟩ := h
  refine ⟨p1, p2, p3, p4, ?_⟩
  cases hc : f.children with
  | nil =>
    rw [hc] at p5
    simp only
    refine ⟨by omega, ?_⟩
    rw [range_snoc _ _ (it + 1) _ (by omega) h1, range_snoc _ _ _ _ p5.1 h0]
    exact isRawProps_snoc_escape _ _ p5.2
  | cons c cs =>
    rw [hc] at p5
    exact p5

theorem stackOk_step_plain (buf : List Nat) (it x : Nat) (stack : List Node)
    (h : StackOk buf it stack) (h0 : buf[it]? = some x)
    (h1 : x ≠ START) (h2 : x ≠ END) (h3 : x ≠ ESCAPE) : StackOk buf (it + 1) stack := by
  cases stack with
  | nil => trivial
  | cons top below => exact ⟨frameOpen_step_plain _ _ _ _ h.1 h0 h1 h2 h3, h.2⟩

theorem stackOk_step_escape (buf : List Nat) (it x : Nat) (stack : List Node)
    (h : StackOk buf it stack) (h0 : buf[it]? = some ESCAPE) (h1 : buf[it + 1]? = some x) :
    StackOk buf (it + 2) stack := by
  cases stack with
  | nil => trivial
  | cons top below => exact ⟨frameOpen_step_escape _ _ _ _ h.1 h0 h1, h.2⟩

theorem parseLoop_done_ok (buf : List Nat) (rest : List Nat) (it : Nat) (stack : List Node)
    (done : Option Node) :
    buf.drop it = rest → StackOk buf it stack → DoneOk buf done →
    ∀ stack' done', parseLoop rest it stack done = .ok (stack', done') → DoneOk buf done' := by
  induction rest, it, stack, done using parseLoop.induct with
  | case1 it stack done =>
    intro _ _ hd stack' done' h
    rw [parseLoop_nil] at h
    cases h
    exact hd
  | case2 rest it done =>
    intro _ _ _ stack' done' h
    rw [parseLoop.eq_def] at h; simp at h
  | case3 it done cur below =>
    intro _ _ _ stack' done' h
    rw [parseLoop.eq_def] at h; simp at h
  | case4 it done cur below ty rest' ih =>
    intro hb hs hd stack' done' h
    rw [parseLoop_start] at h
    obtain ⟨h0, hb1⟩ := drop_eq_cons hb
    obtain ⟨h1, hb2⟩ := drop_eq_cons hb1
    refine ih hb2 ?_ hd stack' done' h
    refine ⟨frameOpen_new _ _ _ h0 h1, frameOpen_to_waiting _ _ _ hs.1 h0 _ rfl, ?_⟩
    simpa using hs.2
  | case5 rest it done hne =>
    intro _ _ _ stack' done' h
    rw [parseLoop.eq_def] at h; simp [hne] at h
  | case6 rest it done cur hne ih =>
    intro hb hs hd stack' done' h
    rw [parseLoop_end_root] at h
    obtain ⟨h0, hb1⟩ := drop_eq_cons hb
    exact ih hb1 trivial (frameOpen_close _ _ _ hs.1 h0) stack' done' h
  | case7 rest it done cur parent below hne ih =>
    intro hb hs hd stack' done' h
    rw [parseLoop_end_child] at h
    obtain ⟨h0, hb1⟩ := drop_eq_cons hb
    refine ih hb1 ?_ hd stack' done' h
    refine ⟨frameWaiting_addChild _ _ _ _ ?_ (frameOpen_close _ _ _ hs.1 h0), ?_⟩
    · simpa using hs.2.1
    · simpa using hs.2.2
  | case8 it stack done h1 h2 =>
    intro _ _ _ stack' done' h
    rw [parseLoop.eq_def] at h; simp [h1, h2] at h
  | case9 it stack done ty rest' h1 h2 ih =>
    intro hb hs hd stack' done' h
    rw [parseLoop_escape] at h
    obtain ⟨h0, hb1⟩ := drop_eq_cons hb
    obtain ⟨h1', hb2⟩ := drop_eq_cons hb1
    exact ih hb2 (stackOk_step_escape _ _ _ _ hs h0 h1') hd stack' done' h
  | case10 byte rest it stack done h1 h2 h3 ih =>
    intro hb hs hd stack' done' h
    rw [parseLoop_plain _ _ _ _ _ h1 h2 h3] at h
    obtain ⟨h0, hb1⟩ := drop_eq_cons hb
    exact ih hb1 (stackOk_step_plain _ _ _ _ hs h0 h1 h2 h3) hd stack' done' h


/-- C2: for every node of a successfully parsed tree, the property range starts right
after the START and type byte of the node, is a run of property bytes, and stops at the
START of the first child or, for a childless node, at the END of the node; `getProps`
returns false exactly when this range is empty, and otherwise initialises the cursor on
the range with every unescaped ESCAPE removed and the byte after it kept, so that the
cursor length is the range length minus the number of ESCAPE bytes removed. -/
theorem getProps_of_parsed_node (buf : List Nat) (root n : Node)
    (h : Loader.parseTree ⟨buf⟩ = .ok root) (hn : n ∈ root.subtree) :
    n.Framed buf ∧
    (Loader.getProps ⟨buf⟩ n = none ↔ Loader.range ⟨buf⟩ n.propsBegin n.propsEnd = []) ∧
    (Loader.range ⟨buf⟩ n.propsBegin n.propsEnd ≠ [] →
      Loader.getProps ⟨buf⟩ n =
        some (unescape (Loader.range ⟨buf⟩ n.propsBegin n.propsEnd))) ∧
    (Loader.range ⟨buf⟩ n.propsBegin n.propsEnd).length = n.propsEnd - n.propsBegin ∧
    (unescape (Loader.range ⟨buf⟩ n.propsBegin n.propsEnd)).length =
      (n.propsEnd - n.propsBegin) - escapeCount (Loader.range ⟨buf⟩ n.propsBegin n.propsEnd) := by
  have hframed : n.Framed buf := by
    unfold Loader.parseTree at h
    split at h
    · cases h
    · cases h4 : buf[4]? with
      | none => rw [h4] at h; cases h
      | some first =>
        rw [h4] at h
        dsimp only at h
        split at h
        · cases h
        · rename_i hs
          have hs' : first = START := by simpa using hs
          subst hs'
          cases h5 : buf[5]? with
          | none => rw [h5] at h; cases h
          | some rootType =>
            rw [h5] at h
            dsimp only at h
            cases hp : parseLoop (buf.drop 6) 6 [Node.mk [] 6 0 rootType] none with
            | error e => rw [hp] at h; cases h
            | ok r =>
              obtain ⟨stack', done'⟩ := r
              rw [hp] at h
              have hd : DoneOk buf done' := by
                refine parseLoop_done_ok buf _ 6 _ none rfl ?_ trivial stack' done' hp
                exact ⟨frameOpen_new buf 4 rootType h4 h5, trivial⟩
              cases stack' with
              | cons a as => cases h
              | nil =>
                cases done' with
                | none => cases h
                | some r =>
                  simp only [Loader.afterLoop, Except.ok.injEq] at h
                  subst h
                  exact hd n hn
  obtain ⟨p1, p2, p3, p4, p5, p6⟩ := hframed
  have hend : n.propsEnd < buf.length := by
    cases hc : n.children with
    | nil =>
      rw [hc] at p6
      exact (List.getElem?_eq_some_iff.mp p6).1
    | cons c cs =>
      rw [hc] at p6
      exact (List.getElem?_eq_some_iff.mp p6.1).1
  have hlen := range_length buf n.propsBegin n.propsEnd (by omega)
  have hcount := unescape_length (Loader.range ⟨buf⟩ n.propsBegin n.propsEnd)
  refine ⟨⟨p1, p2, p3, p4, p5, p6⟩, ?_, ?_, hlen, by omega⟩
  · rw [← List.length_eq_zero, hlen]
    unfold Loader.getProps
    constructor
    · intro hg
      split at hg
      · omega
      · cases hg
    · intro hz
      rw [if_pos (by omega)]
  · intro hne
    have hpos : 0 < (Loader.range ⟨buf⟩ n.propsBegin n.propsEnd).length :=
      List.length_pos.mpr hne
    unfold Loader.getProps
    rw [if_neg (by omega), unescapeLoop_eq_unescape]

/-- Witness for C2: the root of `FE 01 FD FE 07 FE 02 FF FF` holds the raw range
`FD FE 07`, which `getProps` turns into the two bytes `FE 07`. -/
theorem getProps_of_parsed_node_witness :
    Loader.getProps ⟨[0, 0, 0, 0, 0xFE, 1, 0xFD, 0xFE, 7, 0xFE, 2, 0xFF, 0xFF]⟩
      (Node.mk [Node.mk [] 11 11 2] 6 9 1) = some [0xFE, 7] :=
  (getProps_of_parsed_node [0, 0, 0, 0, 0xFE, 1, 0xFD, 0xFE, 7, 0xFE, 2, 0xFF, 0xFF]
    (Node.mk [Node.mk [] 11 11 2] 6 9 1) (Node.mk [Node.mk [] 11 11 2] 6 9 1) rfl
    (by rw [subtree_eq]; exact List.mem_cons_self _ _)).2.2.1 (by decide)


/-! ### Round trip of the node-tree format -/

theorem parseLoop_escapeProps (props rest : List Nat) (it : Nat) (stack : List Node)
    (done : Option Node) :
    parseLoop (escapeProps props ++ rest) it stack done =
      parseLoop rest (it + (escapeProps props).length) stack done := by
  induction props generalizing it with
  | nil => simp [escapeProps]
  | cons b bs ih =>
    by_cases hb : b = ESCAPE ∨ b = START ∨ b = END
    · simp only [escapeProps, hb, if_true, List.cons_append, List.length_cons]
      rw [parseLoop_escape, ih]
      congr 1
      omega
    · simp only [escapeProps, hb, if_false, List.cons_append, List.length_cons]
      have h1 : b ≠ START := fun h => hb (Or.inr (Or.inl h))
      have h2 : b ≠ END := fun h => hb (Or.inr (Or.inr h))
      have h3 : b ≠ ESCAPE := fun h => hb (Or.inl h)
      rw [parseLoop_plain _ _ _ _ _ h1 h2 h3, ih]
      congr 1
      omega

theorem unescape_escapeProps (props : List Nat) : unescape (escapeProps props) = props := by
  induction props with
  | nil => rfl
  | cons b bs ih =>
    by_cases hb : b = ESCAPE ∨ b = START ∨ b = END
    · simp [escapeProps, hb, unescape, ih]
    · have h3 : b ≠ ESCAPE := fun h => hb (Or.inl h)
      simp only [escapeProps, hb, if_false]
      rw [unescape.eq_def]
      simp [h3, ih]

theorem escapeProps_length_zero (props : List Nat) (h : (escapeProps props).length = 0) :
    props = [] := by
  cases props with
  | nil => rfl
  | cons b bs =>
    by_cases hb : b = ESCAPE ∨ b = START ∨ b = END <;> simp [escapeProps, hb] at h

theorem encode_length (ty : Nat) (props : List Nat) (kids : List Tree) :
    (encode (.node ty props kids)).length =
      2 + (escapeProps props).length + (encodeList kids).length + 1 := by
  simp [encode]
  omega

theorem addKids_eq (ts : List Tree) : ∀ (top : Node) (it : Nat), ts ≠ [] →
    addKids top it ts =
      Node.mk (top.children ++ layoutList ts it) top.propsBegin
        (if top.children.isEmpty then it else top.propsEnd) top.type := by
  induction ts with
  | nil => intro _ _ h; exact absurd rfl h
  | cons k ks ih =>
    intro top it _
    obtain ⟨c, b, e, t⟩ := top
    cases ks with
    | nil =>
      cases c <;>
        simp [addKids, layoutList, Node.setPropsEndIfLeaf, Node.addChild,
          Node.children, Node.propsBegin, Node.propsEnd, Node.type]
    | cons k2 ks2 =>
      rw [addKids, ih _ _ (by simp)]
      cases c <;>
        simp [layoutList, Node.setPropsEndIfLeaf, Node.addChild,
          Node.children, Node.propsBegin, Node.propsEnd, Node.type]

theorem close_addKids (ty it : Nat) (props : List Nat) (kids : List Tree) :
    (addKids (Node.mk [] (it + 2) 0 ty) (it + 2 + (escapeProps props).length) kids).setPropsEndIfLeaf
        (it + 2 + (escapeProps props).length + (encodeList kids).length) =
      layout (.node ty props kids) it := by
  cases kids with
  | nil => simp [addKids, layout, layoutList, encodeList, Node.setPropsEndIfLeaf,
      Node.children, Node.propsBegin, Node.type]
  | cons k ks =>
    rw [addKids_eq _ _ _ (by simp)]
    simp [layout, Node.setPropsEndIfLeaf, Node.children, Node.propsBegin, Node.type,
      layoutList]

mutual
theorem parseLoop_encode : ∀ (t : Tree) (rest : List Nat) (it : Nat) (top : Node)
    (below : List Node) (done : Option Node),
    parseLoop (encode t ++ rest) it (top :: below) done =
      parseLoop rest (it + (encode t).length)
        ((top.setPropsEndIfLeaf it).addChild (layout t it) :: below) done
  | .node ty props kids, rest, it, top, below, done => by
    rw [encode_length]
    simp only [encode, List.cons_append, List.append_assoc]
    rw [parseLoop_start, parseLoop_escapeProps, parseLoop_encodeList kids,
      parseLoop_end_child, close_addKids]
    congr 1
    omega
theorem parseLoop_encodeList : ∀ (ts : List Tree) (rest : List Nat) (it : Nat) (top : Node)
    (below : List Node) (done : Option Node),
    parseLoop (encodeList ts ++ rest) it (top :: below) done =
      parseLoop rest (it + (encodeList ts).length) (addKids top it ts :: below) done
  | [], rest, it, top, below, done => by simp [encodeList, addKids]
  | k :: ks, rest, it, top, below, done => by
    simp only [encodeList, List.append_assoc, List.length_append, addKids]
    rw [parseLoop_encode k, parseLoop_encodeList ks]
    congr 1
    omega
end

theorem parseTree_encode (i0 i1 i2 i3 : Nat) (t : Tree) :
    Loader.parseTree ⟨i0 :: i1 :: i2 :: i3 :: encode t⟩ = .ok (layout t 4) := by
  cases t with
  | node ty props kids =>
    have hl : Loader.isLoaded ⟨i0 :: i1 :: i2 :: i3 :: encode (.node ty props kids)⟩ = true := rfl
    unfold Loader.parseTree
    rw [hl]
    simp only [encode, Bool.not_true, Bool.false_eq_true, if_false, List.getElem?_cons_succ,
      List.getElem?_cons_zero, ne_eq, not_true_eq_false, List.drop_succ_cons, List.drop_zero]
    rw [parseLoop_escapeProps, parseLoop_encodeList kids, parseLoop_end_root, parseLoop_nil,
      Loader.afterLoop]
    have := close_addKids ty 4 props kids
    simp only [Nat.reduceAdd] at this
    rw [this]


theorem range_mid (pre mid post : List Nat) :
    Loader.range ⟨pre ++ (mid ++ post)⟩ pre.length (pre.length + mid.length) = mid := by
  simp [Loader.range]

theorem getProps_layout (pre post : List Nat) (ty : Nat) (props : List Nat) (kids : List Node)
    (rest : List Nat) :
    (Loader.getProps ⟨pre ++ (START :: ty :: (escapeProps props ++ rest) ++ post)⟩
      (Node.mk kids (pre.length + 2) (pre.length + 2 + (escapeProps props).length) ty)).getD []
      = props := by
  unfold Loader.getProps
  simp only [Node.propsBegin, Node.propsEnd]
  by_cases hz : (escapeProps props).length = 0
  · rw [if_pos (by omega)]
    simp [escapeProps_length_zero props hz]
  · rw [if_neg (by omega), unescapeLoop_eq_unescape]
    have hb : pre ++ (START :: ty :: (escapeProps props ++ rest) ++ post) =
        (pre ++ [START, ty]) ++ (escapeProps props ++ (rest ++ post)) := by simp
    have hlen : (pre ++ [START, ty]).length = pre.length + 2 := by simp
    rw [hb, ← hlen, range_mid]
    simp [unescape_escapeProps]

mutual
theorem toTree_layout : ∀ (t : Tree) (pre post : List Nat),
    Loader.toTree ⟨pre ++ (encode t ++ post)⟩ (layout t pre.length) = t
  | .node ty props kids, pre, post => by
    rw [layout, Loader.toTree]
    have hk := toTrees_layoutList kids (pre ++ START :: ty :: escapeProps props) (END :: post)
    have hb : pre ++ START :: ty :: escapeProps props ++ (encodeList kids ++ END :: post) =
        pre ++ (encode (.node ty props kids) ++ post) := by simp [encode]
    have hlen : (pre ++ START :: ty :: escapeProps props).length =
        pre.length + 2 + (escapeProps props).length := by simp; omega
    rw [hb, hlen] at hk
    rw [hk]
    have hp := getProps_layout pre post ty props
      (layoutList kids (pre.length + 2 + (escapeProps props).length)) (encodeList kids ++ [END])
    rw [encode, hp]
theorem toTrees_layoutList : ∀ (ts : List Tree) (pre post : List Nat),
    Loader.toTrees ⟨pre ++ (encodeList ts ++ post)⟩ (layoutList ts pre.length) = ts
  | [], pre, post => by simp [layoutList, Loader.toTrees]
  | k :: ks, pre, post => by
    rw [layoutList, Loader.toTrees]
    have h1 := toTree_layout k pre (encodeList ks ++ post)
    have h2 := toTrees_layoutList ks (pre ++ encode k) post
    have hb : pre ++ encode k ++ (encodeList ks ++ post) =
        pre ++ (encodeList (k :: ks) ++ post) := by simp [encodeList]
    have hb1 : pre ++ (encode k ++ (encodeList ks ++ post)) =
        pre ++ (encodeList (k :: ks) ++ post) := by simp [encodeList]
    rw [hb, List.length_append] at h2
    rw [hb1] at h1
    rw [h1, h2]
end

/-- C4: round trip of the node-tree format. Whatever the four identifier bytes, decoding
the OTB framing of a tree with `parseTree` and `getProps` gives back the tree, and
encoding the decoded tree again gives back the same bytes. -/
theorem decode_encode_round_trip (i0 i1 i2 i3 : Nat) (t : Tree) :
    Loader.decode ⟨i0 :: i1 :: i2 :: i3 :: encode t⟩ = .ok t ∧
    (match Loader.decode ⟨i0 :: i1 :: i2 :: i3 :: encode t⟩ with
     | .ok decoded => encode decoded = encode t
     | .error _ => False) := by
  have h : Loader.decode ⟨i0 :: i1 :: i2 :: i3 :: encode t⟩ = .ok t := by
    unfold Loader.decode
    rw [parseTree_encode]
    have := toTree_layout t [i0, i1, i2, i3] []
    simp only [List.append_nil, List.cons_append, List.nil_append, List.length_cons,
      List.length_nil, Nat.reduceAdd] at this
    simp only [this]
  refine ⟨h, ?_⟩
  rw [h]

end OTB

namespace FileStream

/-! ### Degraded reads -/

theorem getUnsigned_short (s : FileStream) (size : Nat)
    (h : s.m_data.length - s.m_pos < size) : getUnsigned s size = some (0, s) := by
  unfold getUnsigned
  by_cases hn : s.m_nodes > 0
  · rw [if_pos hn]
    unfold read
    rw [if_pos (by omega)]
    rfl
  · rw [if_neg hn, if_neg (by omega)]

/-- C5: degraded reads. When fewer than N bytes remain after the cursor, at any node
depth, the N-byte read (`getU8`, `getU16`, `getU32`, `getU64` for N = 1, 2, 4, 8) returns
0 without raising or reading anything, and leaves the cursor and the node depth as they
were. -/
theorem degraded_read_returns_zero (s : FileStream) :
    (s.m_data.length - s.m_pos < 1 → getU8 s = some (0, s)) ∧
    (s.m_data.length - s.m_pos < 2 → getU16 s = some (0, s)) ∧
    (s.m_data.length - s.m_pos < 4 → getU32 s = some (0, s)) ∧
    (s.m_data.length - s.m_pos < 8 → getU64 s = some (0, s)) := by
  refine ⟨?_, getUnsigned_short s 2, getUnsigned_short s 4, getUnsigned_short s 8⟩
  intro h
  unfold getU8
  rw [if_pos (by omega)]

/-- Witness for C5: a stream inside a node with one byte left, read at each width but
the first, and the same stream at its end for the one-byte read. -/
theorem degraded_read_returns_zero_witness :
    getU8 ⟨1, 3, [7, 8, 9]⟩ = some (0, ⟨1, 3, [7, 8, 9]⟩) ∧
    getU16 ⟨1, 2, [7, 8, 9]⟩ = some (0, ⟨1, 2, [7, 8, 9]⟩) ∧
    getU32 ⟨1, 2, [7, 8, 9]⟩ = some (0, ⟨1, 2, [7, 8, 9]⟩) ∧
    getU64 ⟨1, 2, [7, 8, 9]⟩ = some (0, ⟨1, 2, [7, 8, 9]⟩) :=
  ⟨(degraded_read_returns_zero ⟨1, 3, [7, 8, 9]⟩).1 (by decide),
   (degraded_read_returns_zero ⟨1, 2, [7, 8, 9]⟩).2.1 (by decide),
   (degraded_read_returns_zero ⟨1, 2, [7, 8, 9]⟩).2.2.1 (by decide),
   (degraded_read_returns_zero ⟨1, 2, [7, 8, 9]⟩).2.2.2 (by decide)⟩

/-! ### Peeks -/

theorem getU8_frame (s s1 : FileStream) (v : Nat) (h : getU8 s = some (v, s1)) :
    s1.m_nodes = s.m_nodes ∧ s1.m_data = s.m_data := by
  unfold getU8 at h
  split at h
  · cases h; exact ⟨rfl, rfl⟩
  · split at h
    · cases h
    · split at h
      · split at h
        · cases h; exact ⟨rfl, rfl⟩
        · split at h
          · cases h
          · cases h; exact ⟨rfl, rfl⟩
      · cases h; exact ⟨rfl, rfl⟩

theorem restore_pos (s s1 : FileStream) (h1 : s1.m_nodes = s.m_nodes)
    (h2 : s1.m_data = s.m_data) : { s1 with m_pos := s.m_pos } = s := by
  cases s; cases s1; simp_all

/-- C8: a peek that does not match consumes nothing. Whenever `startNode`, `endNode` or
`isProp` returns false, the stream (cursor and node depth) is what it was before the
call; `isProp(tag, false)` leaves the stream as it was also when it returns true; a
successful `startNode` raises the depth by exactly one, and a successful `endNode`
lowers it by one, stopping at zero. -/
theorem peek_frame (s s' : FileStream) (type tag : Nat) (toNext : Bool) :
    (startNode s type = some (false, s') → s' = s) ∧
    (endNode s = some (false, s') → s' = s) ∧
    (isProp s tag toNext = some (false, s') → s' = s) ∧
    (isProp s tag false = some (true, s') → s' = s) ∧
    (startNode s type = some (true, s') → s'.m_nodes = s.m_nodes + 1) ∧
    (endNode s = some (true, s') → s'.m_nodes = s.m_nodes - 1) := by
  refine ⟨?_, ?_, ?_, ?_, ?_, ?_⟩
  · intro h
    unfold startNode at h
    split at h
    · cases h; rfl
    · split at h
      · cases h
      · rename_i byte s1 h1
        obtain ⟨f1, f2⟩ := getU8_frame _ _ _ h1
        split at h
        · cases h; exact restore_pos _ _ f1 f2
        · split at h
          · cases h
          · split at h
            · cases h; exact restore_pos _ _ f1 f2
            · split at h
              · cases h
              · rename_i nodeType s2 h2
                obtain ⟨g1, g2⟩ := getU8_frame _ _ _ h2
                split at h
                · cases h
                · cases h; exact restore_pos _ _ (g1.trans f1) (g2.trans f2)
  · intro h
    unfold endNode at h
    split at h
    · cases h; rfl
    · split at h
      · cases h
      · rename_i byte s1 h1
        obtain ⟨f1, f2⟩ := getU8_frame _ _ _ h1
        split at h
        · cases h; exact restore_pos _ _ f1 f2
        · split at h <;> cases h
  · intro h
    unfold isProp at h
    split at h
    · cases h; rfl
    · split at h
      · cases h
      · rename_i byte s1 h1
        obtain ⟨f1, f2⟩ := getU8_frame _ _ _ h1
        split at h
        · split at h <;> cases h
        · cases h; exact restore_pos _ _ f1 f2
  · intro h
    unfold isProp at h
    split at h
    · cases h
    · split at h
      · cases h
      · rename_i byte s1 h1
        obtain ⟨f1, f2⟩ := getU8_frame _ _ _ h1
        split at h
        · simp only [Bool.not_false, if_true, Option.some.injEq, Prod.mk.injEq, true_and] at h
          rw [← h]; exact restore_pos _ _ f1 f2
        · cases h
  · intro h
    unfold startNode at h
    split at h
    · cases h
    · split at h
      · cases h
      · rename_i byte s1 h1
        obtain ⟨f1, f2⟩ := getU8_frame _ _ _ h1
        split at h
        · cases h
        · split at h
          · cases h; simp [f1]
          · split at h
            · cases h
            · split at h
              · cases h
              · rename_i nodeType s2 h2
                obtain ⟨g1, g2⟩ := getU8_frame _ _ _ h2
                split at h
                · cases h; simp [g1, f1]
                · cases h
  · intro h
    unfold endNode at h
    split at h
    · cases h
    · split at h
      · cases h
      · rename_i byte s1 h1
        obtain ⟨f1, f2⟩ := getU8_frame _ _ _ h1
        split at h
        · cases h
        · split at h
          · cases h; simp [f1]
          · rename_i hz
            cases h
            rw [← f1]; omega


/-- Witness for C8, on the stream `07 FE 05` at offset 1 inside a node: `startNode(9)`
and `endNode()` and `isProp(3)` do not match and restore the stream, `isProp(0xFE, false)`
matches and restores it, `startNode(5)` matches and raises the depth from 1 to 2; on
`FF` `endNode()` matches and lowers the depth from 1 to 0. -/
theorem peek_frame_witness :
    (⟨1, 1, [7, 0xFE, 5]⟩ : FileStream) = ⟨1, 1, [7, 0xFE, 5]⟩ ∧
    (⟨2, 3, [7, 0xFE, 5]⟩ : FileStream).m_nodes = 1 + 1 ∧
    (⟨0, 1, [0xFF]⟩ : FileStream).m_nodes = 1 - 1 :=
  ⟨((peek_frame ⟨1, 1, [7, 0xFE, 5]⟩ ⟨1, 1, [7, 0xFE, 5]⟩ 9 3 true).1 (by decide)).trans
    (((peek_frame ⟨1, 1, [7, 0xFE, 5]⟩ ⟨1, 1, [7, 0xFE, 5]⟩ 9 3 true).2.1 (by decide)).trans
     (((peek_frame ⟨1, 1, [7, 0xFE, 5]⟩ ⟨1, 1, [7, 0xFE, 5]⟩ 9 3 true).2.2.1 (by decide)).trans
      ((peek_frame ⟨1, 1, [7, 0xFE, 5]⟩ ⟨1, 1, [7, 0xFE, 5]⟩ 9 0xFE true).2.2.2.1 (by decide)))),
   (peek_frame ⟨1, 1, [7, 0xFE, 5]⟩ ⟨2, 3, [7, 0xFE, 5]⟩ 5 0 true).2.2.2.2.1 (by decide),
   (peek_frame ⟨1, 0, [0xFF]⟩ ⟨0, 1, [0xFF]⟩ 0 0 true).2.2.2.2.2 (by decide)⟩

/-! ### Length-prefixed strings -/

theorem getU16_at_start (b0 b1 : Nat) (tail : List Nat) :
    getU16 ⟨0, 0, b0 :: b1 :: tail⟩ = some (b0 + 256 * b1, ⟨0, 2, b0 :: b1 :: tail⟩) := by
  simp [getU16, getUnsigned, bytesAt, fromLittleEndian]

theorem getString_of_length_8192 (tail : List Nat) :
    getString ⟨0, 0, 0 :: 32 :: tail⟩ = some ([], ⟨0, 2, 0 :: 32 :: tail⟩) := by
  unfold getString
  rw [getU16_at_start]
  simp [maxStringLen]

/-- Counterexample to C7 as stated: a length field of exactly 8192 followed by 8192
bytes that all lie inside the buffer. `getString` returns the empty string and leaves the
cursor right after the length field. -/
theorem getString_rejects_length_8192 :
    getU16 ⟨0, 0, 0 :: 32 :: List.replicate 8192 65⟩ =
      some (8192, ⟨0, 2, 0 :: 32 :: List.replicate 8192 65⟩) ∧
    2 + 8192 ≤ (0 :: 32 :: List.replicate 8192 65).length ∧
    getString ⟨0, 0, 0 :: 32 :: List.replicate 8192 65⟩ =
      some ([], ⟨0, 2, 0 :: 32 :: List.replicate 8192 65⟩) :=
  ⟨getU16_at_start 0 32 _, by simp only [List.length_cons, List.length_replicate]; omega,
   getString_of_length_8192 _⟩

/-- C7, amended: `getString` reads a 16-bit length L with `getU16` (at depth 0 the two
bytes under the cursor, little-endian). For every L below 8192 whose L bytes lie inside
the buffer it returns exactly those L bytes and leaves the cursor L bytes after the end
of the length field; for every L of 8192 or more, and for every L that runs past the
buffer while cursor plus L stays below 2^32, it returns the empty string and leaves the
cursor right after the length field. -/
theorem getString_spec (s s1 : FileStream) (len : Nat) (h : getU16 s = some (len, s1)) :
    (s.m_nodes = 0 → s.m_pos + 2 ≤ s.m_data.length →
      len = fromLittleEndian ((s.m_data.drop s.m_pos).take 2) ∧
      s1 = { s with m_pos := s.m_pos + 2 }) ∧
    (len < 8192 → s1.m_pos + len ≤ s1.m_data.length →
      getString s =
        some ((s1.m_data.drop s1.m_pos).take len, { s1 with m_pos := s1.m_pos + len }) ∧
      ((s1.m_data.drop s1.m_pos).take len).length = len) ∧
    (8192 ≤ len → getString s = some ([], s1)) ∧
    (s1.m_data.length < s1.m_pos + len → s1.m_pos + len < 4294967296 →
      getString s = some ([], s1)) := by
  refine ⟨?_, ?_, ?_, ?_⟩
  · intro h0 hin
    unfold getU16 getUnsigned at h
    rw [if_neg (by omega), if_pos hin] at h
    unfold bytesAt at h
    rw [if_pos hin] at h
    simp only [Option.some.injEq, Prod.mk.injEq] at h
    exact ⟨h.1.symm, h.2.symm⟩
  · intro hl hin
    constructor
    · unfold getString
      rw [h]
      by_cases hz : len = 0
      · subst hz
        simp
      · simp only [hz, if_false, maxStringLen]
        rw [if_neg (by omega)]
        have hm : (s1.m_pos + len) % 4294967296 ≤ s1.m_pos + len := Nat.mod_le _ _
        rw [if_neg (by omega)]
        unfold bytesAt
        rw [if_pos hin]
    · simp
      omega
  · intro hl
    unfold getString
    rw [h]
    simp only [maxStringLen]
    by_cases hz : len = 0
    · simp [hz]
    · rw [if_neg hz, if_pos hl]
  · intro hout hsmall
    unfold getString
    rw [h]
    simp only [maxStringLen]
    by_cases hz : len = 0
    · simp [hz]
    · rw [if_neg hz]
      by_cases hl : len ≥ 8192
      · rw [if_pos hl]
      · rw [if_neg hl, Nat.mod_eq_of_lt hsmall, if_pos (by omega)]

/-- Witness for C7, amended: on `02 00 41 42 43` the length is 2 and the string `41 42` is
returned with the cursor at 4; on `03 00 41` the string would run past the buffer and
the empty string is returned with the cursor at 2. -/
theorem getString_spec_witness :
    getString ⟨0, 0, [2, 0, 65, 66, 67]⟩ = some ([65, 66], ⟨0, 4, [2, 0, 65, 66, 67]⟩) ∧
    getString ⟨0, 0, [3, 0, 65]⟩ = some ([], ⟨0, 2, [3, 0, 65]⟩) :=
  ⟨((getString_spec ⟨0, 0, [2, 0, 65, 66, 67]⟩ ⟨0, 2, [2, 0, 65, 66, 67]⟩ 2
      (by decide)).2.1 (by decide) (by decide)).1,
   (getString_spec ⟨0, 0, [3, 0, 65]⟩ ⟨0, 2, [3, 0, 65]⟩ 3
      (by decide)).2.2.2 (by decide) (by decide)⟩

/-! ### One-byte lookahead -/

/-- Counterexample to C9 as stated: inside a node, on `FD FD 07`, `getU8` skips the
ESCAPE and returns the literal `FD` with the cursor at 2; `back(1)` puts the cursor at 1,
not at 0, and the next `getU8` takes the second `FD` for an ESCAPE and returns `07`. -/
theorem getU8_back_does_not_restore :
    getU8 ⟨1, 0, [0xFD, 0xFD, 7]⟩ = some (0xFD, ⟨1, 2, [0xFD, 0xFD, 7]⟩) ∧
    back ⟨1, 2, [0xFD, 0xFD, 7]⟩ 1 = ⟨1, 1, [0xFD, 0xFD, 7]⟩ ∧
    getU8 ⟨1, 1, [0xFD, 0xFD, 7]⟩ = some (7, ⟨1, 3, [0xFD, 0xFD, 7]⟩) := by
  decide

/-- C9, amended: for every stream that is not at the end of its buffer, unless the read
skips an ESCAPE byte (depth above 0, ESCAPE under the cursor and at least one more byte
after it), `getU8()` followed by `back(1)` restores the stream, so that the next `getU8()`
returns the same byte again. -/
theorem getU8_back_restores (s : FileStream) (h : s.m_pos < s.m_data.length)
    (hesc : s.m_nodes = 0 ∨ s.m_data[s.m_pos]? ≠ some OTB.ESCAPE ∨
      s.m_pos + 1 = s.m_data.length) :
    ∃ v s1, getU8 s = some (v, s1) ∧ s1.back 1 = s ∧ getU8 (s1.back 1) = some (v, s1) := by
  have hget : s.m_data[s.m_pos]? = some (s.m_data[s.m_pos]) := List.getElem?_eq_getElem h
  have key : ∃ v s1, getU8 s = some (v, s1) ∧ s1.back 1 = s := by
    unfold getU8
    rw [if_neg (by omega), hget]
    dsimp only
    by_cases hc : s.m_nodes > 0 ∧ s.m_data[s.m_pos] = OTB.ESCAPE
    · rw [if_pos hc]
      have hlast : s.m_pos + 1 = s.m_data.length := by
        rcases hesc with h0 | h1 | h2
        · omega
        · rw [hget] at h1
          exact absurd (congrArg some hc.2) h1
        · exact h2
      rw [if_pos (by omega)]
      refine ⟨_, _, rfl, ?_⟩
      cases s
      simp [back]
    · rw [if_neg hc]
      refine ⟨_, _, rfl, ?_⟩
      cases s
      simp [back]
  obtain ⟨v, s1, h1, h2⟩ := key
  exact ⟨v, s1, h1, h2, by rw [h2, h1]⟩

/-- Witness for C9, amended: inside a node, on `07 FE`, `getU8` then `back(1)` restores
the stream. -/
theorem getU8_back_restores_witness :
    ∃ v s1, getU8 ⟨1, 0, [7, 0xFE]⟩ = some (v, s1) ∧ s1.back 1 = ⟨1, 0, [7, 0xFE]⟩ ∧
      getU8 (s1.back 1) = some (v, s1) :=
  getU8_back_restores ⟨1, 0, [7, 0xFE]⟩ (by decide) (Or.inr (Or.inl (by decide)))

/-! ### Escaped sentinels -/

/-- C10, the code at the failing input: inside a node, on `FD FE`, `startNode()` returns
true and the depth goes from 1 to 2, and on `FD FF` `endNode()` returns true and the depth
goes from 1 to 0, although in both buffers the second byte follows an unescaped ESCAPE;
the tree decoder takes the same `FD FE` for property data of the root. -/
theorem startNode_endNode_accept_escaped_sentinel :
    startNode ⟨1, 0, [0xFD, 0xFE]⟩ 0 = some (true, ⟨2, 2, [0xFD, 0xFE]⟩) ∧
    endNode ⟨1, 0, [0xFD, 0xFF]⟩ = some (true, ⟨0, 2, [0xFD, 0xFF]⟩) ∧
    OTB.Loader.parseTree ⟨[0, 0, 0, 0, 0xFE, 1, 0xFD, 0xFE, 0xFF]⟩ =
      .ok (OTB.Node.mk [] 6 8 1) :=
  ⟨by decide, by decide, rfl⟩

/-! ### Bounds -/

theorem getString_wraps (front : List Nat) (h : front.length = 4294967292) :
    run ⟨0, 0, front ++ [2, 0, 65]⟩ [.seek 4294967292, .getString] = none := by
  have hlen : (front ++ [2, 0, 65]).length = 4294967295 := by simp [h]
  have hdrop : (front ++ [2, 0, 65]).drop 4294967292 = [2, 0, 65] := by
    rw [← h]; simp
  have hseek : seek ⟨0, 0, front ++ [2, 0, 65]⟩ 4294967292 =
      ⟨0, 4294967292, front ++ [2, 0, 65]⟩ := by
    unfold seek
    rw [if_neg (by simp only [hlen]; omega)]
  have hu16 : getU16 ⟨0, 4294967292, front ++ [2, 0, 65]⟩ =
      some (2, ⟨0, 4294967294, front ++ [2, 0, 65]⟩) := by
    unfold getU16 getUnsigned bytesAt
    simp only [hlen, hdrop]
    simp [fromLittleEndian]
  have hstr : getString ⟨0, 4294967292, front ++ [2, 0, 65]⟩ = none := by
    unfold getString
    rw [hu16]
    unfold bytesAt
    simp only [hlen, maxStringLen]
    simp
  simp only [run, step, hseek, hstr, Option.map_none']

/-- C6, the code at the failing input: a buffer of 2^32 - 1 bytes whose last three bytes
are `02 00 41`. From cursor 0, `seek(4294967292)` puts the cursor on the length field;
`getString` reads the length 2 and tests `m_pos + len`, which is 2^32 and wraps to 0, so
the test passes and two bytes are read at offset 4294967294, where one byte is left. -/
theorem getString_reads_past_the_buffer :
    (List.replicate 4294967292 0 ++ [2, 0, 65]).length = 4294967295 ∧
    run ⟨0, 0, List.replicate 4294967292 0 ++ [2, 0, 65]⟩ [.seek 4294967292, .getString]
      = none :=
  ⟨by rw [List.length_append, List.length_replicate]; rfl,
   getString_wraps (List.replicate 4294967292 0) (by rw [List.length_replicate])⟩


/-! ### The cursor bound, and the reads that stay inside the buffer -/

theorem getU8_in_bounds (s : FileStream) (hs : s.m_pos ≤ s.m_data.length) :
    ∃ v s', getU8 s = some (v, s') ∧ s'.m_pos ≤ s'.m_data.length ∧ s'.m_data = s.m_data := by
  unfold getU8
  by_cases h : s.m_pos ≥ s.m_data.length
  · rw [if_pos h]; exact ⟨_, _, rfl, hs, rfl⟩
  · rw [if_neg h, List.getElem?_eq_getElem (by omega)]
    dsimp only
    split
    · by_cases h1 : s.m_pos + 1 ≥ s.m_data.length
      · rw [if_pos h1]; exact ⟨_, _, rfl, by simp; omega, rfl⟩
      · rw [if_neg h1, List.getElem?_eq_getElem (by omega)]
        exact ⟨_, _, rfl, by simp; omega, rfl⟩
    · exact ⟨_, _, rfl, by simp; omega, rfl⟩

theorem readEscapedLoop_in_bounds (n : Nat) : ∀ (s : FileStream) (array : List Nat),
    s.m_pos ≤ s.m_data.length →
    ∃ r s', readEscapedLoop n s array = some (r, s') ∧ s'.m_pos ≤ s'.m_data.length ∧
      s'.m_data = s.m_data := by
  induction n with
  | zero => intro s array hs; exact ⟨_, _, rfl, hs, rfl⟩
  | succ n ih =>
    intro s array hs
    unfold readEscapedLoop
    by_cases h : s.m_pos ≥ s.m_data.length
    · rw [if_pos h]; exact ⟨_, _, rfl, hs, rfl⟩
    · rw [if_neg h, List.getElem?_eq_getElem (by omega)]
      dsimp only
      split
      · by_cases h1 : s.m_pos + 1 ≥ s.m_data.length
        · rw [if_pos h1]; exact ⟨_, _, rfl, by simp; omega, rfl⟩
        · rw [if_neg h1, List.getElem?_eq_getElem (by omega)]
          exact ih _ _ (by simp; omega)
      · exact ih _ _ (by simp; omega)

theorem getUnsigned_in_bounds (s : FileStream) (size : Nat) (hs : s.m_pos ≤ s.m_data.length) :
    ∃ v s', getUnsigned s size = some (v, s') ∧ s'.m_pos ≤ s'.m_data.length ∧
      s'.m_data = s.m_data := by
  unfold getUnsigned
  by_cases hn : s.m_nodes > 0
  · rw [if_pos hn]
    unfold read
    by_cases h : s.m_pos + size > s.m_data.length
    · rw [if_pos h]; exact ⟨_, _, rfl, hs, rfl⟩
    · rw [if_neg h]
      obtain ⟨r, s', h1, h2, h3⟩ := readEscapedLoop_in_bounds size s [] hs
      simp only [if_true, h1]
      cases r with
      | none => exact ⟨_, _, rfl, h2, h3⟩
      | some array => exact ⟨_, _, rfl, h2, h3⟩
  · rw [if_neg hn]
    by_cases h : s.m_pos + size ≤ s.m_data.length
    · rw [if_pos h]
      unfold bytesAt
      rw [if_pos h]
      exact ⟨_, _, rfl, h, rfl⟩
    · rw [if_neg h]; exact ⟨_, _, rfl, hs, rfl⟩

theorem getString_in_bounds (s : FileStream) (hs : s.m_pos ≤ s.m_data.length)
    (hsize : s.m_data.length + 8192 ≤ 4294967296) :
    ∃ v s', getString s = some (v, s') ∧ s'.m_pos ≤ s'.m_data.length ∧
      s'.m_data = s.m_data := by
  unfold getString
  obtain ⟨len, s1, h1, h2, h3⟩ := getUnsigned_in_bounds s 2 hs
  rw [getU16, h1]
  dsimp only
  by_cases hz : len = 0
  · rw [if_pos hz]; exact ⟨_, _, rfl, h2, h3⟩
  · rw [if_neg hz]
    by_cases hl : len ≥ maxStringLen
    · rw [if_pos hl]; exact ⟨_, _, rfl, h2, h3⟩
    · rw [if_neg hl]
      have hlen : len < 8192 := by unfold maxStringLen at hl; omega
      rw [h3] at h2
      rw [Nat.mod_eq_of_lt (by omega)]
      by_cases hout : s1.m_pos + len > s1.m_data.length
      · rw [if_pos hout]; exact ⟨_, _, rfl, by rw [h3]; exact h2, h3⟩
      · rw [if_neg hout]
        unfold bytesAt
        rw [if_pos (by omega)]
        exact ⟨_, _, rfl, by simp; omega, h3⟩

theorem peeks_in_bounds (s : FileStream) (hs : s.m_pos ≤ s.m_data.length) (a : Nat)
    (toNext : Bool) :
    (∃ v s', isProp s a toNext = some (v, s') ∧ s'.m_pos ≤ s'.m_data.length ∧
      s'.m_data = s.m_data) ∧
    (∃ v s', startNode s a = some (v, s') ∧ s'.m_pos ≤ s'.m_data.length ∧
      s'.m_data = s.m_data) ∧
    (∃ v s', endNode s = some (v, s') ∧ s'.m_pos ≤ s'.m_data.length ∧
      s'.m_data = s.m_data) := by
  obtain ⟨b, s1, h1, h2, h3⟩ := getU8_in_bounds s hs
  have hs' : s.m_pos ≤ s1.m_data.length := by rw [h3]; exact hs
  refine ⟨?_, ?_, ?_⟩
  · unfold isProp
    split
    · exact ⟨_, _, rfl, hs, rfl⟩
    · rw [h1]
      dsimp only
      split
      · split
        · exact ⟨_, _, rfl, hs', h3⟩
        · exact ⟨_, _, rfl, h2, h3⟩
      · exact ⟨_, _, rfl, hs', h3⟩
  · unfold startNode
    split
    · exact ⟨_, _, rfl, hs, rfl⟩
    · rw [h1]
      dsimp only
      split
      · exact ⟨_, _, rfl, hs', h3⟩
      · split
        · exact ⟨_, _, rfl, h2, h3⟩
        · split
          · exact ⟨_, _, rfl, hs', h3⟩
          · obtain ⟨c, s2, g1, g2, g3⟩ := getU8_in_bounds s1 h2
            rw [g1]
            dsimp only
            split
            · exact ⟨_, _, rfl, g2, g3.trans h3⟩
            · exact ⟨_, _, rfl, by rw [g3]; exact hs', g3.trans h3⟩
  · unfold endNode
    split
    · exact ⟨_, _, rfl, hs, rfl⟩
    · rw [h1]
      dsimp only
      split
      · exact ⟨_, _, rfl, hs', h3⟩
      · split
        · exact ⟨_, _, rfl, h2, h3⟩
        · exact ⟨_, _, rfl, h2, h3⟩

theorem moves_in_bounds (s : FileStream) (hs : s.m_pos ≤ s.m_data.length) (a : Nat) :
    ((s.seek a).m_pos ≤ (s.seek a).m_data.length ∧ (s.seek a).m_data = s.m_data) ∧
    ((s.skip a).m_pos ≤ (s.skip a).m_data.length ∧ (s.skip a).m_data = s.m_data) ∧
    ((s.back a).m_pos ≤ (s.back a).m_data.length ∧ (s.back a).m_data = s.m_data) := by
  have hseek : ∀ p, (s.seek p).m_pos ≤ (s.seek p).m_data.length ∧
      (s.seek p).m_data = s.m_data := by
    intro p
    unfold seek
    split
    · exact ⟨hs, rfl⟩
    · exact ⟨by simp; omega, rfl⟩
  refine ⟨hseek a, ?_, ?_⟩
  · unfold skip
    dsimp only
    split
    · exact ⟨hs, rfl⟩
    · exact hseek _
  · unfold back
    split
    · exact ⟨by simp, rfl⟩
    · exact ⟨by simp; omega, rfl⟩

theorem step_in_bounds (s : FileStream) (c : Call) (hs : s.m_pos ≤ s.m_data.length)
    (hsize : s.m_data.length + 8192 ≤ 4294967296) :
    ∃ s', step s c = some s' ∧ s'.m_pos ≤ s'.m_data.length ∧ s'.m_data = s.m_data := by
  cases c with
  | getU8 =>
    obtain ⟨v, s', h1, h2, h3⟩ := getU8_in_bounds s hs
    exact ⟨s', by simp [step, h1], h2, h3⟩
  | getU16 =>
    obtain ⟨v, s', h1, h2, h3⟩ := getUnsigned_in_bounds s 2 hs
    exact ⟨s', by simp [step, getU16, h1], h2, h3⟩
  | getU32 =>
    obtain ⟨v, s', h1, h2, h3⟩ := getUnsigned_in_bounds s 4 hs
    exact ⟨s', by simp [step, getU32, h1], h2, h3⟩
  | getU64 =>
    obtain ⟨v, s', h1, h2, h3⟩ := getUnsigned_in_bounds s 8 hs
    exact ⟨s', by simp [step, getU64, h1], h2, h3⟩
  | getString =>
    obtain ⟨v, s', h1, h2, h3⟩ := getString_in_bounds s hs hsize
    exact ⟨s', by simp [step, h1], h2, h3⟩
  | isProp prop toNext =>
    obtain ⟨v, s', h1, h2, h3⟩ := (peeks_in_bounds s hs prop toNext).1
    exact ⟨s', by simp [step, h1], h2, h3⟩
  | startNode type =>
    obtain ⟨v, s', h1, h2, h3⟩ := (peeks_in_bounds s hs type true).2.1
    exact ⟨s', by simp [step, h1], h2, h3⟩
  | endNode =>
    obtain ⟨v, s', h1, h2, h3⟩ := (peeks_in_bounds s hs 0 true).2.2
    exact ⟨s', by simp [step, h1], h2, h3⟩
  | seek pos => exact ⟨_, rfl, (moves_in_bounds s hs pos).1⟩
  | skip len => exact ⟨_, rfl, (moves_in_bounds s hs len).2.1⟩
  | back pos => exact ⟨_, rfl, (moves_in_bounds s hs pos).2.2⟩

/-- Bounds safety where the 32-bit sum of `getString` cannot wrap: on a buffer of at most
2^32 - 8192 bytes, every finite sequence of calls from a cursor inside the buffer runs
without a read outside the buffer and ends with the cursor between 0 and the buffer
size. -/
theorem run_in_bounds (calls : List Call) : ∀ (s : FileStream),
    s.m_pos ≤ s.m_data.length → s.m_data.length + 8192 ≤ 4294967296 →
    ∃ s', run s calls = some s' ∧ s'.m_pos ≤ s'.m_data.length ∧ s'.m_data = s.m_data := by
  induction calls with
  | nil => intro s hs _; exact ⟨s, rfl, hs, rfl⟩
  | cons c cs ih =>
    intro s hs hsize
    obtain ⟨s1, h1, h2, h3⟩ := step_in_bounds s c hs hsize
    obtain ⟨s2, g1, g2, g3⟩ := ih s1 h2 (by rw [h3]; exact hsize)
    exact ⟨s2, by simp [run, h1, g1], g2, g3.trans h3⟩

end FileStream

/-! ### Interning -/

theorem static_tryGetItemFromCache_eq {P : Type} (obj : P → BasicItem)
    (combine : Nat → HashArg → Nat) :
    static_tryGetItemFromCache obj combine = tryGetWith (fun p => (obj p).hash combine) := by
  funext m ref
  cases ref <;> rfl

theorem static_tryGetTileFromCache_eq {P : Type} (obj : P → BasicTile)
    (combine : Nat → HashArg → Nat) :
    static_tryGetTileFromCache obj combine = tryGetWith (fun p => (obj p).hash combine) := by
  funext m ref
  cases ref <;> rfl

theorem internItems_eq {P : Type} (obj : P → BasicItem) (combine : Nat → HashArg → Nat) :
    internItems obj combine = internWith (fun p => (obj p).hash combine) := by
  funext m refs
  induction refs generalizing m with
  | nil => rfl
  | cons ref rest ih =>
    simp only [internItems, internWith, static_tryGetItemFromCache_eq, ih]

theorem internTiles_eq {P : Type} (obj : P → BasicTile) (combine : Nat → HashArg → Nat) :
    internTiles obj combine = internWith (fun p => (obj p).hash combine) := by
  funext m refs
  induction refs generalizing m with
  | nil => rfl
  | cons ref rest ih =>
    simp only [internTiles, internWith, static_tryGetTileFromCache_eq, ih]

theorem firstWithHash_append {P : Type} (hash : P → Nat) (key : Nat)
    (xs ys : List (Option P)) :
    firstWithHash hash key (xs ++ ys) =
      match firstWithHash hash key xs with
      | some r => some r
      | none => firstWithHash hash key ys := by
  induction xs with
  | nil => rfl
  | cons x xs ih =>
    cases x with
    | none => simpa [firstWithHash] using ih
    | some p =>
      by_cases h : hash p = key
      · simp [firstWithHash, h]
      · simpa [firstWithHash, h] using ih

theorem firstWithHash_hash {P : Type} (hash : P → Nat) (key : Nat) (xs : List (Option P))
    (r : P) (h : firstWithHash hash key xs = some r) : hash r = key := by
  induction xs with
  | nil => simp [firstWithHash] at h
  | cons x xs ih =>
    cases x with
    | none => exact ih (by simpa [firstWithHash] using h)
    | some p =>
      by_cases hp : hash p = key
      · simp [firstWithHash, hp] at h
        rw [← h]; exact hp
      · exact ih (by simpa [firstWithHash, hp] using h)

theorem firstWithHash_take {P : Type} (hash : P → Nat) (key : Nat) (xs : List (Option P))
    (n : Nat) (r : P) (h : firstWithHash hash key (xs.take n) = some r) :
    firstWithHash hash key xs = some r := by
  have := firstWithHash_append hash key (xs.take n) (xs.drop n)
  rw [List.take_append_drop, h] at this
  exact this

theorem firstWithHash_take_self {P : Type} (hash : P → Nat) (xs : List (Option P))
    (i : Nat) (p : P) (h : xs[i]? = some (some p)) :
    ∃ r, firstWithHash hash (hash p) (xs.take (i + 1)) = some r := by
  induction xs generalizing i with
  | nil => simp at h
  | cons x xs ih =>
    cases i with
    | zero =>
      simp at h
      subst h
      exact ⟨p, by simp [firstWithHash]⟩
    | succ i =>
      simp at h
      obtain ⟨r, hr⟩ := ih i h
      cases x with
      | none => exact ⟨r, by simpa [firstWithHash] using hr⟩
      | some q =>
        by_cases hq : hash q = hash p
        · exact ⟨q, by simp [firstWithHash, hq]⟩
        · exact ⟨r, by simpa [firstWithHash, hq] using hr⟩

/-- The map after interning `refs` into a map that holds the first pointers of `done`
holds the first pointers of `done ++ refs`, and the results are the first pointers of
the sequence so far. -/
theorem internWith_spec {P : Type} (hash : P → Nat) (refs : List (Option P)) :
    ∀ (m : Nat → Option P) (done : List (Option P)),
    (∀ k, m k = firstWithHash hash k done) →
    (∀ k, (internWith hash m refs).2 k = firstWithHash hash k (done ++ refs)) ∧
    (internWith hash m refs).1.length = refs.length ∧
    (∀ i, i < refs.length →
      (internWith hash m refs).1[i]? =
        some (match refs[i]? with
          | some (some p) => firstWithHash hash (hash p) (done ++ refs.take (i + 1))
          | _ => none)) := by
  induction refs with
  | nil =>
    intro m done hm
    exact ⟨by simpa [internWith] using hm, rfl, by intro i hi; simp at hi⟩
  | cons ref rest ih =>
    intro m done hm
    have hstep : ∀ k, (tryGetWith hash m ref).2 k = firstWithHash hash k (done ++ [ref]) := by
      intro k
      rw [firstWithHash_append, ← hm k]
      cases ref with
      | none => cases h : m k <;> simp [tryGetWith, firstWithHash, h]
      | some p =>
        simp only [tryGetWith, tryEmplace]
        cases hp : m (hash p) with
        | some e =>
          by_cases hk : hash p = k
          · subst hk; simp [hp]
          · cases h : m k <;> simp [firstWithHash, hk, h]
        | none =>
          by_cases hk : hash p = k
          · subst hk; simp [firstWithHash, hp]
          · have hk' : ¬ k = hash p := fun h => hk h.symm
            cases h : m k <;> simp [firstWithHash, hk, hk', h]
    have hfirst : (tryGetWith hash m ref).1 =
        match ref with
        | some p => firstWithHash hash (hash p) (done ++ [ref])
        | none => none := by
      cases ref with
      | none => rfl
      | some p =>
        simp only [tryGetWith, tryEmplace]
        rw [firstWithHash_append, ← hm (hash p)]
        cases hp : m (hash p) <;> simp [firstWithHash]
    obtain ⟨h1, h2, h3⟩ := ih (tryGetWith hash m ref).2 (done ++ [ref]) hstep
    refine ⟨?_, ?_, ?_⟩
    · intro k
      simpa [internWith] using h1 k
    · simp [internWith, h2]
    · intro i hi
      cases i with
      | zero =>
        simp only [internWith, List.getElem?_cons_zero, List.take_succ_cons, List.take_zero,
          hfirst]
        cases ref <;> rfl
      | succ i =>
        have hi' : i < rest.length := by simpa using hi
        have := h3 i hi'
        simpa [internWith] using this

theorem internWith_internSpec {P : Type} (hash : P → Nat) (same : P → P → Prop)
    (hsame : ∀ p q, same p q → hash p = hash q) (refs : List (Option P)) :
    InternSpec hash same (tryGetWith hash) (internWith hash) refs := by
  obtain ⟨hmap, hlen, hres⟩ :=
    internWith_spec hash refs (fun _ => none) [] (by intro k; rfl)
  simp only [List.nil_append] at hmap hres
  have hsome : ∀ i p, refs[i]? = some (some p) →
      ∃ r, (internWith hash (fun _ => none) refs).1[i]? = some (some r) ∧
        firstWithHash hash (hash p) (refs.take (i + 1)) = some r := by
    intro i p hp
    have hi : i < refs.length := (List.getElem?_eq_some_iff.mp hp).1
    obtain ⟨r, hr⟩ := firstWithHash_take_self hash refs i p hp
    exact ⟨r, by rw [hres i hi, hp]; simp [hr], hr⟩
  refine ⟨hres, ?_, ?_, ?_, ?_⟩
  · intro i p hp
    obtain ⟨r, h1, h2⟩ := hsome i p hp
    exact ⟨r, h1, firstWithHash_hash hash _ _ r h2⟩
  · intro m ref k e hk
    cases ref with
    | none => exact hk
    | some p =>
      simp only [tryGetWith, tryEmplace]
      cases hp : m (hash p) with
      | some f => exact hk
      | none =>
        have : k ≠ hash p := by
          intro h; rw [h, hp] at hk; cases hk
        simp [this, hk]
  · intro i j p q hp hq hpq
    obtain ⟨r, h1, h2⟩ := hsome i p hp
    obtain ⟨t, g1, g2⟩ := hsome j q hq
    have e1 := firstWithHash_take hash _ _ _ _ h2
    have e2 := firstWithHash_take hash _ _ _ _ g2
    rw [hsame p q hpq, e2] at e1
    rw [h1, g1, Option.some.inj e1]
  · intro i r hr
    have hi : i < refs.length := by
      have := (List.getElem?_eq_some_iff.mp hr).1
      rwa [hlen] at this
    rw [hres i hi] at hr
    have hr' := Option.some.inj hr
    cases href : refs[i]? with
    | none => rw [href] at hr'; cases hr'
    | some o =>
      cases o with
      | none => rw [href] at hr'; cases hr'
      | some p =>
        rw [href] at hr'
        have hkey := firstWithHash_hash hash _ _ r hr'
        have hfull := firstWithHash_take hash _ _ _ _ hr'
        have hm := hmap (hash r)
        rw [hkey, hfull] at hm
        simp only [tryGetWith, tryEmplace, hkey, hm]

/-- C15: interning returns the first descriptor interned with the same structural hash.
For every sequence of item pointers and every sequence of tile pointers interned after a
flush, whatever the hash combiner: each non-null pointer gets the earliest pointer of the
sequence so far whose object has the same hash (itself when there is none before it), an
entry of the map is never replaced, two pointers to objects with equal fields get the
same pointer, and interning a result again returns it and changes nothing. -/
theorem interning_first_wins {P Q : Type} (obj : P → BasicItem) (objT : Q → BasicTile)
    (combine : Nat → HashArg → Nat) (refs : List (Option P)) (tileRefs : List (Option Q)) :
    InternSpec (fun p => (obj p).hash combine) (fun p q => obj p = obj q)
      (static_tryGetItemFromCache obj combine) (internItems obj combine) refs ∧
    InternSpec (fun p => (objT p).hash combine) (fun p q => objT p = objT q)
      (static_tryGetTileFromCache objT combine) (internTiles objT combine) tileRefs := by
  rw [static_tryGetItemFromCache_eq, static_tryGetTileFromCache_eq, internItems_eq,
    internTiles_eq]
  exact ⟨internWith_internSpec _ _ (fun p q h => by simp only [h]) refs,
    internWith_internSpec _ _ (fun p q h => by simp only [h]) tileRefs⟩

/-- C16, the code at the failing input: an item with id 100 and actionId 7 and an item
with id 100 and uniqueId 7 differ in two fields, yet for every combiner both feed it the
same calls (`u16 100`, then `u16 7`) and get the same structural hash, so that interning
the second after the first returns the first; likewise for a tile with flags 1 and a
tile with houseId 1. -/
theorem differing_descriptors_share_hash (combine : Nat → HashArg → Nat) :
    (BasicItem.mk [] 100 0 7 0 0 0 0 0 []).actionId ≠
      (BasicItem.mk [] 100 0 0 7 0 0 0 0 []).actionId ∧
    (BasicItem.mk [] 100 0 7 0 0 0 0 0 []).hash combine =
      (BasicItem.mk [] 100 0 0 7 0 0 0 0 []).hash combine ∧
    (BasicItem.mk [] 100 0 7 0 0 0 0 0 []).hash combine =
      combine (combine 0 (.u16 100)) (.u16 7) ∧
    (static_tryGetItemFromCache (fun p => p) combine
      (static_tryGetItemFromCache (fun p => p) combine (fun _ => none)
        (some (BasicItem.mk [] 100 0 7 0 0 0 0 0 []))).2
      (some (BasicItem.mk [] 100 0 0 7 0 0 0 0 []))).1 =
        some (BasicItem.mk [] 100 0 7 0 0 0 0 0 []) ∧
    (BasicTile.mk none [] 1 0 0 false).hash combine =
      (BasicTile.mk none [] 0 1 0 false).hash combine := by
  refine ⟨by decide, rfl, rfl, ?_, rfl⟩
  simp [static_tryGetItemFromCache, tryEmplace, BasicItem.hash, BasicItem.hashInto]

/-! ### Sector keys -/

theorem or_shift_eq_add (a b : Nat) (ha : a < 65536) (hb : b < 65536) :
    a ||| ((b <<< 16) % 4294967296) = a + 65536 * b := by
  rw [Nat.shiftLeft_eq, Nat.mod_eq_of_lt (by omega)]
  have h := Nat.mul_add_lt_is_or (i := 16) (b := a) (by simpa using ha) b
  rw [Nat.or_comm]
  have e : b * 2 ^ 16 = 2 ^ 16 * b := Nat.mul_comm _ _
  rw [e, ← h]; norm_num; omega

theorem or_mul_mod (a c : Nat) : (a ||| (65536 * c)) % 65536 = a % 65536 := by
  apply Nat.eq_of_testBit_eq
  intro i
  rw [show (65536 : Nat) = 2 ^ 16 by norm_num, Nat.testBit_mod_two_pow,
    Nat.testBit_mod_two_pow, Nat.testBit_or, Nat.testBit_mul_pow_two]
  by_cases h : i < 16
  · have h' : ¬ 16 ≤ i := by omega
    simp [h, h']
  · simp [h]

theorem sectorIndex_eq (S x y : Nat) (hx : x / S < 65536) (hy : y / S < 65536) :
    sectorIndex S x y = x / S + 65536 * (y / S) :=
  or_shift_eq_add _ _ hx hy

theorem grid_bounds (S m : Nat) (hS : 2 ≤ S) (hm : 65536 = S * m) :
    1 ≤ m ∧ m ≤ 32768 ∧ S ≤ 65536 ∧ S * (65536 * m) = 4294967296 := by
  have h1 : 1 ≤ m := by
    rcases Nat.eq_zero_or_pos m with h | h
    · subst h; simp at hm
    · exact h
  have h2 : 2 * m ≤ S * m := Nat.mul_le_mul_right m hS
  have h3 : S * 1 ≤ S * m := Nat.mul_le_mul_left S h1
  have h4 : S * (65536 * m) = 65536 * (S * m) := by
    rw [← Nat.mul_assoc, Nat.mul_comm S 65536, Nat.mul_assoc]
  refine ⟨h1, by omega, by omega, ?_⟩
  rw [h4, ← hm]

theorem div_lt_grid (S m x : Nat) (hm : 65536 = S * m) (hx : x < 65536) : x / S < m :=
  Nat.div_lt_of_lt_mul (hm ▸ hx)

theorem sub_div_sector (S y : Nat) (hS : 0 < S) (h : S ≤ y) : (y - S) / S = y / S - 1 := by
  have e : y / S = (y - S) / S + 1 := by
    conv_lhs => rw [show y = (y - S) + S by omega]
    exact Nat.add_div_right _ hS
  exact (Nat.sub_eq_of_eq_add e).symm

theorem wrapped_div (S m x : Nat) (hS : 2 ≤ S) (hm : 65536 = S * m) (hx : x < S) :
    (x + 4294967296 - S) % 4294967296 / S = 65536 * m - 1 := by
  obtain ⟨h1, _, h3, h4⟩ := grid_bounds S m hS hm
  have e : (x + 4294967296 - S) % 4294967296 = S * (65536 * m - 1) + x := by
    rw [Nat.mul_sub, h4, Nat.mul_one]
    omega
  rw [e, Nat.mul_add_div (by omega), Nat.div_eq_of_lt hx]
  rfl

theorem sectorIndex_north (S m x y : Nat) (hS : 2 ≤ S) (hm : 65536 = S * m)
    (hx : x < 65536) (hy : y < 65536) :
    sectorIndex S x ((y + 4294967296 - S) % 4294967296) =
      if S ≤ y then x / S + 65536 * (y / S - 1) else x / S + 65536 * 65535 := by
  obtain ⟨h1, h2, h3, h4⟩ := grid_bounds S m hS hm
  have hcx := div_lt_grid S m x hm hx
  have hcy := div_lt_grid S m y hm hy
  split
  · rename_i h
    rw [show (y + 4294967296 - S) % 4294967296 = y - S by omega]
    rw [sectorIndex_eq S x (y - S) (by omega) (by rw [sub_div_sector S y (by omega) h]; omega),
      sub_div_sector S y (by omega) h]
  · rename_i h
    unfold sectorIndex
    rw [wrapped_div S m y hS hm (by omega), Nat.shiftLeft_eq,
      show (65536 * m - 1) * 2 ^ 16 % 4294967296 = 2 ^ 16 * 65535 by omega]
    rw [Nat.or_comm, ← Nat.mul_add_lt_is_or (by norm_num; omega)]
    omega

theorem sectorIndex_west (S m x y : Nat) (hS : 2 ≤ S) (hm : 65536 = S * m)
    (hx : x < 65536) (hy : y < 65536) :
    (S ≤ x → sectorIndex S ((x + 4294967296 - S) % 4294967296) y =
      (x / S - 1) + 65536 * (y / S)) ∧
    (¬ S ≤ x → sectorIndex S ((x + 4294967296 - S) % 4294967296) y % 65536 = 65535) := by
  obtain ⟨h1, h2, h3, h4⟩ := grid_bounds S m hS hm
  have hcx := div_lt_grid S m x hm hx
  have hcy := div_lt_grid S m y hm hy
  constructor
  · intro h
    rw [show (x + 4294967296 - S) % 4294967296 = x - S by omega]
    rw [sectorIndex_eq S (x - S) y (by rw [sub_div_sector S x (by omega) h]; omega) (by omega),
      sub_div_sector S x (by omega) h]
  · intro h
    unfold sectorIndex
    rw [wrapped_div S m x hS hm (by omega), Nat.shiftLeft_eq,
      Nat.mod_eq_of_lt (a := y / S * 2 ^ 16) (b := 4294967296) (by omega),
      show y / S * 2 ^ 16 = 65536 * (y / S) by omega, or_mul_mod]
    omega

theorem sectorIndex_south (S m x y : Nat) (hS : 2 ≤ S) (hm : 65536 = S * m)
    (hx : x < 65536) (hy : y < 65536) :
    sectorIndex S x ((y + S) % 4294967296) = x / S + 65536 * (y / S + 1) := by
  obtain ⟨h1, h2, h3, h4⟩ := grid_bounds S m hS hm
  have hcx := div_lt_grid S m x hm hx
  have hcy := div_lt_grid S m y hm hy
  rw [Nat.mod_eq_of_lt (by omega),
    sectorIndex_eq S x (y + S) (by omega) (by rw [Nat.add_div_right _ (by omega)]; omega),
    Nat.add_div_right _ (by omega)]

theorem sectorIndex_east (S m x y : Nat) (hS : 2 ≤ S) (hm : 65536 = S * m)
    (hx : x < 65536) (hy : y < 65536) :
    sectorIndex S ((x + S) % 4294967296) y = (x / S + 1) + 65536 * (y / S) := by
  obtain ⟨h1, h2, h3, h4⟩ := grid_bounds S m hS hm
  have hcx := div_lt_grid S m x hm hx
  have hcy := div_lt_grid S m y hm hy
  rw [Nat.mod_eq_of_lt (by omega),
    sectorIndex_eq S (x + S) y (by rw [Nat.add_div_right _ (by omega)]; omega) (by omega),
    Nat.add_div_right _ (by omega)]

/-! ### Sector links -/

theorem setSectorS_isSome {I : Type} (ms : Nat → Option (MapSector I)) (p q k : Nat) :
    (setSectorS ms p q k).isSome = (ms k).isSome := by
  unfold setSectorS
  split
  · cases ms k <;> rfl
  · rfl

theorem setSectorE_isSome {I : Type} (ms : Nat → Option (MapSector I)) (p q k : Nat) :
    (setSectorE ms p q k).isSome = (ms k).isSome := by
  unfold setSectorE
  split
  · cases ms k <;> rfl
  · rfl

theorem getBestMapSector_eq {I : Type} (S : Nat) (ms : Nat → Option (MapSector I)) (x y : Nat) :
    getBestMapSector S ms x y =
      match ms (sectorIndex S x y) with
      | some _ => (sectorIndex S x y, ms)
      | none =>
        (sectorIndex S x y,
          linkNeighbours (fun k => if k = sectorIndex S x y then some MapSector.new else ms k)
            (sectorIndex S x y)
            (sectorIndex S x ((y + 4294967296 - S) % 4294967296))
            (sectorIndex S ((x + 4294967296 - S) % 4294967296) y)
            (sectorIndex S x ((y + S) % 4294967296))
            (sectorIndex S ((x + S) % 4294967296) y)) := by
  have hget : ∀ (m : Nat → Option (MapSector I)) (a b : Nat) (f : Nat → Nat → Option (MapSector I)),
      (match getMapSector S m a b with
        | some (p, _) => f p
        | none => m) = if (m (sectorIndex S a b)).isSome then f (sectorIndex S a b) else m := by
    intro m a b f
    unfold getMapSector
    cases m (sectorIndex S a b) <;> rfl
  simp only [getBestMapSector, createMapSector, linkNeighbours, hget]
  cases h : ms (sectorIndex S x y) with
  | some s => simp
  | none => simp

theorem condSectorS {I : Type} (m : Nat → Option (MapSector I)) (b : Bool) (a q : Nat) :
    (if b = true then setSectorS m a q else m) = fun k =>
      (m k).map (fun s =>
        { s with sectorS := if k = a ∧ b = true then some q else s.sectorS }) := by
  funext k
  cases b <;> by_cases e : k = a <;> cases hk : m k <;> simp_all [setSectorS]

theorem condSectorE {I : Type} (m : Nat → Option (MapSector I)) (b : Bool) (a q : Nat) :
    (if b = true then setSectorE m a q else m) = fun k =>
      (m k).map (fun s =>
        { s with sectorE := if k = a ∧ b = true then some q else s.sectorE }) := by
  funext k
  cases b <;> by_cases e : k = a <;> cases hk : m k <;> simp_all [setSectorE]

theorem linkNeighbours_apply {I : Type} (ms : Nat → Option (MapSector I))
    (p kn kw ks ke k : Nat) :
    linkNeighbours ms p kn kw ks ke k =
      (ms k).map (fun s =>
        { s with
          sectorS :=
            if k = p ∧ (ms ks).isSome then some ks
            else if k = kn then some p else s.sectorS
          sectorE :=
            if k = p ∧ (ms ke).isSome then some ke
            else if k = kw then some p else s.sectorE }) := by
  unfold linkNeighbours
  simp only [condSectorS, condSectorE, Option.isSome_map']
  cases hk : ms k with
  | none => rfl
  | some s =>
    by_cases e2 : k = kn <;> by_cases e3 : k = kw <;> simp_all

theorem linkNeighbours_isSome {I : Type} (ms : Nat → Option (MapSector I))
    (p kn kw ks ke k : Nat) :
    (linkNeighbours ms p kn kw ks ke k).isSome = (ms k).isSome := by
  rw [linkNeighbours_apply, Option.isSome_map']

theorem sectorPtr_linkNeighbours {I : Type} (ms : Nat → Option (MapSector I))
    (p kn kw ks ke k : Nat) :
    sectorPtr (linkNeighbours ms p kn kw ks ke) k = sectorPtr ms k := by
  unfold sectorPtr
  rw [linkNeighbours_isSome]

theorem linkNeighbours_links {I : Type} (G : Nat) (ms : Nat → Option (MapSector I))
    (k0 kn kw : Nat) (hG : G ≤ 32768) (hk0 : k0 % 65536 < G ∧ k0 / 65536 < G)
    (hnone : ms k0 = none)
    (hn : kn + 65536 = k0 ∨ (¬ kn / 65536 < G ∧ k0 / 65536 = 0))
    (hw : kw + 1 = k0 ∨ (¬ kw % 65536 < G ∧ k0 % 65536 = 0))
    (h : SectorLinks G ms) :
    SectorLinks G
      (linkNeighbours (fun k => if k = k0 then some MapSector.new else ms k)
        k0 kn kw (k0 + 65536) (k0 + 1)) := by
  intro k s hk
  rw [sectorPtr_linkNeighbours, sectorPtr_linkNeighbours]
  rw [linkNeighbours_apply] at hk
  by_cases hkk : k = k0
  · subst hkk
    have e1 : ¬ k = kn := by omega
    have e2 : ¬ k = kw := by omega
    simp [e1, e2, MapSector.new] at hk
    subst hk
    refine ⟨hk0.1, hk0.2, ?_, ?_⟩ <;> simp [sectorPtr]
  · simp only [hkk, if_false, false_and] at hk
    cases hs : ms k with
    | none => simp [hs] at hk
    | some s0 =>
      obtain ⟨b1, b2, hE, hS⟩ := h k s0 hs
      simp [hs] at hk
      subst hk
      refine ⟨b1, b2, ?_, ?_⟩
      · simp only [sectorPtr]
        by_cases e : k = kw
        · subst e
          have e1 : k + 1 = k0 := by
            rcases hw with hw | ⟨hw, _⟩
            · exact hw
            · exact absurd b1 hw
          simp [e1]
        · have e1 : ¬ k + 1 = k0 := by
            intro hc
            rcases hw with hw | ⟨_, hw⟩
            · omega
            · omega
          simp [e, e1, hE, sectorPtr]
      · simp only [sectorPtr]
        by_cases e : k = kn
        · subst e
          have e1 : k + 65536 = k0 := by
            rcases hn with hn | ⟨hn, _⟩
            · exact hn
            · exact absurd b2 hn
          simp [e1]
        · have e1 : ¬ k + 65536 = k0 := by
            intro hc
            rcases hn with hn | ⟨_, hn⟩
            · omega
            · omega
          simp [e, e1, hS, sectorPtr]

theorem key_bounds (a b m : Nat) (ha : a < m) (hb : b < m) (hm : m ≤ 32768) :
    (a + 65536 * b) % 65536 < m ∧ (a + 65536 * b) / 65536 < m := by
  constructor <;> omega

theorem getBestMapSector_links {I : Type} (S m : Nat) (hS : 2 ≤ S) (hm : 65536 = S * m)
    (ms : Nat → Option (MapSector I)) (x y : Nat) (hx : x < 65536) (hy : y < 65536)
    (h : SectorLinks m ms) :
    SectorLinks m (getBestMapSector S ms x y).2 ∧
    (getBestMapSector S ms x y).1 = sectorIndex S x y ∧
    ∀ k, ((getBestMapSector S ms x y).2 k).isSome =
      (decide (k = sectorIndex S x y) || (ms k).isSome) := by
  obtain ⟨h1, h2, h3, h4⟩ := grid_bounds S m hS hm
  have hcx := div_lt_grid S m x hm hx
  have hcy := div_lt_grid S m y hm hy
  have hk0 := sectorIndex_eq S x y (by omega) (by omega)
  have hb : sectorIndex S x y % 65536 < m ∧ sectorIndex S x y / 65536 < m := by
    rw [hk0]; exact key_bounds _ _ m hcx hcy h2
  rw [getBestMapSector_eq]
  cases hs : ms (sectorIndex S x y) with
  | some s =>
    refine ⟨h, rfl, ?_⟩
    intro k
    by_cases e : k = sectorIndex S x y
    · simp [e, hs]
    · simp [e]
  | none =>
    refine ⟨?_, rfl, ?_⟩
    · have hsouth : sectorIndex S x ((y + S) % 4294967296) = sectorIndex S x y + 65536 := by
        rw [sectorIndex_south S m x y hS hm hx hy, hk0]; omega
      have heast : sectorIndex S ((x + S) % 4294967296) y = sectorIndex S x y + 1 := by
        rw [sectorIndex_east S m x y hS hm hx hy, hk0]; omega
      rw [hsouth, heast]
      apply linkNeighbours_links m ms _ _ _ h2 hb hs _ _ h
      · rw [sectorIndex_north S m x y hS hm hx hy, hk0]
        by_cases c : S ≤ y
        · have : 0 < y / S := Nat.div_pos c (by omega)
          left; rw [if_pos c]; omega
        · have : y / S = 0 := Nat.div_eq_of_lt (by omega)
          right; rw [if_neg c]; constructor <;> omega
      · have hw := sectorIndex_west S m x y hS hm hx hy
        by_cases c : S ≤ x
        · have : 0 < x / S := Nat.div_pos c (by omega)
          left; rw [hw.1 c, hk0]; omega
        · have : x / S = 0 := Nat.div_eq_of_lt (by omega)
          right; rw [hw.2 c, hk0]; constructor <;> omega
    · intro k
      simp only [linkNeighbours_isSome]
      by_cases e : k = sectorIndex S x y
      · simp [e]
      · simp [e]

theorem getBestMapSectors_links {I : Type} (S m : Nat) (hS : 2 ≤ S) (hm : 65536 = S * m)
    (calls : List (Nat × Nat)) (hc : ∀ c ∈ calls, c.1 < 65536 ∧ c.2 < 65536)
    (ms : Nat → Option (MapSector I)) (h : SectorLinks m ms) :
    SectorLinks m (getBestMapSectors S ms calls) ∧
    ∀ k, (getBestMapSectors S ms calls k).isSome = true ↔
      ((ms k).isSome = true ∨ ∃ c ∈ calls, k = sectorIndex S c.1 c.2) := by
  induction calls generalizing ms with
  | nil => exact ⟨h, by simp [getBestMapSectors]⟩
  | cons c rest ih =>
    obtain ⟨hc1, hc2⟩ := hc c (List.mem_cons_self _ _)
    obtain ⟨g1, _, g3⟩ := getBestMapSector_links S m hS hm ms c.1 c.2 hc1 hc2 h
    obtain ⟨i1, i2⟩ := ih (fun d hd => hc d (List.mem_cons_of_mem _ hd)) _ g1
    refine ⟨i1, ?_⟩
    intro k
    simp only [getBestMapSectors]
    rw [i2 k, g3 k]
    simp only [Bool.or_eq_true, decide_eq_true_eq, List.mem_cons, exists_eq_or_imp]
    tauto

theorem getMapSector_fst {I : Type} (S : Nat) (ms : Nat → Option (MapSector I)) (a b : Nat) :
    (getMapSector S ms a b).map Prod.fst = sectorPtr ms (sectorIndex S a b) := by
  unfold getMapSector sectorPtr
  cases ms (sectorIndex S a b) <;> rfl

theorem getMapSector_eq_some {I : Type} (S : Nat) (ms : Nat → Option (MapSector I)) (a b p : Nat)
    (A : MapSector I) :
    getMapSector S ms a b = some (p, A) ↔ p = sectorIndex S a b ∧ ms (sectorIndex S a b) = some A := by
  unfold getMapSector
  cases h : ms (sectorIndex S a b) with
  | none => simp
  | some s =>
    simp only [Option.some.injEq, Prod.mk.injEq]
    constructor
    · rintro ⟨rfl, rfl⟩; exact ⟨rfl, rfl⟩
    · rintro ⟨rfl, rfl⟩; exact ⟨rfl, rfl⟩

theorem sectorLinks_empty {I : Type} (G : Nat) : SectorLinks G (noSectors I) := by
  intro k s h
  simp [noSectors] at h

theorem key_inj (a b c d : Nat) (ha : a < 65536) (hc : c < 65536) :
    a + 65536 * b = c + 65536 * d ↔ a = c ∧ b = d := by
  omega

theorem key_east (a b c d : Nat) (ha : a < 32768) (hc : c < 32768) :
    c + 65536 * d + 1 = a + 65536 * b ↔ c + 1 = a ∧ d = b := by
  omega

theorem key_south (a b c d : Nat) (ha : a < 65536) (hc : c < 65536) :
    c + 65536 * d + 65536 = a + 65536 * b ↔ c = a ∧ d + 1 = b := by
  omega

theorem key_east_mod (a b : Nat) (ha : a < 32768) : (a + 65536 * b + 1) % 65536 = a + 1 := by
  omega

theorem key_south_div (a b : Nat) (ha : a < 65536) :
    (a + 65536 * b + 65536) / 65536 = b + 1 := by
  omega

theorem sectorPtr_eq_some {I : Type} (ms : Nat → Option (MapSector I)) (k p : Nat) :
    sectorPtr ms k = some p ↔ k = p ∧ (ms k).isSome = true := by
  unfold sectorPtr
  split <;> simp_all

/-- C19: sector links are consistent after any sequence of `getBestMapSector` calls on
16-bit coordinates, from the empty map, for a sector size that is at least 2 and divides
65536 (the spec gives 32). For every 16-bit coordinate pair, the sector of the pair
exists iff some call fell in the same grid cell; if it exists, its `sectorE` is the
pointer `getMapSector` returns one sector size to the east and its `sectorS` the one it
returns one sector size to the south, both null past the 16-bit range; and among the
sectors of 16-bit coordinate pairs, pointers are equal exactly for equal cells, a sector
points east to it exactly when it lies one cell to the west, and south to it exactly
when it lies one cell to the north, so no wrapped-around neighbour is ever linked. -/
theorem sector_links_consistent {I : Type} (S : Nat) (hS : 2 ≤ S) (hd : S ∣ 65536)
    (calls : List (Nat × Nat)) (hc : ∀ c ∈ calls, c.1 < 65536 ∧ c.2 < 65536)
    (x y : Nat) (hx : x < 65536) (hy : y < 65536) :
    ((getMapSector S (getBestMapSectors S (noSectors I) calls)
        x y).isSome = true ↔
      ∃ c ∈ calls, c.1 / S = x / S ∧ c.2 / S = y / S) ∧
    ∀ (p : Nat) (A : MapSector I),
      getMapSector S (getBestMapSectors S (noSectors I) calls) x y = some (p, A) →
      A.sectorE =
        (getMapSector S (getBestMapSectors S (noSectors I) calls) (x + S) y).map Prod.fst ∧
      A.sectorS =
        (getMapSector S (getBestMapSectors S (noSectors I) calls) x (y + S)).map Prod.fst ∧
      (65536 ≤ x + S → A.sectorE = none) ∧
      (65536 ≤ y + S → A.sectorS = none) ∧
      ∀ (x' y' q : Nat) (B : MapSector I), x' < 65536 → y' < 65536 →
        getMapSector S (getBestMapSectors S (noSectors I) calls) x' y' = some (q, B) →
        (q = p ↔ x' / S = x / S ∧ y' / S = y / S) ∧
        (B.sectorE = some p ↔ x' / S + 1 = x / S ∧ y' / S = y / S) ∧
        (B.sectorS = some p ↔ x' / S = x / S ∧ y' / S + 1 = y / S) := by
  obtain ⟨m, hm⟩ := hd
  obtain ⟨h1, h2, h3, h4⟩ := grid_bounds S m hS hm
  obtain ⟨inv, dom⟩ := getBestMapSectors_links S m hS hm calls hc (noSectors I)
    (sectorLinks_empty m)
  generalize getBestMapSectors S (noSectors I) calls = ms at inv dom ⊢
  have hidx : ∀ a b, a < 65536 → b < 65536 →
      sectorIndex S a b = a / S + 65536 * (b / S) ∧ a / S < 32768 ∧ b / S < 32768 ∧
      a / S < m ∧ b / S < m := by
    intro a b ha hb
    have h5 := div_lt_grid S m a hm ha
    have h6 := div_lt_grid S m b hm hb
    exact ⟨sectorIndex_eq S a b (by omega) (by omega), by omega, by omega, h5, h6⟩
  obtain ⟨hk, hcx, hcy, hcxm, hcym⟩ := hidx x y hx hy
  have heast : sectorIndex S (x + S) y = x / S + 65536 * (y / S) + 1 := by
    have := sectorIndex_east S m x y hS hm hx hy
    rw [Nat.mod_eq_of_lt (by omega)] at this
    rw [this]; clear this hk; omega
  have hsouth : sectorIndex S x (y + S) = x / S + 65536 * (y / S) + 65536 := by
    have := sectorIndex_south S m x y hS hm hx hy
    rw [Nat.mod_eq_of_lt (by omega)] at this
    rw [this]; clear this hk heast; omega
  have hEge : 65536 ≤ x + S → m ≤ x / S + 1 := by
    intro hge
    have : m ≤ (x + S) / S :=
      (Nat.le_div_iff_mul_le (by omega)).2 (by rw [Nat.mul_comm, ← hm]; exact hge)
    rwa [Nat.add_div_right _ (by omega)] at this
  have hSge : 65536 ≤ y + S → m ≤ y / S + 1 := by
    intro hge
    have : m ≤ (y + S) / S :=
      (Nat.le_div_iff_mul_le (by omega)).2 (by rw [Nat.mul_comm, ← hm]; exact hge)
    rwa [Nat.add_div_right _ (by omega)] at this
  have hsome : (getMapSector S ms x y).isSome = (ms (sectorIndex S x y)).isSome := by
    unfold getMapSector
    cases ms (sectorIndex S x y) <;> rfl
  rw [hsome, getMapSector_fst, getMapSector_fst, heast, hsouth]
  simp only [getMapSector_eq_some]
  rw [hk]
  clear heast hsouth hsome hk
  constructor
  · rw [dom]
    simp only [noSectors, Option.isSome_none, Bool.false_eq_true, false_or]
    constructor
    · rintro ⟨c, hcm, hce⟩
      obtain ⟨c1, c2⟩ := hc c hcm
      obtain ⟨i1, i2, i3, _, _⟩ := hidx c.1 c.2 c1 c2
      rw [i1] at hce
      have := (key_inj _ _ _ _ (by omega) (by omega)).1 hce
      exact ⟨c, hcm, this.1.symm, this.2.symm⟩
    · rintro ⟨c, hcm, e1, e2⟩
      obtain ⟨c1, c2⟩ := hc c hcm
      obtain ⟨i1, i2, i3, _, _⟩ := hidx c.1 c.2 c1 c2
      exact ⟨c, hcm, by rw [i1, e1, e2]⟩
  · rintro p A ⟨rfl, hA⟩
    obtain ⟨b1, b2, lE, lS⟩ := inv _ A hA
    refine ⟨lE, lS, ?_, ?_, ?_⟩
    · intro hge
      rw [lE]
      unfold sectorPtr
      cases hn : ms (x / S + 65536 * (y / S) + 1) with
      | none => rfl
      | some B =>
        exfalso
        obtain ⟨b3, _, _, _⟩ := inv _ B hn
        rw [key_east_mod _ _ hcx] at b3
        have := hEge hge
        omega
    · intro hge
      rw [lS]
      unfold sectorPtr
      cases hn : ms (x / S + 65536 * (y / S) + 65536) with
      | none => rfl
      | some B =>
        exfalso
        obtain ⟨_, b3, _, _⟩ := inv _ B hn
        rw [key_south_div _ _ (by omega)] at b3
        have := hSge hge
        omega
    · rintro x' y' q B hx' hy' ⟨rfl, hB⟩
      obtain ⟨i1, i2, i3, _, _⟩ := hidx x' y' hx' hy'
      rw [i1] at hB ⊢
      obtain ⟨_, _, mE, mS⟩ := inv _ B hB
      have hAs : (ms (x / S + 65536 * (y / S))).isSome = true := by rw [hA]; rfl
      rw [mE, mS, sectorPtr_eq_some, sectorPtr_eq_some]
      refine ⟨key_inj _ _ _ _ (by omega) (by omega), ?_, ?_⟩
      · rw [key_east _ _ _ _ hcx i2]
        constructor
        · exact fun h => h.1
        · intro h
          refine ⟨h, ?_⟩
          rw [(key_east _ _ _ _ hcx i2).2 h]
          exact hAs
      · rw [key_south _ _ _ _ (by omega) (by omega)]
        constructor
        · exact fun h => h.1
        · intro h
          refine ⟨h, ?_⟩
          rw [(key_south _ _ _ _ (by omega) (by omega)).2 h]
          exact hAs

theorem sector_links_consistent_witness :
    (getMapSector 32 (getBestMapSectors 32 (noSectors Unit) [(40, 0), (0, 0), (0, 40)])
      0 0).isSome = true ∧
    (MapSector.mk (fun _ => none) (some 65536) (some 1) : MapSector Unit).sectorE =
      (getMapSector 32 (getBestMapSectors 32 (noSectors Unit) [(40, 0), (0, 0), (0, 40)])
        (0 + 32) 0).map Prod.fst ∧
    (MapSector.mk (fun _ => none) (some 65536) (some 1) : MapSector Unit).sectorS =
      (getMapSector 32 (getBestMapSectors 32 (noSectors Unit) [(40, 0), (0, 0), (0, 40)])
        0 (0 + 32)).map Prod.fst :=
  ⟨(sector_links_consistent 32 (by decide) ⟨2048, by decide⟩ [(40, 0), (0, 0), (0, 40)]
      (by decide) 0 0 (by decide) (by decide)).1.2 ⟨(0, 0), by decide, rfl, rfl⟩,
   ((sector_links_consistent 32 (by decide) ⟨2048, by decide⟩ [(40, 0), (0, 0), (0, 40)]
      (by decide) 0 0 (by decide) (by decide)).2 0 _ rfl).1,
   ((sector_links_consistent 32 (by decide) ⟨2048, by decide⟩ [(40, 0), (0, 0), (0, 40)]
      (by decide) 0 0 (by decide) (by decide)).2 0 _ rfl).2.1⟩

/-! ### The layer limit -/

/-- C20, the code at the failing input: for every level `z` at or above `MAP_MAX_LAYERS`,
`getTile` returns null and `setTile` and `setBasicTile` leave the map as it is, but
`getOrCreateTile` returns a new tile, which it has stored nowhere. -/
theorem getOrCreateTile_ignores_layer_limit {I HS ZS : Type} (env : Env I HS ZS)
    (m : Map I HS ZS) (x y d : Nat) (isDynamic : Bool) (newTile : Option (Tile I))
    (basicTile : Option BasicTile) :
    getTile env m x y (env.MAP_MAX_LAYERS + d) = .ok (none, m) ∧
    setTile env m x y (env.MAP_MAX_LAYERS + d) newTile = m ∧
    setBasicTile env m x y (env.MAP_MAX_LAYERS + d) basicTile = m ∧
    getOrCreateTile env m x y (env.MAP_MAX_LAYERS + d) isDynamic =
      .ok (some (Tile.new ⟨x, y, env.MAP_MAX_LAYERS + d⟩
        (if isDynamic then .dynamicTile else .staticTile)), m) := by
  have hz : env.MAP_MAX_LAYERS + d ≥ env.MAP_MAX_LAYERS := Nat.le_add_right _ _
  have h1 : getTile env m x y (env.MAP_MAX_LAYERS + d) = .ok (none, m) := by
    simp [getTile, hz]
  have h2 : ∀ t, setTile env m x y (env.MAP_MAX_LAYERS + d) t = m := by
    intro t; simp [setTile, hz]
  refine ⟨h1, h2 _, by simp [setBasicTile, hz], ?_⟩
  simp only [getOrCreateTile, h1, h2]

/-! ### Lazy materialization -/

/-- C17, the code at the failing input: on a new map without houses, after `setBasicTile`
has stored at (100, 100, 7) a descriptor with ground item 100 and house id 7, `getTile`
at (100, 100, 7) dereferences the null `tile` instead of returning a live tile; with
house 7 registered the same calls return a house tile. -/
theorem getTile_faults_on_unregistered_house :
    getTile sampleEnv
      (setBasicTile sampleEnv (Map.new [] ()) 100 100 7
        (some ⟨some (BasicItem.mk [] 100 0 0 0 0 0 0 0 []), [], 0, 7, 0, false⟩))
      100 100 7 = .fault ∧
    ∃ tile m1,
      getTile sampleEnv
        (setBasicTile sampleEnv (Map.new [7] ()) 100 100 7
          (some ⟨some (BasicItem.mk [] 100 0 0 0 0 0 0 0 []), [], 0, 7, 0, false⟩))
        100 100 7 = .ok (some tile, m1) ∧
      tile.kind = .houseTile 7 ∧ tile.things = [100] :=
  ⟨rfl, _, _, rfl, rfl, rfl⟩

theorem getTile_of_pending {I HS ZS : Type} (env : Env I HS ZS) (m : Map I HS ZS)
    (x y z sector : Nat) (s : MapSector I) (floor : Floor I)
    (hz : z < env.MAP_MAX_LAYERS)
    (hs : getMapSector env.SECTOR_SIZE m.mapSectors x y = some (sector, s))
    (hf : s.getFloor z = some floor) :
    getTile env m x y z = getOrCreateTileFromCache env m sector z floor x y := by
  simp [getTile, Nat.not_le.2 hz, hs, hf]

theorem getTile_unregistered_house {I HS ZS : Type} (env : Env I HS ZS) (m : Map I HS ZS)
    (x y z sector : Nat) (s : MapSector I) (floor : Floor I) (d : BasicTile)
    (hz : z < env.MAP_MAX_LAYERS)
    (hs : getMapSector env.SECTOR_SIZE m.mapSectors x y = some (sector, s))
    (hf : s.getFloor z = some floor)
    (hd : floor.getTileCache env.SECTOR_SIZE x y = some d)
    (hh : d.isHouse = true) (hn : env.getHouse m.houses d.houseId = false) :
    getTile env m x y z = .fault := by
  rw [getTile_of_pending env m x y z sector s floor hz hs hf]
  simp [getOrCreateTileFromCache, hd, hh, hn]

theorem getTile_materializes_once {I HS ZS : Type} (env : Env I HS ZS) (m : Map I HS ZS)
    (x y z sector : Nat) (s : MapSector I) (floor : Floor I) (d : BasicTile)
    (hz : z < env.MAP_MAX_LAYERS)
    (hs : getMapSector env.SECTOR_SIZE m.mapSectors x y = some (sector, s))
    (hf : s.getFloor z = some floor)
    (hd : floor.getTileCache env.SECTOR_SIZE x y = some d)
    (hh : d.isHouse = true → env.getHouse m.houses d.houseId = true) :
    ∃ tile m1, getTile env m x y z = .ok (some tile, m1) ∧
      getLoadedTile env m1 x y z = some tile ∧
      pendingTile env m1 x y z = none ∧
      getTile env m1 x y z = .ok (some tile, m1) := by
  obtain ⟨hp, hms⟩ := (getMapSector_eq_some _ _ _ _ _ _).1 hs
  subst hp
  have key : ∀ (tile : Tile I) (m1 : Map I HS ZS),
      m1.mapSectors = (fun k =>
        if k = sectorIndex env.SECTOR_SIZE x y then (m.mapSectors k).map (fun s => s.putFloor z
          ((floor.setTile env.SECTOR_SIZE x y (some tile)).setTileCache env.SECTOR_SIZE x y none))
        else m.mapSectors k) →
      getLoadedTile env m1 x y z = some tile ∧ pendingTile env m1 x y z = none ∧
      getTile env m1 x y z = .ok (some tile, m1) := by
    intro tile m1 hm1
    have hs1 : getMapSector env.SECTOR_SIZE m1.mapSectors x y =
        some (sectorIndex env.SECTOR_SIZE x y, s.putFloor z
          ((floor.setTile env.SECTOR_SIZE x y (some tile)).setTileCache env.SECTOR_SIZE x y none)) := by
      rw [getMapSector_eq_some]
      refine ⟨rfl, ?_⟩
      rw [hm1]
      simp [hms]
    refine ⟨?_, ?_, ?_⟩
    · simp [getLoadedTile, Nat.not_le.2 hz, hs1, MapSector.getFloor, MapSector.putFloor,
        Floor.getTile, Floor.setTile, Floor.setTileCache]
    · simp [pendingTile, Nat.not_le.2 hz, hs1, MapSector.getFloor, MapSector.putFloor,
        Floor.getTileCache, Floor.setTile, Floor.setTileCache]
    · rw [getTile_of_pending env m1 x y z _ _
        ((floor.setTile env.SECTOR_SIZE x y (some tile)).setTileCache env.SECTOR_SIZE x y none)
        hz hs1 (by simp [MapSector.getFloor, MapSector.putFloor])]
      simp [getOrCreateTileFromCache, Floor.getTileCache, Floor.getTile, Floor.setTile,
        Floor.setTileCache]
  rw [getTile_of_pending env m x y z _ s floor hz hs hf]
  by_cases h1 : d.isHouse = true
  · have h2 := hh h1
    simp only [getOrCreateTileFromCache, hd, h1, h2, if_true]
    exact ⟨_, _, rfl, key _ _ rfl⟩
  · by_cases h3 : d.isStatic = true
    · simp only [getOrCreateTileFromCache, hd, h1, h3, if_true, if_false]
      exact ⟨_, _, rfl, key _ _ rfl⟩
    · simp only [getOrCreateTileFromCache, hd, h1, h3, if_false]
      exact ⟨_, _, rfl, key _ _ rfl⟩

/-! ### Floor exclusivity -/

theorem floorExclusive_new {I : Type} : FloorExclusive (Floor.new : Floor I) :=
  fun _ _ => Or.inl rfl

theorem createFloor_cases {I : Type} (s : MapSector I) (z : Nat) :
    (s.floors z = some (s.createFloor z).2 ∧ (s.createFloor z).1 = s) ∨
    (s.floors z = none ∧ (s.createFloor z).2 = Floor.new ∧
      (s.createFloor z).1.floors = fun k => if k = z then some Floor.new else s.floors k) := by
  unfold MapSector.createFloor
  cases h : s.floors z with
  | some f => exact Or.inl ⟨rfl, rfl⟩
  | none => exact Or.inr ⟨rfl, rfl, rfl⟩

theorem exclusive_writeFloor {I : Type} (ms : Nat → Option (MapSector I)) (sector z : Nat)
    (w : Floor I → Floor I) (h : Exclusive ms)
    (hw : ∀ s, ms sector = some s → FloorExclusive (w (s.createFloor z).2)) :
    Exclusive (writeFloor ms sector z w) := by
  intro k s1 z1 f hk hf
  unfold writeFloor at hk
  by_cases e : k = sector
  · subst e
    rw [if_pos rfl] at hk
    cases hs : ms k with
    | none => rw [hs] at hk; simp at hk
    | some s =>
      rw [hs] at hk
      simp only [Option.map_some', Option.some.injEq] at hk
      subst hk
      simp only [MapSector.putFloor] at hf
      by_cases ez : z1 = z
      · subst ez
        rw [if_pos rfl] at hf
        simp only [Option.some.injEq] at hf
        subst hf
        exact hw s hs
      · rw [if_neg ez] at hf
        rcases createFloor_cases s z with ⟨_, c⟩ | ⟨_, _, c⟩
        · rw [c] at hf
          exact h k s z1 f hs hf
        · rw [c] at hf
          simp only [if_neg ez] at hf
          exact h k s z1 f hs hf
  · rw [if_neg e] at hk
    exact h k s1 z1 f hk hf

theorem getBestMapSector_floors {I : Type} (S : Nat) (ms : Nat → Option (MapSector I))
    (x y k : Nat) (s1 : MapSector I) (hk : (getBestMapSector S ms x y).2 k = some s1) :
    (∃ s, ms k = some s ∧ s1.floors = s.floors) ∨
    (ms k = none ∧ k = sectorIndex S x y ∧ s1.floors = fun _ => none) := by
  rw [getBestMapSector_eq] at hk
  cases hs : ms (sectorIndex S x y) with
  | some s0 =>
    rw [hs] at hk
    exact Or.inl ⟨s1, hk, rfl⟩
  | none =>
    rw [hs] at hk
    simp only [linkNeighbours_apply] at hk
    by_cases e : k = sectorIndex S x y
    · subst e
      right
      simp only [if_true, Option.map_some', Option.some.injEq] at hk
      subst hk
      exact ⟨hs, rfl, rfl⟩
    · left
      simp only [if_neg e] at hk
      cases hm : ms k with
      | none => rw [hm] at hk; simp at hk
      | some s =>
        rw [hm] at hk
        simp only [Option.map_some', Option.some.injEq] at hk
        subst hk
        exact ⟨s, rfl, rfl⟩

theorem exclusive_getBestMapSector {I : Type} (S : Nat) (ms : Nat → Option (MapSector I))
    (x y : Nat) (h : Exclusive ms) : Exclusive (getBestMapSector S ms x y).2 := by
  intro k s1 z f hk hf
  rcases getBestMapSector_floors S ms x y k s1 hk with ⟨s, hs, e⟩ | ⟨_, _, e⟩
  · rw [e] at hf
    exact h k s z f hs hf
  · rw [e] at hf
    simp at hf

theorem exclusive_store {I : Type} (S : Nat) (ms : Nat → Option (MapSector I)) (x y z : Nat)
    (w : Floor I → Floor I) (h : Exclusive ms)
    (hw : ∀ f, (f = Floor.new ∨
        ∃ sector s, getMapSector S ms x y = some (sector, s) ∧ s.floors z = some f) →
      FloorExclusive (w f)) :
    Exclusive
      (match getMapSector S ms x y with
        | some (sector, _) => writeFloor ms sector z w
        | none => writeFloor (getBestMapSector S ms x y).2 (getBestMapSector S ms x y).1 z w) := by
  cases hg : getMapSector S ms x y with
  | some r =>
    obtain ⟨sector, s0⟩ := r
    simp only []
    apply exclusive_writeFloor ms sector z w h
    intro s hs
    obtain ⟨hp, hms⟩ := (getMapSector_eq_some _ _ _ _ _ _).1 hg
    have e : s = s0 := by
      rw [hp, hms] at hs
      exact (Option.some.inj hs).symm
    subst e
    apply hw
    rcases createFloor_cases s z with ⟨c, _⟩ | ⟨_, c, _⟩
    · exact Or.inr ⟨sector, s, hg, c⟩
    · exact Or.inl c
  | none =>
    simp only []
    apply exclusive_writeFloor _ _ z w (exclusive_getBestMapSector S ms x y h)
    intro s hs
    apply hw
    left
    have hnone : ms (sectorIndex S x y) = none := by
      unfold getMapSector at hg
      cases hm : ms (sectorIndex S x y) with
      | none => rfl
      | some a => rw [hm] at hg; simp at hg
    have h1 : (getBestMapSector S ms x y).1 = sectorIndex S x y := by
      rw [getBestMapSector_eq, hnone]
    rw [h1] at hs
    rcases getBestMapSector_floors S ms x y _ s hs with ⟨s', hs', _⟩ | ⟨_, _, e⟩
    · rw [hnone] at hs'; simp at hs'
    · rcases createFloor_cases s z with ⟨c, _⟩ | ⟨_, c, _⟩
      · rw [e] at c; simp at c
      · exact c

theorem floorExclusive_setTile {I : Type} (S : Nat) (f : Floor I) (x y : Nat)
    (t : Option (Tile I)) (h : FloorExclusive f)
    (hs : t = none ∨ f.getTileCache S x y = none) :
    FloorExclusive (f.setTile S x y t) := by
  intro i j
  simp only [Floor.setTile]
  by_cases e : i = x % S ∧ j = y % S
  · rw [if_pos e]
    rcases hs with hs | hs
    · exact Or.inl hs
    · right
      rw [e.1, e.2]
      exact hs
  · rw [if_neg e]
    exact h i j

theorem floorExclusive_setTileCache {I : Type} (S : Nat) (f : Floor I) (x y : Nat)
    (t : Option BasicTile) (h : FloorExclusive f)
    (hs : t = none ∨ f.getTile S x y = none) :
    FloorExclusive (f.setTileCache S x y t) := by
  intro i j
  simp only [Floor.setTileCache]
  by_cases e : i = x % S ∧ j = y % S
  · rw [if_pos e]
    rcases hs with hs | hs
    · exact Or.inr hs
    · left
      rw [e.1, e.2]
      exact hs
  · rw [if_neg e]
    exact h i j

theorem exclusive_setTile {I HS ZS : Type} (env : Env I HS ZS) (m : Map I HS ZS)
    (x y z : Nat) (newTile : Option (Tile I)) (h : Exclusive m.mapSectors)
    (hp : newTile = none ∨ pendingTile env m x y z = none) :
    Exclusive (setTile env m x y z newTile).mapSectors := by
  unfold setTile
  by_cases hz : z ≥ env.MAP_MAX_LAYERS
  · rw [if_pos hz]; exact h
  · rw [if_neg hz]
    have key := exclusive_store env.SECTOR_SIZE m.mapSectors x y z
      (fun f => f.setTile env.SECTOR_SIZE x y newTile) h (by
        intro f hf
        rcases hf with hf | ⟨sector, s, hs, hfl⟩
        · subst hf
          exact floorExclusive_setTile _ _ _ _ _ floorExclusive_new (Or.inr rfl)
        · obtain ⟨_, hms⟩ := (getMapSector_eq_some _ _ _ _ _ _).1 hs
          apply floorExclusive_setTile _ _ _ _ _ (h _ s z f hms hfl)
          rcases hp with hp | hp
          · exact Or.inl hp
          · right
            simpa [pendingTile, hz, hs, MapSector.getFloor, hfl] using hp)
    cases hg : getMapSector env.SECTOR_SIZE m.mapSectors x y with
    | some r => rw [hg] at key; exact key
    | none => rw [hg] at key; exact key

theorem exclusive_setBasicTile {I HS ZS : Type} (env : Env I HS ZS) (m : Map I HS ZS)
    (x y z : Nat) (newTile : Option BasicTile) (h : Exclusive m.mapSectors)
    (hp : newTile = none ∨ getLoadedTile env m x y z = none) :
    Exclusive (setBasicTile env m x y z newTile).mapSectors := by
  unfold setBasicTile
  by_cases hz : z ≥ env.MAP_MAX_LAYERS
  · rw [if_pos hz]; exact h
  · rw [if_neg hz]
    have key := exclusive_store env.SECTOR_SIZE m.mapSectors x y z
      (fun f => f.setTileCache env.SECTOR_SIZE x y
        (static_tryGetTileFromCache (fun p => p) env.combine m.tiles newTile).1) h (by
        intro f hf
        rcases hf with hf | ⟨sector, s, hs, hfl⟩
        · subst hf
          exact floorExclusive_setTileCache _ _ _ _ _ floorExclusive_new (Or.inr rfl)
        · obtain ⟨_, hms⟩ := (getMapSector_eq_some _ _ _ _ _ _).1 hs
          apply floorExclusive_setTileCache _ _ _ _ _ (h _ s z f hms hfl)
          rcases hp with hp | hp
          · left
            subst hp
            rfl
          · right
            simpa [getLoadedTile, hz, hs, MapSector.getFloor, hfl] using hp)
    cases hg : getMapSector env.SECTOR_SIZE m.mapSectors x y with
    | some r => rw [hg] at key; exact key
    | none => rw [hg] at key; exact key

theorem getOrCreateTileFromCache_ok {I HS ZS : Type} (env : Env I HS ZS) (m m1 : Map I HS ZS)
    (sector z x y : Nat) (floor : Floor I) (t : Option (Tile I))
    (h : getOrCreateTileFromCache env m sector z floor x y = .ok (t, m1)) :
    (m1 = m ∧ floor.getTileCache env.SECTOR_SIZE x y = none) ∨
    (∃ tile, t = some tile ∧
      m1.mapSectors = fun k =>
        if k = sector then
          (m.mapSectors k).map (fun s => s.putFloor z
            ((floor.setTile env.SECTOR_SIZE x y (some tile)).setTileCache
              env.SECTOR_SIZE x y none))
        else m.mapSectors k) := by
  unfold getOrCreateTileFromCache at h
  cases hc : floor.getTileCache env.SECTOR_SIZE x y with
  | none =>
    rw [hc] at h
    simp only [Outcome.ok.injEq, Prod.mk.injEq] at h
    exact Or.inl ⟨h.2.symm, rfl⟩
  | some d =>
    rw [hc] at h
    simp only [] at h
    right
    split at h
    · exact absurd h (by simp)
    · simp only [Outcome.ok.injEq, Prod.mk.injEq] at h
      obtain ⟨h1, h2⟩ := h
      exact ⟨_, h1.symm, by rw [← h2]⟩

theorem getTile_ok {I HS ZS : Type} (env : Env I HS ZS) (m m1 : Map I HS ZS)
    (x y z : Nat) (t : Option (Tile I)) (h : getTile env m x y z = .ok (t, m1)) :
    (m1 = m ∧ (t = none → pendingTile env m x y z = none)) ∨
    (∃ sector s floor tile, t = some tile ∧ m.mapSectors sector = some s ∧
      s.floors z = some floor ∧
      m1.mapSectors = fun k =>
        if k = sector then
          (m.mapSectors k).map (fun s => s.putFloor z
            ((floor.setTile env.SECTOR_SIZE x y (some tile)).setTileCache
              env.SECTOR_SIZE x y none))
        else m.mapSectors k) := by
  unfold getTile at h
  by_cases hz : z ≥ env.MAP_MAX_LAYERS
  · rw [if_pos hz] at h
    simp only [Outcome.ok.injEq, Prod.mk.injEq] at h
    exact Or.inl ⟨h.2.symm, fun _ => by simp [pendingTile, hz]⟩
  · rw [if_neg hz] at h
    cases hg : getMapSector env.SECTOR_SIZE m.mapSectors x y with
    | none =>
      rw [hg] at h
      simp only [Outcome.ok.injEq, Prod.mk.injEq] at h
      exact Or.inl ⟨h.2.symm, fun _ => by simp [pendingTile, hz, hg]⟩
    | some r =>
      obtain ⟨sector, s⟩ := r
      rw [hg] at h
      simp only [] at h
      cases hf : s.getFloor z with
      | none =>
        rw [hf] at h
        simp only [Outcome.ok.injEq, Prod.mk.injEq] at h
        exact Or.inl ⟨h.2.symm, fun _ => by simp [pendingTile, hz, hg, hf]⟩
      | some floor =>
        rw [hf] at h
        simp only [] at h
        rcases getOrCreateTileFromCache_ok env m m1 sector z x y floor t h with ⟨e, c⟩ | ⟨tile, e, c⟩
        · exact Or.inl ⟨e, fun _ => by simp [pendingTile, hz, hg, hf, c]⟩
        · obtain ⟨hp, hms⟩ := (getMapSector_eq_some _ _ _ _ _ _).1 hg
          exact Or.inr ⟨sector, s, floor, tile, e, hp ▸ hms, hf, c⟩

theorem exclusive_getTile {I HS ZS : Type} (env : Env I HS ZS) (m m1 : Map I HS ZS)
    (x y z : Nat) (t : Option (Tile I)) (h : getTile env m x y z = .ok (t, m1))
    (hx : Exclusive m.mapSectors) : Exclusive m1.mapSectors := by
  rcases getTile_ok env m m1 x y z t h with ⟨e, _⟩ | ⟨sector, s, floor, tile, _, hs, hf, e⟩
  · rw [e]; exact hx
  · rw [e]
    intro k s1 z1 f hk hfl
    by_cases ek : k = sector
    · subst ek
      simp only [if_true, hs, Option.map_some', Option.some.injEq] at hk
      subst hk
      simp only [MapSector.putFloor] at hfl
      by_cases ez : z1 = z
      · subst ez
        simp only [if_true, Option.some.injEq] at hfl
        subst hfl
        intro i j
        simp only [Floor.setTile, Floor.setTileCache]
        by_cases e : i = x % env.SECTOR_SIZE ∧ j = y % env.SECTOR_SIZE
        · right; rw [if_pos e]
        · rw [if_neg e, if_neg e]
          exact hx k s z1 floor hs hf i j
      · rw [if_neg ez] at hfl
        exact hx k s z1 f hs hfl
    · simp only [if_neg ek] at hk
      exact hx k s1 z1 f hk hfl

theorem exclusive_getOrCreateTile {I HS ZS : Type} (env : Env I HS ZS) (m m1 : Map I HS ZS)
    (x y z : Nat) (isDynamic : Bool) (t : Option (Tile I))
    (h : getOrCreateTile env m x y z isDynamic = .ok (t, m1))
    (hx : Exclusive m.mapSectors) : Exclusive m1.mapSectors := by
  unfold getOrCreateTile at h
  cases hg : getTile env m x y z with
  | ok r =>
    obtain ⟨t0, m0⟩ := r
    rw [hg] at h
    cases t0 with
    | some tile =>
      simp only [Outcome.ok.injEq, Prod.mk.injEq] at h
      rw [← h.2]
      exact exclusive_getTile env m m0 x y z _ hg hx
    | none =>
      simp only [Outcome.ok.injEq, Prod.mk.injEq] at h
      rw [← h.2]
      rcases getTile_ok env m m0 x y z none hg with ⟨e, c⟩ | ⟨_, _, _, tile, e, _⟩
      · subst e
        exact exclusive_setTile env m0 x y z _ hx (Or.inr (c rfl))
      · exact absurd e (by simp)
  | thrown e => rw [hg] at h; exact absurd h (by simp)
  | fault => rw [hg] at h; exact absurd h (by simp)
  | outOfFuel => rw [hg] at h; exact absurd h (by simp)

theorem exclusive_callMap {I HS ZS : Type} (env : Env I HS ZS) (m m1 : Map I HS ZS)
    (c : MapCall I) (h : callMap env m c = .ok m1) (ha : Admissible env m c)
    (hx : Exclusive m.mapSectors) : Exclusive m1.mapSectors := by
  cases c with
  | setBasicTile x y z newTile =>
    simp only [callMap, Outcome.ok.injEq] at h
    rw [← h]
    apply exclusive_setBasicTile env m x y z newTile hx
    cases newTile with
    | none => exact Or.inl rfl
    | some d => exact Or.inr ha
  | setTile x y z newTile =>
    simp only [callMap, Outcome.ok.injEq] at h
    rw [← h]
    apply exclusive_setTile env m x y z newTile hx
    cases newTile with
    | none => exact Or.inl rfl
    | some d => exact Or.inr ha
  | getTile x y z =>
    simp only [callMap] at h
    cases hg : getTile env m x y z with
    | ok r =>
      rw [hg] at h
      simp only [Outcome.bind, Outcome.ok.injEq] at h
      rw [← h]
      exact exclusive_getTile env m r.2 x y z r.1 hg hx
    | thrown e => rw [hg] at h; exact absurd h (by simp [Outcome.bind])
    | fault => rw [hg] at h; exact absurd h (by simp [Outcome.bind])
    | outOfFuel => rw [hg] at h; exact absurd h (by simp [Outcome.bind])
  | getOrCreateTile x y z isDynamic =>
    simp only [callMap] at h
    cases hg : getOrCreateTile env m x y z isDynamic with
    | ok r =>
      rw [hg] at h
      simp only [Outcome.bind, Outcome.ok.injEq] at h
      rw [← h]
      exact exclusive_getOrCreateTile env m r.2 x y z isDynamic r.1 hg hx
    | thrown e => rw [hg] at h; exact absurd h (by simp [Outcome.bind])
    | fault => rw [hg] at h; exact absurd h (by simp [Outcome.bind])
    | outOfFuel => rw [hg] at h; exact absurd h (by simp [Outcome.bind])

theorem exclusive_callsMap {I HS ZS : Type} (env : Env I HS ZS) (calls : List (MapCall I))
    (m m1 : Map I HS ZS) (h : callsMap env m calls = .ok m1) (ha : AdmissibleRun env m calls)
    (hx : Exclusive m.mapSectors) : Exclusive m1.mapSectors := by
  induction calls generalizing m with
  | nil =>
    simp only [callsMap, Outcome.ok.injEq] at h
    rw [← h]; exact hx
  | cons c rest ih =>
    simp only [callsMap] at h
    cases hc : callMap env m c with
    | ok m0 =>
      rw [hc] at h
      simp only [Outcome.bind] at h
      exact ih m0 h (ha.2 m0 hc) (exclusive_callMap env m m0 c hc ha.1 hx)
    | thrown e => rw [hc] at h; exact absurd h (by simp [Outcome.bind])
    | fault => rw [hc] at h; exact absurd h (by simp [Outcome.bind])
    | outOfFuel => rw [hc] at h; exact absurd h (by simp [Outcome.bind])

theorem exclusive_noSectors {I : Type} : Exclusive (noSectors I) := by
  intro k s z f hk
  simp [noSectors] at hk

theorem not_exclusive_of_both {I HS ZS : Type} (env : Env I HS ZS) (m : Map I HS ZS)
    (x y z : Nat) (h1 : (getLoadedTile env m x y z).isSome = true)
    (h2 : (pendingTile env m x y z).isSome = true) : ¬ Exclusive m.mapSectors := by
  intro hx
  unfold getLoadedTile at h1
  unfold pendingTile at h2
  by_cases hz : z ≥ env.MAP_MAX_LAYERS
  · simp [hz] at h1
  · rw [if_neg hz] at h1 h2
    cases hg : getMapSector env.SECTOR_SIZE m.mapSectors x y with
    | none => rw [hg] at h1; simp at h1
    | some r =>
      obtain ⟨sector, s⟩ := r
      rw [hg] at h1 h2
      simp only [] at h1 h2
      cases hf : s.getFloor z with
      | none => rw [hf] at h1; simp at h1
      | some floor =>
        rw [hf] at h1 h2
        simp only [] at h1 h2
        obtain ⟨_, hms⟩ := (getMapSector_eq_some _ _ _ _ _ _).1 hg
        rcases hx _ s z floor hms hf (x % env.SECTOR_SIZE) (y % env.SECTOR_SIZE) with e | e
        · simp [Floor.getTile, e] at h1
        · simp [Floor.getTileCache, e] at h2

/-- C18, counterexample: on a new map, `getOrCreateTile` at (100, 100, 7) followed by
`setBasicTile` of a descriptor with a ground item at the same coordinate leaves both a
live tile and a pending descriptor there, so the floor is not exclusive. -/
theorem live_tile_and_descriptor_coexist :
    ∃ m1, callsMap sampleEnv (Map.new [] ())
        [.getOrCreateTile 100 100 7 false,
         .setBasicTile 100 100 7
           (some ⟨some (BasicItem.mk [] 100 0 0 0 0 0 0 0 []), [], 0, 0, 0, false⟩)] = .ok m1 ∧
      (getLoadedTile sampleEnv m1 100 100 7).isSome = true ∧
      (pendingTile sampleEnv m1 100 100 7).isSome = true ∧
      ¬ Exclusive m1.mapSectors :=
  ⟨_, rfl, rfl, rfl, not_exclusive_of_both sampleEnv _ 100 100 7 rfl rfl⟩

/-- C18, amended: in every state reached from a new map by a sequence of `setBasicTile`,
`setTile`, `getTile` and `getOrCreateTile` calls in which `setBasicTile` never stores a
descriptor at a coordinate that holds a live tile and `setTile` never stores a live tile
at a coordinate that holds a pending descriptor, no slot of any floor has both a live
tile and a pending descriptor. -/
theorem floor_exclusivity {I HS ZS : Type} (env : Env I HS ZS) (houses : HS) (zones : ZS)
    (calls : List (MapCall I)) (m1 : Map I HS ZS)
    (hrun : callsMap env (Map.new houses zones) calls = .ok m1)
    (hadm : AdmissibleRun env (Map.new houses zones) calls) :
    Exclusive m1.mapSectors :=
  exclusive_callsMap env calls _ m1 hrun hadm exclusive_noSectors

theorem floor_exclusivity_witness :
    ∃ m1, callsMap sampleEnv (Map.new [] ())
        [.setBasicTile 100 100 7
           (some ⟨some (BasicItem.mk [] 100 0 0 0 0 0 0 0 []), [], 0, 0, 0, false⟩),
         .getTile 100 100 7,
         .setTile 101 100 7 (some (Tile.new ⟨101, 100, 7⟩ .staticTile)),
         .getOrCreateTile 100 101 7 true] = .ok m1 ∧
      Exclusive m1.mapSectors :=
  ⟨_, rfl,
    floor_exclusivity sampleEnv [] ()
      [.setBasicTile 100 100 7
         (some ⟨some (BasicItem.mk [] 100 0 0 0 0 0 0 0 []), [], 0, 0, 0, false⟩),
       .getTile 100 100 7,
       .setTile 101 100 7 (some (Tile.new ⟨101, 100, 7⟩ .staticTile)),
       .getOrCreateTile 100 101 7 true] _ rfl
      ⟨rfl, fun _ h1 => Outcome.ok.inj h1 ▸
        ⟨trivial, fun _ h2 => Outcome.ok.inj h2 ▸
          ⟨rfl, fun _ h3 => Outcome.ok.inj h3 ▸ ⟨trivial, fun _ _ => trivial⟩⟩⟩⟩⟩

/-! ### Reading escaped values -/

theorem escapeProps_append (xs ys : List Nat) :
    OTB.escapeProps (xs ++ ys) = OTB.escapeProps xs ++ OTB.escapeProps ys := by
  induction xs with
  | nil => rfl
  | cons b bs ih =>
    simp only [List.cons_append, OTB.escapeProps]
    split <;> simp [ih]

theorem escapeProps_length_ge (xs : List Nat) : xs.length ≤ (OTB.escapeProps xs).length := by
  induction xs with
  | nil => simp [OTB.escapeProps]
  | cons b bs ih =>
    simp only [OTB.escapeProps]
    split <;> simp <;> omega

theorem readEscapedLoop_succ_escape (n : Nat) (s : FileStream) (acc : List Nat) (c : Nat)
    (hb : s.m_data[s.m_pos]? = some OTB.ESCAPE) (hc : s.m_data[s.m_pos + 1]? = some c) :
    FileStream.readEscapedLoop (n + 1) s acc =
      FileStream.readEscapedLoop n { s with m_pos := s.m_pos + 2 } (acc ++ [c]) := by
  have h0 : ¬ s.m_pos ≥ s.m_data.length := by
    intro h
    rw [List.getElem?_eq_none h] at hb
    exact absurd hb (by simp)
  have h1 : ¬ s.m_pos + 1 ≥ s.m_data.length := by
    intro h
    rw [List.getElem?_eq_none h] at hc
    exact absurd hc (by simp)
  simp only [FileStream.readEscapedLoop, h0, h1, if_false, hb, hc, if_true]

theorem readEscapedLoop_succ_plain (n : Nat) (s : FileStream) (acc : List Nat) (b : Nat)
    (hb : s.m_data[s.m_pos]? = some b) (hne : ¬ b = OTB.ESCAPE) :
    FileStream.readEscapedLoop (n + 1) s acc =
      FileStream.readEscapedLoop n { s with m_pos := s.m_pos + 1 } (acc ++ [b]) := by
  have h0 : ¬ s.m_pos ≥ s.m_data.length := by
    intro h
    rw [List.getElem?_eq_none h] at hb
    exact absurd hb (by simp)
  simp only [FileStream.readEscapedLoop, h0, if_false, hb, hne]

theorem getElem?_append_zero (pre : List Nat) (x : Nat) (t : List Nat) :
    (pre ++ x :: t)[pre.length]? = some x := by
  rw [List.getElem?_append_right (Nat.le_refl _)]; simp

theorem getElem?_append_one (pre : List Nat) (x y : Nat) (t : List Nat) :
    (pre ++ x :: y :: t)[pre.length + 1]? = some y := by
  rw [List.getElem?_append_right (by omega)]; simp

theorem readEscapedLoop_escapeProps (bytes : List Nat) :
    ∀ (n : Nat) (pre rest acc : List Nat),
      FileStream.readEscapedLoop bytes.length
          ⟨n, pre.length, pre ++ (OTB.escapeProps bytes ++ rest)⟩ acc =
        some (some (acc ++ bytes),
          ⟨n, pre.length + (OTB.escapeProps bytes).length,
            pre ++ (OTB.escapeProps bytes ++ rest)⟩) := by
  induction bytes with
  | nil =>
    intro n pre rest acc
    simp [FileStream.readEscapedLoop, OTB.escapeProps]
  | cons b bs ih =>
    intro n pre rest acc
    by_cases hb : b = OTB.ESCAPE ∨ b = OTB.START ∨ b = OTB.END
    · have e : OTB.escapeProps (b :: bs) = OTB.ESCAPE :: b :: OTB.escapeProps bs := by
        simp [OTB.escapeProps, hb]
      have h := ih n (pre ++ [OTB.ESCAPE, b]) rest (acc ++ [b])
      have ed : pre ++ [OTB.ESCAPE, b] ++ (OTB.escapeProps bs ++ rest) =
          pre ++ (OTB.ESCAPE :: b :: OTB.escapeProps bs ++ rest) := by simp
      have el : (pre ++ [OTB.ESCAPE, b]).length = pre.length + 2 := by simp
      rw [ed, el] at h
      rw [e, List.length_cons,
        readEscapedLoop_succ_escape bs.length _ acc b
          (getElem?_append_zero _ _ _) (getElem?_append_one _ _ _ _),
        h]
      simp
      omega
    · have e : OTB.escapeProps (b :: bs) = b :: OTB.escapeProps bs := by
        simp [OTB.escapeProps, hb]
      have hne : ¬ b = OTB.ESCAPE := fun c => hb (Or.inl c)
      have h := ih n (pre ++ [b]) rest (acc ++ [b])
      have ed : pre ++ [b] ++ (OTB.escapeProps bs ++ rest) =
          pre ++ (b :: OTB.escapeProps bs ++ rest) := by simp
      have el : (pre ++ [b]).length = pre.length + 1 := by simp
      rw [ed, el] at h
      rw [e, List.length_cons,
        readEscapedLoop_succ_plain bs.length _ acc b (getElem?_append_zero _ _ _) hne, h]
      simp
      omega

theorem getUnsigned_escapeProps (bytes : List Nat) (n : Nat) (pre rest : List Nat) :
    FileStream.getUnsigned ⟨n + 1, pre.length, pre ++ (OTB.escapeProps bytes ++ rest)⟩
        bytes.length =
      some (FileStream.fromLittleEndian bytes,
        ⟨n + 1, pre.length + (OTB.escapeProps bytes).length,
          pre ++ (OTB.escapeProps bytes ++ rest)⟩) := by
  have hlen := escapeProps_length_ge bytes
  have h1 : ¬ pre.length + bytes.length >
      (pre ++ (OTB.escapeProps bytes ++ rest)).length := by
    simp only [List.length_append]; omega
  simp only [FileStream.getUnsigned, FileStream.read, Nat.succ_pos, if_true, h1, if_false,
    readEscapedLoop_escapeProps bytes (n + 1) pre rest [], List.nil_append, Option.getD_some,
    Nat.lt_add_left_iff_pos, Nat.zero_lt_succ, gt_iff_lt]

/-! ### The header of a map file -/

theorem Outcome.ok_bind {α β : Type} (a : α) (f : α → Outcome β) :
    (Outcome.ok a >>= f) = f a := rfl

theorem Outcome.ofRead_some {α : Type} (a : α) : Outcome.ofRead (some a) = .ok a := rfl

theorem loadMapHeader_of_reads {I HS ZS : Type} (s s1 s3 s4 s5 s6 s7 : FileStream)
    (m : Map I HS ZS) (version width height major minor : Nat)
    (h1 : s.startNode 0 = some (true, s1))
    (h3 : (s1.skip 1).getU32 = some (version, s3))
    (h4 : s3.getU16 = some (width, s4))
    (h5 : s4.getU16 = some (height, s5))
    (h6 : s5.getU32 = some (major, s6))
    (h7 : s6.getU32 = some (minor, s7)) :
    loadMapHeader s m =
      if version > 2 then .thrown .unknownVersion
      else if major < 3 then .thrown .needsUpgrade
      else .ok (s7, { m with width := width, height := height }) := by
  simp only [loadMapHeader, h1, h3, h4, h5, h6, h7, Outcome.ofRead_some, Outcome.ok_bind,
    Bool.not_true, Bool.false_eq_true, if_false]
  rfl

theorem getUnsigned_at (n : Nat) (pre bytes rest data : List Nat) (size pos : Nat)
    (hd : data = pre ++ (OTB.escapeProps bytes ++ rest)) (hs : bytes.length = size)
    (hp : pos = pre.length) :
    FileStream.getUnsigned ⟨n + 1, pos, data⟩ size =
      some (FileStream.fromLittleEndian bytes,
        ⟨n + 1, pos + (OTB.escapeProps bytes).length, data⟩) := by
  subst hd hs hp
  exact getUnsigned_escapeProps bytes n pre rest

theorem loadMapHeader_mapFileBytes {I HS ZS : Type} (m : Map I HS ZS) (i0 i1 i2 i3 type : Nat)
    (version width height major minor rest : List Nat)
    (hv : version.length = 4) (hw : width.length = 2) (hh : height.length = 2)
    (hm : major.length = 4) (hn : minor.length = 4) :
    loadMapHeader
        ⟨0, 0, (mapFileBytes i0 i1 i2 i3 type version width height major minor rest).drop 4⟩ m =
      if FileStream.fromLittleEndian version > 2 then .thrown .unknownVersion
      else if FileStream.fromLittleEndian major < 3 then .thrown .needsUpgrade
      else .ok
        (⟨1, 2 + (OTB.escapeProps (version ++ (width ++ (height ++ (major ++ minor))))).length,
            (mapFileBytes i0 i1 i2 i3 type version width height major minor rest).drop 4⟩,
          { m with
            width := FileStream.fromLittleEndian width
            height := FileStream.fromLittleEndian height }) := by
  have hdata : (mapFileBytes i0 i1 i2 i3 type version width height major minor rest).drop 4 =
      OTB.START :: type ::
        (OTB.escapeProps version ++ (OTB.escapeProps width ++ (OTB.escapeProps height ++
          (OTB.escapeProps major ++ (OTB.escapeProps minor ++ rest))))) := by
    simp [mapFileBytes, escapeProps_append]
  rw [hdata]
  generalize hD : OTB.START :: type ::
        (OTB.escapeProps version ++ (OTB.escapeProps width ++ (OTB.escapeProps height ++
          (OTB.escapeProps major ++ (OTB.escapeProps minor ++ rest))))) = data
  have hlen : 2 ≤ data.length := by rw [← hD]; simp
  have h1 : (⟨0, 0, data⟩ : FileStream).startNode 0 = some (true, ⟨1, 1, data⟩) := by
    subst hD
    simp [FileStream.startNode, FileStream.eof, FileStream.getU8]
  have h2 : (⟨1, 1, data⟩ : FileStream).skip 1 = ⟨1, 2, data⟩ := by
    simp [FileStream.skip, FileStream.seek]
    omega
  have h3 := getUnsigned_at 0 [OTB.START, type] version
    (OTB.escapeProps width ++ (OTB.escapeProps height ++
      (OTB.escapeProps major ++ (OTB.escapeProps minor ++ rest)))) data 4 2
    (by rw [← hD]; simp) hv rfl
  have h4 := getUnsigned_at 0 ([OTB.START, type] ++ OTB.escapeProps version) width
    (OTB.escapeProps height ++ (OTB.escapeProps major ++ (OTB.escapeProps minor ++ rest)))
    data 2 (2 + (OTB.escapeProps version).length)
    (by rw [← hD]; simp) hw (by simp; omega)
  have h5 := getUnsigned_at 0
    ([OTB.START, type] ++ OTB.escapeProps version ++ OTB.escapeProps width) height
    (OTB.escapeProps major ++ (OTB.escapeProps minor ++ rest))
    data 2 (2 + (OTB.escapeProps version).length + (OTB.escapeProps width).length)
    (by rw [← hD]; simp) hh (by simp; omega)
  have h6 := getUnsigned_at 0
    ([OTB.START, type] ++ OTB.escapeProps version ++ OTB.escapeProps width ++
      OTB.escapeProps height) major
    (OTB.escapeProps minor ++ rest)
    data 4 (2 + (OTB.escapeProps version).length + (OTB.escapeProps width).length +
      (OTB.escapeProps height).length)
    (by rw [← hD]; simp) hm (by simp; omega)
  have h7 := getUnsigned_at 0
    ([OTB.START, type] ++ OTB.escapeProps version ++ OTB.escapeProps width ++
      OTB.escapeProps height ++ OTB.escapeProps major) minor rest
    data 4 (2 + (OTB.escapeProps version).length + (OTB.escapeProps width).length +
      (OTB.escapeProps height).length + (OTB.escapeProps major).length)
    (by rw [← hD]; simp) hn (by simp; omega)
  rw [loadMapHeader_of_reads _ _ _ _ _ _ _ m _ _ _ _ _ h1 (by rw [h2]; exact h3) h4 h5 h6 h7]
  simp only [escapeProps_append, List.length_append, Nat.add_assoc]

/-- C11: on a map file whose root node starts with START and a type byte and carries the
five header fields in escaped form, `loadMap` throws "unknown version" when the format
version is greater than 2, throws "needs upgrade" when the version is at most 2 and the
items major version is less than 3, and otherwise passes the header: the header part
returns with `width` and `height` set and the stream right after the header, and
`loadMap` goes on with the rest of the file, whatever the type byte, the sizes, the
minor version and the four identifier bytes. -/
theorem loadMap_header_validation {I HS ZS : Type} (env : Env I HS ZS) (m : Map I HS ZS)
    (baseDir : List Nat) (pos : Position) (i0 i1 i2 i3 type : Nat)
    (version width height major minor rest : List Nat)
    (hv : version.length = 4) (hw : width.length = 2) (hh : height.length = 2)
    (hm : major.length = 4) (hn : minor.length = 4) :
    (FileStream.fromLittleEndian version > 2 →
      loadMap env (mapFileBytes i0 i1 i2 i3 type version width height major minor rest)
        baseDir pos m = .thrown .unknownVersion) ∧
    (FileStream.fromLittleEndian version ≤ 2 → FileStream.fromLittleEndian major < 3 →
      loadMap env (mapFileBytes i0 i1 i2 i3 type version width height major minor rest)
        baseDir pos m = .thrown .needsUpgrade) ∧
    (FileStream.fromLittleEndian version ≤ 2 → 3 ≤ FileStream.fromLittleEndian major →
      loadMapHeader
          ⟨0, 0, (mapFileBytes i0 i1 i2 i3 type version width height major minor rest).drop 4⟩
          m =
        .ok
          (⟨1, 2 + (OTB.escapeProps
              (version ++ (width ++ (height ++ (major ++ minor))))).length,
            (mapFileBytes i0 i1 i2 i3 type version width height major minor rest).drop 4⟩,
            { m with
              width := FileStream.fromLittleEndian width
              height := FileStream.fromLittleEndian height }) ∧
      loadMap env (mapFileBytes i0 i1 i2 i3 type version width height major minor rest)
          baseDir pos m =
        loadMapBody env baseDir pos
          ⟨1, 2 + (OTB.escapeProps
              (version ++ (width ++ (height ++ (major ++ minor))))).length,
            (mapFileBytes i0 i1 i2 i3 type version width height major minor rest).drop 4⟩
          { m with
            width := FileStream.fromLittleEndian width
            height := FileStream.fromLittleEndian height }) := by
  have hlen : ¬ (mapFileBytes i0 i1 i2 i3 type version width height major minor rest).length < 4 := by
    simp [mapFileBytes]
  have hh := loadMapHeader_mapFileBytes m i0 i1 i2 i3 type version width height major minor rest
    hv hw hh hm hn
  refine ⟨?_, ?_, ?_⟩
  · intro h
    rw [if_pos h] at hh
    simp only [loadMap, hlen, if_false, hh]
    rfl
  · intro h1 h2
    rw [if_neg (Nat.not_lt.2 h1), if_pos h2] at hh
    simp only [loadMap, hlen, if_false, hh]
    rfl
  · intro h1 h2
    rw [if_neg (Nat.not_lt.2 h1), if_neg (Nat.not_lt.2 h2)] at hh
    refine ⟨hh, ?_⟩
    simp only [loadMap, hlen, if_false, hh]
    rfl

theorem loadMap_header_validation_witness :
    loadMap sampleEnv
        (mapFileBytes 79 84 66 77 0 [3, 0, 0, 0] [16, 0] [16, 0] [3, 0, 0, 0] [0, 0, 0, 0] [])
        [] ⟨0, 0, 0⟩ (Map.new [] ()) = .thrown .unknownVersion ∧
    loadMap sampleEnv
        (mapFileBytes 79 84 66 77 0 [2, 0, 0, 0] [16, 0] [16, 0] [2, 0, 0, 0] [0, 0, 0, 0] [])
        [] ⟨0, 0, 0⟩ (Map.new [] ()) = .thrown .needsUpgrade ∧
    loadMapHeader
        ⟨0, 0, (mapFileBytes 79 84 66 77 0 [2, 0, 0, 0] [16, 0] [254, 0] [3, 0, 0, 0]
          [0, 0, 0, 0] []).drop 4⟩ (Map.new [] () : Map Nat (List Nat) Unit) =
      .ok
        (⟨1, 2 + (OTB.escapeProps
            ([2, 0, 0, 0] ++ ([16, 0] ++ ([254, 0] ++ ([3, 0, 0, 0] ++ [0, 0, 0, 0]))))).length,
          (mapFileBytes 79 84 66 77 0 [2, 0, 0, 0] [16, 0] [254, 0] [3, 0, 0, 0]
            [0, 0, 0, 0] []).drop 4⟩,
          { (Map.new [] () : Map Nat (List Nat) Unit) with
            width := FileStream.fromLittleEndian [16, 0]
            height := FileStream.fromLittleEndian [254, 0] }) :=
  ⟨(loadMap_header_validation sampleEnv (Map.new [] ()) [] ⟨0, 0, 0⟩ 79 84 66 77 0
      [3, 0, 0, 0] [16, 0] [16, 0] [3, 0, 0, 0] [0, 0, 0, 0] [] rfl rfl rfl rfl rfl).1
      (by decide),
   (loadMap_header_validation sampleEnv (Map.new [] ()) [] ⟨0, 0, 0⟩ 79 84 66 77 0
      [2, 0, 0, 0] [16, 0] [16, 0] [2, 0, 0, 0] [0, 0, 0, 0] [] rfl rfl rfl rfl rfl).2.1
      (by decide) (by decide),
   ((loadMap_header_validation sampleEnv (Map.new [] ()) [] ⟨0, 0, 0⟩ 79 84 66 77 0
      [2, 0, 0, 0] [16, 0] [254, 0] [3, 0, 0, 0] [0, 0, 0, 0] [] rfl rfl rfl rfl rfl).2.2
      (by decide) (by decide)).1⟩

/-! ### The identifier of a map file -/

theorem loadMap_drops_identifier {I HS ZS : Type} (env : Env I HS ZS) (m : Map I HS ZS)
    (baseDir : List Nat) (pos : Position) (i0 i1 i2 i3 j0 j1 j2 j3 : Nat) (body : List Nat) :
    loadMap env (i0 :: i1 :: i2 :: i3 :: body) baseDir pos m =
      loadMap env (j0 :: j1 :: j2 :: j3 :: body) baseDir pos m := by
  simp [loadMap]

theorem exists_ok_of_check {α : Type} (o : Outcome α) (p : α → Bool)
    (h : (match o with
      | .ok a => p a
      | _ => false) = true) : ∃ a, o = .ok a ∧ p a = true := by
  cases o with
  | ok a => exact ⟨a, rfl, h⟩
  | thrown e => exact absurd h (by simp)
  | fault => exact absurd h (by simp)
  | outOfFuel => exact absurd h (by simp)

theorem loadMap_sample :
    (match loadMap sampleEnv (88 :: 88 :: 88 :: 88 :: sampleMapBody) [] ⟨0, 0, 0⟩
        (Map.new [] ()) with
      | .ok m1 => (pendingTile sampleEnv m1 100 100 7).isSome
      | _ => false) = true := by
  decide!

/-- C12, the code at the failing input: whatever the four identifier bytes of the file
("XXXX" = 88 88 88 88 among them), `loadMap` loads the sample map and stores its tile
at (100, 100, 7); the constructor `OTB::Loader::Loader`, which `loadMap` does not use,
refuses the file with identifier "XXXX" for the accepted identifier "OTBM". -/
theorem loadMap_accepts_any_identifier (i0 i1 i2 i3 : Nat) :
    (∃ m1, loadMap sampleEnv (i0 :: i1 :: i2 :: i3 :: sampleMapBody) [] ⟨0, 0, 0⟩
        (Map.new [] ()) = .ok m1 ∧
      (pendingTile sampleEnv m1 100 100 7).isSome = true) ∧
    OTB.Loader.new (88 :: 88 :: 88 :: 88 :: sampleMapBody) [79, 84, 66, 77] =
      .error .invalidOTBFormat := by
  constructor
  · rw [loadMap_drops_identifier sampleEnv _ _ _ i0 i1 i2 i3 88 88 88 88]
    exact exists_ok_of_check _ _ loadMap_sample
  · rfl

/-! ### Tile flags -/

/-- C13: the flag decoding of `parseTileArea`, on the flags 0 of a new descriptor and for
tile states that are nonzero and pairwise disjoint: for every `flags` value the result
contains the protection zone state iff the protection bit is set; the no-PvP state iff
the protection bit is clear and the no-PvP bit is set; the PvP state iff those two bits
are clear and the PvP bit is set (so at most one of the three, by that priority, and
none when no zone bit is set); and the no-logout state iff the no-logout bit is set,
whatever the zone bits. -/
theorem tile_flags_decoding {I HS ZS : Type} (env : Env I HS ZS) (flags : Nat)
    (h : DistinctTileStates env) :
    (containsFlag (applyTileFlags env BasicTile.fresh.flags flags)
        env.TILESTATE_PROTECTIONZONE ↔
      flags &&& env.OTBM_TILEFLAG_PROTECTIONZONE ≠ 0) ∧
    (containsFlag (applyTileFlags env BasicTile.fresh.flags flags) env.TILESTATE_NOPVPZONE ↔
      flags &&& env.OTBM_TILEFLAG_PROTECTIONZONE = 0 ∧
      flags &&& env.OTBM_TILEFLAG_NOPVPZONE ≠ 0) ∧
    (containsFlag (applyTileFlags env BasicTile.fresh.flags flags) env.TILESTATE_PVPZONE ↔
      flags &&& env.OTBM_TILEFLAG_PROTECTIONZONE = 0 ∧
      flags &&& env.OTBM_TILEFLAG_NOPVPZONE = 0 ∧
      flags &&& env.OTBM_TILEFLAG_PVPZONE ≠ 0) ∧
    (containsFlag (applyTileFlags env BasicTile.fresh.flags flags) env.TILESTATE_NOLOGOUT ↔
      flags &&& env.OTBM_TILEFLAG_NOLOGOUT ≠ 0) := by
  obtain ⟨z1, z2, z3, z4, d12, d13, d14, d23, d24, d34⟩ := h
  have d21 := (Nat.and_comm _ _).trans d12
  have d31 := (Nat.and_comm _ _).trans d13
  have d41 := (Nat.and_comm _ _).trans d14
  have d32 := (Nat.and_comm _ _).trans d23
  have d42 := (Nat.and_comm _ _).trans d24
  have d43 := (Nat.and_comm _ _).trans d34
  have key : ∀ a b c : Nat, (a ||| b) &&& c = (c &&& a) ||| (c &&& b) := by
    intro a b c
    rw [Nat.and_comm, Nat.and_or_distrib_left]
  have e1 : ∀ a : Nat, a ≠ 0 → ¬ (0 : Nat) = a := fun a ha c => ha c.symm
  simp only [containsFlag, applyTileFlags, BasicTile.fresh]
  by_cases b1 : flags &&& env.OTBM_TILEFLAG_PROTECTIONZONE = 0 <;>
  by_cases b2 : flags &&& env.OTBM_TILEFLAG_NOPVPZONE = 0 <;>
  by_cases b3 : flags &&& env.OTBM_TILEFLAG_PVPZONE = 0 <;>
  by_cases b4 : flags &&& env.OTBM_TILEFLAG_NOLOGOUT = 0 <;>
  simp [b1, b2, b3, b4, key, Nat.and_self, d12, d13, d14, d23, d24, d34, d21, d31, d41, d32,
    d42, d43, z1, z2, z3, z4, e1]

theorem tile_flags_decoding_witness :
    DistinctTileStates sampleEnv ∧
    containsFlag (applyTileFlags sampleEnv BasicTile.fresh.flags 13)
      sampleEnv.TILESTATE_PROTECTIONZONE ∧
    ¬ containsFlag (applyTileFlags sampleEnv BasicTile.fresh.flags 13)
      sampleEnv.TILESTATE_NOPVPZONE ∧
    containsFlag (applyTileFlags sampleEnv BasicTile.fresh.flags 13)
      sampleEnv.TILESTATE_NOLOGOUT :=
  ⟨by decide,
   (tile_flags_decoding sampleEnv 13 (by decide)).1.2 (by decide),
   fun c => absurd ((tile_flags_decoding sampleEnv 13 (by decide)).2.1.1 c).1 (by decide),
   (tile_flags_decoding sampleEnv 13 (by decide)).2.2.2.2 (by decide)⟩

/-! ### Stored and dropped tiles -/

theorem Outcome.holds_bind {α β : Type} (x : Outcome α) (f : α → Outcome β) (Q : β → Prop)
    (h : x.Holds (fun a => (f a).Holds Q)) : (x >>= f).Holds Q := by
  cases x with
  | ok a => exact h
  | thrown e => trivial
  | fault => trivial
  | outOfFuel => trivial

theorem Outcome.holds_all {α : Type} (x : Outcome α) (P : α → Prop) (h : ∀ a, P a) :
    x.Holds P := by
  cases x with
  | ok a => exact h a
  | thrown e => trivial
  | fault => trivial
  | outOfFuel => trivial

theorem Outcome.holds_mono {α : Type} (x : Outcome α) (P Q : α → Prop) (h : x.Holds P)
    (hpq : ∀ a, P a → Q a) : x.Holds Q := by
  cases x with
  | ok a => exact hpq a h
  | thrown e => trivial
  | fault => trivial
  | outOfFuel => trivial

theorem Outcome.holds_pure {α : Type} (a : α) (P : α → Prop) (h : P a) :
    (pure a : Outcome α).Holds P := h

theorem Outcome.holds_of_eq {α : Type} (x : Outcome α) (P : α → Prop) (a : α)
    (h : x.Holds P) (e : x = .ok a) : P a := by
  subst e
  exact h

theorem sameIndex_refl {I HS ZS : Type} (m : Map I HS ZS) : SameIndex m m := ⟨rfl, rfl⟩

theorem sameIndex_trans {I HS ZS : Type} (m m1 m2 : Map I HS ZS) (h1 : SameIndex m m1)
    (h2 : SameIndex m1 m2) : SameIndex m m2 :=
  ⟨h2.1.trans h1.1, h2.2.trans h1.2⟩

theorem sameIndex_placeOnTile {I HS ZS : Type} (env : Env I HS ZS) (tile : BasicTile) (id : Nat)
    (item : BasicItem) (m : Map I HS ZS) : SameIndex m (placeOnTile env tile id item m).2 := by
  unfold placeOnTile
  split
  · exact sameIndex_refl m
  · split
    · exact ⟨rfl, rfl⟩
    · exact ⟨rfl, rfl⟩

theorem sameIndex_placeAttrItem {I HS ZS : Type} (env : Env I HS ZS) (tile : BasicTile)
    (id : Nat) (m : Map I HS ZS) : SameIndex m (placeAttrItem env tile id m).2 := by
  unfold placeAttrItem
  split
  · exact sameIndex_placeOnTile env tile id _ m
  · exact sameIndex_refl m

theorem sameIndex_placeNodeItem {I HS ZS : Type} (env : Env I HS ZS) (tile : BasicTile)
    (id : Nat) (item : BasicItem) (m : Map I HS ZS) :
    SameIndex m (placeNodeItem env tile id item m).2 := by
  unfold placeNodeItem
  split
  · exact sameIndex_refl m
  · exact sameIndex_placeOnTile env tile id item m

theorem holds_parseTileZones {I HS ZS : Type} (env : Env I HS ZS) (pos : Position) :
    ∀ (count : Nat) (s : FileStream) (m : Map I HS ZS),
      (parseTileZones env pos count s m).Holds (fun r => SameIndex m r.2) := by
  intro count
  induction count with
  | zero => intro s m; exact sameIndex_refl m
  | succ n ih =>
    intro s m
    unfold parseTileZones
    apply Outcome.holds_bind
    apply Outcome.holds_all
    rintro ⟨zoneId, s1⟩
    simp only []
    split
    · trivial
    · exact Outcome.holds_mono _ _ _ (ih s1 _) (fun r hr => ⟨hr.1, hr.2⟩)

theorem holds_parseTileChildren {I HS ZS : Type} (env : Env I HS ZS) (pos : Position) :
    ∀ (fuel : Nat) (tile : BasicTile) (s : FileStream) (m : Map I HS ZS),
      (parseTileChildren env pos fuel tile s m).Holds (fun r => SameIndex m r.2.2) := by
  intro fuel
  induction fuel with
  | zero => intro tile s m; trivial
  | succ n ih =>
    intro tile s m
    unfold parseTileChildren
    apply Outcome.holds_bind
    apply Outcome.holds_all
    rintro ⟨started, s1⟩
    simp only []
    split
    · exact sameIndex_refl m
    · apply Outcome.holds_bind
      apply Outcome.holds_all
      rintro ⟨type, s2⟩
      simp only []
      apply Outcome.holds_bind
      apply Outcome.holds_mono _ (fun r => SameIndex m r.2.2)
      · split
        · apply Outcome.holds_bind
          apply Outcome.holds_all
          rintro ⟨id, s3⟩
          simp only []
          apply Outcome.holds_bind
          apply Outcome.holds_all
          rintro ⟨result, item, s4, items1⟩
          simp only []
          split
          · trivial
          · exact sameIndex_trans m { m with items := items1 } _ ⟨rfl, rfl⟩
              (sameIndex_placeNodeItem env tile id item _)
        · split
          · apply Outcome.holds_bind
            apply Outcome.holds_all
            rintro ⟨zoneCount, s3⟩
            simp only []
            apply Outcome.holds_bind
            apply Outcome.holds_mono _ _ _ (holds_parseTileZones env pos zoneCount s3 m)
            rintro ⟨s4, m1⟩ h
            exact h
          · trivial
      · rintro ⟨tile1, s3, m1⟩ h1
        simp only []
        apply Outcome.holds_bind
        apply Outcome.holds_all
        rintro ⟨ended, s4⟩
        simp only []
        split
        · trivial
        · exact Outcome.holds_mono _ _ _ (ih tile1 s4 m1)
            (fun r hr => sameIndex_trans m m1 _ h1 hr)

theorem holds_parseTile {I HS ZS : Type} (env : Env I HS ZS) (base pos : Position)
    (s : FileStream) (m : Map I HS ZS) :
    (parseTile env base pos s m).Holds (fun r => SameIndex m r.2.2.2) := by
  unfold parseTile
  apply Outcome.holds_bind
  apply Outcome.holds_all
  rintro ⟨tileType, s1⟩
  simp only []
  split
  · trivial
  · apply Outcome.holds_bind
    apply Outcome.holds_all
    rintro ⟨tileCoordsX, s2⟩
    simp only []
    apply Outcome.holds_bind
    apply Outcome.holds_all
    rintro ⟨tileCoordsY, s3⟩
    simp only []
    apply Outcome.holds_bind
    apply Outcome.holds_mono _ (fun r => SameIndex m r.2.2)
    · split
      · apply Outcome.holds_bind
        apply Outcome.holds_all
        rintro ⟨houseId, s4⟩
        simp only []
        split
        · trivial
        · exact ⟨rfl, rfl⟩
      · exact sameIndex_refl m
    · rintro ⟨tile1, s4, m1⟩ h1
      simp only []
      apply Outcome.holds_bind
      apply Outcome.holds_all
      rintro ⟨hasFlags, s5⟩
      simp only []
      apply Outcome.holds_bind
      apply Outcome.holds_all
      rintro ⟨tile2, s6⟩
      simp only []
      apply Outcome.holds_bind
      apply Outcome.holds_all
      rintro ⟨hasItem, s7⟩
      simp only []
      apply Outcome.holds_bind
      apply Outcome.holds_mono _ (fun r => SameIndex m r.2.2)
      · split
        · apply Outcome.holds_bind
          apply Outcome.holds_all
          rintro ⟨id, s8⟩
          exact sameIndex_trans m m1 _ h1 (sameIndex_placeAttrItem env tile2 id m1)
        · exact h1
      · rintro ⟨tile3, s8, m2⟩ h2
        simp only []
        apply Outcome.holds_bind
        apply Outcome.holds_mono _ _ _ (holds_parseTileChildren env _ _ tile3 s8 m2)
        rintro ⟨tile4, s9, m3⟩ h3
        simp only []
        apply Outcome.holds_bind
        apply Outcome.holds_all
        rintro ⟨ended, s10⟩
        simp only []
        split
        · trivial
        · exact sameIndex_trans m m2 _ h2 h3

theorem getBestMapSector_self {I : Type} (S : Nat) (ms : Nat → Option (MapSector I))
    (x y : Nat) :
    (getBestMapSector S ms x y).1 = sectorIndex S x y ∧
    ∃ s, (getBestMapSector S ms x y).2 (sectorIndex S x y) = some s := by
  rw [getBestMapSector_eq]
  cases hs : ms (sectorIndex S x y) with
  | some s => exact ⟨rfl, s, hs⟩
  | none =>
    refine ⟨rfl, ?_⟩
    simp only [linkNeighbours_apply, if_true, Option.map_some']
    exact ⟨_, rfl⟩

theorem pendingTile_writeFloor {I HS ZS : Type} (env : Env I HS ZS) (m1 : Map I HS ZS)
    (ms : Nat → Option (MapSector I)) (x y z : Nat) (v : Option BasicTile) (s : MapSector I)
    (hz : z < env.MAP_MAX_LAYERS) (hs : ms (sectorIndex env.SECTOR_SIZE x y) = some s)
    (hm : m1.mapSectors = writeFloor ms (sectorIndex env.SECTOR_SIZE x y) z
      (fun f => f.setTileCache env.SECTOR_SIZE x y v)) :
    pendingTile env m1 x y z = v := by
  simp [pendingTile, Nat.not_le.2 hz, getMapSector, hm, writeFloor, hs, MapSector.getFloor,
    MapSector.putFloor, Floor.getTileCache, Floor.setTileCache]

theorem pendingTile_setBasicTile {I HS ZS : Type} (env : Env I HS ZS) (m : Map I HS ZS)
    (x y z : Nat) (t : Option BasicTile) (hz : z < env.MAP_MAX_LAYERS) :
    pendingTile env (setBasicTile env m x y z t) x y z =
      (static_tryGetTileFromCache (fun p => p) env.combine m.tiles t).1 := by
  cases hg : getMapSector env.SECTOR_SIZE m.mapSectors x y with
  | some r =>
    obtain ⟨sector, s⟩ := r
    obtain ⟨hp, hms⟩ := (getMapSector_eq_some _ _ _ _ _ _).1 hg
    subst hp
    apply pendingTile_writeFloor env _ m.mapSectors x y z _ s hz hms
    simp [setBasicTile, Nat.not_le.2 hz, hg]
  | none =>
    obtain ⟨h1, s, h2⟩ := getBestMapSector_self env.SECTOR_SIZE m.mapSectors x y
    apply pendingTile_writeFloor env _ (getBestMapSector env.SECTOR_SIZE m.mapSectors x y).2
      x y z _ s hz h2
    simp [setBasicTile, Nat.not_le.2 hz, hg, h1]

/-- C14: a tile node that `parseTileArea` has parsed is handed to `setBasicTile` iff it
has a ground item or at least one item. Parsing the node changes neither the spatial
index nor the tile content cache; for a tile with content the iteration ends in the map
that `setBasicTile` returns, where below the layer limit the coordinate of the tile
holds the descriptor that interning the tile yields; for a tile without content
(whatever its flags and its house id) the iteration ends with the spatial index and the
tile content cache as they were before the node. -/
theorem tile_stored_iff_content {I HS ZS : Type} (env : Env I HS ZS) (base pos : Position)
    (s s1 : FileStream) (m m1 : Map I HS ZS) (tile : BasicTile) (p : Position)
    (h : parseTile env base pos s m = .ok (tile, p, s1, m1)) :
    SameIndex m m1 ∧
    ((tile.ground.isSome = true ∨ tile.items ≠ []) →
      parseTileNode env base pos s m = .ok (s1, setBasicTile env m1 p.x p.y p.z (some tile)) ∧
      (p.z < env.MAP_MAX_LAYERS →
        pendingTile env (setBasicTile env m1 p.x p.y p.z (some tile)) p.x p.y p.z =
          (static_tryGetTileFromCache (fun d => d) env.combine m1.tiles (some tile)).1 ∧
        (pendingTile env (setBasicTile env m1 p.x p.y p.z (some tile)) p.x p.y p.z).isSome =
          true)) ∧
    ((tile.ground = none ∧ tile.items = []) →
      parseTileNode env base pos s m = .ok (s1, m1) ∧
      pendingTile env m1 p.x p.y p.z = pendingTile env m p.x p.y p.z) := by
  have hsame : SameIndex m m1 :=
    Outcome.holds_of_eq _ (fun r => SameIndex m r.2.2.2) _ (holds_parseTile env base pos s m) h
  refine ⟨hsame, ?_, ?_⟩
  · intro hc
    have he : tile.isEmpty true = false := by
      simp only [BasicTile.isEmpty, Bool.true_or, Bool.true_and]
      rcases hc with hc | hc
      · cases hg : tile.ground with
        | none => rw [hg] at hc; simp at hc
        | some g => simp
      · cases hi : tile.items with
        | nil => exact absurd hi hc
        | cons a b => simp
    refine ⟨?_, ?_⟩
    · simp only [parseTileNode, h, Outcome.ok_bind, he]
      rfl
    · intro hz
      rw [pendingTile_setBasicTile env m1 p.x p.y p.z (some tile) hz]
      exact ⟨rfl, rfl⟩
  · rintro ⟨hg, hi⟩
    have he : tile.isEmpty true = true := by
      simp [BasicTile.isEmpty, hg, hi]
    refine ⟨?_, ?_⟩
    · simp only [parseTileNode, h, Outcome.ok_bind, he]
      rfl
    · simp only [pendingTile, hsame.1]

theorem tile_stored_iff_content_witness :
    (∃ m2, parseTileNode sampleEnv ⟨100, 100, 7⟩ ⟨0, 0, 0⟩ ⟨1, 0, [5, 0, 0, 9, 100, 0, 0xFF]⟩
        (Map.new [] ()) = .ok (⟨0, 7, [5, 0, 0, 9, 100, 0, 0xFF]⟩, m2) ∧
      (pendingTile sampleEnv m2 100 100 7).isSome = true) ∧
    (∃ m2, parseTileNode sampleEnv ⟨100, 100, 7⟩ ⟨0, 0, 0⟩
        ⟨1, 0, [5, 1, 0, 3, 1, 0, 0, 0, 0xFF]⟩ (Map.new [] ()) =
          .ok (⟨0, 9, [5, 1, 0, 3, 1, 0, 0, 0, 0xFF]⟩, m2) ∧
      pendingTile sampleEnv m2 101 100 7 = none) :=
  ⟨⟨_, ((tile_stored_iff_content sampleEnv ⟨100, 100, 7⟩ ⟨0, 0, 0⟩
        ⟨1, 0, [5, 0, 0, 9, 100, 0, 0xFF]⟩ ⟨0, 7, [5, 0, 0, 9, 100, 0, 0xFF]⟩ (Map.new [] ())
        _ _ ⟨100, 100, 7⟩ rfl).2.1 (Or.inl rfl)).1,
      (((tile_stored_iff_content sampleEnv ⟨100, 100, 7⟩ ⟨0, 0, 0⟩
        ⟨1, 0, [5, 0, 0, 9, 100, 0, 0xFF]⟩ ⟨0, 7, [5, 0, 0, 9, 100, 0, 0xFF]⟩ (Map.new [] ())
        _ _ ⟨100, 100, 7⟩ rfl).2.1 (Or.inl rfl)).2 (by decide)).2⟩,
   ⟨_, ((tile_stored_iff_content sampleEnv ⟨100, 100, 7⟩ ⟨0, 0, 0⟩
        ⟨1, 0, [5, 1, 0, 3, 1, 0, 0, 0, 0xFF]⟩ ⟨0, 9, [5, 1, 0, 3, 1, 0, 0, 0, 0xFF]⟩
        (Map.new [] ()) _ _ ⟨101, 100, 7⟩ rfl).2.2 ⟨rfl, rfl⟩).1,
      ((tile_stored_iff_content sampleEnv ⟨100, 100, 7⟩ ⟨0, 0, 0⟩
        ⟨1, 0, [5, 1, 0, 3, 1, 0, 0, 0, 0xFF]⟩ ⟨0, 9, [5, 1, 0, 3, 1, 0, 0, 0, 0xFF]⟩
        (Map.new [] ()) _ _ ⟨101, 100, 7⟩ rfl).2.2 ⟨rfl, rfl⟩).2.trans rfl⟩⟩

/-! ### Materialization of a descriptor whose house is missing -/

/-- C21, the code at the failing input: `getOrCreateTileFromCache` on a floor whose cache
slot (40, 50) holds a descriptor with ground item 100, item 2148, flags 256 and house id 9,
on a map where no house is registered, dereferences the null `tile` instead of returning
a non-house tile; the same holds for a descriptor with nothing but the house id and a
flag, and with house id 0 the call returns a static tile with the ground, the item and
the flags. -/
theorem materialization_faults_on_missing_house :
    getOrCreateTileFromCache sampleEnv (Map.new [] ()) (sectorIndex 32 40 50) 7
      ((Floor.new : Floor Nat).setTileCache 32 40 50
        (some ⟨some (BasicItem.mk [] 100 0 0 0 0 0 0 0 []),
          [BasicItem.mk [] 2148 0 0 0 0 0 0 0 []], 256, 9, 0, true⟩)) 40 50 = .fault ∧
    getOrCreateTileFromCache sampleEnv (Map.new [] ()) (sectorIndex 32 40 50) 7
      ((Floor.new : Floor Nat).setTileCache 32 40 50
        (some ⟨none, [], 256, 9, 0, true⟩)) 40 50 = .fault ∧
    ∃ tile m1,
      getOrCreateTileFromCache sampleEnv (Map.new [] ()) (sectorIndex 32 40 50) 7
        ((Floor.new : Floor Nat).setTileCache 32 40 50
          (some ⟨some (BasicItem.mk [] 100 0 0 0 0 0 0 0 []),
            [BasicItem.mk [] 2148 0 0 0 0 0 0 0 []], 256, 0, 0, true⟩)) 40 50
        = .ok (some tile, m1) ∧
      tile.kind = .staticTile ∧ tile.things = [100, 2148] ∧ tile.flags = 256 :=
  ⟨rfl, rfl, _, _, rfl, rfl, rfl, rfl⟩

/-! ### Line of sight -/

/-- C25: on one level, two positions whose x and y each differ by at most one see each
other, for both values of `floorCheck` and whatever the tiles of the map are. -/
theorem isSightClear_adjacent {T : Type} (w : SightMap T) (fromPos toPos : Position)
    (floorCheck : Bool) (hz : fromPos.z = toPos.z)
    (hx : Position.getDistanceX fromPos toPos ≤ 1)
    (hy : Position.getDistanceY fromPos toPos ≤ 1) :
    isSightClear w fromPos toPos floorCheck = true := by
  have hnear : Position.areInRange 1 1 fromPos toPos = true := by
    simp [Position.areInRange, hx, hy]
  unfold isSightClear
  rw [if_neg (fun h => h.2 hz), if_pos ⟨hz, Or.inl hnear⟩]

theorem isSightClear_adjacent_witness :
    isSightClear sampleSightMap ⟨102, 100, 7⟩ ⟨103, 101, 7⟩ true = true :=
  isSightClear_adjacent sampleSightMap ⟨102, 100, 7⟩ ⟨103, 101, 7⟩ true rfl (by decide)
    (by decide)

/-- C27: a cast to a destination more than one level above the origin is refused for both
values of `floorCheck`, and with `floorCheck` set every cast between different levels is
refused. -/
theorem isSightClear_upward_limit {T : Type} (w : SightMap T) (fromPos toPos : Position) :
    (toPos.z + 1 < fromPos.z → ∀ floorCheck, isSightClear w fromPos toPos floorCheck = false) ∧
    (fromPos.z ≠ toPos.z → isSightClear w fromPos toPos true = false) := by
  constructor
  · intro h floorCheck
    have hne : fromPos.z ≠ toPos.z := by omega
    have hgt : fromPos.z > toPos.z := by omega
    have hd : Position.getDistanceZ fromPos toPos > 1 := by
      simp only [Position.getDistanceZ, Position.getOffsetZ]
      rw [abs_of_nonneg (by omega)]
      omega
    cases floorCheck <;> simp [isSightClear, hne, hgt, hd]
  · intro h
    simp [isSightClear, h]

theorem isSightClear_upward_limit_witness :
    (∀ floorCheck, isSightClear sampleSightMap ⟨100, 100, 7⟩ ⟨100, 100, 5⟩ floorCheck = false) ∧
    isSightClear sampleSightMap ⟨100, 100, 7⟩ ⟨100, 100, 6⟩ true = false :=
  ⟨(isSightClear_upward_limit sampleSightMap ⟨100, 100, 7⟩ ⟨100, 100, 5⟩).1 (by decide),
    (isSightClear_upward_limit sampleSightMap ⟨100, 100, 7⟩ ⟨100, 100, 6⟩).2 (by decide)⟩

/-! ### Throwing range -/

/-- C28, counterexample: from (0, 0, 7) to (7, 0, 6) with `rangex` 7, `rangey` 5 and no
sight-line check, `|dx| = 7` exceeds `rangex - |dz| = 6`, and `canThrowObjectTo` returns
true: the code compares `|dx| - |dz|`, which is 6, with `rangex`. -/
theorem canThrowObjectTo_beyond_reduced_range :
    canThrowObjectTo sampleSightConsts sampleSightMap ⟨0, 0, 7⟩ ⟨7, 0, 6⟩ 0 7 5 = true ∧
    Position.getDistanceX ⟨0, 0, 7⟩ ⟨7, 0, 6⟩ >
      7 - Position.getDistanceZ ⟨0, 0, 7⟩ ⟨7, 0, 6⟩ := by
  constructor
  · rfl
  · decide

/-- C28, amended: `canThrowObjectTo` returns false whenever `|dx| - |dz| > rangex` or
`|dy| - |dz| > rangey` (the vertical distance is subtracted from the horizontal distance)
and whenever `|dz|` exceeds the vertical view limit; when these checks and the test that
separates the underground from the surface pass, the result is true if no sight-line check
is requested and the result of `isSightClear` otherwise. -/
theorem canThrowObjectTo_range_rule {T : Type} (k : SightConsts) (w : SightMap T)
    (fromPos toPos : Position) (lineOfSight : Nat) (rangex rangey : Int) :
    (Position.getDistanceX fromPos toPos - Position.getDistanceZ fromPos toPos > rangex ∨
      Position.getDistanceY fromPos toPos - Position.getDistanceZ fromPos toPos > rangey ∨
      Position.getDistanceZ fromPos toPos > (k.MAP_LAYER_VIEW_LIMIT : Int) →
      canThrowObjectTo k w fromPos toPos lineOfSight rangex rangey = false) ∧
    (¬ ((fromPos.z ≥ 8 ∧ toPos.z ≤ k.MAP_INIT_SURFACE_LAYER) ∨
        (toPos.z ≥ k.MAP_INIT_SURFACE_LAYER + 1 ∧ fromPos.z ≤ k.MAP_INIT_SURFACE_LAYER)) →
      Position.getDistanceZ fromPos toPos ≤ (k.MAP_LAYER_VIEW_LIMIT : Int) →
      Position.getDistanceX fromPos toPos - Position.getDistanceZ fromPos toPos ≤ rangex →
      Position.getDistanceY fromPos toPos - Position.getDistanceZ fromPos toPos ≤ rangey →
      canThrowObjectTo k w fromPos toPos lineOfSight rangex rangey =
        if lineOfSight &&& k.SightLine_CheckSightLine = 0 then true
        else isSightClear w fromPos toPos (lineOfSight &&& k.SightLine_FloorCheck != 0)) := by
  constructor
  · intro h
    unfold canThrowObjectTo
    split
    · rfl
    · simp only []
      rcases h with h | h | h
      · by_cases hz : Position.getDistanceZ fromPos toPos > (k.MAP_LAYER_VIEW_LIMIT : Int)
        · simp [hz]
        · simp [hz, h]
      · by_cases hz : Position.getDistanceZ fromPos toPos > (k.MAP_LAYER_VIEW_LIMIT : Int)
        · simp [hz]
        · by_cases hx : Position.getDistanceX fromPos toPos -
              Position.getDistanceZ fromPos toPos > rangex
          · simp [hz, hx]
          · simp [hz, hx, h]
      · simp [h]
  · intro hs hz hx hy
    unfold canThrowObjectTo
    rw [if_neg hs]
    simp only []
    rw [if_neg (not_lt.2 hz), if_neg (not_lt.2 hx), if_neg (not_lt.2 hy)]

theorem canThrowObjectTo_range_rule_witness :
    canThrowObjectTo sampleSightConsts sampleSightMap ⟨100, 100, 7⟩ ⟨109, 100, 6⟩ 1 7 5
      = false ∧
    canThrowObjectTo sampleSightConsts sampleSightMap ⟨100, 100, 7⟩ ⟨102, 100, 7⟩ 1 7 5 =
      (if 1 &&& sampleSightConsts.SightLine_CheckSightLine = 0 then true
        else isSightClear sampleSightMap ⟨100, 100, 7⟩ ⟨102, 100, 7⟩
          (1 &&& sampleSightConsts.SightLine_FloorCheck != 0)) :=
  ⟨(canThrowObjectTo_range_rule sampleSightConsts sampleSightMap ⟨100, 100, 7⟩ ⟨109, 100, 6⟩
      1 7 5).1 (Or.inl (by decide)),
    (canThrowObjectTo_range_rule sampleSightConsts sampleSightMap ⟨100, 100, 7⟩ ⟨102, 100, 7⟩
      1 7 5).2 (by decide) (by decide) (by decide) (by decide)⟩

theorem sightRow_blocked_east {T : Type} (w : SightMap T) (y z bx : Nat)
    (hblk : w.blocksAt bx y z = true) :
    ∀ (d x : Nat), x < bx → bx < x + d → x + d < 65536 → sightRow w 1 y z d x = false := by
  intro d
  induction d with
  | zero => intro x h1 h2 _; omega
  | succ n ih =>
    intro x h1 h2 h3
    have hn : 0 < n := by omega
    have hx : (x + 1) % 65536 = x + 1 := Nat.mod_eq_of_lt (by omega)
    simp only [sightRow, hn, if_true, hx]
    by_cases hb : w.blocksAt (x + 1) y z = true
    · simp [hb]
    · have hne : bx ≠ x + 1 := by
        intro h
        rw [h] at hblk
        exact hb hblk
      simp only [hb]
      exact ih (x + 1) (by omega) (by omega) (by omega)

theorem sightRow_blocked_west {T : Type} (w : SightMap T) (y z bx : Nat)
    (hblk : w.blocksAt bx y z = true) :
    ∀ (d x : Nat), bx < x → x < bx + d → x < 65536 → sightRow w 65535 y z d x = false := by
  intro d
  induction d with
  | zero => intro x h1 h2 _; omega
  | succ n ih =>
    intro x h1 h2 h3
    have hn : 0 < n := by omega
    have hx : (x + 65535) % 65536 = x - 1 := by omega
    simp only [sightRow, hn, if_true, hx]
    by_cases hb : w.blocksAt (x - 1) y z = true
    · simp [hb]
    · have hne : bx ≠ x - 1 := by
        intro h
        rw [h] at hblk
        exact hb hblk
      simp only [hb]
      exact ih (x - 1) (by omega) (by omega) (by omega)

theorem checkSightLine_row_blocked {T : Type} (w : SightMap T) (fromPos toPos : Position)
    (bx : Nat) (hy : fromPos.y = toPos.y)
    (hfx : fromPos.x < 65536) (htx : toPos.x < 65536)
    (hb : (fromPos.x < bx ∧ bx < toPos.x) ∨ (toPos.x < bx ∧ bx < fromPos.x))
    (hblk : w.blocksAt bx fromPos.y fromPos.z = true) :
    checkSightLine w fromPos toPos = false := by
  have hne : fromPos.x ≠ toPos.x := by omega
  simp only [checkSightLine, hne, hy, false_and, if_false, if_true, true_and]
  simp only [Position.getDistanceX, Position.getOffsetX]
  rcases hb with ⟨h1, h2⟩ | ⟨h1, h2⟩
  · have hlt : fromPos.x < toPos.x := by omega
    have hd : |(fromPos.x : Int) - (toPos.x : Int)|.toNat = toPos.x - fromPos.x := by
      rw [abs_of_nonpos (by omega)]
      omega
    rw [if_pos hlt, hd, ← hy]
    exact sightRow_blocked_east w _ _ bx hblk _ _ h1 (by omega) (by omega)
  · have hlt : ¬ fromPos.x < toPos.x := by omega
    have hd : |(fromPos.x : Int) - (toPos.x : Int)|.toNat = fromPos.x - toPos.x := by
      rw [abs_of_nonneg (by omega)]
      omega
    rw [if_neg hlt, hd, ← hy]
    exact sightRow_blocked_west w _ _ bx hblk _ _ h2 (by omega) hfx

/-- C26, counterexample: on level 7 of a map whose only blocking tile is at (103, 100, 7),
strictly between (100, 100, 7) and (106, 100, 7), and which has no tile on level 6,
`isSightClear` without `floorCheck` returns true: the cast passes one level above the
obstacle. -/
theorem isSightClear_over_obstacle :
    sampleSightMap.blocksAt 103 100 7 = true ∧
    isSightClear sampleSightMap ⟨100, 100, 7⟩ ⟨106, 100, 7⟩ false = true ∧
    isSightClear sampleSightMap ⟨100, 100, 7⟩ ⟨106, 100, 7⟩ true = false := by
  refine ⟨rfl, ?_, ?_⟩ <;> decide

/-- C26, amended: for two positions of one row and level with a blocking tile strictly
between them, `isSightClear` with `floorCheck` returns false; without `floorCheck` it
returns false exactly when the level is not 0 and the way one level above is closed: the
tile above the origin has ground or blocks, or the sight line one level above is blocked,
or the tile above the destination has ground or blocks. -/
theorem isSightClear_row_blocked {T : Type} (w : SightMap T) (fromPos toPos : Position)
    (bx : Nat) (hy : fromPos.y = toPos.y) (hz : fromPos.z = toPos.z)
    (hfx : fromPos.x < 65536) (htx : toPos.x < 65536) (hfz : fromPos.z < 256)
    (hb : (fromPos.x < bx ∧ bx < toPos.x) ∨ (toPos.x < bx ∧ bx < fromPos.x))
    (hblk : w.blocksAt bx fromPos.y fromPos.z = true) :
    isSightClear w fromPos toPos true = false ∧
    (isSightClear w fromPos toPos false = false ↔
      fromPos.z ≠ 0 ∧
      (w.groundOrBlocksAt fromPos.x fromPos.y (fromPos.z - 1) = true ∨
        checkSightLine w ⟨fromPos.x, fromPos.y, fromPos.z - 1⟩
          ⟨toPos.x, toPos.y, toPos.z - 1⟩ = false ∨
        w.groundOrBlocksAt toPos.x toPos.y (fromPos.z - 1) = true)) := by
  have hline := checkSightLine_row_blocked w fromPos toPos bx hy hfx htx hb hblk
  have hnear : Position.areInRange 1 1 fromPos toPos = false := by
    simp only [Position.areInRange, Position.getDistanceX, Position.getOffsetX,
      Bool.and_eq_false_imp, decide_eq_true_eq]
    intro h
    exfalso
    rcases hb with ⟨h1, h2⟩ | ⟨h1, h2⟩
    · rw [abs_of_nonpos (by omega)] at h
      omega
    · rw [abs_of_nonneg (by omega)] at h
      omega
  constructor
  · simp [isSightClear, hz, hnear, hline]
  · by_cases h0 : fromPos.z = 0
    · have ht0 : toPos.z = 0 := by omega
      simp [isSightClear, hnear, h0, ht0]
    · have hup : (fromPos.z + 255) % 256 = fromPos.z - 1 := by omega
      have hupt : (toPos.z + 255) % 256 = toPos.z - 1 := by omega
      have hcount : (toPos.z + 256 - (fromPos.z - 1)) % 256 = 1 := by omega
      have hdz : ¬ (Position.getDistanceZ fromPos toPos > 1) := by
        simp [Position.getDistanceZ, Position.getOffsetZ, hz]
      unfold isSightClear
      simp only [hnear, h0, hline, hup, hupt, hcount, sightFloors]
      simp only [hz, lt_irrefl, false_and, and_false, or_false, if_false, false_or]
      rw [← hz]
      simp only [ne_eq, h0, not_false_eq_true, true_and]
      by_cases ha : w.groundOrBlocksAt fromPos.x fromPos.y (fromPos.z - 1) = true
      · simp [ha]
      · by_cases hc : checkSightLine w ⟨fromPos.x, fromPos.y, fromPos.z - 1⟩
            ⟨toPos.x, toPos.y, fromPos.z - 1⟩ = false
        · simp [ha, hc]
        · by_cases hd : w.groundOrBlocksAt toPos.x toPos.y (fromPos.z - 1) = true
          · simp [ha, hc, hd]
          · simp [ha, hc, hd]

theorem isSightClear_row_blocked_witness :
    isSightClear sampleSightMap ⟨100, 100, 7⟩ ⟨106, 100, 7⟩ true = false ∧
    (isSightClear sampleSightMap ⟨100, 100, 7⟩ ⟨106, 100, 7⟩ false = false ↔
      (7 : Nat) ≠ 0 ∧
      (sampleSightMap.groundOrBlocksAt 100 100 (7 - 1) = true ∨
        checkSightLine sampleSightMap ⟨100, 100, 7 - 1⟩ ⟨106, 100, 7 - 1⟩ = false ∨
        sampleSightMap.groundOrBlocksAt 106 100 (7 - 1) = true)) :=
  isSightClear_row_blocked sampleSightMap ⟨100, 100, 7⟩ ⟨106, 100, 7⟩ 103 rfl rfl
    (by decide) (by decide) (by decide) (Or.inl ⟨by decide, by decide⟩) rfl

/-! ### Spectator cache -/

/-- C29, the code at the failing input: in a world with two monsters near (100, 100, 7),
after a cached query for players with range 10 and a cached query for monsters with range
2 at that centre, the cached query for monsters with range 10 returns only the monster
within range 2, while the same query without the cache returns both monsters. -/
theorem cached_find_returns_stale_list :
    (findFresh sampleSpectatorConsts sampleSpectatorWorld
      (findAll sampleSpectatorConsts sampleSpectatorWorld clearCache
        [⟨⟨100, 100, 7⟩, false, true, false, false, 10, 10, 10, 10, true⟩,
          ⟨⟨100, 100, 7⟩, false, false, true, false, 2, 2, 2, 2, true⟩])
      ⟨⟨100, 100, 7⟩, false, false, true, false, 10, 10, 10, 10, true⟩).1 =
      [⟨2, ⟨101, 100, 7⟩, false, true, false⟩] ∧
    (findFresh sampleSpectatorConsts sampleSpectatorWorld
      (findAll sampleSpectatorConsts sampleSpectatorWorld clearCache
        [⟨⟨100, 100, 7⟩, false, true, false, false, 10, 10, 10, 10, true⟩,
          ⟨⟨100, 100, 7⟩, false, false, true, false, 2, 2, 2, 2, true⟩])
      ⟨⟨100, 100, 7⟩, false, false, true, false, 10, 10, 10, 10, false⟩).1 =
      [⟨1, ⟨105, 100, 7⟩, false, true, false⟩, ⟨2, ⟨101, 100, 7⟩, false, true, false⟩] := by
  constructor <;> decide

theorem SpectatorsCache.store_minRangeX (e : SpectatorsCache)
    (multifloor onlyPlayers onlyMonsters onlyNpcs : Bool) (list : List Creature) :
    (e.store multifloor onlyPlayers onlyMonsters onlyNpcs list).minRangeX = e.minRangeX := by
  unfold SpectatorsCache.store
  split_ifs <;> rfl

theorem SpectatorsCache.store_maxRangeX (e : SpectatorsCache)
    (multifloor onlyPlayers onlyMonsters onlyNpcs : Bool) (list : List Creature) :
    (e.store multifloor onlyPlayers onlyMonsters onlyNpcs list).maxRangeX = e.maxRangeX := by
  unfold SpectatorsCache.store
  split_ifs <;> rfl

theorem SpectatorsCache.store_minRangeY (e : SpectatorsCache)
    (multifloor onlyPlayers onlyMonsters onlyNpcs : Bool) (list : List Creature) :
    (e.store multifloor onlyPlayers onlyMonsters onlyNpcs list).minRangeY = e.minRangeY := by
  unfold SpectatorsCache.store
  split_ifs <;> rfl

theorem SpectatorsCache.store_maxRangeY (e : SpectatorsCache)
    (multifloor onlyPlayers onlyMonsters onlyNpcs : Bool) (list : List Creature) :
    (e.store multifloor onlyPlayers onlyMonsters onlyNpcs list).maxRangeY = e.maxRangeY := by
  unfold SpectatorsCache.store
  split_ifs <;> rfl

theorem SpectatorsCache.widens_refl (e : SpectatorsCache) : e.Widens e :=
  ⟨le_refl _, le_refl _, le_refl _, le_refl _⟩

theorem SpectatorsCache.widens_trans {a b c : SpectatorsCache} (h1 : a.Widens b)
    (h2 : b.Widens c) : a.Widens c :=
  ⟨le_trans h2.1 h1.1, le_trans h1.2.1 h2.2.1, le_trans h2.2.2.1 h1.2.2.1,
    le_trans h1.2.2.2 h2.2.2.2⟩

theorem SpectatorsCache.covers_of_widens {a b : SpectatorsCache} {r : Int × Int × Int × Int}
    (h1 : a.Covers r) (h2 : a.Widens b) : b.Covers r :=
  ⟨le_trans h2.1 h1.1, le_trans h1.2.1 h2.2.1, le_trans h2.2.2.1 h1.2.2.1,
    le_trans h1.2.2.2 h2.2.2.2⟩

/-- The effect of one call of `find` on the cache: either no entry changes, or the entry
of the centre becomes an entry whose recorded range contains the old one (if there was an
entry) and the range of the call. -/
theorem find_cache_cases {I : Type} (k : SpectatorConsts) (world : SpectatorWorld I)
    (spectatorsCache : Position → Option SpectatorsCache) (q : FindQuery) :
    ((findFresh k world spectatorsCache q).2 = spectatorsCache ∧
      (q.useCache = true → ∃ e, spectatorsCache q.centerPos = some e ∧ e.Covers (q.range k))) ∨
    (∃ e1 : SpectatorsCache,
      (findFresh k world spectatorsCache q).2 =
        (fun p => if p = q.centerPos then some e1 else spectatorsCache p) ∧
      e1.Covers (q.range k) ∧
      ∀ e, spectatorsCache q.centerPos = some e → e.Widens e1) := by
  obtain ⟨centerPos, multifloor, onlyPlayers, onlyMonsters, onlyNpcs, minRangeX, maxRangeX,
    minRangeY, maxRangeY, useCache⟩ := q
  simp only [findFresh, find, FindQuery.range]
  generalize (if minRangeX = 0 then -k.MAP_MAX_VIEW_PORT_X else -minRangeX) = a
  generalize (if maxRangeX = 0 then k.MAP_MAX_VIEW_PORT_X else maxRangeX) = b
  generalize (if minRangeY = 0 then -k.MAP_MAX_VIEW_PORT_Y else -minRangeY) = c
  generalize (if maxRangeY = 0 then k.MAP_MAX_VIEW_PORT_Y else maxRangeY) = d
  have hstore : ∀ (e : SpectatorsCache) (l : List Creature) (a1 b1 c1 d1 : Int),
      e.minRangeX ≤ a1 → b1 ≤ e.maxRangeX → e.minRangeY ≤ c1 → d1 ≤ e.maxRangeY →
      (e.store multifloor onlyPlayers onlyMonsters onlyNpcs l).Covers (a1, b1, c1, d1) := by
    intro e l a1 b1 c1 d1 h1 h2 h3 h4
    simp only [SpectatorsCache.Covers, SpectatorsCache.store_minRangeX,
      SpectatorsCache.store_maxRangeX, SpectatorsCache.store_minRangeY,
      SpectatorsCache.store_maxRangeY]
    exact ⟨h1, h2, h3, h4⟩
  have hwid : ∀ (e e1 : SpectatorsCache) (l : List Creature), e.Widens e1 →
      e.Widens (e1.store multifloor onlyPlayers onlyMonsters onlyNpcs l) := by
    intro e e1 l h
    simp only [SpectatorsCache.Widens, SpectatorsCache.store_minRangeX,
      SpectatorsCache.store_maxRangeX, SpectatorsCache.store_minRangeY,
      SpectatorsCache.store_maxRangeY]
    exact h
  cases useCache
  · left
    simp
  · simp only [Bool.not_true, Bool.false_eq_true, if_false]
    cases hc : spectatorsCache centerPos with
    | none =>
      right
      refine ⟨_, rfl, ?_, ?_⟩
      · exact hstore _ _ _ _ _ _ (le_refl _) (le_refl _) (le_refl _) (le_refl _)
      · intro e he
        simp at he
    | some cache =>
      simp only []
      by_cases hcov : a ≥ cache.minRangeX ∧ b ≤ cache.maxRangeX ∧
          c ≥ cache.minRangeY ∧ d ≤ cache.maxRangeY
      · rw [if_pos hcov]
        have hfall : ∀ l : List Creature,
            ∃ e1 : SpectatorsCache,
              (fun p => if p = centerPos then
                some (cache.store multifloor onlyPlayers onlyMonsters onlyNpcs l)
                else spectatorsCache p) =
                (fun p => if p = centerPos then some e1 else spectatorsCache p) ∧
              e1.Covers (a, b, c, d) ∧
              ∀ e, some cache = some e → e.Widens e1 := by
          intro l
          refine ⟨_, rfl, hstore _ _ _ _ _ _ hcov.1 hcov.2.1 hcov.2.2.1 hcov.2.2.2, ?_⟩
          intro e he
          cases he
          exact hwid _ _ _ (SpectatorsCache.widens_refl _)
        have hsame : (True → ∃ e, some cache = some e ∧ e.Covers (a, b, c, d)) :=
          fun _ => ⟨cache, rfl, hcov.1, hcov.2.1, hcov.2.2.1, hcov.2.2.2⟩
        by_cases hany : (onlyPlayers || onlyMonsters || onlyNpcs) = true
        · rw [if_pos hany]
          split
          · left
            exact ⟨rfl, fun _ => hsame trivial⟩
          · split
            · left
              exact ⟨rfl, fun _ => hsame trivial⟩
            · right
              exact hfall _
        · rw [if_neg hany]
          split
          · left
            exact ⟨rfl, fun _ => hsame trivial⟩
          · right
            exact hfall _
      · rw [if_neg hcov]
        right
        refine ⟨_, rfl, ?_, ?_⟩
        · exact hstore _ _ _ _ _ _ (min_le_left _ _) (le_max_left _ _) (min_le_left _ _)
            (le_max_left _ _)
        · intro e he
          cases he
          exact hwid _ _ _
            ⟨min_le_right _ _, le_max_right _ _, min_le_right _ _, le_max_right _ _⟩

theorem find_widens {I : Type} (k : SpectatorConsts) (world : SpectatorWorld I)
    (spectatorsCache : Position → Option SpectatorsCache) (q : FindQuery)
    (pos : Position) (e : SpectatorsCache) (h : spectatorsCache pos = some e) :
    ∃ e1, (findFresh k world spectatorsCache q).2 pos = some e1 ∧ e.Widens e1 := by
  rcases find_cache_cases k world spectatorsCache q with ⟨h1, _⟩ | ⟨e1, h1, _, h3⟩
  · rw [h1]
    exact ⟨e, h, e.widens_refl⟩
  · rw [h1]
    by_cases hp : pos = q.centerPos
    · subst hp
      exact ⟨e1, by simp, h3 e h⟩
    · exact ⟨e, by simp [hp, h], e.widens_refl⟩

theorem find_covers {I : Type} (k : SpectatorConsts) (world : SpectatorWorld I)
    (spectatorsCache : Position → Option SpectatorsCache) (q : FindQuery)
    (hq : q.useCache = true) :
    ∃ e1, (findFresh k world spectatorsCache q).2 q.centerPos = some e1 ∧
      e1.Covers (q.range k) := by
  rcases find_cache_cases k world spectatorsCache q with ⟨h1, h2⟩ | ⟨e1, h1, h2, _⟩
  · rw [h1]
    exact h2 hq
  · rw [h1]
    exact ⟨e1, by simp, h2⟩

theorem findAll_widens {I : Type} (k : SpectatorConsts) (world : SpectatorWorld I)
    (qs : List FindQuery) :
    ∀ (spectatorsCache : Position → Option SpectatorsCache) (pos : Position)
      (e : SpectatorsCache), spectatorsCache pos = some e →
      ∃ e1, findAll k world spectatorsCache qs pos = some e1 ∧ e.Widens e1 := by
  induction qs with
  | nil => intro c pos e h; exact ⟨e, h, e.widens_refl⟩
  | cons q rest ih =>
    intro c pos e h
    obtain ⟨e1, h1, w1⟩ := find_widens k world c q pos e h
    obtain ⟨e2, h2, w2⟩ := ih _ pos e1 h1
    exact ⟨e2, h2, SpectatorsCache.widens_trans w1 w2⟩

/-- C30: in a sequence of `find` calls without `clearCache` between them, started from
any cache, a call leaves every entry with a recorded range that contains the range
recorded before the call (the minima do not grow, the maxima do not shrink), the same
holds from any point of the sequence to its end, and after a cached call, and from then on
to the end of the sequence, the entry of its centre contains the range of that call. -/
theorem cache_range_never_shrinks {I : Type} (k : SpectatorConsts) (world : SpectatorWorld I)
    (spectatorsCache : Position → Option SpectatorsCache)
    (before : List FindQuery) (q : FindQuery) (after : List FindQuery) :
    (∀ pos e, findAll k world spectatorsCache before pos = some e →
      ∃ e1, (findFresh k world (findAll k world spectatorsCache before) q).2 pos = some e1 ∧
        e.Widens e1) ∧
    (∀ pos e, findAll k world spectatorsCache before pos = some e →
      ∃ e2, findAll k world spectatorsCache (before ++ q :: after) pos = some e2 ∧
        e.Widens e2) ∧
    (q.useCache = true →
      ∃ e1 e2, (findFresh k world (findAll k world spectatorsCache before) q).2 q.centerPos
          = some e1 ∧ e1.Covers (q.range k) ∧
        findAll k world spectatorsCache (before ++ q :: after) q.centerPos = some e2 ∧
        e2.Covers (q.range k)) := by
  have happ : ∀ (l1 l2 : List FindQuery) (c : Position → Option SpectatorsCache),
      findAll k world c (l1 ++ l2) = findAll k world (findAll k world c l1) l2 := by
    intro l1
    induction l1 with
    | nil => intro l2 c; rfl
    | cons a l ih => intro l2 c; exact ih l2 _
  refine ⟨fun pos e h => find_widens k world _ q pos e h, ?_, ?_⟩
  · intro pos e h
    rw [happ]
    exact findAll_widens k world (q :: after) _ pos e h
  · intro hq
    obtain ⟨e1, h1, c1⟩ := find_covers k world (findAll k world spectatorsCache before) q hq
    obtain ⟨e2, h2, w2⟩ := findAll_widens k world after _ q.centerPos e1 h1
    refine ⟨e1, e2, h1, c1, ?_, SpectatorsCache.covers_of_widens c1 w2⟩
    rw [happ]
    exact h2

theorem cache_range_never_shrinks_witness :
    ∃ e1 e2,
      (findFresh sampleSpectatorConsts sampleSpectatorWorld
        (findAll sampleSpectatorConsts sampleSpectatorWorld clearCache
          [⟨⟨100, 100, 7⟩, false, true, false, false, 2, 2, 2, 2, true⟩])
        ⟨⟨100, 100, 7⟩, false, false, true, false, 10, 10, 10, 10, true⟩).2 ⟨100, 100, 7⟩
          = some e1 ∧
      e1.Covers (FindQuery.range sampleSpectatorConsts
        ⟨⟨100, 100, 7⟩, false, false, true, false, 10, 10, 10, 10, true⟩) ∧
      findAll sampleSpectatorConsts sampleSpectatorWorld clearCache
        ([⟨⟨100, 100, 7⟩, false, true, false, false, 2, 2, 2, 2, true⟩] ++
          ⟨⟨100, 100, 7⟩, false, false, true, false, 10, 10, 10, 10, true⟩ ::
          [⟨⟨100, 100, 7⟩, false, false, false, false, 0, 0, 0, 0, true⟩]) ⟨100, 100, 7⟩
          = some e2 ∧
      e2.Covers (FindQuery.range sampleSpectatorConsts
        ⟨⟨100, 100, 7⟩, false, false, true, false, 10, 10, 10, 10, true⟩) :=
  (cache_range_never_shrinks sampleSpectatorConsts sampleSpectatorWorld clearCache
    [⟨⟨100, 100, 7⟩, false, true, false, false, 2, 2, 2, 2, true⟩]
    ⟨⟨100, 100, 7⟩, false, false, true, false, 10, 10, 10, 10, true⟩
    [⟨⟨100, 100, 7⟩, false, false, false, false, 0, 0, 0, 0, true⟩]).2.2 rfl

/-! ### Pathfinder: reconstruction of the path -/

theorem toUInt16_of_lt (a : Nat) (h : a < 65536) : toUInt16 (a : Int) = a := by
  unfold toUInt16
  omega

theorem stepDirection_adjacent (dx dy : Int) (hx : |dx| ≤ 1) (hy : |dy| ≤ 1)
    (hne : dx ≠ 0 ∨ dy ≠ 0) :
    ∃ d, stepDirection dx dy = some d ∧ d.offset = (-dx, -dy) ∧ d ≠ .DIRECTION_NONE := by
  rw [abs_le] at hx hy
  have h1 : dx = -1 ∨ dx = 0 ∨ dx = 1 := by omega
  have h2 : dy = -1 ∨ dy = 0 ∨ dy = 1 := by omega
  rcases h1 with h1 | h1 | h1 <;> rcases h2 with h2 | h2 | h2 <;> subst h1 <;> subst h2 <;>
    first
      | (exfalso; omega)
      | exact ⟨_, rfl, rfl, by decide⟩

theorem walkDirections_append (p : Int × Int) (l1 l2 : List Direction) :
    walkDirections p (l1 ++ l2) = walkDirections (walkDirections p l1) l2 := by
  induction l1 generalizing p with
  | nil => rfl
  | cons d l ih => exact ih _

theorem reconstructPath_chain (nodes : AStarNodes) (rest : List Nat) :
    ∀ (i : Nat) (fuel : Nat) (dirList : List Direction),
      ParentChain nodes (i :: rest) → rest.length ≤ fuel →
      ∃ dirs,
        reconstructPath nodes fuel (nodes.nodes i).parent (nodes.nodes i).x (nodes.nodes i).y
          dirList = some (dirList ++ dirs) ∧
        dirs.length = rest.length ∧
        ChainMoves nodes dirs (i :: rest) ∧
        walkDirections (nodes.coords ((i :: rest).getLast (by simp))) dirs.reverse =
          nodes.coords i := by
  induction rest with
  | nil =>
    intro i fuel dirList hc _
    refine ⟨[], ?_, rfl, trivial, rfl⟩
    rw [hc.1]
    cases fuel <;> simp [reconstructPath]
  | cons j rest ih =>
    intro i fuel dirList hc hfuel
    obtain ⟨hp, hadj, hrest⟩ := hc
    obtain ⟨hix, hiy, hjx, hjy, hdx, hdy, hne⟩ := hadj
    cases fuel with
    | zero => simp at hfuel
    | succ fuel =>
      have hfuel1 : rest.length ≤ fuel := by simpa using hfuel
      have hxj : ((toUInt16 ((nodes.nodes j).x : Int) : Nat) : Int) = ((nodes.nodes j).x : Int) := by
        rw [toUInt16_of_lt _ hjx]
      have hyj : ((toUInt16 ((nodes.nodes j).y : Int) : Nat) : Int) = ((nodes.nodes j).y : Int) := by
        rw [toUInt16_of_lt _ hjy]
      have hx1 : |((nodes.nodes j).x : Int) - ((nodes.nodes i).x : Int)| ≤ 1 := by
        rw [abs_sub_comm]; exact hdx
      have hy1 : |((nodes.nodes j).y : Int) - ((nodes.nodes i).y : Int)| ≤ 1 := by
        rw [abs_sub_comm]; exact hdy
      have hne1 : ((nodes.nodes j).x : Int) - ((nodes.nodes i).x : Int) ≠ 0 ∨
          ((nodes.nodes j).y : Int) - ((nodes.nodes i).y : Int) ≠ 0 := by
        rcases hne with h | h
        · left; omega
        · right; omega
      obtain ⟨d, hd, hoff, hnone⟩ := stepDirection_adjacent _ _ hx1 hy1 hne1
      obtain ⟨dirs, h1, h2, h3, h4⟩ := ih j fuel (dirList ++ [d]) hrest hfuel1
      refine ⟨d :: dirs, ?_, by simp [h2], ?_, ?_⟩
      · rw [hp]
        simp only [reconstructPath, hxj, hyj, hd]
        rw [h1]
        simp
      · refine ⟨?_, ?_, hnone, h3⟩
        · simp only [AStarNodes.coords, hoff]; omega
        · simp only [AStarNodes.coords, hoff]; omega
      · have hlast : (i :: j :: rest).getLast (by simp) = (j :: rest).getLast (by simp) := by
          simp [List.getLast_cons]
        rw [hlast, List.reverse_cons, walkDirections_append, h4]
        simp only [walkDirections, AStarNodes.coords, hoff]
        ext <;> simp

/-! ### Pathfinder: the node pool -/

theorem AStarNodes.bestBelow_spec (s : AStarNodes) :
    ∀ (k n : Nat), s.bestBelow k = some n → n < k ∧ s.openNodes n = true := by
  intro k
  induction k with
  | zero => intro n h; simp [AStarNodes.bestBelow] at h
  | succ k ih =>
    intro n h
    simp only [AStarNodes.bestBelow] at h
    cases hb : s.bestBelow k with
    | none =>
      rw [hb] at h
      simp only [] at h
      by_cases ho : s.openNodes k = true
      · simp [ho] at h
        subst h
        exact ⟨Nat.lt_succ_self _, ho⟩
      · simp [ho] at h
    | some b =>
      rw [hb] at h
      simp only [] at h
      obtain ⟨h1, h2⟩ := ih b hb
      by_cases hc : s.openNodes k = true ∧ (s.nodes k).f < (s.nodes b).f
      · rw [if_pos hc] at h
        cases h
        exact ⟨Nat.lt_succ_self _, hc.1⟩
      · rw [if_neg hc] at h
        cases h
        exact ⟨Nat.lt_succ_of_lt h1, h2⟩

theorem AStarNodes.getBestNode_spec (s : AStarNodes) (n : Nat) (h : s.getBestNode = some n) :
    n < s.curNode ∧ s.openNodes n = true :=
  s.bestBelow_spec _ n h

theorem AStarNodes.findBelow_spec (s : AStarNodes) (x y : Nat) :
    ∀ (k j : Nat), s.findBelow x y k = some j → j < k := by
  intro k
  induction k with
  | zero => intro j h; simp [AStarNodes.findBelow] at h
  | succ k ih =>
    intro j h
    simp only [AStarNodes.findBelow] at h
    cases hb : s.findBelow x y k with
    | none =>
      rw [hb] at h
      simp only [] at h
      by_cases hc : (s.nodes k).x = x ∧ (s.nodes k).y = y
      · rw [if_pos hc] at h
        cases h
        exact Nat.lt_succ_self _
      · rw [if_neg hc] at h
        cases h
    | some b =>
      rw [hb] at h
      cases h
      exact Nat.lt_succ_of_lt (ih _ hb)

theorem AStarNodes.getNodeByPosition_lt (s : AStarNodes) (x y j : Nat)
    (h : s.getNodeByPosition x y = some j) : j < s.curNode :=
  s.findBelow_spec x y _ j h

theorem AStarNodes.progress_refl (M : Nat) (s : AStarNodes) : AStarNodes.Progress M s s :=
  Or.inl rfl

theorem AStarNodes.progress_trans (M : Nat) {a b c : AStarNodes}
    (h1 : AStarNodes.Progress M a b) (h2 : AStarNodes.Progress M b c) :
    AStarNodes.Progress M a c := by
  rcases h1 with h1 | h1 | ⟨h1, h1s⟩
  · subst h1; exact h2
  · rcases h2 with h2 | h2 | ⟨h2, _⟩
    · subst h2; exact Or.inr (Or.inl h1)
    · exact Or.inr (Or.inl (by omega))
    · exact Or.inr (Or.inl (by rw [h2]; exact h1))
  · rcases h2 with h2 | h2 | ⟨h2, h2s⟩
    · subst h2; exact Or.inr (Or.inr ⟨h1, h1s⟩)
    · exact Or.inr (Or.inl (by rw [← h1]; exact h2))
    · exact Or.inr (Or.inr ⟨by rw [h2, h1], by omega⟩)

theorem expandKeeps_refl (M n : Nat) (s : AStarNodes) (hwf : s.WellFormed)
    (hn : n < s.curNode) (ho : s.openNodes n = true) :
    ExpandKeeps M n (s.nodes n).f s s :=
  ⟨hwf, hn, rfl, ho, le_refl _, rfl, fun _ _ => ⟨rfl, rfl⟩, Or.inl rfl⟩

theorem expandKeeps_relink (M n : Nat) (f : Int) (s0 s : AStarNodes)
    (h : ExpandKeeps M n f s0 s) (j : Nat) (newf : Int) (hj : j < s.curNode)
    (hlo : f < newf) (hhi : newf < (s.nodes j).f) :
    ExpandKeeps M n f s0 ((s.relink j newf n).openNode j) := by
  have hnj : n ≠ j := by
    intro e
    have := h.f_eq
    rw [e] at this
    omega
  have hnodes : ∀ i, (((s.relink j newf n).openNode j).nodes i) =
      if i = j then { s.nodes j with f := newf, parent := some n } else s.nodes i := fun _ => rfl
  have hcur : ((s.relink j newf n).openNode j).curNode = s.curNode := rfl
  have hf0 : 0 ≤ f := by
    have := h.wf.f_nonneg n h.n_lt
    rw [h.f_eq] at this
    exact this
  refine ⟨⟨?_, ?_, ?_⟩, h.n_lt, ?_, ?_, h.cur_le, h.closed, ?_, ?_⟩
  · intro i hi p hp
    rw [hcur] at hi
    rw [hnodes] at hp
    by_cases hij : i = j
    · subst hij
      simp only [if_true] at hp
      cases hp
      refine ⟨h.n_lt, ?_⟩
      rw [hnodes, hnodes, if_neg hnj, if_pos rfl, h.f_eq]
      exact hlo
    · rw [if_neg hij] at hp
      obtain ⟨h1, h2⟩ := h.wf.parent_lt i hi p hp
      refine ⟨h1, ?_⟩
      rw [hnodes, hnodes, if_neg hij]
      by_cases hpj : p = j
      · subst hpj
        simp only [if_true]
        omega
      · rw [if_neg hpj]
        exact h2
  · intro i hi
    rw [hnodes]
    by_cases hij : i = j
    · subst hij
      simp only [if_true]
      omega
    · rw [if_neg hij]
      exact h.wf.f_nonneg i hi
  · intro i hi
    rw [hnodes]
    by_cases hij : i = j
    · subst hij
      simp only [if_true]
      exact h.wf.c_nonneg i hi
    · rw [if_neg hij]
      exact h.wf.c_nonneg i hi
  · rw [hnodes, if_neg hnj]
    exact h.f_eq
  · show (if n = j then true else s.openNodes n) = true
    rw [if_neg hnj]
    exact h.n_open
  · intro i hi
    rw [hnodes]
    by_cases hij : i = j
    · subst hij
      simp only [if_true]
      exact h.coords i hi
    · rw [if_neg hij]
      exact h.coords i hi
  · refine AStarNodes.progress_trans M h.progress (Or.inr (Or.inr ⟨hcur, ?_⟩))
    unfold AStarNodes.sumF
    rw [hcur]
    apply Finset.sum_lt_sum
    · intro i _
      rw [hnodes]
      by_cases hij : i = j
      · subst hij
        simp only [if_true]
        omega
      · rw [if_neg hij]
    · refine ⟨j, Finset.mem_range.2 hj, ?_⟩
      rw [hnodes]
      simp only [if_true]
      omega

theorem expandKeeps_create (M n : Nat) (f : Int) (s0 s : AStarNodes)
    (h : ExpandKeeps M n f s0 s) (x y : Nat) (newf heuristic extraCost : Int)
    (hlo : f < newf) (hc : 0 ≤ extraCost) :
    ExpandKeeps M n f s0 (s.createOpenNode M n x y newf heuristic extraCost).2 := by
  unfold AStarNodes.createOpenNode
  by_cases hfull : s.curNode ≥ M
  · rw [if_pos hfull]
    exact h
  · rw [if_neg hfull]
    have hf0 : 0 ≤ f := by
      have := h.wf.f_nonneg n h.n_lt
      rw [h.f_eq] at this
      exact this
    have hncur : n ≠ s.curNode := Nat.ne_of_lt h.n_lt
    refine ⟨⟨?_, ?_, ?_⟩, Nat.lt_succ_of_lt h.n_lt, ?_, ?_, Nat.le_succ_of_le h.cur_le,
      h.closed, ?_, ?_⟩
    · intro i hi p hp
      simp only [] at hi hp ⊢
      by_cases hic : i = s.curNode
      · rw [if_pos hic] at hp
        simp only [Option.some.injEq] at hp
        subst hp
        refine ⟨Nat.lt_succ_of_lt h.n_lt, ?_⟩
        rw [if_neg hncur, if_pos hic, h.f_eq]
        exact hlo
      · rw [if_neg hic] at hp
        have hi1 : i < s.curNode := by omega
        obtain ⟨h1, h2⟩ := h.wf.parent_lt i hi1 p hp
        refine ⟨Nat.lt_succ_of_lt h1, ?_⟩
        rw [if_neg (Nat.ne_of_lt h1), if_neg hic]
        exact h2
    · intro i hi
      simp only [] at hi ⊢
      by_cases hic : i = s.curNode
      · rw [if_pos hic]
        simp only []
        omega
      · rw [if_neg hic]
        exact h.wf.f_nonneg i (by omega)
    · intro i hi
      simp only [] at hi ⊢
      by_cases hic : i = s.curNode
      · rw [if_pos hic]
        exact hc
      · rw [if_neg hic]
        exact h.wf.c_nonneg i (by omega)
    · simp only []
      rw [if_neg hncur]
      exact h.f_eq
    · simp only []
      rw [if_neg hncur]
      exact h.n_open
    · intro i hi
      simp only []
      have hi1 : i ≠ s.curNode := by
        have := h.cur_le
        omega
      rw [if_neg hi1]
      exact h.coords i hi
    · refine AStarNodes.progress_trans M h.progress (Or.inr (Or.inl ?_))
      simp only []
      omega

theorem expandNeighbors_keeps {T : Type} (env : PathEnv T) (hcost : PositiveCosts env)
    (fpp : FindPathParams) (v : PathVariant T) (n : Nat) (x y : Int) (z : Nat) (f sX sY : Int)
    (s0 : AStarNodes) (neighbors : List (Int × Int)) :
    ∀ s, ExpandKeeps env.MAX_NODES n f s0 s →
      ExpandKeeps env.MAX_NODES n f s0
        (expandNeighbors env fpp v n x y z f sX sY neighbors s).nodes := by
  induction neighbors with
  | nil => intro s h; exact h
  | cons neighbor rest ih =>
    intro s h
    simp only [expandNeighbors]
    split_ifs with h1 h2
    · exact ih s h
    · exact ih s h
    · cases hj : s.getNodeByPosition (toUInt16 (x + neighbor.1)) (toUInt16 (y + neighbor.2)) with
      | some j =>
        simp only []
        have hjlt := s.getNodeByPosition_lt _ _ j hj
        have hc := h.wf.c_nonneg j hjlt
        have hm := hcost.1 (s.nodes n)
          ⟨toUInt16 (x + neighbor.1), toUInt16 (y + neighbor.2), z⟩
        split_ifs with h3
        · exact ih s h
        · exact ih _ (expandKeeps_relink _ n f s0 s h j _ hjlt (by omega) (by omega))
      | none =>
        simp only []
        cases ht : v.tileFor ⟨toUInt16 (x + neighbor.1), toUInt16 (y + neighbor.2), z⟩ with
        | none => exact ih s h
        | some tile =>
          simp only []
          have hm := hcost.1 (s.nodes n)
            ⟨toUInt16 (x + neighbor.1), toUInt16 (y + neighbor.2), z⟩
          have htc := hcost.2 tile
          have hk := expandKeeps_create env.MAX_NODES n f s0 s h
            (toUInt16 (x + neighbor.1)) (toUInt16 (y + neighbor.2))
            (f + env.getMapWalkCost (s.nodes n)
              ⟨toUInt16 (x + neighbor.1), toUInt16 (y + neighbor.2), z⟩ +
              env.getTileWalkCost tile)
            ((|(v.targetPos.x : Int) - ((toUInt16 (x + neighbor.1) : Nat) : Int)| - sX) * 8 +
              (|(v.targetPos.y : Int) - ((toUInt16 (y + neighbor.2) : Nat) : Int)| - sY) * 8 +
              (max |(v.targetPos.x : Int) - ((toUInt16 (x + neighbor.1) : Nat) : Int)|
                |(v.targetPos.y : Int) - ((toUInt16 (y + neighbor.2) : Nat) : Int)|) * 8)
            (env.getTileWalkCost tile) (by omega) htc
          split_ifs with h4
          · exact ih _ hk
          · exact hk

/-! ### Pathfinder: the search loop -/

theorem expandNeighbors_closedNodes {T : Type} (env : PathEnv T)
    (fpp : FindPathParams) (v : PathVariant T) (n : Nat) (x y : Int) (z : Nat) (f sX sY : Int)
    (neighbors : List (Int × Int)) :
    ∀ s, (expandNeighbors env fpp v n x y z f sX sY neighbors s).nodes.closedNodes =
      s.closedNodes := by
  induction neighbors with
  | nil => intro s; rfl
  | cons neighbor rest ih =>
    intro s
    simp only [expandNeighbors]
    split_ifs with h1 h2
    · exact ih s
    · exact ih s
    · cases hj : s.getNodeByPosition (toUInt16 (x + neighbor.1)) (toUInt16 (y + neighbor.2)) with
      | some j =>
        simp only []
        split_ifs with h3
        · exact ih s
        · rw [ih]
          rfl
      | none =>
        simp only []
        cases ht : v.tileFor ⟨toUInt16 (x + neighbor.1), toUInt16 (y + neighbor.2), z⟩ with
        | none => exact ih s
        | some tile =>
          simp only []
          have hk : ∀ (f1 h1 c1 : Int),
              (s.createOpenNode env.MAX_NODES n (toUInt16 (x + neighbor.1))
                (toUInt16 (y + neighbor.2)) f1 h1 c1).2.closedNodes = s.closedNodes := by
            intro f1 h1 c1
            unfold AStarNodes.createOpenNode
            split_ifs <;> rfl
          split_ifs with h4
          · rw [ih, hk]
          · exact hk _ _ _

theorem afterGoal_nodes (s : SearchState) (n : Nat) (pos : Position) (r : Bool × Int) :
    (afterGoal s n pos r).nodes = s.nodes := by
  unfold afterGoal
  split_ifs <;> rfl

theorem afterGoal_found (s : SearchState) (n : Nat) (pos : Position) (r : Bool × Int) :
    (afterGoal s n pos r).found = if r.1 then some n else s.found := by
  unfold afterGoal
  split_ifs <;> rfl

theorem closeRound_next (s1 s2 : SearchState) (n : Nat) (e : Expand)
    (h : closeRound s1 n e = .next s2) :
    s2 = { s1 with nodes := e.nodes.closeNode n, cntDirs := s1.cntDirs + 1 } := by
  cases e with
  | done nodes =>
    simp only [closeRound, SearchStep.next.injEq] at h
    exact h.symm
  | poolFull nodes =>
    simp only [closeRound] at h
    split_ifs at h
    simp only [SearchStep.next.injEq] at h
    exact h.symm

theorem closeRound_not_leave (s1 s2 : SearchState) (n : Nat) (e : Expand) :
    closeRound s1 n e ≠ .leave s2 := by
  cases e with
  | done nodes => simp [closeRound]
  | poolFull nodes =>
    simp only [closeRound]
    split_ifs <;> simp

theorem closeRound_fail (s1 : SearchState) (n : Nat) (e : Expand)
    (h : closeRound s1 n e = .fail) : s1.found = none := by
  cases e with
  | done nodes => simp [closeRound] at h
  | poolFull nodes =>
    simp only [closeRound] at h
    split_ifs at h with h1
    simpa using h1

/-- The body of the search loop in a round with an empty open set. -/
theorem searchBody_none {T : Type} (env : PathEnv T) (fpp : FindPathParams)
    (v : PathVariant T) (z : Nat) (sX sY : Int) (s : SearchState)
    (hb : s.nodes.getBestNode = none) :
    searchBody env fpp v z sX sY s = if s.found.isSome then .leave s else .fail := by
  simp only [searchBody, hb]

/-- The body of the search loop in a round that takes node `n` from the open set. -/
theorem searchBody_some {T : Type} (env : PathEnv T) (fpp : FindPathParams)
    (v : PathVariant T) (z : Nat) (sX sY : Int) (s : SearchState) (n : Nat)
    (hb : s.nodes.getBestNode = some n) :
    searchBody env fpp v z sX sY s =
      if (env.pathCondition
            (v.startPos ⟨toUInt16 (s.nodes.nodes n).x, toUInt16 (s.nodes.nodes n).y, z⟩)
            ⟨toUInt16 (s.nodes.nodes n).x, toUInt16 (s.nodes.nodes n).y, z⟩ s.bestMatch).1 = true ∧
          (env.pathCondition
            (v.startPos ⟨toUInt16 (s.nodes.nodes n).x, toUInt16 (s.nodes.nodes n).y, z⟩)
            ⟨toUInt16 (s.nodes.nodes n).x, toUInt16 (s.nodes.nodes n).y, z⟩ s.bestMatch).2 = 0 then
        .leave (afterGoal s n ⟨toUInt16 (s.nodes.nodes n).x, toUInt16 (s.nodes.nodes n).y, z⟩
          (env.pathCondition
            (v.startPos ⟨toUInt16 (s.nodes.nodes n).x, toUInt16 (s.nodes.nodes n).y, z⟩)
            ⟨toUInt16 (s.nodes.nodes n).x, toUInt16 (s.nodes.nodes n).y, z⟩ s.bestMatch))
      else
        closeRound
          (afterGoal s n ⟨toUInt16 (s.nodes.nodes n).x, toUInt16 (s.nodes.nodes n).y, z⟩
            (env.pathCondition
              (v.startPos ⟨toUInt16 (s.nodes.nodes n).x, toUInt16 (s.nodes.nodes n).y, z⟩)
              ⟨toUInt16 (s.nodes.nodes n).x, toUInt16 (s.nodes.nodes n).y, z⟩ s.bestMatch)) n
          (expandNeighbors env fpp v n ((s.nodes.nodes n).x : Int) ((s.nodes.nodes n).y : Int) z
            (s.nodes.nodes n).f sX sY (roundNeighbors s.nodes n) s.nodes) := by
  simp only [searchBody, hb, afterGoal_nodes]

theorem searchBody_next_closed {T : Type} (env : PathEnv T) (fpp : FindPathParams)
    (v : PathVariant T) (z : Nat) (sX sY : Int) (s s1 : SearchState)
    (h : searchBody env fpp v z sX sY s = .next s1) :
    s1.nodes.closedNodes = s.nodes.closedNodes + 1 := by
  cases hb : s.nodes.getBestNode with
  | none =>
    rw [searchBody_none env fpp v z sX sY s hb] at h
    split_ifs at h
  | some n =>
    rw [searchBody_some env fpp v z sX sY s n hb] at h
    split_ifs at h
    rw [closeRound_next _ _ _ _ h]
    simp only [AStarNodes.closeNode]
    rw [expandNeighbors_closedNodes]

/-- What the body of the search loop does with `found`: it is set at the end of the
round exactly if it was set before or the goal predicate returned true in this round,
and `return false` is reached only with `found` null and a goal predicate that returned
false or was not called. -/
theorem searchBody_found {T : Type} (env : PathEnv T) (fpp : FindPathParams)
    (v : PathVariant T) (z : Nat) (sX sY : Int) (s : SearchState) :
    (searchBody env fpp v z sX sY s = .fail → s.found = none ∧ ¬ GoalAtBest env v z s) ∧
    (∀ s1, searchBody env fpp v z sX sY s = .leave s1 ∨
        searchBody env fpp v z sX sY s = .next s1 →
      (s1.found.isSome = true ↔ s.found.isSome = true ∨ GoalAtBest env v z s)) := by
  cases hb : s.nodes.getBestNode with
  | none =>
    have hg : ¬ GoalAtBest env v z s := by
      rintro ⟨n, hn, _⟩
      rw [hb] at hn
      cases hn
    rw [searchBody_none env fpp v z sX sY s hb]
    constructor
    · intro h
      split_ifs at h with h1
      exact ⟨by simpa using h1, hg⟩
    · intro s1 h
      split_ifs at h with h1
      · rcases h with h | h
        · cases h
          simp [h1]
        · cases h
      · rcases h with h | h <;> cases h
  | some n =>
    have hg : GoalAtBest env v z s ↔
        (env.pathCondition
          (v.startPos ⟨toUInt16 (s.nodes.nodes n).x, toUInt16 (s.nodes.nodes n).y, z⟩)
          ⟨toUInt16 (s.nodes.nodes n).x, toUInt16 (s.nodes.nodes n).y, z⟩ s.bestMatch).1 = true := by
      constructor
      · rintro ⟨m, hm, h⟩
        rw [hb] at hm
        cases hm
        exact h
      · intro h
        exact ⟨n, hb, h⟩
    rw [searchBody_some env fpp v z sX sY s n hb]
    constructor
    · intro h
      split_ifs at h with h1
      have := closeRound_fail _ _ _ h
      rw [afterGoal_found] at this
      split_ifs at this with h2
      exact ⟨this, by rw [hg]; exact h2⟩
    · intro s1 h
      split_ifs at h with h1
      · rcases h with h | h
        · cases h
          rw [afterGoal_found, hg]
          simp [h1.1]
        · cases h
      · rcases h with h | h
        · exact absurd h (closeRound_not_leave _ _ _ _)
        · rw [closeRound_next _ _ _ _ h, hg]
          simp only [afterGoal_found]
          split_ifs with h2
          · simp [h2]
          · simp [h2]

theorem round_prepend {T : Type} (env : PathEnv T) (fpp : FindPathParams)
    (v : PathVariant T) (z : Nat) (sX sY : Int) (s0 s s1 : SearchState)
    (h0 : NextRound env fpp v z sX sY s0 s) (h : Round env fpp v z sX sY s s1) :
    Round env fpp v z sX sY s0 s1 := by
  induction h with
  | first => exact Round.later s0 s Round.first h0
  | later a b _ hab ih => exact Round.later a b ih hab

theorem round_cases {T : Type} (env : PathEnv T) (fpp : FindPathParams)
    (v : PathVariant T) (z : Nat) (sX sY : Int) (s s1 : SearchState)
    (h : Round env fpp v z sX sY s s1) :
    s1 = s ∨ ∃ s2, NextRound env fpp v z sX sY s s2 ∧ Round env fpp v z sX sY s2 s1 := by
  induction h with
  | first => exact Or.inl rfl
  | later a b hsa hab ih =>
    rcases ih with ih | ⟨s2, h1, h2⟩
    · subst ih
      exact Or.inr ⟨b, hab, Round.first⟩
    · exact Or.inr ⟨s2, h1, Round.later a b h2 hab⟩

/-- The search loop and `found`: when the loop is left, `found` is set exactly if it was
set at the start or the goal predicate returned true in one of the rounds; `return false`
is reached only if neither is the case. -/
theorem searchLoop_found {T : Type} (env : PathEnv T) (fpp : FindPathParams)
    (v : PathVariant T) (z : Nat) (sX sY : Int) (fuel : Nat) :
    ∀ (s : SearchState) (res : Option SearchState),
      searchLoop env fpp v z sX sY fuel s = some res →
      (res = none → s.found = none ∧
        ¬ ∃ s1, Round env fpp v z sX sY s s1 ∧ GoalAtBest env v z s1) ∧
      (∀ s2, res = some s2 →
        (s2.found.isSome = true ↔
          s.found.isSome = true ∨
            ∃ s1, Round env fpp v z sX sY s s1 ∧ GoalAtBest env v z s1)) := by
  induction fuel with
  | zero => intro s res h; simp [searchLoop] at h
  | succ fuel ih =>
    intro s res h
    have hbody := searchBody_found env fpp v z sX sY s
    simp only [searchLoop] at h
    -- without a next round, the goal predicate is called in this round only
    have hlast : (∀ s1, ¬ NextRound env fpp v z sX sY s s1) →
        ((∃ s1, Round env fpp v z sX sY s s1 ∧ GoalAtBest env v z s1) ↔
          GoalAtBest env v z s) := by
      intro hno
      constructor
      · rintro ⟨s1, hr, hg⟩
        rcases round_cases env fpp v z sX sY s s1 hr with h1 | ⟨s2, h2, _⟩
        · subst h1; exact hg
        · exact absurd h2 (hno s2)
      · intro hg
        exact ⟨s, Round.first, hg⟩
    cases hsb : searchBody env fpp v z sX sY s with
    | fail =>
      rw [hsb] at h
      simp only [Option.some.injEq] at h
      subst h
      have hno : ∀ s1, ¬ NextRound env fpp v z sX sY s s1 := by
        intro s1 hn
        rw [hn.1] at hsb
        cases hsb
      obtain ⟨hf, hg⟩ := hbody.1 hsb
      refine ⟨fun _ => ⟨hf, ?_⟩, fun s2 h2 => by cases h2⟩
      rw [hlast hno]
      exact hg
    | leave s1 =>
      rw [hsb] at h
      simp only [Option.some.injEq] at h
      subst h
      have hno : ∀ s2, ¬ NextRound env fpp v z sX sY s s2 := by
        intro s2 hn
        rw [hn.1] at hsb
        cases hsb
      refine ⟨fun h2 => (by cases h2), fun s2 h2 => ?_⟩
      cases h2
      rw [hlast hno]
      exact hbody.2 s1 (Or.inl hsb)
    | next s1 =>
      rw [hsb] at h
      simp only [] at h
      have hb1 := hbody.2 s1 (Or.inr hsb)
      by_cases hcond : fpp.maxSearchDist ≠ 0 ∨ s1.nodes.getClosedNodes < 100
      · rw [if_pos hcond] at h
        have hnr : NextRound env fpp v z sX sY s s1 := ⟨hsb, hcond⟩
        have hsplit : (∃ s2, Round env fpp v z sX sY s s2 ∧ GoalAtBest env v z s2) ↔
            GoalAtBest env v z s ∨
              ∃ s2, Round env fpp v z sX sY s1 s2 ∧ GoalAtBest env v z s2 := by
          constructor
          · rintro ⟨s2, hr, hg⟩
            rcases round_cases env fpp v z sX sY s s2 hr with h1 | ⟨s3, h3, h4⟩
            · subst h1; exact Or.inl hg
            · have : s3 = s1 := by
                have := h3.1
                rw [hsb] at this
                cases this
                rfl
              subst this
              exact Or.inr ⟨s2, h4, hg⟩
          · rintro (hg | ⟨s2, hr, hg⟩)
            · exact ⟨s, Round.first, hg⟩
            · exact ⟨s2, round_prepend env fpp v z sX sY s s1 s2 hnr hr, hg⟩
        obtain ⟨ih1, ih2⟩ := ih s1 res h
        constructor
        · intro hres
          obtain ⟨hf1, hg1⟩ := ih1 hres
          have hnot : ¬ (s.found.isSome = true ∨ GoalAtBest env v z s) := by
            rw [← hb1, hf1]
            simp
          refine ⟨?_, ?_⟩
          · cases hfs : s.found with
            | none => rfl
            | some a => exact absurd (Or.inl (by simp [hfs])) hnot
          · rw [hsplit]
            rintro (hg | hg)
            · exact hnot (Or.inr hg)
            · exact hg1 hg
        · intro s2 hres
          have h5 := ih2 s2 hres
          constructor
          · intro h6
            rcases h5.1 h6 with h7 | h7
            · rcases hb1.1 h7 with h8 | h8
              · exact Or.inl h8
              · exact Or.inr (hsplit.2 (Or.inl h8))
            · exact Or.inr (hsplit.2 (Or.inr h7))
          · rintro (h6 | h6)
            · exact h5.2 (Or.inl (hb1.2 (Or.inl h6)))
            · rcases hsplit.1 h6 with h7 | h7
              · exact h5.2 (Or.inl (hb1.2 (Or.inr h7)))
              · exact h5.2 (Or.inr h7)
      · rw [if_neg hcond] at h
        simp only [Option.some.injEq] at h
        subst h
        have hno : ∀ s2, ¬ NextRound env fpp v z sX sY s s2 := by
          intro s2 hn
          have := hn.1
          rw [hsb] at this
          cases this
          exact hcond hn.2
        refine ⟨fun h2 => (by cases h2), fun s2 h2 => ?_⟩
        cases h2
        rw [hlast hno]
        exact hb1

/-- The value that `searchFrom` returns: true exactly if the goal predicate returned true
for a node taken from the open set in one of the rounds of the search. -/
theorem searchFrom_result {T : Type} (env : PathEnv T) (fpp : FindPathParams)
    (v : PathVariant T) (pos : Position) (startTile : T) (dirList : List Direction)
    (fuel : Nat) (r : Bool × List Direction)
    (h : searchFrom env fpp v pos startTile dirList fuel = some r) :
    (r.1 = true ↔ GoalMet env fpp v pos startTile) ∧ (r.1 = false → r.2 = dirList) := by
  unfold searchFrom at h
  simp only [] at h
  unfold GoalMet
  cases hl : searchLoop env fpp v pos.z |(v.targetPos.x : Int) - (pos.x : Int)|
      |(v.targetPos.y : Int) - (pos.y : Int)| fuel (SearchState.initial env pos startTile) with
  | none =>
    rw [hl] at h
    cases h
  | some res =>
    rw [hl] at h
    obtain ⟨h1, h2⟩ := searchLoop_found env fpp v pos.z _ _ fuel _ res hl
    cases res with
    | none =>
      simp only [Option.some.injEq] at h
      subst h
      refine ⟨?_, fun _ => rfl⟩
      simp only [Bool.false_eq_true, false_iff]
      exact (h1 rfl).2
    | some s =>
      simp only [] at h
      have h3 := h2 s rfl
      have hinit : (SearchState.initial env pos startTile).found.isSome = false := rfl
      rw [hinit] at h3
      simp only [Bool.false_eq_true, false_or] at h3
      cases hf : s.found with
      | none =>
        rw [hf] at h
        simp only [Option.some.injEq] at h
        subst h
        refine ⟨?_, fun _ => rfl⟩
        rw [← h3, hf]
        simp
      | some found =>
        rw [hf] at h
        simp only [] at h
        cases hrec : reconstructPath s.nodes fuel (s.nodes.nodes found).parent s.endPos.x
            s.endPos.y dirList with
        | none =>
          rw [hrec] at h
          cases h
        | some out =>
          rw [hrec] at h
          simp only [Option.some.injEq] at h
          subst h
          refine ⟨?_, fun hh => by cases hh⟩
          rw [← h3, hf]
          simp

theorem searchBody_leave_nodes {T : Type} (env : PathEnv T) (fpp : FindPathParams)
    (v : PathVariant T) (z : Nat) (sX sY : Int) (s s1 : SearchState)
    (h : searchBody env fpp v z sX sY s = .leave s1) :
    s1.nodes = s.nodes ∧
      (s1.found = s.found ∨ ∃ n, s.nodes.getBestNode = some n ∧ s1.found = some n) := by
  cases hb : s.nodes.getBestNode with
  | none =>
    rw [searchBody_none env fpp v z sX sY s hb] at h
    split_ifs at h
    cases h
    exact ⟨rfl, Or.inl rfl⟩
  | some n =>
    rw [searchBody_some env fpp v z sX sY s n hb] at h
    split_ifs at h with h1
    · cases h
      refine ⟨afterGoal_nodes _ _ _ _, Or.inr ⟨n, rfl, ?_⟩⟩
      rw [afterGoal_found, h1.1]
      rfl
    · exact absurd h (closeRound_not_leave _ _ _ _)

theorem searchLoop_mono {T : Type} (env : PathEnv T) (fpp : FindPathParams)
    (v : PathVariant T) (z : Nat) (sX sY : Int) (fuel : Nat) :
    ∀ (s : SearchState) (res : Option SearchState),
      searchLoop env fpp v z sX sY fuel s = some res →
      ∀ k, searchLoop env fpp v z sX sY (fuel + k) s = some res := by
  induction fuel with
  | zero => intro s res h; simp [searchLoop] at h
  | succ fuel ih =>
    intro s res h k
    have hk : fuel + 1 + k = (fuel + k) + 1 := by omega
    rw [hk]
    simp only [searchLoop] at h ⊢
    cases hsb : searchBody env fpp v z sX sY s with
    | fail => rw [hsb] at h; exact h
    | leave s1 => rw [hsb] at h; exact h
    | next s1 =>
      rw [hsb] at h
      simp only [] at h ⊢
      split_ifs at h ⊢ with hc
      · exact ih s1 res h k
      · exact h

/-- With `maxSearchDist` 0 the search loop runs out of rounds: from a state with fewer
than 100 closed nodes, fuel for the rounds that are left up to 100 is enough, and the
loop is left with at most 100 closed nodes. -/
theorem searchLoop_budget {T : Type} (env : PathEnv T) (fpp : FindPathParams)
    (v : PathVariant T) (z : Nat) (sX sY : Int) (h0 : fpp.maxSearchDist = 0) (fuel : Nat) :
    ∀ (s : SearchState), s.nodes.closedNodes < 100 → 100 ≤ s.nodes.closedNodes + fuel →
      ∃ res, searchLoop env fpp v z sX sY fuel s = some res ∧
        ∀ s1, res = some s1 → s1.nodes.closedNodes ≤ 100 := by
  induction fuel with
  | zero => intro s h1 h2; omega
  | succ fuel ih =>
    intro s h1 h2
    simp only [searchLoop]
    cases hsb : searchBody env fpp v z sX sY s with
    | fail => exact ⟨none, rfl, fun s1 h => by cases h⟩
    | leave s1 =>
      refine ⟨some s1, rfl, fun s2 h => ?_⟩
      cases h
      rw [(searchBody_leave_nodes env fpp v z sX sY s s1 hsb).1]
      omega
    | next s1 =>
      have hc := searchBody_next_closed env fpp v z sX sY s s1 hsb
      simp only []
      by_cases hcond : fpp.maxSearchDist ≠ 0 ∨ s1.nodes.getClosedNodes < 100
      · rw [if_pos hcond]
        have hlt : s1.nodes.closedNodes < 100 := by
          rcases hcond with h | h
          · exact absurd h0 h
          · simp only [AStarNodes.getClosedNodes] at h
            omega
        exact ih s1 hlt (by omega)
      · rw [if_neg hcond]
        refine ⟨some s1, rfl, fun s2 h => ?_⟩
        cases h
        omega

/-- C24: with `maxSearchDist` 0, the search loop of `getPathMatching` and
`getPathMatchingCond`, started on the pool with the start node, ends within 100 rounds for
every environment (map, costs, goal predicate): fuel for 100 rounds is enough, more fuel
gives the same result, each round closes one node, and the loop is left with at most
100 closed nodes. -/
theorem search_loop_budget {T : Type} (env : PathEnv T) (fpp : FindPathParams)
    (v : PathVariant T) (pos : Position) (startTile : T) (sX sY : Int)
    (h0 : fpp.maxSearchDist = 0) :
    ∃ res,
      searchLoop env fpp v pos.z sX sY 100 (SearchState.initial env pos startTile) = some res ∧
      (∀ fuel, 100 ≤ fuel →
        searchLoop env fpp v pos.z sX sY fuel (SearchState.initial env pos startTile)
          = some res) ∧
      (∀ s, res = some s → s.nodes.closedNodes ≤ 100) ∧
      (∀ s s1, searchBody env fpp v pos.z sX sY s = .next s1 →
        s1.nodes.closedNodes = s.nodes.closedNodes + 1) := by
  obtain ⟨res, h1, h2⟩ := searchLoop_budget env fpp v pos.z sX sY h0 100
    (SearchState.initial env pos startTile) (by simp [SearchState.initial, AStarNodes.new])
    (by omega)
  refine ⟨res, h1, ?_, h2, fun s s1 h => searchBody_next_closed env fpp v pos.z sX sY s s1 h⟩
  intro fuel hf
  have := searchLoop_mono env fpp v pos.z sX sY 100 _ res h1 (fuel - 100)
  rw [show 100 + (fuel - 100) = fuel by omega] at this
  exact this

theorem search_loop_budget_witness :
    ∃ res,
      searchLoop samplePathEnv ⟨0, false⟩ (pathVariant samplePathEnv none ⟨100, 100, 7⟩) 7 4 0
        100 (SearchState.initial samplePathEnv ⟨100, 100, 7⟩ ⟨100, 100, 7⟩) = some res ∧
      (∀ fuel, 100 ≤ fuel →
        searchLoop samplePathEnv ⟨0, false⟩ (pathVariant samplePathEnv none ⟨100, 100, 7⟩) 7
          4 0 fuel (SearchState.initial samplePathEnv ⟨100, 100, 7⟩ ⟨100, 100, 7⟩)
          = some res) ∧
      (∀ s, res = some s → s.nodes.closedNodes ≤ 100) ∧
      (∀ s s1, searchBody samplePathEnv ⟨0, false⟩
          (pathVariant samplePathEnv none ⟨100, 100, 7⟩) 7 4 0 s = .next s1 →
        s1.nodes.closedNodes = s.nodes.closedNodes + 1) :=
  search_loop_budget samplePathEnv ⟨0, false⟩ (pathVariant samplePathEnv none ⟨100, 100, 7⟩)
    ⟨100, 100, 7⟩ ⟨100, 100, 7⟩ 4 0 rfl

/-! ### Pathfinder: the search ends -/

theorem AStarNodes.openCount_closeNode (s : AStarNodes) (n : Nat) (hn : n < s.curNode)
    (ho : s.openNodes n = true) : (s.closeNode n).openCount < s.openCount := by
  unfold AStarNodes.openCount
  apply Finset.card_lt_card
  rw [Finset.ssubset_iff_of_subset]
  · refine ⟨n, ?_, ?_⟩
    · simp [Finset.mem_filter, hn, ho]
    · simp [Finset.mem_filter, AStarNodes.closeNode]
  · intro i hi
    simp only [Finset.mem_filter, Finset.mem_range, AStarNodes.closeNode] at hi ⊢
    refine ⟨hi.1, ?_⟩
    by_cases hin : i = n
    · subst hin; exact ho
    · have := hi.2
      rw [if_neg hin] at this
      exact this

theorem AStarNodes.wellFormed_closeNode (s : AStarNodes) (n : Nat) (h : s.WellFormed) :
    (s.closeNode n).WellFormed :=
  ⟨h.parent_lt, h.f_nonneg, h.c_nonneg⟩

/-- A round of the search loop that ends at the end of the body keeps the state well
formed and brings the search nearer to its end: it uses a slot of the pool, or lowers the
sum of the costs, or lowers the number of open nodes. -/
theorem searchBody_next_inv {T : Type} (env : PathEnv T) (hcost : PositiveCosts env)
    (fpp : FindPathParams) (v : PathVariant T) (z : Nat) (sX sY : Int) (s s1 : SearchState)
    (h : searchBody env fpp v z sX sY s = .next s1) (hinv : s.Inv) :
    s1.Inv ∧
      (env.MAX_NODES - s1.nodes.curNode < env.MAX_NODES - s.nodes.curNode ∨
        (env.MAX_NODES - s1.nodes.curNode = env.MAX_NODES - s.nodes.curNode ∧
          s1.nodes.sumF < s.nodes.sumF) ∨
        (env.MAX_NODES - s1.nodes.curNode = env.MAX_NODES - s.nodes.curNode ∧
          s1.nodes.sumF = s.nodes.sumF ∧ s1.nodes.openCount < s.nodes.openCount)) := by
  cases hb : s.nodes.getBestNode with
  | none =>
    rw [searchBody_none env fpp v z sX sY s hb] at h
    split_ifs at h
  | some n =>
    obtain ⟨hn, ho⟩ := s.nodes.getBestNode_spec n hb
    rw [searchBody_some env fpp v z sX sY s n hb] at h
    split_ifs at h with h1
    have hk := expandNeighbors_keeps env hcost fpp v n ((s.nodes.nodes n).x : Int)
      ((s.nodes.nodes n).y : Int) z (s.nodes.nodes n).f sX sY s.nodes
      (roundNeighbors s.nodes n) s.nodes (expandKeeps_refl _ n s.nodes hinv.1 hn ho)
    rw [closeRound_next _ _ _ _ h]
    generalize (expandNeighbors env fpp v n ((s.nodes.nodes n).x : Int)
      ((s.nodes.nodes n).y : Int) z (s.nodes.nodes n).f sX sY
      (roundNeighbors s.nodes n) s.nodes).nodes = nodes1 at hk
    refine ⟨⟨AStarNodes.wellFormed_closeNode _ n hk.wf, ?_⟩, ?_⟩
    · intro m hm
      simp only [afterGoal_found] at hm
      show m < nodes1.curNode
      split_ifs at hm with h2
      · cases hm
        exact hk.n_lt
      · exact lt_of_lt_of_le (hinv.2 m hm) hk.cur_le
    · have hclose := AStarNodes.openCount_closeNode nodes1 n hk.n_lt hk.n_open
      have hcur : (nodes1.closeNode n).curNode = nodes1.curNode := rfl
      have hsum : (nodes1.closeNode n).sumF = nodes1.sumF := rfl
      show env.MAX_NODES - (nodes1.closeNode n).curNode < env.MAX_NODES - s.nodes.curNode ∨
        (env.MAX_NODES - (nodes1.closeNode n).curNode = env.MAX_NODES - s.nodes.curNode ∧
          (nodes1.closeNode n).sumF < s.nodes.sumF) ∨
        (env.MAX_NODES - (nodes1.closeNode n).curNode = env.MAX_NODES - s.nodes.curNode ∧
          (nodes1.closeNode n).sumF = s.nodes.sumF ∧
          (nodes1.closeNode n).openCount < s.nodes.openCount)
      rw [hcur, hsum]
      rcases hk.progress with hp | hp | ⟨hp1, hp2⟩
      · subst hp
        exact Or.inr (Or.inr ⟨rfl, rfl, hclose⟩)
      · exact Or.inl hp
      · exact Or.inr (Or.inl ⟨by rw [hp1], hp2⟩)

theorem searchBody_leave_inv {T : Type} (env : PathEnv T)
    (fpp : FindPathParams) (v : PathVariant T) (z : Nat) (sX sY : Int) (s s1 : SearchState)
    (h : searchBody env fpp v z sX sY s = .leave s1) (hinv : s.Inv) : s1.Inv := by
  obtain ⟨h1, h2⟩ := searchBody_leave_nodes env fpp v z sX sY s s1 h
  refine ⟨by rw [h1]; exact hinv.1, ?_⟩
  intro m hm
  rw [h1]
  rcases h2 with h2 | ⟨n, hn, h2⟩
  · rw [h2] at hm
    exact hinv.2 m hm
  · rw [h2] at hm
    cases hm
    exact (s.nodes.getBestNode_spec _ hn).1

/-- With steps that cost more than nothing the search loop ends from every well-formed
state, and it leaves a well-formed state. -/
theorem searchLoop_ends {T : Type} (env : PathEnv T) (hcost : PositiveCosts env)
    (fpp : FindPathParams) (v : PathVariant T) (z : Nat) (sX sY : Int) :
    ∀ (a b c : Nat) (s : SearchState), s.Inv →
      env.MAX_NODES - s.nodes.curNode = a → s.nodes.sumF = b → s.nodes.openCount = c →
      ∃ fuel res, searchLoop env fpp v z sX sY fuel s = some res ∧
        ∀ s1, res = some s1 → s1.Inv := by
  intro a
  induction a using Nat.strong_induction_on with
  | _ a iha =>
    intro b
    induction b using Nat.strong_induction_on with
    | _ b ihb =>
      intro c
      induction c using Nat.strong_induction_on with
      | _ c ihc =>
        intro s hinv ha hb hc
        cases hsb : searchBody env fpp v z sX sY s with
        | fail =>
          refine ⟨1, none, ?_, fun s1 h => by cases h⟩
          simp only [searchLoop, hsb]
        | leave s1 =>
          refine ⟨1, some s1, ?_, fun s2 h => ?_⟩
          · simp only [searchLoop, hsb]
          · cases h
            exact searchBody_leave_inv env fpp v z sX sY s s1 hsb hinv
        | next s1 =>
          obtain ⟨hinv1, hdec⟩ := searchBody_next_inv env hcost fpp v z sX sY s s1 hsb hinv
          by_cases hcond : fpp.maxSearchDist ≠ 0 ∨ s1.nodes.getClosedNodes < 100
          · have hrec : ∃ fuel res, searchLoop env fpp v z sX sY fuel s1 = some res ∧
                ∀ s2, res = some s2 → s2.Inv := by
              rcases hdec with h1 | ⟨h1, h2⟩ | ⟨h1, h2, h3⟩
              · exact iha _ (by rw [← ha]; exact h1) _ _ s1 hinv1 rfl rfl rfl
              · exact ihb _ (by rw [← hb]; exact h2) _ s1 hinv1 (by rw [h1, ha]) rfl rfl
              · exact ihc _ (by rw [← hc]; exact h3) s1 hinv1 (by rw [h1, ha])
                  (by rw [h2, hb]) rfl
            obtain ⟨fuel, res, hl, hr⟩ := hrec
            refine ⟨fuel + 1, res, ?_, hr⟩
            simp only [searchLoop, hsb, if_pos hcond]
            exact hl
          · refine ⟨1, some s1, ?_, fun s2 h => ?_⟩
            · simp only [searchLoop, hsb, if_neg hcond]
            · cases h
              exact hinv1

theorem reconstructPath_null (nodes : AStarNodes) (fuel : Nat) (prevx prevy : Int)
    (dirList : List Direction) :
    reconstructPath nodes fuel none prevx prevy dirList = some dirList := by
  cases fuel <;> rfl

theorem reconstructPath_mono (nodes : AStarNodes) (fuel : Nat) :
    ∀ (found : Option Nat) (prevx prevy : Int) (dirList out : List Direction),
      reconstructPath nodes fuel found prevx prevy dirList = some out →
      ∀ k, reconstructPath nodes (fuel + k) found prevx prevy dirList = some out := by
  induction fuel with
  | zero =>
    intro found prevx prevy dirList out h k
    cases found with
    | none =>
      cases k <;> simpa [reconstructPath] using h
    | some i => simp [reconstructPath] at h
  | succ fuel ih =>
    intro found prevx prevy dirList out h k
    have hk : fuel + 1 + k = (fuel + k) + 1 := by omega
    rw [hk]
    cases found with
    | none => simpa [reconstructPath] using h
    | some i =>
      simp only [reconstructPath] at h ⊢
      exact ih _ _ _ _ _ h k

/-- The walk over the parent pointers ends in a well-formed pool: fuel above the cost `f`
of the node it starts from is enough. -/
theorem reconstructPath_ends (nodes : AStarNodes) (hwf : nodes.WellFormed) (fuel : Nat) :
    ∀ (i : Nat) (prevx prevy : Int) (dirList : List Direction),
      i < nodes.curNode → (nodes.nodes i).f.toNat < fuel →
      ∃ out, reconstructPath nodes fuel (some i) prevx prevy dirList = some out := by
  induction fuel with
  | zero => intro i _ _ _ _ h; omega
  | succ fuel ih =>
    intro i prevx prevy dirList hi hf
    simp only [reconstructPath]
    cases hp : (nodes.nodes i).parent with
    | none => exact ⟨_, reconstructPath_null _ _ _ _ _⟩
    | some p =>
      obtain ⟨h1, h2⟩ := hwf.parent_lt i hi p hp
      have h3 := hwf.f_nonneg p h1
      exact ih p _ _ _ h1 (by omega)

theorem searchState_initial_inv {T : Type} (env : PathEnv T) (hcost : PositiveCosts env)
    (pos : Position) (startTile : T) : (SearchState.initial env pos startTile).Inv := by
  refine ⟨⟨?_, ?_, ?_⟩, ?_⟩
  · intro i _ p hp
    simp [SearchState.initial, AStarNodes.new] at hp
  · intro i _
    simp [SearchState.initial, AStarNodes.new]
  · intro i _
    simp only [SearchState.initial, AStarNodes.new]
    exact hcost.2 startTile
  · intro n hn
    simp [SearchState.initial] at hn

/-- With steps that cost more than nothing `searchFrom` returns: some amount of fuel is
enough, and more fuel gives the same result. -/
theorem searchFrom_ends {T : Type} (env : PathEnv T) (hcost : PositiveCosts env)
    (fpp : FindPathParams) (v : PathVariant T) (pos : Position) (startTile : T)
    (dirList : List Direction) :
    ∃ fuel0 r, ∀ fuel, fuel0 ≤ fuel →
      searchFrom env fpp v pos startTile dirList fuel = some r := by
  obtain ⟨fuel1, res, hl, hr⟩ := searchLoop_ends env hcost fpp v pos.z
    |(v.targetPos.x : Int) - (pos.x : Int)| |(v.targetPos.y : Int) - (pos.y : Int)| _ _ _
    (SearchState.initial env pos startTile) (searchState_initial_inv env hcost pos startTile)
    rfl rfl rfl
  have hloop : ∀ fuel, fuel1 ≤ fuel →
      searchLoop env fpp v pos.z |(v.targetPos.x : Int) - (pos.x : Int)|
        |(v.targetPos.y : Int) - (pos.y : Int)| fuel (SearchState.initial env pos startTile)
        = some res := by
    intro fuel hf
    have := searchLoop_mono env fpp v pos.z _ _ fuel1 _ res hl (fuel - fuel1)
    rw [show fuel1 + (fuel - fuel1) = fuel by omega] at this
    exact this
  cases res with
  | none =>
    refine ⟨fuel1, (false, dirList), fun fuel hf => ?_⟩
    simp only [searchFrom, hloop fuel hf]
  | some s =>
    have hinv := hr s rfl
    cases hfd : s.found with
    | none =>
      refine ⟨fuel1, (false, dirList), fun fuel hf => ?_⟩
      simp only [searchFrom, hloop fuel hf, hfd]
    | some found =>
      have hfl := hinv.2 found hfd
      have hrec : ∃ fuel2 out, ∀ fuel, fuel2 ≤ fuel →
          reconstructPath s.nodes fuel (s.nodes.nodes found).parent s.endPos.x s.endPos.y
            dirList = some out := by
        cases hp : (s.nodes.nodes found).parent with
        | none =>
          exact ⟨0, dirList, fun fuel _ => reconstructPath_null _ _ _ _ _⟩
        | some p =>
          obtain ⟨h1, _⟩ := hinv.1.parent_lt found hfl p hp
          obtain ⟨out, ho⟩ := reconstructPath_ends s.nodes hinv.1
            ((s.nodes.nodes p).f.toNat + 1) p s.endPos.x s.endPos.y dirList h1 (by omega)
          refine ⟨(s.nodes.nodes p).f.toNat + 1, out, fun fuel hf => ?_⟩
          have := reconstructPath_mono s.nodes _ _ _ _ _ _ ho
            (fuel - ((s.nodes.nodes p).f.toNat + 1))
          rw [show (s.nodes.nodes p).f.toNat + 1 + (fuel - ((s.nodes.nodes p).f.toNat + 1))
            = fuel by omega] at this
          exact this
      obtain ⟨fuel2, out, ho⟩ := hrec
      refine ⟨max fuel1 fuel2, (true, out), fun fuel hf => ?_⟩
      simp only [searchFrom, hloop fuel (le_trans (le_max_left _ _) hf), hfd,
        ho fuel (le_trans (le_max_right _ _) hf)]

/-! ### Pathfinder: what the search keeps of the pool -/

theorem dirNeighbors_subset (d : Direction) :
    ∀ o, o ∈ dirNeighbors d.toNat → o ∈ allNeighbors := by
  cases d <;> decide

theorem roundNeighbors_subset (nodes : AStarNodes) (n : Nat) :
    ∀ o, o ∈ roundNeighbors nodes n → o ∈ allNeighbors := by
  unfold roundNeighbors
  cases (nodes.nodes n).parent with
  | none => intro o h; exact h
  | some p => exact dirNeighbors_subset _

/-- The loop over the neighbours of node `n` keeps the nodes of the pool where they are,
adds nodes only, and adds them at coordinates that the search can reach. -/
theorem expandNeighbors_frame {T : Type} (env : PathEnv T)
    (fpp : FindPathParams) (v : PathVariant T) (n : Nat) (x y : Nat) (z : Nat) (f sX sY : Int)
    (start : Nat × Nat) (neighbors : List (Int × Int))
    (hsub : ∀ o, o ∈ neighbors → o ∈ allNeighbors) :
    ∀ s, n < s.curNode → (s.nodes n).x = x → (s.nodes n).y = y →
      s.AllReachable v z start →
      s.curNode ≤ (expandNeighbors env fpp v n x y z f sX sY neighbors s).nodes.curNode ∧
      (∀ i, i < s.curNode →
        ((expandNeighbors env fpp v n x y z f sX sY neighbors s).nodes.nodes i).x = (s.nodes i).x ∧
        ((expandNeighbors env fpp v n x y z f sX sY neighbors s).nodes.nodes i).y
          = (s.nodes i).y) ∧
      (expandNeighbors env fpp v n x y z f sX sY neighbors s).nodes.AllReachable v z start := by
  induction neighbors with
  | nil => intro s _ _ _ hr; exact ⟨le_refl _, fun _ _ => ⟨rfl, rfl⟩, hr⟩
  | cons neighbor rest ih =>
    have hrest : ∀ o, o ∈ rest → o ∈ allNeighbors :=
      fun o ho => hsub o (List.mem_cons_of_mem _ ho)
    have hstep : ∀ (s s1 : AStarNodes), n < s.curNode → (s.nodes n).x = x → (s.nodes n).y = y →
        s.curNode ≤ s1.curNode →
        (∀ i, i < s.curNode → (s1.nodes i).x = (s.nodes i).x ∧ (s1.nodes i).y = (s.nodes i).y) →
        s1.AllReachable v z start →
        s.curNode ≤ (expandNeighbors env fpp v n x y z f sX sY rest s1).nodes.curNode ∧
        (∀ i, i < s.curNode →
          ((expandNeighbors env fpp v n x y z f sX sY rest s1).nodes.nodes i).x = (s.nodes i).x ∧
          ((expandNeighbors env fpp v n x y z f sX sY rest s1).nodes.nodes i).y
            = (s.nodes i).y) ∧
        (expandNeighbors env fpp v n x y z f sX sY rest s1).nodes.AllReachable v z start := by
      intro s s1 hn hx hy hle hco hr1
      obtain ⟨h1, h2, h3⟩ := ih hrest s1 (lt_of_lt_of_le hn hle)
        (by rw [(hco n hn).1, hx]) (by rw [(hco n hn).2, hy]) hr1
      refine ⟨le_trans hle h1, fun i hi => ?_, h3⟩
      obtain ⟨h4, h5⟩ := h2 i (lt_of_lt_of_le hi hle)
      exact ⟨by rw [h4, (hco i hi).1], by rw [h5, (hco i hi).2]⟩
    intro s hn hx hy hr
    simp only [expandNeighbors]
    split_ifs with h1 h2
    · exact ih hrest s hn hx hy hr
    · exact ih hrest s hn hx hy hr
    · cases hj : s.getNodeByPosition (toUInt16 ((x : Int) + neighbor.1))
          (toUInt16 ((y : Int) + neighbor.2)) with
      | some j =>
        simp only []
        split_ifs with h3
        · exact ih hrest s hn hx hy hr
        · refine hstep s _ hn hx hy (le_refl _) (fun i _ => ?_) (fun i hi => ?_)
          · simp only [AStarNodes.openNode, AStarNodes.relink]
            by_cases hij : i = j
            · subst hij; simp
            · simp [hij]
          · have := hr i hi
            simp only [AStarNodes.openNode, AStarNodes.relink]
            by_cases hij : i = j
            · subst hij; simpa using this
            · simpa [hij] using this
      | none =>
        simp only []
        cases ht : v.tileFor ⟨toUInt16 ((x : Int) + neighbor.1),
            toUInt16 ((y : Int) + neighbor.2), z⟩ with
        | none => exact ih hrest s hn hx hy hr
        | some tile =>
          simp only []
          have hnew : Reachable v z start
              (toUInt16 ((x : Int) + neighbor.1), toUInt16 ((y : Int) + neighbor.2)) := by
            have h0 := hr n hn
            rw [hx, hy] at h0
            exact Reachable.step (x, y) neighbor h0 (hsub neighbor (List.mem_cons_self _ _))
              (by simp [ht])
          have hk : ∀ (f1 g1 c1 : Int),
              s.curNode ≤ (s.createOpenNode env.MAX_NODES n (toUInt16 ((x : Int) + neighbor.1))
                (toUInt16 ((y : Int) + neighbor.2)) f1 g1 c1).2.curNode ∧
              (∀ i, i < s.curNode →
                ((s.createOpenNode env.MAX_NODES n (toUInt16 ((x : Int) + neighbor.1))
                  (toUInt16 ((y : Int) + neighbor.2)) f1 g1 c1).2.nodes i).x = (s.nodes i).x ∧
                ((s.createOpenNode env.MAX_NODES n (toUInt16 ((x : Int) + neighbor.1))
                  (toUInt16 ((y : Int) + neighbor.2)) f1 g1 c1).2.nodes i).y = (s.nodes i).y) ∧
              (s.createOpenNode env.MAX_NODES n (toUInt16 ((x : Int) + neighbor.1))
                (toUInt16 ((y : Int) + neighbor.2)) f1 g1 c1).2.AllReachable v z start := by
            intro f1 g1 c1
            unfold AStarNodes.createOpenNode
            split_ifs with hfull
            · exact ⟨le_refl _, fun _ _ => ⟨rfl, rfl⟩, hr⟩
            · refine ⟨Nat.le_succ _, fun i hi => ?_, fun i hi => ?_⟩
              · simp [Nat.ne_of_lt hi]
              · simp only [] at hi ⊢
                by_cases hic : i = s.curNode
                · simp only [hic, if_true]
                  exact hnew
                · simp only [hic, if_false]
                  exact hr i (by omega)
          split_ifs with h4
          · obtain ⟨k1, k2, k3⟩ := hk _ _ _
            exact hstep s _ hn hx hy k1 k2 k3
          · exact hk _ _ _

theorem afterGoal_endPos (s : SearchState) (n : Nat) (pos : Position) (r : Bool × Int) :
    (afterGoal s n pos r).endPos = if r.1 then pos else s.endPos := by
  unfold afterGoal
  split_ifs <;> rfl

/-- A round of the search loop keeps `found` a node of the pool at `endPos` and the
nodes of the pool at coordinates that can be reached. -/
theorem searchBody_frame {T : Type} (env : PathEnv T) (fpp : FindPathParams)
    (v : PathVariant T) (z : Nat) (sX sY : Int) (start : Nat × Nat) (s s1 : SearchState)
    (h : searchBody env fpp v z sX sY s = .next s1 ∨ searchBody env fpp v z sX sY s = .leave s1)
    (hf : s.FoundAtEnd) (hr : s.nodes.AllReachable v z start) :
    s1.FoundAtEnd ∧ s1.nodes.AllReachable v z start := by
  cases hb : s.nodes.getBestNode with
  | none =>
    rw [searchBody_none env fpp v z sX sY s hb] at h
    rcases h with h | h
    · split_ifs at h
    · split_ifs at h
      cases h
      exact ⟨hf, hr⟩
  | some n =>
    obtain ⟨hn, _⟩ := s.nodes.getBestNode_spec n hb
    rw [searchBody_some env fpp v z sX sY s n hb] at h
    have hgoal : ∀ (r : Bool × Int),
        (afterGoal s n ⟨toUInt16 (s.nodes.nodes n).x, toUInt16 (s.nodes.nodes n).y, z⟩
          r).FoundAtEnd := by
      intro r m hm
      rw [afterGoal_nodes, afterGoal_endPos]
      rw [afterGoal_found] at hm
      split_ifs at hm ⊢ with h2
      · cases hm
        exact ⟨hn, rfl, rfl⟩
      · exact hf m hm
    split_ifs at h with h1
    · rcases h with h | h
      · cases h
      · cases h
        exact ⟨hgoal _, by rw [afterGoal_nodes]; exact hr⟩
    · rcases h with h | h
      · rw [closeRound_next _ _ _ _ h]
        obtain ⟨k1, k2, k3⟩ := expandNeighbors_frame env fpp v n (s.nodes.nodes n).x
          (s.nodes.nodes n).y z (s.nodes.nodes n).f sX sY start (roundNeighbors s.nodes n)
          (roundNeighbors_subset s.nodes n) s.nodes hn rfl rfl hr
        generalize (expandNeighbors env fpp v n ((s.nodes.nodes n).x : Int)
          ((s.nodes.nodes n).y : Int) z (s.nodes.nodes n).f sX sY
          (roundNeighbors s.nodes n) s.nodes).nodes = nodes1 at k1 k2 k3
        refine ⟨?_, k3⟩
        intro m hm
        have h5 := hgoal _ m hm
        rw [afterGoal_nodes] at h5
        obtain ⟨h6, h7, h8⟩ := h5
        obtain ⟨h9, h10⟩ := k2 m h6
        refine ⟨lt_of_lt_of_le h6 k1, ?_, ?_⟩
        · show (afterGoal s n _ _).endPos.x = toUInt16 ((nodes1.nodes m).x : Int)
          rw [h9]
          exact h7
        · show (afterGoal s n _ _).endPos.y = toUInt16 ((nodes1.nodes m).y : Int)
          rw [h10]
          exact h8
      · exact absurd h (closeRound_not_leave _ _ _ _)

theorem searchLoop_frame {T : Type} (env : PathEnv T) (fpp : FindPathParams)
    (v : PathVariant T) (z : Nat) (sX sY : Int) (start : Nat × Nat) (fuel : Nat) :
    ∀ (s s1 : SearchState), searchLoop env fpp v z sX sY fuel s = some (some s1) →
      s.FoundAtEnd → s.nodes.AllReachable v z start →
      s1.FoundAtEnd ∧ s1.nodes.AllReachable v z start := by
  induction fuel with
  | zero => intro s s1 h; simp [searchLoop] at h
  | succ fuel ih =>
    intro s s1 h hf hr
    simp only [searchLoop] at h
    cases hsb : searchBody env fpp v z sX sY s with
    | fail => rw [hsb] at h; cases h
    | leave s2 =>
      rw [hsb] at h
      cases h
      exact searchBody_frame env fpp v z sX sY start s s1 (Or.inr hsb) hf hr
    | next s2 =>
      rw [hsb] at h
      simp only [] at h
      obtain ⟨h1, h2⟩ := searchBody_frame env fpp v z sX sY start s s2 (Or.inl hsb) hf hr
      split_ifs at h with hc
      · exact ih s2 s1 h h1 h2
      · cases h
        exact ⟨h1, h2⟩

theorem round_frame {T : Type} (env : PathEnv T) (fpp : FindPathParams)
    (v : PathVariant T) (z : Nat) (sX sY : Int) (start : Nat × Nat) (s s1 : SearchState)
    (h : Round env fpp v z sX sY s s1)
    (hf : s.FoundAtEnd) (hr : s.nodes.AllReachable v z start) :
    s1.FoundAtEnd ∧ s1.nodes.AllReachable v z start := by
  induction h with
  | first => exact ⟨hf, hr⟩
  | later a b _ hab ih =>
    exact searchBody_frame env fpp v z sX sY start a b (Or.inl hab.1) ih.1 ih.2

theorem searchState_initial_frame {T : Type} (env : PathEnv T) (v : PathVariant T)
    (pos : Position) (startTile : T) :
    (SearchState.initial env pos startTile).FoundAtEnd ∧
      (SearchState.initial env pos startTile).nodes.AllReachable v pos.z (pos.x, pos.y) := by
  constructor
  · intro n hn
    simp [SearchState.initial] at hn
  · intro i _
    exact Reachable.start

/-- A goal predicate that is false at every coordinate that can be reached from the
start is never true in a round of the search. -/
theorem goalMet_reachable {T : Type} (env : PathEnv T) (fpp : FindPathParams)
    (v : PathVariant T) (pos : Position) (startTile : T)
    (h : GoalMet env fpp v pos startTile) :
    ∃ p, Reachable v pos.z (pos.x, pos.y) p ∧ ∃ a m,
      (env.pathCondition a ⟨toUInt16 p.1, toUInt16 p.2, pos.z⟩ m).1 = true := by
  obtain ⟨s, hr, n, hn, hg⟩ := h
  obtain ⟨_, h2⟩ := round_frame env fpp v pos.z _ _ (pos.x, pos.y) _ s hr
    (searchState_initial_frame env v pos startTile).1
    (searchState_initial_frame env v pos startTile).2
  exact ⟨_, h2 n (s.nodes.getBestNode_spec n hn).1, _, _, hg⟩

/-! ### Pathfinder: the result -/

theorem parentChain_head (nodes : AStarNodes) (i : Nat) (rest : List Nat)
    (h : ParentChain nodes (i :: rest)) :
    (nodes.nodes i).x < 65536 ∧ (nodes.nodes i).y < 65536 := by
  cases rest with
  | nil => exact h.2
  | cons j rest => exact ⟨h.2.1.1, h.2.1.2.1⟩

theorem searchFrom_true {T : Type} (env : PathEnv T) (fpp : FindPathParams)
    (v : PathVariant T) (pos : Position) (startTile : T) (dirList : List Direction)
    (fuel : Nat) (out : List Direction)
    (h : searchFrom env fpp v pos startTile dirList fuel = some (true, out)) :
    ∃ s found,
      searchLoop env fpp v pos.z |(v.targetPos.x : Int) - (pos.x : Int)|
        |(v.targetPos.y : Int) - (pos.y : Int)| fuel (SearchState.initial env pos startTile)
        = some (some s) ∧
      s.found = some found ∧
      reconstructPath s.nodes fuel (s.nodes.nodes found).parent s.endPos.x s.endPos.y dirList
        = some out := by
  unfold searchFrom at h
  simp only [] at h
  cases hl : searchLoop env fpp v pos.z |(v.targetPos.x : Int) - (pos.x : Int)|
      |(v.targetPos.y : Int) - (pos.y : Int)| fuel (SearchState.initial env pos startTile) with
  | none => rw [hl] at h; cases h
  | some res =>
    rw [hl] at h
    cases res with
    | none => simp at h
    | some s =>
      simp only [] at h
      cases hf : s.found with
      | none => rw [hf] at h; simp at h
      | some found =>
        rw [hf] at h
        simp only [] at h
        cases hrec : reconstructPath s.nodes fuel (s.nodes.nodes found).parent s.endPos.x
            s.endPos.y dirList with
        | none => rw [hrec] at h; cases h
        | some out1 =>
          rw [hrec] at h
          simp only [Option.some.injEq, Prod.mk.injEq, true_and] at h
          subst h
          exact ⟨s, found, rfl, hf, hrec⟩

/-- The directions that `searchFrom` appends on success, for a parent chain of neighbours
from the node `found`. -/
theorem searchFrom_reconstruction {T : Type} (env : PathEnv T) (fpp : FindPathParams)
    (v : PathVariant T) (pos : Position) (startTile : T) (dirList : List Direction)
    (fuel : Nat) (out : List Direction)
    (h : searchFrom env fpp v pos startTile dirList fuel = some (true, out)) :
    ∃ s found,
      searchLoop env fpp v pos.z |(v.targetPos.x : Int) - (pos.x : Int)|
        |(v.targetPos.y : Int) - (pos.y : Int)| fuel (SearchState.initial env pos startTile)
        = some (some s) ∧
      s.found = some found ∧
      ∀ rest, ParentChain s.nodes (found :: rest) →
        ∃ dirs, out = dirList ++ dirs ∧ dirs.length = rest.length ∧
          ChainMoves s.nodes dirs (found :: rest) ∧
          walkDirections (s.nodes.coords ((found :: rest).getLast (by simp))) dirs.reverse =
            s.nodes.coords found := by
  obtain ⟨s, found, hl, hf, hrec⟩ := searchFrom_true env fpp v pos startTile dirList fuel out h
  refine ⟨s, found, hl, hf, fun rest hc => ?_⟩
  obtain ⟨hfe, _⟩ := searchLoop_frame env fpp v pos.z _ _ (pos.x, pos.y) fuel _ s hl
    (searchState_initial_frame env v pos startTile).1
    (searchState_initial_frame env v pos startTile).2
  obtain ⟨_, hx, hy⟩ := hfe found hf
  obtain ⟨bx, by1⟩ := parentChain_head s.nodes found rest hc
  rw [toUInt16_of_lt _ bx] at hx
  rw [toUInt16_of_lt _ by1] at hy
  obtain ⟨dirs, h1, h2, h3, h4⟩ := reconstructPath_chain s.nodes rest found
    (fuel + rest.length) dirList hc (by omega)
  have h5 := reconstructPath_mono s.nodes fuel _ _ _ _ _ hrec rest.length
  rw [hx, hy, h1] at h5
  simp only [Option.some.injEq] at h5
  exact ⟨dirs, h5.symm, h2, h3, h4⟩

/-- C23: when `getPathMatching` returns true, the loop has been left in a state `s` with
a matched node `found`, and for every parent chain of `s` from `found` in which each node
is a grid neighbour of its parent, `dirList` has become its old contents followed by one
direction per parent link; the directions are, from the matched node back to the start,
the compass directions of the moves from each parent to its child, so that the reversed
list walks from the coordinates of the last node of the chain, the start, to those of
`found`; for a chain of one node nothing is appended. -/
theorem path_reconstruction {T : Type} [DecidableEq T] (env : PathEnv T)
    (creature : Option (PathCreature T)) (targetPos : Position) (dirList : List Direction)
    (fpp : FindPathParams) (fuel : Nat) (out : List Direction)
    (h : getPathMatching env creature targetPos dirList fpp fuel = some (true, out)) :
    ∃ startTile s found,
      searchLoop env fpp (pathVariant env creature targetPos) (pathStart creature targetPos).z
        |((pathVariant env creature targetPos).targetPos.x : Int) -
          ((pathStart creature targetPos).x : Int)|
        |((pathVariant env creature targetPos).targetPos.y : Int) -
          ((pathStart creature targetPos).y : Int)| fuel
        (SearchState.initial env (pathStart creature targetPos) startTile) = some (some s) ∧
      s.found = some found ∧
      ∀ rest, ParentChain s.nodes (found :: rest) →
        ∃ dirs, out = dirList ++ dirs ∧ dirs.length = rest.length ∧
          ChainMoves s.nodes dirs (found :: rest) ∧
          walkDirections (s.nodes.coords ((found :: rest).getLast (by simp))) dirs.reverse =
            s.nodes.coords found := by
  unfold getPathMatching at h
  simp only [] at h
  cases ht : env.getTile (pathStart creature targetPos).x (pathStart creature targetPos).y
      (pathStart creature targetPos).z with
  | none =>
    rw [ht] at h
    simp at h
  | some startTile =>
    rw [ht] at h
    exact ⟨startTile, searchFrom_reconstruction env fpp _ _ startTile dirList fuel out h⟩

theorem path_reconstruction_witness :
    ∃ startTile s found,
      searchLoop samplePathEnv ⟨0, false⟩ (pathVariant samplePathEnv none ⟨103, 100, 7⟩)
        (pathStart (none : Option (PathCreature Position)) ⟨103, 100, 7⟩).z
        |((pathVariant samplePathEnv none ⟨103, 100, 7⟩).targetPos.x : Int) -
          ((pathStart (none : Option (PathCreature Position)) ⟨103, 100, 7⟩).x : Int)|
        |((pathVariant samplePathEnv none ⟨103, 100, 7⟩).targetPos.y : Int) -
          ((pathStart (none : Option (PathCreature Position)) ⟨103, 100, 7⟩).y : Int)| 10
        (SearchState.initial samplePathEnv
          (pathStart (none : Option (PathCreature Position)) ⟨103, 100, 7⟩) startTile)
        = some (some s) ∧
      s.found = some found ∧
      ∀ rest, ParentChain s.nodes (found :: rest) →
        ∃ dirs, [Direction.DIRECTION_EAST] = [] ++ dirs ∧ dirs.length = rest.length ∧
          ChainMoves s.nodes dirs (found :: rest) ∧
          walkDirections (s.nodes.coords ((found :: rest).getLast (by simp))) dirs.reverse =
            s.nodes.coords found :=
  path_reconstruction samplePathEnv none ⟨103, 100, 7⟩ [] ⟨0, false⟩ 10
    [Direction.DIRECTION_EAST] (by decide)

theorem getPathMatching_value {T : Type} [DecidableEq T] (env : PathEnv T)
    (creature : Option (PathCreature T)) (targetPos : Position) (dirList : List Direction)
    (fpp : FindPathParams) (fuel : Nat) (r : Bool × List Direction)
    (h : getPathMatching env creature targetPos dirList fpp fuel = some r) :
    (r.1 = true ↔
      ∃ startTile,
        env.getTile (pathStart creature targetPos).x (pathStart creature targetPos).y
          (pathStart creature targetPos).z = some startTile ∧
        GoalMet env fpp (pathVariant env creature targetPos) (pathStart creature targetPos)
          startTile) ∧
    (r.1 = false → r.2 = dirList) := by
  unfold getPathMatching at h
  simp only [] at h
  cases ht : env.getTile (pathStart creature targetPos).x (pathStart creature targetPos).y
      (pathStart creature targetPos).z with
  | none =>
    rw [ht] at h
    simp only [Option.some.injEq] at h
    subst h
    simp
  | some startTile =>
    rw [ht] at h
    obtain ⟨h1, h2⟩ := searchFrom_result env fpp _ _ startTile dirList fuel r h
    refine ⟨?_, h2⟩
    rw [h1]
    constructor
    · intro hg
      exact ⟨startTile, rfl, hg⟩
    · rintro ⟨t, ht1, hg⟩
      cases ht1
      exact hg

theorem getPathMatchingCond_value {T : Type} [DecidableEq T] (env : PathEnv T)
    (creature : Option (PathCreature T)) (targetPos : Position) (dirList : List Direction)
    (fpp : FindPathParams) (fuel : Nat) (r : Bool × List Direction)
    (h : getPathMatchingCond env creature targetPos dirList fpp fuel = some r) :
    (r.1 = true ↔
      ∃ c tile, creature = some c ∧ c.tile = some tile ∧
        GoalMet env fpp (pathVariantCond env creature c.position targetPos) c.position tile) ∧
    (r.1 = false → r.2 = dirList) := by
  unfold getPathMatchingCond at h
  cases creature with
  | none =>
    simp only [Option.some.injEq] at h
    subst h
    simp
  | some c =>
    simp only [] at h
    cases ht : c.tile with
    | none =>
      rw [ht] at h
      simp only [Option.some.injEq] at h
      subst h
      simp [ht]
    | some tile =>
      rw [ht] at h
      obtain ⟨h1, h2⟩ := searchFrom_result env fpp _ _ tile dirList fuel r h
      refine ⟨?_, h2⟩
      rw [h1]
      constructor
      · intro hg
        exact ⟨c, tile, rfl, ht, hg⟩
      · rintro ⟨c1, t, hc, ht1, hg⟩
        cases hc
        rw [ht] at ht1
        cases ht1
        exact hg

theorem getPathMatching_ends {T : Type} [DecidableEq T] (env : PathEnv T)
    (hcost : PositiveCosts env) (creature : Option (PathCreature T)) (targetPos : Position)
    (dirList : List Direction) (fpp : FindPathParams) :
    ∃ fuel0 r, ∀ fuel, fuel0 ≤ fuel →
      getPathMatching env creature targetPos dirList fpp fuel = some r := by
  unfold getPathMatching
  simp only []
  cases ht : env.getTile (pathStart creature targetPos).x (pathStart creature targetPos).y
      (pathStart creature targetPos).z with
  | none => exact ⟨0, (false, dirList), fun _ _ => rfl⟩
  | some startTile => exact searchFrom_ends env hcost fpp _ _ startTile dirList

theorem getPathMatchingCond_ends {T : Type} [DecidableEq T] (env : PathEnv T)
    (hcost : PositiveCosts env) (creature : Option (PathCreature T)) (targetPos : Position)
    (dirList : List Direction) (fpp : FindPathParams) :
    ∃ fuel0 r, ∀ fuel, fuel0 ≤ fuel →
      getPathMatchingCond env creature targetPos dirList fpp fuel = some r := by
  unfold getPathMatchingCond
  cases creature with
  | none => exact ⟨0, (false, dirList), fun _ _ => rfl⟩
  | some c =>
    simp only []
    cases ht : c.tile with
    | none => exact ⟨0, (false, dirList), fun _ _ => rfl⟩
    | some tile => exact searchFrom_ends env hcost fpp _ _ tile dirList

/-- C22: the value that `getPathMatching` and `getPathMatchingCond` return is true
exactly if there is a start tile and the goal predicate returned true for a node taken
from the open set in one of the rounds of the search, and false in every other case, in
which `dirList` is left as it was; in particular the value is false if the goal predicate
is false at every coordinate that can be reached from the start. With steps that cost
more than nothing both functions do return: enough fuel gives a result, and more fuel
gives the same one. -/
theorem getPathMatching_true_iff_goal_met {T : Type} [DecidableEq T] (env : PathEnv T)
    (creature : Option (PathCreature T)) (targetPos : Position)
    (dirList : List Direction) (fpp : FindPathParams) :
    (PositiveCosts env →
      (∃ fuel0 r, ∀ fuel, fuel0 ≤ fuel →
        getPathMatching env creature targetPos dirList fpp fuel = some r) ∧
      (∃ fuel0 r, ∀ fuel, fuel0 ≤ fuel →
        getPathMatchingCond env creature targetPos dirList fpp fuel = some r)) ∧
    (∀ fuel r, getPathMatching env creature targetPos dirList fpp fuel = some r →
      (r.1 = true ↔
        ∃ startTile,
          env.getTile (pathStart creature targetPos).x (pathStart creature targetPos).y
            (pathStart creature targetPos).z = some startTile ∧
          GoalMet env fpp (pathVariant env creature targetPos) (pathStart creature targetPos)
            startTile) ∧
      (r.1 = false → r.2 = dirList) ∧
      ((∀ p, Reachable (pathVariant env creature targetPos) (pathStart creature targetPos).z
          ((pathStart creature targetPos).x, (pathStart creature targetPos).y) p →
          ∀ a m, (env.pathCondition a
            ⟨toUInt16 p.1, toUInt16 p.2, (pathStart creature targetPos).z⟩ m).1 = false) →
        r.1 = false)) ∧
    (∀ fuel r, getPathMatchingCond env creature targetPos dirList fpp fuel = some r →
      (r.1 = true ↔
        ∃ c tile, creature = some c ∧ c.tile = some tile ∧
          GoalMet env fpp (pathVariantCond env creature c.position targetPos) c.position
            tile) ∧
      (r.1 = false → r.2 = dirList) ∧
      ((∀ c, creature = some c →
          ∀ p, Reachable (pathVariantCond env creature c.position targetPos) c.position.z
            (c.position.x, c.position.y) p →
          ∀ a m, (env.pathCondition a ⟨toUInt16 p.1, toUInt16 p.2, c.position.z⟩ m).1
            = false) →
        r.1 = false)) := by
  refine ⟨fun hcost => ⟨getPathMatching_ends env hcost creature targetPos dirList fpp,
    getPathMatchingCond_ends env hcost creature targetPos dirList fpp⟩, ?_, ?_⟩
  · intro fuel r h
    obtain ⟨h1, h2⟩ := getPathMatching_value env creature targetPos dirList fpp fuel r h
    refine ⟨h1, h2, fun hall => ?_⟩
    cases hr : r.1 with
    | false => rfl
    | true =>
      obtain ⟨startTile, _, hg⟩ := h1.1 hr
      obtain ⟨p, hp, a, m, hpm⟩ := goalMet_reachable env fpp _ _ startTile hg
      rw [hall p hp a m] at hpm
      cases hpm
  · intro fuel r h
    obtain ⟨h1, h2⟩ := getPathMatchingCond_value env creature targetPos dirList fpp fuel r h
    refine ⟨h1, h2, fun hall => ?_⟩
    cases hr : r.1 with
    | false => rfl
    | true =>
      obtain ⟨c, tile, hc, _, hg⟩ := h1.1 hr
      obtain ⟨p, hp, a, m, hpm⟩ := goalMet_reachable env fpp _ _ tile hg
      rw [hall c hc p hp a m] at hpm
      cases hpm

theorem samplePathEnv_positiveCosts : PositiveCosts samplePathEnv := by
  constructor
  · intro node pos
    simp only [samplePathEnv]
    split_ifs <;> decide
  · intro tile
    exact le_refl _

theorem getPathMatching_true_iff_goal_met_witness :
    ((∃ fuel0 r, ∀ fuel, fuel0 ≤ fuel →
        getPathMatching samplePathEnv none ⟨100, 100, 7⟩ [] ⟨0, false⟩ fuel = some r) ∧
      (∃ fuel0 r, ∀ fuel, fuel0 ≤ fuel →
        getPathMatchingCond samplePathEnv none ⟨100, 100, 7⟩ [] ⟨0, false⟩ fuel = some r)) ∧
    (((true, [Direction.DIRECTION_EAST]) : Bool × List Direction).1 = true ↔
      ∃ startTile,
        samplePathEnv.getTile
          (pathStart (none : Option (PathCreature Position)) ⟨103, 100, 7⟩).x
          (pathStart (none : Option (PathCreature Position)) ⟨103, 100, 7⟩).y
          (pathStart (none : Option (PathCreature Position)) ⟨103, 100, 7⟩).z
          = some startTile ∧
        GoalMet samplePathEnv ⟨0, false⟩ (pathVariant samplePathEnv none ⟨103, 100, 7⟩)
          (pathStart (none : Option (PathCreature Position)) ⟨103, 100, 7⟩) startTile) :=
  ⟨(getPathMatching_true_iff_goal_met samplePathEnv none ⟨100, 100, 7⟩ [] ⟨0, false⟩).1
      samplePathEnv_positiveCosts,
    ((getPathMatching_true_iff_goal_met samplePathEnv none ⟨103, 100, 7⟩ [] ⟨0, false⟩).2.1
      10 (true, [Direction.DIRECTION_EAST]) (by decide)).1⟩

/-! ### Order of positions -/

theorem nat_compare_cases (a b : Nat) :
    (compare a b = .lt ∧ a < b) ∨ (compare a b = .eq ∧ a = b) ∨ (compare a b = .gt ∧ b < a) := by
  rcases Nat.lt_trichotomy a b with h | h | h
  · exact Or.inl ⟨Nat.compare_eq_lt.2 h, h⟩
  · exact Or.inr (Or.inl ⟨Nat.compare_eq_eq.2 h, h⟩)
  · exact Or.inr (Or.inr ⟨Nat.compare_eq_gt.2 h, h⟩)

theorem Position.threeWay_lt (p q : Position) :
    p.threeWay q = .lt ↔ p.LexLess q := by
  unfold Position.threeWay Position.LexLess
  rcases nat_compare_cases p.z q.z with ⟨h1, h2⟩ | ⟨h1, h2⟩ | ⟨h1, h2⟩ <;>
    rcases nat_compare_cases p.y q.y with ⟨h3, h4⟩ | ⟨h3, h4⟩ | ⟨h3, h4⟩ <;>
    rcases nat_compare_cases p.x q.x with ⟨h5, h6⟩ | ⟨h5, h6⟩ | ⟨h5, h6⟩ <;>
    simp only [h1, h3, h5] <;>
    exact ⟨fun h => (by first | omega | cases h),
      fun h => (by first | rfl | trivial | (exfalso; omega))⟩

theorem Position.threeWay_eq (p q : Position) :
    p.threeWay q = .eq ↔ p = q := by
  unfold Position.threeWay
  constructor
  · intro h
    rcases nat_compare_cases p.z q.z with ⟨h1, h2⟩ | ⟨h1, h2⟩ | ⟨h1, h2⟩ <;>
      rcases nat_compare_cases p.y q.y with ⟨h3, h4⟩ | ⟨h3, h4⟩ | ⟨h3, h4⟩ <;>
      rcases nat_compare_cases p.x q.x with ⟨h5, h6⟩ | ⟨h5, h6⟩ | ⟨h5, h6⟩ <;>
      simp only [h1, h3, h5] at h <;>
      (cases p; cases q; simp_all)
  · intro h
    subst h
    simp [Nat.compare_eq_eq.2 rfl]

/-- C32: `operator<=>` of `Position` returns less exactly for the lexicographic order on
(z, y, x); this order is a strict total order (irreflexive, transitive, and any two
different positions are ordered one way), the comparison of swapped arguments is the
swapped result, and it returns equal exactly when `operator==` holds, which is when the
positions are the same. -/
theorem position_order_lexicographic (p q r : Position) :
    (p.threeWay q = .lt ↔ p.LexLess q) ∧
    (p.threeWay q = .gt ↔ q.LexLess p) ∧
    p.threeWay p ≠ .lt ∧
    (p.threeWay q = .lt → q.threeWay r = .lt → p.threeWay r = .lt) ∧
    (p ≠ q → p.threeWay q = .lt ∨ q.threeWay p = .lt) ∧
    (p.threeWay q = .eq ↔ p.equal q = true) ∧
    (p.equal q = true ↔ p = q) := by
  have heq : p.equal q = true ↔ p = q := by
    unfold Position.equal
    cases p; cases q
    simp [and_assoc]
  have hgt : p.threeWay q = .gt ↔ q.LexLess p := by
    rw [← Position.threeWay_lt]
    have h1 := Position.threeWay_lt p q
    have h2 := Position.threeWay_eq p q
    have h3 := Position.threeWay_lt q p
    have h4 := Position.threeWay_eq q p
    unfold Position.LexLess at h1 h3
    constructor
    · intro h
      rw [h3]
      have hne : p ≠ q := fun e => by rw [h2.2 e] at h; cases h
      have hnl : ¬ (p.z < q.z ∨ (p.z = q.z ∧ p.y < q.y) ∨ (p.z = q.z ∧ p.y = q.y ∧ p.x < q.x)) :=
        fun e => by rw [h1.2 e] at h; cases h
      have : ¬ (p.x = q.x ∧ p.y = q.y ∧ p.z = q.z) := by
        rintro ⟨a, b, c⟩
        apply hne
        cases p; cases q; simp_all
      omega
    · intro h
      have hl := h3.1 h
      cases hc : p.threeWay q with
      | gt => rfl
      | lt => have := h1.1 hc; omega
      | eq => have := h2.1 hc; subst this; omega
  refine ⟨Position.threeWay_lt p q, hgt, ?_, ?_, ?_, ?_, heq⟩
  · rw [Ne, Position.threeWay_lt]
    unfold Position.LexLess
    omega
  · rw [Position.threeWay_lt, Position.threeWay_lt, Position.threeWay_lt]
    unfold Position.LexLess
    omega
  · intro hne
    rw [Position.threeWay_lt, Position.threeWay_lt]
    unfold Position.LexLess
    have : ¬ (p.x = q.x ∧ p.y = q.y ∧ p.z = q.z) := by
      rintro ⟨a, b, c⟩
      apply hne
      cases p; cases q; simp_all
    omega
  · rw [Position.threeWay_eq, heq]

theorem position_order_lexicographic_witness :
    Position.threeWay ⟨5, 1, 7⟩ ⟨0, 2, 7⟩ = .lt ∧ Position.threeWay ⟨0, 2, 7⟩ ⟨9, 9, 8⟩ = .lt ∧
      Position.threeWay ⟨5, 1, 7⟩ ⟨9, 9, 8⟩ = .lt :=
  ⟨rfl, rfl, (position_order_lexicographic ⟨5, 1, 7⟩ ⟨0, 2, 7⟩ ⟨9, 9, 8⟩).2.2.2.1 rfl rfl⟩

/-! ### Neighbour tables of the pathfinder -/

/-- C33: a node without parent expands the table `allNeighbors`, which holds the eight
unit offsets, each once. For a node whose parent lies at one of the eight unit offsets
`p` (parent minus node), the table row chosen holds five different unit offsets: an offset
is in the row exactly if it is not `p` and not next to `p` on the ring of neighbours; so
`p` itself is not in the row and the opposite offset is. -/
theorem direction_biased_table (nodes : AStarNodes) (n : Nat) :
    ((nodes.nodes n).parent = none → roundNeighbors nodes n = allNeighbors) ∧
    (allNeighbors.Nodup ∧ ∀ o, o ∈ allNeighbors ↔ o ∈ unitOffsets) ∧
    (∀ parent, (nodes.nodes n).parent = some parent →
      ∀ p, p ∈ unitOffsets →
        p = (((nodes.nodes parent).x : Int) - ((nodes.nodes n).x : Int),
          ((nodes.nodes parent).y : Int) - ((nodes.nodes n).y : Int)) →
        (roundNeighbors nodes n).length = 5 ∧ (roundNeighbors nodes n).Nodup ∧
        (∀ o, o ∈ roundNeighbors nodes n → o ∈ unitOffsets) ∧
        (∀ o, o ∈ unitOffsets →
          (o ∈ roundNeighbors nodes n ↔ o ≠ p ∧ ringAdjacent o p = false)) ∧
        p ∉ roundNeighbors nodes n ∧ (-p.1, -p.2) ∈ roundNeighbors nodes n) := by
  have htable : ∀ p, p ∈ unitOffsets →
      (dirNeighbors (dirIndex p.1 p.2).toNat).length = 5 ∧
      (dirNeighbors (dirIndex p.1 p.2).toNat).Nodup ∧
      (∀ o, o ∈ dirNeighbors (dirIndex p.1 p.2).toNat → o ∈ unitOffsets) ∧
      (∀ o, o ∈ unitOffsets →
        (o ∈ dirNeighbors (dirIndex p.1 p.2).toNat ↔ o ≠ p ∧ ringAdjacent o p = false)) ∧
      p ∉ dirNeighbors (dirIndex p.1 p.2).toNat ∧
      (-p.1, -p.2) ∈ dirNeighbors (dirIndex p.1 p.2).toNat := by
    decide
  refine ⟨?_, ⟨by decide, ?_⟩, ?_⟩
  · intro h
    simp only [roundNeighbors, h]
  · intro o
    constructor
    · intro h
      have : ∀ a, a ∈ allNeighbors → a ∈ unitOffsets := by decide
      exact this o h
    · intro h
      have : ∀ a, a ∈ unitOffsets → a ∈ allNeighbors := by decide
      exact this o h
  · intro parent hp p hmem hpe
    have h := htable p hmem
    have hr : roundNeighbors nodes n = dirNeighbors (dirIndex p.1 p.2).toNat := by
      simp only [roundNeighbors, hp, hpe]
    rw [hr]
    exact h

theorem direction_biased_table_witness :
    (roundNeighbors (AStarNodes.new 100 100 0) 0 = allNeighbors) ∧
    ((roundNeighbors
        ((AStarNodes.new 100 100 0).createOpenNode 512 0 101 100 10 0 0).2 1).length = 5 ∧
      ((-1 : Int), (0 : Int)) ∉ roundNeighbors
        ((AStarNodes.new 100 100 0).createOpenNode 512 0 101 100 10 0 0).2 1 ∧
      (-(-1 : Int), -(0 : Int)) ∈ roundNeighbors
        ((AStarNodes.new 100 100 0).createOpenNode 512 0 101 100 10 0 0).2 1) :=
  ⟨(direction_biased_table (AStarNodes.new 100 100 0) 0).1 rfl,
    ((direction_biased_table
        ((AStarNodes.new 100 100 0).createOpenNode 512 0 101 100 10 0 0).2 1).2.2 0 rfl
        (-1, 0) (by decide) (by decide)).1,
    ((direction_biased_table
        ((AStarNodes.new 100 100 0).createOpenNode 512 0 101 100 10 0 0).2 1).2.2 0 rfl
        (-1, 0) (by decide) (by decide)).2.2.2.2.1,
    ((direction_biased_table
        ((AStarNodes.new 100 100 0).createOpenNode 512 0 101 100 10 0 0).2 1).2.2 0 rfl
        (-1, 0) (by decide) (by decide)).2.2.2.2.2⟩

/-! ### The two entry points of the pathfinder -/

/-- C37, the code at the failing input: for a creature at (102, 102, 7) that stands on the
map tile of its position, the target (104, 100, 7), a goal predicate that holds at
(104, 100) only and `maxSearchDist` 1, `getPathMatching` returns true and appends four
directions, while `getPathMatchingCond` returns false and appends nothing: in
`getPathMatching` the distance test against `maxSearchDist` compares `pos` with itself. -/
theorem entry_points_disagree :
    getPathMatching samplePathEnv (some ⟨⟨102, 102, 7⟩, some ⟨102, 102, 7⟩, false⟩)
      ⟨104, 100, 7⟩ [] ⟨1, false⟩ 60 =
      some (true, [.DIRECTION_NORTH, .DIRECTION_EAST, .DIRECTION_NORTH, .DIRECTION_EAST]) ∧
    getPathMatchingCond samplePathEnv (some ⟨⟨102, 102, 7⟩, some ⟨102, 102, 7⟩, false⟩)
      ⟨104, 100, 7⟩ [] ⟨1, false⟩ 60 = some (false, []) ∧
    samplePathEnv.getTile 102 102 7 = some ⟨102, 102, 7⟩ := by
  refine ⟨?_, ?_, ?_⟩ <;> decide

/-! ### `insertAll` -/

theorem uniqueCreatures_spec (rest : List Creature) :
    ∀ seen : List Creature, (seen.map Creature.id).Nodup →
      ((uniqueCreatures seen rest).map Creature.id).Nodup ∧
      ∀ i, i ∈ (uniqueCreatures seen rest).map Creature.id ↔
        i ∈ seen.map Creature.id ∨ i ∈ rest.map Creature.id := by
  induction rest with
  | nil =>
    intro seen hs
    simp only [uniqueCreatures, List.map_reverse, List.nodup_reverse, List.mem_reverse,
      List.map_nil, List.not_mem_nil, or_false]
    exact ⟨hs, fun _ => trivial⟩
  | cons c rest ih =>
    intro seen hs
    simp only [uniqueCreatures]
    by_cases hc : seen.any (fun d => d.id == c.id) = true
    · rw [if_pos hc]
      obtain ⟨h1, h2⟩ := ih seen hs
      refine ⟨h1, fun i => ?_⟩
      rw [h2]
      have hmem : c.id ∈ seen.map Creature.id := by
        simp only [List.any_eq_true, beq_iff_eq] at hc
        obtain ⟨d, hd, hdc⟩ := hc
        exact List.mem_map.2 ⟨d, hd, hdc⟩
      simp only [List.map_cons, List.mem_cons]
      constructor
      · rintro (h | h)
        · exact Or.inl h
        · exact Or.inr (Or.inr h)
      · rintro (h | h | h)
        · exact Or.inl h
        · subst h; exact Or.inl hmem
        · exact Or.inr h
    · rw [if_neg hc]
      have hnot : c.id ∉ seen.map Creature.id := by
        intro hmem
        apply hc
        obtain ⟨d, hd, hdc⟩ := List.mem_map.1 hmem
        simp only [List.any_eq_true, beq_iff_eq]
        exact ⟨d, hd, hdc⟩
      obtain ⟨h1, h2⟩ := ih (c :: seen) (by
        simp only [List.map_cons, List.nodup_cons]
        exact ⟨hnot, hs⟩)
      refine ⟨h1, fun i => ?_⟩
      rw [h2]
      simp only [List.map_cons, List.mem_cons]
      tauto

theorem uniqueAdjacent_spec (l : List Creature) :
    (∀ i, i ∈ (uniqueAdjacent l).map Creature.id ↔ i ∈ l.map Creature.id) ∧
    (∀ c, c ∈ uniqueAdjacent l → c ∈ l) ∧
    (l.Pairwise (fun a b => a.id ≤ b.id) →
      (uniqueAdjacent l).Pairwise (fun a b => a.id < b.id)) := by
  induction l with
  | nil => simp [uniqueAdjacent]
  | cons c rest ih =>
    obtain ⟨ih1, ih2, ih3⟩ := ih
    simp only [uniqueAdjacent]
    cases hu : uniqueAdjacent rest with
    | nil =>
      rw [hu] at ih1 ih2 ih3
      refine ⟨fun i => ?_, fun d hd => ?_, fun _ => ?_⟩
      · have := ih1 i
        simp only [List.map_nil, List.not_mem_nil, false_iff] at this
        simp only [List.map_cons, List.map_nil, List.mem_cons, List.not_mem_nil, or_false]
        constructor
        · intro h; exact Or.inl h
        · rintro (h | h)
          · exact h
          · exact absurd h this
      · simp only [List.mem_singleton] at hd
        subst hd
        exact List.mem_cons_self _ _
      · exact List.pairwise_singleton _ _
    | cons d rest1 =>
      rw [hu] at ih1 ih2 ih3
      simp only []
      by_cases hcd : c.id = d.id
      · rw [if_pos hcd]
        refine ⟨fun i => ?_, fun e he => ?_, fun hp => ?_⟩
        · have := ih1 i
          simp only [List.map_cons, List.mem_cons] at this ⊢
          rw [← this]
          constructor
          · rintro (h | h)
            · exact Or.inl h
            · exact Or.inr (Or.inr h)
          · rintro (h | h | h)
            · exact Or.inl h
            · exact Or.inl (by rw [h, hcd])
            · exact Or.inr h
        · rcases List.mem_cons.1 he with h | h
          · subst h; exact List.mem_cons_self _ _
          · exact List.mem_cons_of_mem _ (ih2 e (List.mem_cons_of_mem _ h))
        · have hp1 := ih3 (List.Pairwise.of_cons hp)
          rw [List.pairwise_cons] at hp1 ⊢
          refine ⟨fun e he => ?_, hp1.2⟩
          rw [hcd]
          exact hp1.1 e he
      · rw [if_neg hcd]
        refine ⟨fun i => ?_, fun e he => ?_, fun hp => ?_⟩
        · have := ih1 i
          simp only [List.map_cons, List.mem_cons] at this ⊢
          rw [← this]
        · rcases List.mem_cons.1 he with h | h
          · subst h; exact List.mem_cons_self _ _
          · exact List.mem_cons_of_mem _ (ih2 e h)
        · have hp1 := ih3 (List.Pairwise.of_cons hp)
          have hc := (List.pairwise_cons.1 hp).1
          rw [List.pairwise_cons]
          refine ⟨fun e he => ?_, hp1⟩
          have hd : c.id < d.id :=
            lt_of_le_of_ne (hc d (ih2 d (List.mem_cons_self _ _))) hcd
          rcases List.mem_cons.1 he with h | h
          · subst h; exact hd
          · exact lt_trans hd ((List.pairwise_cons.1 hp1).1 e h)

/-- C39: after `insertAll` the identities held are those held before together with those
of the incoming list; when both lists are non-empty the result holds no identity twice;
this is so in the branch for more than 100 elements (first occurrences kept) and in the
branch with `sort` and `unique`, which hold the same identities for the same input. -/
theorem insertAll_is_union (creatures list : List Creature) :
    (∀ i, i ∈ (insertAll creatures list).map Creature.id ↔
      i ∈ creatures.map Creature.id ∨ i ∈ list.map Creature.id) ∧
    (creatures ≠ [] → list ≠ [] → ((insertAll creatures list).map Creature.id).Nodup) ∧
    (∀ i, i ∈ (uniqueCreatures [] (creatures ++ list)).map Creature.id ↔
      i ∈ (uniqueAdjacent ((creatures ++ list).insertionSort
        (fun a b => a.id ≤ b.id))).map Creature.id) := by
  haveI : IsTotal Creature (fun a b => a.id ≤ b.id) := ⟨fun a b => Nat.le_total _ _⟩
  haveI : IsTrans Creature (fun a b => a.id ≤ b.id) := ⟨fun _ _ _ h1 h2 => Nat.le_trans h1 h2⟩
  have hlarge := uniqueCreatures_spec (creatures ++ list) [] (by simp)
  have hsmall := uniqueAdjacent_spec ((creatures ++ list).insertionSort
    (fun a b => a.id ≤ b.id))
  have hperm : ∀ i, i ∈ ((creatures ++ list).insertionSort
      (fun a b => a.id ≤ b.id)).map Creature.id ↔
      i ∈ creatures.map Creature.id ∨ i ∈ list.map Creature.id := by
    intro i
    rw [((List.perm_insertionSort (fun a b : Creature => a.id ≤ b.id)
      (creatures ++ list)).map Creature.id).mem_iff]
    simp only [List.map_append, List.mem_append]
  have hsorted := List.sorted_insertionSort (fun a b : Creature => a.id ≤ b.id)
    (creatures ++ list)
  have hunion_large : ∀ i, i ∈ (uniqueCreatures [] (creatures ++ list)).map Creature.id ↔
      i ∈ creatures.map Creature.id ∨ i ∈ list.map Creature.id := by
    intro i
    rw [hlarge.2]
    simp only [List.map_nil, List.not_mem_nil, false_or, List.map_append, List.mem_append]
  have hunion_small : ∀ i, i ∈ (uniqueAdjacent ((creatures ++ list).insertionSort
      (fun a b => a.id ≤ b.id))).map Creature.id ↔
      i ∈ creatures.map Creature.id ∨ i ∈ list.map Creature.id := by
    intro i
    rw [hsmall.1, hperm]
  refine ⟨?_, ?_, fun i => by rw [hunion_large, hunion_small]⟩
  · intro i
    unfold insertAll
    by_cases hl : list.isEmpty = true
    · rw [if_pos hl]
      have : list = [] := List.isEmpty_iff.1 hl
      subst this
      simp
    · rw [if_neg hl]
      by_cases hc : creatures.isEmpty = true
      · rw [if_pos hc]
        have : creatures = [] := List.isEmpty_iff.1 hc
        subst this
        simp
      · rw [if_neg hc]
        simp only []
        split_ifs
        · exact hunion_large i
        · exact hunion_small i
  · intro hc hl
    unfold insertAll
    rw [if_neg (by simpa [List.isEmpty_iff] using hl),
      if_neg (by simpa [List.isEmpty_iff] using hc)]
    simp only []
    split_ifs
    · exact hlarge.1
    · have := hsmall.2.2 hsorted
      rw [List.Nodup, List.pairwise_map]
      exact this.imp (fun h => Nat.ne_of_lt h)

theorem insertAll_is_union_witness :
    ((insertAll [⟨2, ⟨101, 100, 7⟩, false, true, false⟩, ⟨1, ⟨105, 100, 7⟩, false, true, false⟩]
      [⟨1, ⟨105, 100, 7⟩, false, true, false⟩]).map Creature.id).Nodup :=
  (insertAll_is_union
    [⟨2, ⟨101, 100, 7⟩, false, true, false⟩, ⟨1, ⟨105, 100, 7⟩, false, true, false⟩]
    [⟨1, ⟨105, 100, 7⟩, false, true, false⟩]).2.1 (by simp) (by simp)

/-! ### Property streams -/

theorem toLittleEndian_length (size : Nat) : ∀ v, (toLittleEndian size v).length = size := by
  induction size with
  | zero => intro v; rfl
  | succ n ih => intro v; simp [toLittleEndian, ih]

theorem fromLittleEndian_toLittleEndian (size : Nat) :
    ∀ v, v < 256 ^ size → FileStream.fromLittleEndian (toLittleEndian size v) = v := by
  induction size with
  | zero =>
    intro v hv
    simp only [pow_zero, Nat.lt_one_iff] at hv
    subst hv
    rfl
  | succ n ih =>
    intro v hv
    simp only [toLittleEndian, FileStream.fromLittleEndian]
    rw [ih (v / 256) (by
      rw [Nat.div_lt_iff_lt_mul (by decide)]
      rw [pow_succ] at hv
      exact hv)]
    omega

theorem PropStream.read_at (s : PropStream) (size v : Nat) (rest : List Nat)
    (hstop : s.stop = s.data.length) (hdata : s.data.drop s.p = toLittleEndian size v ++ rest)
    (hv : v < 256 ^ size) :
    s.read size = (some v, { s with p := s.p + size }) ∧
      s.data.drop (s.p + size) = rest := by
  have hlen : s.data.length - s.p = size + rest.length := by
    have := congrArg List.length hdata
    simpa [toLittleEndian_length] using this
  have htake : (s.data.drop s.p).take size = toLittleEndian size v := by
    rw [hdata, List.take_left' (toLittleEndian_length size v)]
  have hdrop : s.data.drop (s.p + size) = rest := by
    rw [← List.drop_drop, hdata, List.drop_left' (toLittleEndian_length size v)]
  refine ⟨?_, hdrop⟩
  unfold PropStream.read PropStream.size
  rw [if_neg (by omega), htake, fromLittleEndian_toLittleEndian size v hv]

theorem PropStream.readString_at (s : PropStream) (str rest : List Nat)
    (hstop : s.stop = s.data.length) (hlen : str.length ≤ 65535)
    (hdata : s.data.drop s.p = toLittleEndian 2 str.length ++ (str ++ rest)) :
    s.readString = (some str, { s with p := s.p + 2 + str.length }) ∧
      s.data.drop (s.p + 2 + str.length) = rest := by
  obtain ⟨h1, h2⟩ := s.read_at 2 str.length (str ++ rest) hstop hdata (by
    have : (256 : Nat) ^ 2 = 65536 := by norm_num
    omega)
  have hl : s.data.length - (s.p + 2) = str.length + rest.length := by
    have := congrArg List.length h2
    simpa using this
  have hdrop : s.data.drop (s.p + 2 + str.length) = rest := by
    rw [← List.drop_drop, h2, List.drop_left]
  refine ⟨?_, hdrop⟩
  unfold PropStream.readString
  rw [h1]
  simp only [PropStream.size]
  rw [if_neg (by omega)]
  by_cases h0 : str.length > 0
  · rw [if_pos h0, h2, List.take_left]
  · rw [if_neg h0]
    have : str = [] := List.length_eq_zero.1 (by omega)
    subst this
    rfl

theorem readItems_writeItems (items : List PropItem) :
    ∀ (wbuf rest : List Nat), (∀ item ∈ items, item.Fits) →
      ∃ enc, (writeItems items ⟨wbuf⟩).buffer = wbuf ++ enc ∧
        ∀ s : PropStream, s.stop = s.data.length → s.data.drop s.p = enc ++ rest →
          readItems items s = (some (items.map PropItem.readBack),
            { s with p := s.p + enc.length }) := by
  induction items with
  | nil =>
    intro wbuf rest _
    exact ⟨[], by simp [writeItems], fun s _ _ => by simp [readItems]⟩
  | cons item items ih =>
    intro wbuf rest hfit
    have hfit1 : ∀ i ∈ items, i.Fits := fun i hi => hfit i (List.mem_cons_of_mem _ hi)
    cases item with
    | value size v =>
      obtain ⟨enc, henc, hread⟩ := ih (wbuf ++ toLittleEndian size v) rest hfit1
      refine ⟨toLittleEndian size v ++ enc, ?_, ?_⟩
      · simp only [writeItems, PropWriteStream.write]
        rw [henc, List.append_assoc]
      · intro s hstop hdata
        rw [List.append_assoc] at hdata
        obtain ⟨h1, h2⟩ := s.read_at size v (enc ++ rest) hstop hdata
          (hfit _ (List.mem_cons_self _ _))
        simp only [readItems]
        rw [h1]
        simp only []
        rw [hread { s with p := s.p + size } hstop h2]
        simp only [List.map_cons, PropItem.readBack, List.length_append,
          toLittleEndian_length, Nat.add_assoc]
    | string str =>
      by_cases hlong : str.length > 65535
      · obtain ⟨enc, henc, hread⟩ := ih (wbuf ++ toLittleEndian 2 0) rest hfit1
        refine ⟨toLittleEndian 2 0 ++ enc, ?_, ?_⟩
        · simp only [writeItems, PropWriteStream.writeString, PropWriteStream.write]
          rw [if_pos hlong, henc, List.append_assoc]
        · intro s hstop hdata
          rw [List.append_assoc] at hdata
          obtain ⟨h1, h2⟩ := s.readString_at [] (enc ++ rest) hstop (by simp)
            (by simpa using hdata)
          simp only [readItems]
          rw [h1]
          simp only []
          rw [hread { s with p := s.p + 2 + ([] : List Nat).length } hstop h2]
          simp only [List.map_cons, PropItem.readBack, if_pos hlong, List.length_append,
            toLittleEndian_length, List.length_nil, Nat.add_zero, Nat.add_assoc]
      · obtain ⟨enc, henc, hread⟩ :=
          ih (wbuf ++ (toLittleEndian 2 str.length ++ str)) rest hfit1
        refine ⟨toLittleEndian 2 str.length ++ str ++ enc, ?_, ?_⟩
        · simp only [writeItems, PropWriteStream.writeString, PropWriteStream.write]
          rw [if_neg hlong, Nat.mod_eq_of_lt (by omega)]
          by_cases h0 : str.length > 0
          · rw [if_pos h0]
            simp only [List.append_assoc] at henc ⊢
            exact henc
          · rw [if_neg h0]
            have : str = [] := List.length_eq_zero.1 (by omega)
            subst this
            simp only [List.append_nil, List.append_assoc, List.length_nil] at henc ⊢
            exact henc
        · intro s hstop hdata
          simp only [List.append_assoc] at hdata
          obtain ⟨h1, h2⟩ := s.readString_at str (enc ++ rest) hstop (by omega) hdata
          simp only [readItems]
          rw [h1]
          simp only []
          rw [hread { s with p := s.p + 2 + str.length } hstop h2]
          simp only [List.map_cons, PropItem.readBack, if_neg hlong, List.length_append,
            toLittleEndian_length, Nat.add_assoc]

/-- C40: for every sequence of fixed-width values (each fitting its width) and strings
written with `write` and `writeString` into a fresh `PropWriteStream`, reading the
produced buffer with `read` and `readString` in the same order succeeds, returns the
written values (a string of more than 65535 bytes, written as a zero length, comes back
as the empty string) and leaves the stream empty; `read` and `skip` return false exactly
when fewer bytes remain than requested, and then leave the stream as it was. -/
theorem prop_stream_round_trip (items : List PropItem) (hfit : ∀ item ∈ items, item.Fits)
    (s : PropStream) (size n : Nat) (str : List Nat) (w : PropWriteStream) :
    ((readItems items (PropStream.init (writeItems items ⟨[]⟩).buffer)).1 =
        some (items.map PropItem.readBack) ∧
      (readItems items (PropStream.init (writeItems items ⟨[]⟩).buffer)).2.empty = true) ∧
    (str.length > 65535 → w.writeString str = w.write 2 0 ∧
      (w.writeString str).buffer = w.buffer ++ [0, 0] ∧
      PropItem.readBack (.string str) = .string []) ∧
    (((s.read size).1 = none ↔ s.size < size) ∧ ((s.read size).1 = none → (s.read size).2 = s)) ∧
    (((s.skip n).1 = false ↔ s.size < n) ∧ ((s.skip n).1 = false → (s.skip n).2 = s)) := by
  refine ⟨?_, ?_, ?_, ?_⟩
  · obtain ⟨enc, henc, hread⟩ := readItems_writeItems items [] [] hfit
    simp only [List.nil_append] at henc
    have := hread (PropStream.init (writeItems items ⟨[]⟩).buffer) rfl
      (by simp [PropStream.init, henc])
    rw [this]
    simp [PropStream.init, PropStream.empty, henc]
  · intro hlong
    refine ⟨?_, ?_, ?_⟩
    · simp only [PropWriteStream.writeString, if_pos hlong]
    · simp only [PropWriteStream.writeString, if_pos hlong, PropWriteStream.write]
      rfl
    · simp only [PropItem.readBack, if_pos hlong]
  · unfold PropStream.read
    by_cases h : s.size < size
    · simp [h]
    · simp [h]
  · unfold PropStream.skip
    by_cases h : s.size < n
    · simp [h]
    · simp [h]

theorem prop_stream_round_trip_witness :
    (readItems [.value 2 513, .string [104, 105], .value 1 7]
        (PropStream.init (writeItems [.value 2 513, .string [104, 105], .value 1 7]
          ⟨[]⟩).buffer)).1 =
      some ([.value 2 513, .string [104, 105], .value 1 7].map PropItem.readBack) ∧
    (writeItems [.value 2 513, .string [104, 105], .value 1 7] ⟨[]⟩).buffer =
      [1, 2, 2, 0, 104, 105, 7] :=
  ⟨(prop_stream_round_trip [.value 2 513, .string [104, 105], .value 1 7]
      (by
        intro item hitem
        simp only [List.mem_cons, List.mem_singleton, List.not_mem_nil, or_false] at hitem
        rcases hitem with h | h | h <;> subst h <;> simp [PropItem.Fits])
      (PropStream.init []) 0 0 [] ⟨[]⟩).1.1, by decide⟩

/-- C31, the code at the failing input: in a world with one monster at (104, 100, 5),
after a cached query for players with range 10 at the centre (100, 100, 7), the cached
multifloor query for monsters with range 2 returns the monster, and the cached multifloor
query for monsters with range 3 that follows returns nothing, while the same query
without the cache returns the monster. -/
theorem wider_cached_find_drops_creature :
    (findFresh sampleSpectatorConsts sampleFloorsWorld
      (findAll sampleSpectatorConsts sampleFloorsWorld clearCache
        [⟨⟨100, 100, 7⟩, true, true, false, false, 10, 10, 10, 10, true⟩])
      ⟨⟨100, 100, 7⟩, true, false, true, false, 2, 2, 2, 2, true⟩).1 =
      [⟨3, ⟨104, 100, 5⟩, false, true, false⟩] ∧
    (findFresh sampleSpectatorConsts sampleFloorsWorld
      (findAll sampleSpectatorConsts sampleFloorsWorld clearCache
        [⟨⟨100, 100, 7⟩, true, true, false, false, 10, 10, 10, 10, true⟩,
          ⟨⟨100, 100, 7⟩, true, false, true, false, 2, 2, 2, 2, true⟩])
      ⟨⟨100, 100, 7⟩, true, false, true, false, 3, 3, 3, 3, true⟩).1 = [] ∧
    (findFresh sampleSpectatorConsts sampleFloorsWorld
      (findAll sampleSpectatorConsts sampleFloorsWorld clearCache
        [⟨⟨100, 100, 7⟩, true, true, false, false, 10, 10, 10, 10, true⟩,
          ⟨⟨100, 100, 7⟩, true, false, true, false, 2, 2, 2, 2, true⟩])
      ⟨⟨100, 100, 7⟩, true, false, true, false, 3, 3, 3, 3, false⟩).1 =
      [⟨3, ⟨104, 100, 5⟩, false, true, false⟩] := by
  refine ⟨?_, ?_, ?_⟩ <;> decide

/-! ### `BasicItem::readAttr` -/

theorem FileStream.Advances.trans {s s1 s2 : FileStream} (h1 : s.Advances s1)
    (h2 : s1.Advances s2) : s.Advances s2 :=
  ⟨h2.1.trans h1.1, h2.2.1.trans h1.2.1, h2.2.2.1, Nat.le_trans h1.2.2.2 h2.2.2.2⟩

theorem getU8_advances (s : FileStream) (hs : s.m_pos ≤ s.m_data.length) :
    ∃ v s1, FileStream.getU8 s = some (v, s1) ∧ s.Advances s1 ∧
      (s.m_pos < s.m_data.length → s.m_pos < s1.m_pos) ∧
      (s.m_data.length ≤ s.m_pos → v = 0 ∧ s1 = s) := by
  unfold FileStream.getU8
  by_cases h : s.m_pos ≥ s.m_data.length
  · rw [if_pos h]
    exact ⟨_, _, rfl, ⟨rfl, rfl, hs, Nat.le_refl _⟩, fun h1 => absurd h1 (by omega),
      fun _ => ⟨rfl, rfl⟩⟩
  · rw [if_neg h, List.getElem?_eq_getElem (by omega)]
    dsimp only
    split
    · by_cases h1 : s.m_pos + 1 ≥ s.m_data.length
      · rw [if_pos h1]
        exact ⟨_, _, rfl, ⟨rfl, rfl, (by simp; omega), (by simp)⟩, fun _ => (by simp),
          fun h2 => absurd h2 (by omega)⟩
      · rw [if_neg h1, List.getElem?_eq_getElem (by omega)]
        exact ⟨_, _, rfl, ⟨rfl, rfl, (by simp; omega), (by simp)⟩, fun _ => (by simp),
          fun h2 => absurd h2 (by omega)⟩
    · exact ⟨_, _, rfl, ⟨rfl, rfl, (by simp; omega), (by simp)⟩, fun _ => (by simp),
        fun h2 => absurd h2 (by omega)⟩

theorem readEscapedLoop_advances (n : Nat) : ∀ (s : FileStream) (array : List Nat),
    s.m_pos ≤ s.m_data.length →
    ∃ r s1, FileStream.readEscapedLoop n s array = some (r, s1) ∧ s.Advances s1 := by
  induction n with
  | zero => intro s array hs; exact ⟨_, _, rfl, rfl, rfl, hs, Nat.le_refl _⟩
  | succ n ih =>
    intro s array hs
    unfold FileStream.readEscapedLoop
    by_cases h : s.m_pos ≥ s.m_data.length
    · rw [if_pos h]; exact ⟨_, _, rfl, rfl, rfl, hs, Nat.le_refl _⟩
    · rw [if_neg h, List.getElem?_eq_getElem (by omega)]
      dsimp only
      split
      · by_cases h1 : s.m_pos + 1 ≥ s.m_data.length
        · rw [if_pos h1]; exact ⟨_, _, rfl, rfl, rfl, (by simp; omega), (by simp)⟩
        · rw [if_neg h1, List.getElem?_eq_getElem (by omega)]
          obtain ⟨r, s1, e, a⟩ := ih { s with m_pos := s.m_pos + 2 } (array ++ [s.m_data[s.m_pos + 1]])
            (by simp; omega)
          exact ⟨r, s1, e, a.1, a.2.1, a.2.2.1, by have := a.2.2.2; simp at this; omega⟩
      · obtain ⟨r, s1, e, a⟩ := ih { s with m_pos := s.m_pos + 1 } (array ++ [s.m_data[s.m_pos]])
          (by simp; omega)
        exact ⟨r, s1, e, a.1, a.2.1, a.2.2.1, by have := a.2.2.2; simp at this; omega⟩

theorem getUnsigned_advances (s : FileStream) (size : Nat) (hs : s.m_pos ≤ s.m_data.length) :
    ∃ v s1, FileStream.getUnsigned s size = some (v, s1) ∧ s.Advances s1 := by
  unfold FileStream.getUnsigned
  by_cases hn : s.m_nodes > 0
  · rw [if_pos hn]
    unfold FileStream.read
    by_cases h : s.m_pos + size > s.m_data.length
    · rw [if_pos h]; exact ⟨_, _, rfl, rfl, rfl, hs, Nat.le_refl _⟩
    · rw [if_neg h]
      obtain ⟨r, s1, h1, h2⟩ := readEscapedLoop_advances size s [] hs
      simp only [if_true, h1]
      cases r with
      | none => exact ⟨_, _, rfl, h2⟩
      | some array => exact ⟨_, _, rfl, h2⟩
  · rw [if_neg hn]
    by_cases h : s.m_pos + size ≤ s.m_data.length
    · rw [if_pos h]
      unfold FileStream.bytesAt
      rw [if_pos h]
      exact ⟨_, _, rfl, rfl, rfl, h, (by simp)⟩
    · rw [if_neg h]; exact ⟨_, _, rfl, rfl, rfl, hs, Nat.le_refl _⟩

theorem getString_advances (s : FileStream) (hs : s.m_pos ≤ s.m_data.length)
    (hsize : s.m_data.length + 8192 ≤ 4294967296) :
    ∃ v s1, FileStream.getString s = some (v, s1) ∧ s.Advances s1 := by
  unfold FileStream.getString
  obtain ⟨len, s1, h1, h2⟩ := getUnsigned_advances s 2 hs
  rw [FileStream.getU16, h1]
  dsimp only
  by_cases hz : len = 0
  · rw [if_pos hz]; exact ⟨_, _, rfl, h2⟩
  · rw [if_neg hz]
    by_cases hl : len ≥ FileStream.maxStringLen
    · rw [if_pos hl]; exact ⟨_, _, rfl, h2⟩
    · rw [if_neg hl]
      have hlen : len < 8192 := by unfold FileStream.maxStringLen at hl; omega
      obtain ⟨e1, e2, e3, e4⟩ := h2
      rw [e1] at e3
      rw [Nat.mod_eq_of_lt (by omega)]
      by_cases hout : s1.m_pos + len > s1.m_data.length
      · rw [if_pos hout]; exact ⟨_, _, rfl, e1, e2, (by rw [e1]; exact e3), e4⟩
      · rw [if_neg hout]
        unfold FileStream.bytesAt
        rw [if_pos (by omega)]
        exact ⟨_, _, rfl, e1, e2, (by simp; omega), (by simp; omega)⟩

theorem Outcome.ofRead_bind_ok {α β : Type} (r : Option (α × FileStream))
    (f : α × FileStream → Outcome β) (s : FileStream)
    (hr : ∃ v s1, r = some (v, s1) ∧ s.Advances s1)
    (hf : ∀ v s1, s.Advances s1 → ∃ b, f (v, s1) = .ok b) :
    ∃ b, (Outcome.ofRead r >>= f) = .ok b := by
  obtain ⟨v, s1, e, a⟩ := hr
  subst e
  exact hf v s1 a

theorem readAttr_succ {I HS ZS : Type} (env : Env I HS ZS) (fuel : Nat) (item : BasicItem)
    (s s1 : FileStream) (attr : Nat) (e : s.getU8 = some (attr, s1)) :
    BasicItem.readAttr env (fuel + 1) item s =
      if attr = env.ATTR_DEPOT_ID then
        Outcome.ofRead s1.getU16 >>= fun r =>
          BasicItem.readAttr env fuel (item.setDoorOrDepotId r.1) r.2
      else if attr = env.ATTR_HOUSEDOORID then
        Outcome.ofRead s1.getU8 >>= fun r =>
          BasicItem.readAttr env fuel (item.setDoorOrDepotId r.1) r.2
      else if attr = env.ATTR_TELE_DEST then
        Outcome.ofRead s1.getU16 >>= fun r =>
          Outcome.ofRead r.2.getU16 >>= fun r1 =>
            Outcome.ofRead r1.2.getU8 >>= fun r2 =>
              BasicItem.readAttr env fuel (item.setDest r.1 r1.1 r2.1) r2.2
      else if attr = env.ATTR_COUNT then
        Outcome.ofRead s1.getU8 >>= fun r =>
          BasicItem.readAttr env fuel (item.setCharges r.1) r.2
      else if attr = env.ATTR_CHARGES then
        Outcome.ofRead s1.getU16 >>= fun r =>
          BasicItem.readAttr env fuel (item.setCharges r.1) r.2
      else if attr = env.ATTR_ACTION_ID then
        Outcome.ofRead s1.getU16 >>= fun r =>
          BasicItem.readAttr env fuel (item.setActionId r.1) r.2
      else if attr = env.ATTR_UNIQUE_ID then
        Outcome.ofRead s1.getU16 >>= fun r =>
          BasicItem.readAttr env fuel (item.setUniqueId r.1) r.2
      else if attr = env.ATTR_TEXT then
        Outcome.ofRead s1.getString >>= fun r =>
          BasicItem.readAttr env fuel (if r.1.isEmpty then item else item.setText r.1) r.2
      else if attr = env.ATTR_DESC then
        Outcome.ofRead s1.getString >>= fun r => BasicItem.readAttr env fuel item r.2
      else .ok (item, s1.back 1) := by
  rw [BasicItem.readAttr, e]
  rfl

theorem readAttr_ok {I HS ZS : Type} (env : Env I HS ZS) (hz : env.AttrTagsNonZero) :
    ∀ (fuel : Nat) (item : BasicItem) (s : FileStream),
      s.m_pos ≤ s.m_data.length → s.m_data.length + 8192 ≤ 4294967296 →
      s.m_data.length - s.m_pos < fuel →
      ∃ r, BasicItem.readAttr env fuel item s = .ok r := by
  intro fuel
  induction fuel with
  | zero => intro item s _ _ h; omega
  | succ fuel ih =>
    intro item s hs hsize hfuel
    obtain ⟨attr, s1, e, a, hprog, hend⟩ := getU8_advances s hs
    obtain ⟨z1, z2, z3, z4, z5, z6, z7, z8, z9⟩ := hz
    rw [readAttr_succ env fuel item s s1 attr e]
    by_cases hlt : s.m_pos < s.m_data.length
    · have hp := hprog hlt
      have good : ∀ s2 : FileStream, s1.Advances s2 →
          s2.m_pos ≤ s2.m_data.length ∧ s2.m_data.length + 8192 ≤ 4294967296 ∧
            s2.m_data.length - s2.m_pos < fuel := by
        intro s2 a2
        have b := a.trans a2
        obtain ⟨b1, _, b3, b4⟩ := b
        have := a.2.2.2
        have := a2.2.2.2
        refine ⟨b3, ?_, ?_⟩
        · rw [b1]; exact hsize
        · rw [b1]; omega
      have next : ∀ (it : BasicItem) (s2 : FileStream), s1.Advances s2 →
          ∃ r, BasicItem.readAttr env fuel it s2 = .ok r :=
        fun it s2 a2 => ih it s2 (good s2 a2).1 (good s2 a2).2.1 (good s2 a2).2.2
      have hs1 : s1.m_pos ≤ s1.m_data.length := a.2.2.1
      have hsize1 : s1.m_data.length + 8192 ≤ 4294967296 := by rw [a.1]; exact hsize
      have u8 : ∀ s2 : FileStream, s1.Advances s2 →
          ∃ v s3, s2.getU8 = some (v, s3) ∧ s1.Advances s3 := by
        intro s2 a2
        obtain ⟨v, s3, e3, a3, _⟩ := getU8_advances s2 a2.2.2.1
        exact ⟨v, s3, e3, a2.trans a3⟩
      have u16 : ∀ s2 : FileStream, s1.Advances s2 →
          ∃ v s3, s2.getU16 = some (v, s3) ∧ s1.Advances s3 := by
        intro s2 a2
        obtain ⟨v, s3, e3, a3⟩ := getUnsigned_advances s2 2 a2.2.2.1
        exact ⟨v, s3, e3, a2.trans a3⟩
      have str : ∀ s2 : FileStream, s1.Advances s2 →
          ∃ v s3, s2.getString = some (v, s3) ∧ s1.Advances s3 := by
        intro s2 a2
        obtain ⟨v, s3, e3, a3⟩ := getString_advances s2 a2.2.2.1 (by rw [a2.1]; exact hsize1)
        exact ⟨v, s3, e3, a2.trans a3⟩
      have self : s1.Advances s1 := ⟨rfl, rfl, hs1, Nat.le_refl _⟩
      by_cases h1 : attr = env.ATTR_DEPOT_ID
      · rw [if_pos h1]
        exact Outcome.ofRead_bind_ok _ _ s1 (u16 s1 self) (fun v s2 a2 => next _ s2 a2)
      rw [if_neg h1]
      by_cases h2 : attr = env.ATTR_HOUSEDOORID
      · rw [if_pos h2]
        exact Outcome.ofRead_bind_ok _ _ s1 (u8 s1 self) (fun v s2 a2 => next _ s2 a2)
      rw [if_neg h2]
      by_cases h3 : attr = env.ATTR_TELE_DEST
      · rw [if_pos h3]
        exact Outcome.ofRead_bind_ok _ _ s1 (u16 s1 self) (fun x s2 a2 =>
          Outcome.ofRead_bind_ok _ _ s1 (u16 s2 a2) (fun y s3 a3 =>
            Outcome.ofRead_bind_ok _ _ s1 (u8 s3 a3) (fun z s4 a4 => next _ s4 a4)))
      rw [if_neg h3]
      by_cases h4 : attr = env.ATTR_COUNT
      · rw [if_pos h4]
        exact Outcome.ofRead_bind_ok _ _ s1 (u8 s1 self) (fun v s2 a2 => next _ s2 a2)
      rw [if_neg h4]
      by_cases h5 : attr = env.ATTR_CHARGES
      · rw [if_pos h5]
        exact Outcome.ofRead_bind_ok _ _ s1 (u16 s1 self) (fun v s2 a2 => next _ s2 a2)
      rw [if_neg h5]
      by_cases h6 : attr = env.ATTR_ACTION_ID
      · rw [if_pos h6]
        exact Outcome.ofRead_bind_ok _ _ s1 (u16 s1 self) (fun v s2 a2 => next _ s2 a2)
      rw [if_neg h6]
      by_cases h7 : attr = env.ATTR_UNIQUE_ID
      · rw [if_pos h7]
        exact Outcome.ofRead_bind_ok _ _ s1 (u16 s1 self) (fun v s2 a2 => next _ s2 a2)
      rw [if_neg h7]
      by_cases h8 : attr = env.ATTR_TEXT
      · rw [if_pos h8]
        exact Outcome.ofRead_bind_ok _ _ s1 (str s1 self) (fun v s2 a2 => next _ s2 a2)
      rw [if_neg h8]
      by_cases h9 : attr = env.ATTR_DESC
      · rw [if_pos h9]
        exact Outcome.ofRead_bind_ok _ _ s1 (str s1 self) (fun v s2 a2 => next _ s2 a2)
      rw [if_neg h9]
      exact ⟨_, rfl⟩
    · obtain ⟨h0, _⟩ := hend (by omega)
      subst h0
      rw [if_neg (Ne.symm z1), if_neg (Ne.symm z2), if_neg (Ne.symm z3), if_neg (Ne.symm z4),
        if_neg (Ne.symm z5), if_neg (Ne.symm z6), if_neg (Ne.symm z7), if_neg (Ne.symm z8),
        if_neg (Ne.symm z9)]
      exact ⟨_, rfl⟩

theorem drop_eq_cons_getElem {l : List Nat} {n x : Nat} {t : List Nat} (hd : l.drop n = x :: t) :
    l[n]? = some x ∧ n < l.length ∧ l.drop (n + 1) = t := by
  have hlt : n < l.length := by
    by_contra h
    rw [List.drop_eq_nil_of_le (by omega)] at hd
    exact absurd hd (by simp)
  refine ⟨?_, hlt, ?_⟩
  · have := List.getElem?_drop l n 0
    rw [hd] at this
    simpa using this.symm
  · rw [← List.drop_drop, hd]
    rfl

theorem drop_eq_append {l : List Nat} {n : Nat} {xs t : List Nat} (hd : l.drop n = xs ++ t) :
    n + xs.length ≤ l.length ∨ xs = [] := by
  by_cases h : n ≤ l.length
  · left
    have := congrArg List.length hd
    simp at this
    omega
  · right
    rw [List.drop_eq_nil_of_le (by omega)] at hd
    have := congrArg List.length hd
    rw [List.length_nil, List.length_append] at this
    exact List.length_eq_zero.1 (by omega)

theorem getU8_drop (s : FileStream) (b : Nat) (rest : List Nat)
    (hd : s.m_data.drop s.m_pos = streamBytes s.m_nodes [b] ++ rest) :
    FileStream.getU8 s =
        some (b, { s with m_pos := s.m_pos + (streamBytes s.m_nodes [b]).length }) ∧
      s.m_data.drop (s.m_pos + (streamBytes s.m_nodes [b]).length) = rest := by
  unfold streamBytes at hd ⊢
  by_cases hn : s.m_nodes > 0
  · rw [if_pos hn] at hd ⊢
    by_cases hb : b = OTB.ESCAPE ∨ b = OTB.START ∨ b = OTB.END
    · have e : OTB.escapeProps [b] = [OTB.ESCAPE, b] := by simp [OTB.escapeProps, hb]
      rw [e] at hd ⊢
      obtain ⟨g0, l0, d0⟩ := drop_eq_cons_getElem hd
      obtain ⟨g1, l1, d1⟩ := drop_eq_cons_getElem d0
      refine ⟨?_, d1⟩
      unfold FileStream.getU8
      rw [if_neg (by omega), g0]
      simp only [hn, true_and, if_true]
      rw [if_neg (by omega), g1]
      rfl
    · have e : OTB.escapeProps [b] = [b] := by simp [OTB.escapeProps, hb]
      rw [e] at hd ⊢
      obtain ⟨g0, l0, d0⟩ := drop_eq_cons_getElem hd
      refine ⟨?_, d0⟩
      unfold FileStream.getU8
      rw [if_neg (by omega), g0]
      have hne : ¬ b = OTB.ESCAPE := fun c => hb (Or.inl c)
      simp only [hne, and_false, if_false]
      rfl
  · rw [if_neg hn] at hd ⊢
    obtain ⟨g0, l0, d0⟩ := drop_eq_cons_getElem hd
    refine ⟨?_, d0⟩
    unfold FileStream.getU8
    rw [if_neg (by omega), g0]
    simp only [hn, false_and, if_false]
    rfl

theorem getU8_plain (s : FileStream) (b : Nat) (rest : List Nat)
    (hd : s.m_data.drop s.m_pos = b :: rest) (hb : s.m_nodes > 0 → b ≠ OTB.ESCAPE) :
    FileStream.getU8 s = some (b, { s with m_pos := s.m_pos + 1 }) := by
  obtain ⟨g0, l0, d0⟩ := drop_eq_cons_getElem hd
  unfold FileStream.getU8
  rw [if_neg (by omega), g0]
  have : ¬ (s.m_nodes > 0 ∧ b = OTB.ESCAPE) := fun h => hb h.1 h.2
  simp only [this, if_false]

theorem streamBytes_length_ge (m_nodes : Nat) (bytes : List Nat) :
    bytes.length ≤ (streamBytes m_nodes bytes).length := by
  unfold streamBytes
  split
  · exact escapeProps_length_ge bytes
  · exact Nat.le_refl _

theorem drop_streamBytes_le {l : List Nat} {n m_nodes : Nat} {bytes t : List Nat}
    (hd : l.drop n = streamBytes m_nodes bytes ++ t) (hb : 0 < bytes.length) :
    n + (streamBytes m_nodes bytes).length ≤ l.length := by
  have := streamBytes_length_ge m_nodes bytes
  rcases drop_eq_append hd with h | h
  · exact h
  · rw [h, List.length_nil] at this
    omega

theorem getUnsigned_drop (s : FileStream) (bytes rest : List Nat) (size : Nat)
    (hsize : bytes.length = size) (hpos : 0 < size)
    (hd : s.m_data.drop s.m_pos = streamBytes s.m_nodes bytes ++ rest) :
    FileStream.getUnsigned s size =
        some (FileStream.fromLittleEndian bytes,
          { s with m_pos := s.m_pos + (streamBytes s.m_nodes bytes).length }) ∧
      s.m_data.drop (s.m_pos + (streamBytes s.m_nodes bytes).length) = rest := by
  have hdrop : s.m_data.drop (s.m_pos + (streamBytes s.m_nodes bytes).length) = rest := by
    rw [← List.drop_drop, hd, List.drop_left]
  refine ⟨?_, hdrop⟩
  have hp : s.m_pos ≤ s.m_data.length := by
    have := drop_streamBytes_le hd (by omega)
    omega
  obtain ⟨nodes, pos, data⟩ := s
  simp only at hd hp ⊢
  unfold streamBytes at hd ⊢
  cases nodes with
  | zero =>
    simp only [Nat.lt_irrefl, gt_iff_lt, if_false] at hd ⊢
    have hlen : pos + size ≤ data.length := by
      have := congrArg List.length hd
      simp at this
      omega
    unfold FileStream.getUnsigned
    simp only [Nat.lt_irrefl, gt_iff_lt, if_false]
    rw [if_pos hlen]
    unfold FileStream.bytesAt
    rw [if_pos hlen]
    simp only [hd, hsize]
    rw [← hsize, List.take_left]
  | succ k =>
    simp only [Nat.succ_pos, gt_iff_lt, if_true] at hd ⊢
    exact getUnsigned_at k (data.take pos) bytes rest data size pos
      (by rw [← hd, List.take_append_drop]) hsize
      (by rw [List.length_take, Nat.min_eq_left hp])

theorem getString_drop (s : FileStream) (str rest : List Nat)
    (hlen : str.length < FileStream.maxStringLen) (hdata : s.m_data.length < 4294967296)
    (hd : s.m_data.drop s.m_pos =
      streamBytes s.m_nodes (toLittleEndian 2 str.length) ++ (str ++ rest)) :
    FileStream.getString s =
        some (str, { s with m_pos := s.m_pos +
          (streamBytes s.m_nodes (toLittleEndian 2 str.length)).length + str.length }) ∧
      s.m_data.drop (s.m_pos +
        (streamBytes s.m_nodes (toLittleEndian 2 str.length)).length + str.length) = rest := by
  have hp := drop_streamBytes_le hd (by rw [toLittleEndian_length]; decide)
  obtain ⟨h1, h2⟩ := getUnsigned_drop s (toLittleEndian 2 str.length) (str ++ rest) 2
    (toLittleEndian_length 2 _) (by decide) hd
  have h8 : FileStream.maxStringLen = 8192 := rfl
  rw [fromLittleEndian_toLittleEndian 2 str.length (by
    have : (256 : Nat) ^ 2 = 65536 := by norm_num
    omega)] at h1
  generalize hk : (streamBytes s.m_nodes (toLittleEndian 2 str.length)).length = k at h1 h2 ⊢
  have hdrop : s.m_data.drop (s.m_pos + k + str.length) = rest := by
    rw [← List.drop_drop, h2, List.drop_left]
  refine ⟨?_, hdrop⟩
  have hbound : s.m_pos + k + str.length ≤ s.m_data.length := by
    have := congrArg List.length h2
    rw [List.length_drop, List.length_append] at this
    rw [hk] at hp
    omega
  unfold FileStream.getString
  rw [FileStream.getU16, h1]
  simp only
  by_cases h0 : str.length = 0
  · rw [if_pos h0]
    have : str = [] := List.length_eq_zero.1 h0
    subst this
    rfl
  · rw [if_neg h0, if_neg (by omega), Nat.mod_eq_of_lt (by omega), if_neg (by omega)]
    unfold FileStream.bytesAt
    rw [if_pos hbound]
    simp only [h2, List.take_left]

theorem readAttr_record {I HS ZS : Type} (env : Env I HS ZS) (hnd : env.attrTags.Nodup)
    (fuel : Nat) (item : BasicItem) (s : FileStream) (r : AttrRecord) (rest : List Nat)
    (hv : r.Valid) (hdata : s.m_data.length < 4294967296)
    (hd : s.m_data.drop s.m_pos = r.encode env s.m_nodes ++ rest) :
    BasicItem.readAttr env (fuel + 1) item s =
        BasicItem.readAttr env fuel (r.assign item)
          { s with m_pos := s.m_pos + (r.encode env s.m_nodes).length } ∧
      s.m_data.drop (s.m_pos + (r.encode env s.m_nodes).length) = rest := by
  simp only [Env.attrTags, List.nodup_cons, List.mem_cons, List.mem_singleton, not_or,
    List.not_mem_nil, not_false_eq_true, List.nodup_nil, and_true] at hnd
  obtain ⟨⟨n12, n13, n14, n15, n16, n17, n18, n19⟩, ⟨n23, n24, n25, n26, n27, n28, n29⟩,
    ⟨n34, n35, n36, n37, n38, n39⟩, ⟨n45, n46, n47, n48, n49⟩, ⟨n56, n57, n58, n59⟩,
    ⟨n67, n68, n69⟩, ⟨n78, n79⟩, n89⟩ := hnd
  have p16 : (256 : Nat) ^ 2 = 65536 := by norm_num
  have p8 : (256 : Nat) ^ 1 = 256 := by norm_num
  cases r with
  | depotId v =>
    simp only [AttrRecord.encode, List.append_assoc, AttrRecord.Valid] at hd hv
    obtain ⟨g1, d1⟩ := getU8_drop s _ _ hd
    obtain ⟨g2, d2⟩ := getUnsigned_drop { s with m_pos := s.m_pos +
      (streamBytes s.m_nodes [env.ATTR_DEPOT_ID]).length } (toLittleEndian 2 v) rest 2
      (toLittleEndian_length 2 v) (by decide) d1
    rw [fromLittleEndian_toLittleEndian 2 v (by omega)] at g2
    rw [readAttr_succ env fuel item s _ _ g1, if_pos rfl, FileStream.getU16, g2]
    simp only [AttrRecord.encode, List.length_append, Nat.add_assoc] at d2 ⊢
    exact ⟨rfl, d2⟩
  | houseDoorId v =>
    simp only [AttrRecord.encode, List.append_assoc, AttrRecord.Valid] at hd hv
    obtain ⟨g1, d1⟩ := getU8_drop s _ _ hd
    have e1 : toLittleEndian 1 v = [v] := by
      simp only [toLittleEndian]
      rw [Nat.mod_eq_of_lt hv]
    rw [e1] at d1
    obtain ⟨g2, d2⟩ := getU8_drop { s with m_pos := s.m_pos +
      (streamBytes s.m_nodes [env.ATTR_HOUSEDOORID]).length } v rest d1
    rw [readAttr_succ env fuel item s _ _ g1, if_neg (fun h => n12 h.symm), if_pos rfl, g2]
    simp only [AttrRecord.encode, e1, List.length_append, Nat.add_assoc] at d2 ⊢
    exact ⟨rfl, d2⟩
  | teleDest x y z =>
    simp only [AttrRecord.encode, List.append_assoc, AttrRecord.Valid] at hd hv
    obtain ⟨hx, hy, hz⟩ := hv
    have e1 : toLittleEndian 1 z = [z] := by
      simp only [toLittleEndian]
      rw [Nat.mod_eq_of_lt hz]
    rw [e1] at hd
    obtain ⟨g1, d1⟩ := getU8_drop s _ _ hd
    obtain ⟨g2, d2⟩ := getUnsigned_drop { s with m_pos := s.m_pos +
      (streamBytes s.m_nodes [env.ATTR_TELE_DEST]).length } (toLittleEndian 2 x) _ 2
      (toLittleEndian_length 2 x) (by decide) d1
    rw [fromLittleEndian_toLittleEndian 2 x (by omega)] at g2
    obtain ⟨g3, d3⟩ := getUnsigned_drop { s with m_pos := s.m_pos +
      (streamBytes s.m_nodes [env.ATTR_TELE_DEST]).length +
      (streamBytes s.m_nodes (toLittleEndian 2 x)).length } (toLittleEndian 2 y) _ 2
      (toLittleEndian_length 2 y) (by decide) d2
    rw [fromLittleEndian_toLittleEndian 2 y (by omega)] at g3
    obtain ⟨g4, d4⟩ := getU8_drop { s with m_pos := s.m_pos +
      (streamBytes s.m_nodes [env.ATTR_TELE_DEST]).length +
      (streamBytes s.m_nodes (toLittleEndian 2 x)).length +
      (streamBytes s.m_nodes (toLittleEndian 2 y)).length } z rest d3
    rw [readAttr_succ env fuel item s _ _ g1, if_neg (fun h => n13 h.symm), if_neg (fun h => n23 h.symm), if_pos rfl, FileStream.getU16, g2]
    simp only [Outcome.ofRead_some, Outcome.ok_bind]
    rw [FileStream.getU16, g3]
    simp only [Outcome.ofRead_some, Outcome.ok_bind]
    rw [g4]
    simp only [AttrRecord.encode, e1, List.length_append, Nat.add_assoc] at d4 ⊢
    exact ⟨rfl, d4⟩
  | count v =>
    simp only [AttrRecord.encode, List.append_assoc, AttrRecord.Valid] at hd hv
    obtain ⟨g1, d1⟩ := getU8_drop s _ _ hd
    have e1 : toLittleEndian 1 v = [v] := by
      simp only [toLittleEndian]
      rw [Nat.mod_eq_of_lt hv]
    rw [e1] at d1
    obtain ⟨g2, d2⟩ := getU8_drop { s with m_pos := s.m_pos +
      (streamBytes s.m_nodes [env.ATTR_COUNT]).length } v rest d1
    rw [readAttr_succ env fuel item s _ _ g1, if_neg (fun h => n14 h.symm), if_neg (fun h => n24 h.symm), if_neg (fun h => n34 h.symm), if_pos rfl, g2]
    simp only [AttrRecord.encode, e1, List.length_append, Nat.add_assoc] at d2 ⊢
    exact ⟨rfl, d2⟩
  | charges v =>
    simp only [AttrRecord.encode, List.append_assoc, AttrRecord.Valid] at hd hv
    obtain ⟨g1, d1⟩ := getU8_drop s _ _ hd
    obtain ⟨g2, d2⟩ := getUnsigned_drop { s with m_pos := s.m_pos +
      (streamBytes s.m_nodes [env.ATTR_CHARGES]).length } (toLittleEndian 2 v) rest 2
      (toLittleEndian_length 2 v) (by decide) d1
    rw [fromLittleEndian_toLittleEndian 2 v (by omega)] at g2
    rw [readAttr_succ env fuel item s _ _ g1, if_neg (fun h => n15 h.symm), if_neg (fun h => n25 h.symm), if_neg (fun h => n35 h.symm), if_neg (fun h => n45 h.symm), if_pos rfl, FileStream.getU16, g2]
    simp only [AttrRecord.encode, List.length_append, Nat.add_assoc] at d2 ⊢
    exact ⟨rfl, d2⟩
  | actionId v =>
    simp only [AttrRecord.encode, List.append_assoc, AttrRecord.Valid] at hd hv
    obtain ⟨g1, d1⟩ := getU8_drop s _ _ hd
    obtain ⟨g2, d2⟩ := getUnsigned_drop { s with m_pos := s.m_pos +
      (streamBytes s.m_nodes [env.ATTR_ACTION_ID]).length } (toLittleEndian 2 v) rest 2
      (toLittleEndian_length 2 v) (by decide) d1
    rw [fromLittleEndian_toLittleEndian 2 v (by omega)] at g2
    rw [readAttr_succ env fuel item s _ _ g1, if_neg (fun h => n16 h.symm), if_neg (fun h => n26 h.symm), if_neg (fun h => n36 h.symm), if_neg (fun h => n46 h.symm), if_neg (fun h => n56 h.symm), if_pos rfl, FileStream.getU16, g2]
    simp only [AttrRecord.encode, List.length_append, Nat.add_assoc] at d2 ⊢
    exact ⟨rfl, d2⟩
  | uniqueId v =>
    simp only [AttrRecord.encode, List.append_assoc, AttrRecord.Valid] at hd hv
    obtain ⟨g1, d1⟩ := getU8_drop s _ _ hd
    obtain ⟨g2, d2⟩ := getUnsigned_drop { s with m_pos := s.m_pos +
      (streamBytes s.m_nodes [env.ATTR_UNIQUE_ID]).length } (toLittleEndian 2 v) rest 2
      (toLittleEndian_length 2 v) (by decide) d1
    rw [fromLittleEndian_toLittleEndian 2 v (by omega)] at g2
    rw [readAttr_succ env fuel item s _ _ g1, if_neg (fun h => n17 h.symm), if_neg (fun h => n27 h.symm), if_neg (fun h => n37 h.symm), if_neg (fun h => n47 h.symm), if_neg (fun h => n57 h.symm), if_neg (fun h => n67 h.symm), if_pos rfl, FileStream.getU16, g2]
    simp only [AttrRecord.encode, List.length_append, Nat.add_assoc] at d2 ⊢
    exact ⟨rfl, d2⟩
  | text str =>
    simp only [AttrRecord.encode, List.append_assoc, AttrRecord.Valid] at hd hv
    obtain ⟨g1, d1⟩ := getU8_drop s _ _ hd
    obtain ⟨g2, d2⟩ := getString_drop { s with m_pos := s.m_pos +
      (streamBytes s.m_nodes [env.ATTR_TEXT]).length } str rest hv hdata d1
    rw [readAttr_succ env fuel item s _ _ g1, if_neg (fun h => n18 h.symm), if_neg (fun h => n28 h.symm), if_neg (fun h => n38 h.symm), if_neg (fun h => n48 h.symm), if_neg (fun h => n58 h.symm), if_neg (fun h => n68 h.symm), if_neg (fun h => n78 h.symm), if_pos rfl, g2]
    simp only [AttrRecord.encode, List.length_append, Nat.add_assoc] at d2 ⊢
    exact ⟨rfl, d2⟩
  | desc str =>
    simp only [AttrRecord.encode, List.append_assoc, AttrRecord.Valid] at hd hv
    obtain ⟨g1, d1⟩ := getU8_drop s _ _ hd
    obtain ⟨g2, d2⟩ := getString_drop { s with m_pos := s.m_pos +
      (streamBytes s.m_nodes [env.ATTR_DESC]).length } str rest hv hdata d1
    rw [readAttr_succ env fuel item s _ _ g1, if_neg (fun h => n19 h.symm), if_neg (fun h => n29 h.symm), if_neg (fun h => n39 h.symm), if_neg (fun h => n49 h.symm), if_neg (fun h => n59 h.symm), if_neg (fun h => n69 h.symm), if_neg (fun h => n79 h.symm), if_neg (fun h => n89 h.symm), if_pos rfl, g2]
    simp only [AttrRecord.encode, List.length_append, Nat.add_assoc] at d2 ⊢
    exact ⟨rfl, d2⟩

theorem streamBytes_append_length_pos (m_nodes b : Nat) (tail : List Nat) :
    0 < (streamBytes m_nodes [b] ++ tail).length := by
  have := streamBytes_length_ge m_nodes [b]
  simp only [List.length_singleton] at this
  rw [List.length_append]
  omega

theorem AttrRecord.encode_length_pos {I HS ZS : Type} (env : Env I HS ZS) (m_nodes : Nat)
    (r : AttrRecord) : 0 < (r.encode env m_nodes).length := by
  cases r <;> exact streamBytes_append_length_pos _ _ _

theorem encodeRecords_length_ge {I HS ZS : Type} (env : Env I HS ZS) (m_nodes : Nat)
    (recs : List AttrRecord) : recs.length ≤ (encodeRecords env m_nodes recs).length := by
  induction recs with
  | nil => simp [encodeRecords]
  | cons r recs ih =>
    have := AttrRecord.encode_length_pos env m_nodes r
    simp only [encodeRecords, List.length_append, List.length_cons]
    omega

theorem readAttr_records {I HS ZS : Type} (env : Env I HS ZS) (hnd : env.attrTags.Nodup)
    (recs : List AttrRecord) :
    ∀ (fuel : Nat) (item : BasicItem) (s : FileStream) (t : Nat) (rest : List Nat),
      (∀ r ∈ recs, r.Valid) → s.m_data.length < 4294967296 →
      t ∉ env.attrTags → (s.m_nodes > 0 → t ≠ OTB.ESCAPE) →
      s.m_data.drop s.m_pos = encodeRecords env s.m_nodes recs ++ t :: rest →
      recs.length < fuel →
      BasicItem.readAttr env fuel item s =
        .ok (recs.foldl AttrRecord.assign item,
          { s with m_pos := s.m_pos + (encodeRecords env s.m_nodes recs).length }) := by
  induction recs with
  | nil =>
    intro fuel item s t rest _ _ ht hesc hd hfuel
    obtain ⟨fuel, rfl⟩ : ∃ k, fuel = k + 1 := ⟨fuel - 1, by simp at hfuel; omega⟩
    simp only [encodeRecords, List.nil_append] at hd
    have g := getU8_plain s t rest hd hesc
    simp only [Env.attrTags, List.mem_cons, List.mem_singleton, not_or, List.not_mem_nil,
      or_false] at ht
    obtain ⟨t1, t2, t3, t4, t5, t6, t7, t8, t9⟩ := ht
    rw [readAttr_succ env fuel item s _ _ g, if_neg t1, if_neg t2, if_neg t3, if_neg t4,
      if_neg t5, if_neg t6, if_neg t7, if_neg t8, if_neg t9]
    simp [FileStream.back, encodeRecords]
  | cons r recs ih =>
    intro fuel item s t rest hv hdata ht hesc hd hfuel
    obtain ⟨fuel, rfl⟩ : ∃ k, fuel = k + 1 := ⟨fuel - 1, by simp at hfuel; omega⟩
    simp only [encodeRecords, List.append_assoc] at hd
    obtain ⟨g, d⟩ := readAttr_record env hnd fuel item s r _
      (hv r (List.mem_cons_self _ _)) hdata hd
    rw [g, ih fuel (AttrRecord.assign item r)
      { s with m_pos := s.m_pos + (r.encode env s.m_nodes).length } t rest
      (fun r1 h1 => hv r1 (List.mem_cons_of_mem _ h1)) hdata ht hesc d
      (by simp at hfuel; omega)]
    simp only [List.foldl_cons, encodeRecords, List.length_append, Nat.add_assoc]

theorem getLast?_cons_getD {α : Type} (a : α) (l : List α) (d : α) :
    ((a :: l).getLast?).getD d = (l.getLast?).getD a := by
  cases l with
  | nil => rfl
  | cons b l =>
    rw [List.getLast?_cons_cons]
    cases h : (b :: l).getLast? with
    | none => simp at h
    | some x => rfl

theorem foldl_assign_last {α : Type} (f : AttrRecord → Option α) (g : BasicItem → α)
    (h : ∀ item r, g (AttrRecord.assign item r) = (f r).getD (g item)) :
    ∀ (recs : List AttrRecord) (item : BasicItem),
      g (recs.foldl AttrRecord.assign item) = (lastRecord f recs).getD (g item) := by
  intro recs
  induction recs with
  | nil => intro item; rfl
  | cons r recs ih =>
    intro item
    rw [List.foldl_cons, ih, h]
    unfold lastRecord
    cases hf : f r with
    | none => simp [List.filterMap_cons, hf]
    | some a =>
      rw [List.filterMap_cons, hf]
      simp only [Option.getD_some]
      rw [getLast?_cons_getD]

theorem foldl_assign_id_items (recs : List AttrRecord) : ∀ item : BasicItem,
    (recs.foldl AttrRecord.assign item).id = item.id ∧
      (recs.foldl AttrRecord.assign item).items = item.items := by
  induction recs with
  | nil => intro item; exact ⟨rfl, rfl⟩
  | cons r recs ih =>
    intro item
    rw [List.foldl_cons]
    obtain ⟨h1, h2⟩ := ih (AttrRecord.assign item r)
    rw [h1, h2]
    cases item
    cases r <;> first | exact ⟨rfl, rfl⟩ | (simp only [AttrRecord.assign]; split <;> exact ⟨rfl, rfl⟩)

/-- C36: `readAttr` returns on every stream whose cursor lies inside a buffer of less than
4 GiB, also when the buffer is exhausted (the item is then returned as it was), given
fuel for one round per remaining byte and that no attribute tag is 0; and on a run of
attribute records followed by a byte that is no tag it consumes exactly the run and
leaves in `destX`, `destY`, `destZ` the values of the last teleport-destination record,
in `charges` the value of the last count or charges record, in `actionId`, `uniqueId` and
`doorOrDepotId` the values of their last records, in `text` the string of the last text
record that is not empty, each field keeping its value if there is no such record;
description records change no field, and `id` and `items` are not touched. -/
theorem readAttr_terminates_and_assigns {I HS ZS : Type} (env : Env I HS ZS)
    (hz : env.AttrTagsNonZero) (hnd : env.attrTags.Nodup) (fuel : Nat) (item : BasicItem)
    (s : FileStream) (hs : s.m_pos ≤ s.m_data.length)
    (hsize : s.m_data.length + 8192 ≤ 4294967296)
    (hfuel : s.m_data.length - s.m_pos < fuel) :
    (∃ r, BasicItem.readAttr env fuel item s = .ok r) ∧
    (s.m_data.length ≤ s.m_pos →
      BasicItem.readAttr env fuel item s = .ok (item, s.back 1)) ∧
    (∀ (recs : List AttrRecord) (t : Nat) (rest : List Nat),
      (∀ r ∈ recs, r.Valid) → t ∉ env.attrTags → (s.m_nodes > 0 → t ≠ OTB.ESCAPE) →
      s.m_data.drop s.m_pos = encodeRecords env s.m_nodes recs ++ t :: rest →
      ∃ out, BasicItem.readAttr env fuel item s =
          .ok (out, { s with m_pos := s.m_pos + (encodeRecords env s.m_nodes recs).length }) ∧
        (out.destX, out.destY, out.destZ) =
          (lastRecord AttrRecord.dest? recs).getD (item.destX, item.destY, item.destZ) ∧
        out.charges = (lastRecord AttrRecord.charges? recs).getD item.charges ∧
        out.actionId = (lastRecord AttrRecord.actionId? recs).getD item.actionId ∧
        out.uniqueId = (lastRecord AttrRecord.uniqueId? recs).getD item.uniqueId ∧
        out.doorOrDepotId =
          (lastRecord AttrRecord.doorOrDepotId? recs).getD item.doorOrDepotId ∧
        out.text = (lastRecord AttrRecord.text? recs).getD item.text ∧
        out.id = item.id ∧ out.items = item.items) := by
  refine ⟨readAttr_ok env hz fuel item s hs hsize hfuel, ?_, ?_⟩
  · intro hend
    obtain ⟨fuel, rfl⟩ : ∃ k, fuel = k + 1 := ⟨fuel - 1, by omega⟩
    obtain ⟨attr, s1, e, _, _, h0⟩ := getU8_advances s hs
    obtain ⟨h0, h1⟩ := h0 hend
    subst h0 h1
    obtain ⟨z1, z2, z3, z4, z5, z6, z7, z8, z9⟩ := hz
    rw [readAttr_succ env fuel item s1 s1 0 e,
      if_neg (Ne.symm z1), if_neg (Ne.symm z2), if_neg (Ne.symm z3), if_neg (Ne.symm z4),
      if_neg (Ne.symm z5), if_neg (Ne.symm z6), if_neg (Ne.symm z7), if_neg (Ne.symm z8),
      if_neg (Ne.symm z9)]
  · intro recs t rest hv ht hesc hd
    have hlen : recs.length < fuel := by
      have h1 := encodeRecords_length_ge env s.m_nodes recs
      have h2 := congrArg List.length hd
      rw [List.length_drop, List.length_append, List.length_cons] at h2
      omega
    refine ⟨recs.foldl AttrRecord.assign item,
      readAttr_records env hnd recs fuel item s t rest hv (by omega) ht hesc hd hlen,
      ?_, ?_, ?_, ?_, ?_, ?_, (foldl_assign_id_items recs item).1,
      (foldl_assign_id_items recs item).2⟩
    · exact foldl_assign_last AttrRecord.dest? (fun it => (it.destX, it.destY, it.destZ))
        (fun it r => by cases it; cases r <;>
          first | rfl | (simp only [AttrRecord.assign]; split <;> rfl)) recs item
    · exact foldl_assign_last AttrRecord.charges? BasicItem.charges
        (fun it r => by cases it; cases r <;>
          first | rfl | (simp only [AttrRecord.assign]; split <;> rfl)) recs item
    · exact foldl_assign_last AttrRecord.actionId? BasicItem.actionId
        (fun it r => by cases it; cases r <;>
          first | rfl | (simp only [AttrRecord.assign]; split <;> rfl)) recs item
    · exact foldl_assign_last AttrRecord.uniqueId? BasicItem.uniqueId
        (fun it r => by cases it; cases r <;>
          first | rfl | (simp only [AttrRecord.assign]; split <;> rfl)) recs item
    · exact foldl_assign_last AttrRecord.doorOrDepotId? BasicItem.doorOrDepotId
        (fun it r => by cases it; cases r <;>
          first | rfl | (simp only [AttrRecord.assign]; split <;> rfl)) recs item
    · exact foldl_assign_last AttrRecord.text? BasicItem.text
        (fun it r => by cases it; cases r <;>
          first | rfl | (simp only [AttrRecord.assign, AttrRecord.text?]; split <;> rfl))
        recs item

theorem readAttr_terminates_and_assigns_witness :
    (∃ r, BasicItem.readAttr sampleEnv 13 BasicItem.fresh
      ⟨1, 0, [8, 232, 3, 208, 7, 7, 6, 2, 0, 104, 105, 255]⟩ = .ok r) ∧
    encodeRecords sampleEnv 1 [.teleDest 1000 2000 7, .text [104, 105]] ++ [255] =
      [8, 232, 3, 208, 7, 7, 6, 2, 0, 104, 105, 255] ∧
    BasicItem.readAttr sampleEnv 13 BasicItem.fresh
        ⟨1, 0, [8, 232, 3, 208, 7, 7, 6, 2, 0, 104, 105, 255]⟩ =
      .ok (BasicItem.mk [104, 105] 0 0 0 0 1000 2000 0 7 [],
        ⟨1, 11, [8, 232, 3, 208, 7, 7, 6, 2, 0, 104, 105, 255]⟩) :=
  ⟨(readAttr_terminates_and_assigns sampleEnv
      (by simp [Env.AttrTagsNonZero, sampleEnv]) (by decide) 13 BasicItem.fresh
      ⟨1, 0, [8, 232, 3, 208, 7, 7, 6, 2, 0, 104, 105, 255]⟩ (by decide) (by decide)
      (by decide)).1, by decide, rfl⟩

/-! ### The samples of `checkSightLine` -/

theorem sightRow_eq_samples {T : Type} (w : SightMap T) (delta y z : Nat) :
    ∀ n x, sightRow w delta y z n x = !(rowSamples delta y z n x).any w.blocksSample := by
  intro n
  induction n with
  | zero => intro x; rfl
  | succ n ih =>
    intro x
    unfold sightRow rowSamples
    by_cases hn : 0 < n
    · rw [if_pos hn, if_pos hn, List.any_cons, ih]
      by_cases hb : w.blocksAt ((x + delta) % 65536) y z = true
      · simp [SightMap.blocksSample, hb]
      · simp [SightMap.blocksSample, hb]
    · rw [if_neg hn, if_neg hn]; rfl

theorem sightColumn_eq_samples {T : Type} (w : SightMap T) (delta x z : Nat) :
    ∀ n y, sightColumn w delta x z n y =
      !(columnSamples delta x z n y).any w.blocksSample := by
  intro n
  induction n with
  | zero => intro y; rfl
  | succ n ih =>
    intro y
    unfold sightColumn columnSamples
    by_cases hn : 0 < n
    · rw [if_pos hn, if_pos hn, List.any_cons, ih]
      by_cases hb : w.blocksAt x ((y + delta) % 65536) z = true
      · simp [SightMap.blocksSample, hb]
      · simp [SightMap.blocksSample, hb]
    · rw [if_neg hn, if_neg hn]; rfl

theorem sightSteep_eq_samples {T : Type} (w : SightMap T) (eAdj deltaX : Nat)
    (destination : Position) (z : Nat) (hd : destination.y < 65536) :
    ∀ n eAcc x y, destination.y = y + n →
      sightSteep w eAdj deltaX destination z n eAcc x y =
        !(steepSamples eAdj deltaX z n eAcc x y).any w.blocksSample := by
  intro n
  induction n with
  | zero => intro eAcc x y _; rfl
  | succ n ih =>
    intro eAcc x y hy
    unfold sightSteep steepSamples
    by_cases hn : 0 < n
    · rw [if_pos hn, if_pos hn]
      simp only [List.any_cons]
      have hmod : (y + 1) % 65536 = y + 1 := Nat.mod_eq_of_lt (by omega)
      rw [ih _ _ _ (by rw [hmod]; omega)]
      by_cases hb : w.blocksAt ((x + if (eAcc + eAdj) % 65536 ≤ eAcc then deltaX else 0) % 65536)
          ((y + 1) % 65536) z = true
      · rw [if_pos hb]
        have hfar : Position.areInRange 1 1 ⟨x, y, z⟩ destination = false := by
          simp only [Position.areInRange, Position.getDistanceX, Position.getDistanceY,
            Position.getOffsetX, Position.getOffsetY, Bool.and_eq_false_imp, decide_eq_true_eq,
            decide_eq_false_iff_not]
          intro _
          rw [hy]
          push_cast
          rw [abs_of_nonpos (by omega)]
          omega
        rw [hfar]
        simp [SightMap.blocksSample, hb]
      · rw [if_neg hb]
        simp [SightMap.blocksSample, hb]
    · rw [if_neg hn, if_neg hn]; rfl

theorem sightShallow_eq_samples {T : Type} (w : SightMap T) (eAdj deltaY : Nat)
    (destination : Position) (z : Nat) (hd : destination.x < 65536) :
    ∀ n eAcc x y, destination.x = x + n →
      sightShallow w eAdj deltaY destination z n eAcc x y =
        !(shallowSamples eAdj deltaY z n eAcc x y).any w.blocksSample := by
  intro n
  induction n with
  | zero => intro eAcc x y _; rfl
  | succ n ih =>
    intro eAcc x y hx
    unfold sightShallow shallowSamples
    by_cases hn : 0 < n
    · rw [if_pos hn, if_pos hn]
      simp only [List.any_cons]
      have hmod : (x + 1) % 65536 = x + 1 := Nat.mod_eq_of_lt (by omega)
      rw [ih _ _ _ (by rw [hmod]; omega)]
      by_cases hb : w.blocksAt ((x + 1) % 65536)
          ((y + if (eAcc + eAdj) % 65536 ≤ eAcc then deltaY else 0) % 65536) z = true
      · rw [if_pos hb]
        have hfar : Position.areInRange 1 1 ⟨x, y, z⟩ destination = false := by
          simp only [Position.areInRange, Position.getDistanceX, Position.getDistanceY,
            Position.getOffsetX, Position.getOffsetY, Bool.and_eq_false_imp, decide_eq_true_eq,
            decide_eq_false_iff_not]
          intro h
          exfalso
          rw [hx] at h
          push_cast at h
          rw [abs_of_nonpos (by omega)] at h
          omega
        rw [hfar]
        simp [SightMap.blocksSample, hb]
      · rw [if_neg hb]
        simp [SightMap.blocksSample, hb]
    · rw [if_neg hn, if_neg hn]; rfl

theorem distance_toNat (a b : Nat) : (|(a : Int) - (b : Int)|).toNat = max a b - min a b := by
  rcases Nat.le_total a b with h | h
  · rw [abs_of_nonpos (by omega), Nat.max_eq_right h, Nat.min_eq_left h]
    omega
  · rw [abs_of_nonneg (by omega), Nat.max_eq_left h, Nat.min_eq_right h]
    omega

theorem checkSightLine_eq_samples {T : Type} (w : SightMap T) (a b : Position)
    (hax : a.x < 65536) (hay : a.y < 65536) (hbx : b.x < 65536) (hby : b.y < 65536) :
    checkSightLine w a b = !(sightSamples a b).any w.blocksSample := by
  unfold checkSightLine sightSamples
  simp only [Position.getDistanceX, Position.getDistanceY, Position.getOffsetX,
    Position.getOffsetY, distance_toNat]
  by_cases h1 : a.x = b.x ∧ a.y = b.y
  · rw [if_pos h1, if_pos h1]; rfl
  rw [if_neg h1, if_neg h1]
  by_cases h2 : a.y = b.y
  · rw [if_pos h2, if_pos h2]
    exact sightRow_eq_samples w _ _ _ _ _
  rw [if_neg h2, if_neg h2]
  by_cases h3 : a.x = b.x
  · rw [if_pos h3, if_pos h3]
    exact sightColumn_eq_samples w _ _ _ _ _
  rw [if_neg h3, if_neg h3]
  by_cases h4 : max a.y b.y - min a.y b.y > max a.x b.x - min a.x b.x
  · rw [if_pos h4, if_pos h4]
    by_cases h5 : a.y > b.y
    · simp only [if_pos h5]
      refine sightSteep_eq_samples w _ _ ⟨a.x, a.y, b.z⟩ _ hay _ _ _ _ ?_
      rw [Nat.max_eq_left (by omega), Nat.min_eq_right (by omega)]
      simp only []
      omega
    · simp only [if_neg h5]
      refine sightSteep_eq_samples w _ _ _ _ hby _ _ _ _ ?_
      rw [Nat.max_eq_right (by omega), Nat.min_eq_left (by omega)]
      omega
  · rw [if_neg h4, if_neg h4]
    by_cases h5 : a.x > b.x
    · simp only [if_pos h5]
      refine sightShallow_eq_samples w _ _ ⟨a.x, a.y, b.z⟩ _ hax _ _ _ _ ?_
      rw [Nat.max_eq_left (by omega), Nat.min_eq_right (by omega)]
      simp only []
      omega
    · simp only [if_neg h5]
      refine sightShallow_eq_samples w _ _ _ _ hbx _ _ _ _ ?_
      rw [Nat.max_eq_right (by omega), Nat.min_eq_left (by omega)]
      omega

theorem rowSamples_east (y z : Nat) : ∀ n x, x + n ≤ 65536 →
    rowSamples 1 y z n x = (List.range' (x + 1) (n - 1)).map (fun i => (i, y, z)) := by
  intro n
  induction n with
  | zero => intro x _; rfl
  | succ n ih =>
    intro x hx
    unfold rowSamples
    by_cases hn : 0 < n
    · rw [if_pos hn, Nat.mod_eq_of_lt (by omega), ih (x + 1) (by omega)]
      obtain ⟨k, rfl⟩ : ∃ k, n = k + 1 := ⟨n - 1, by omega⟩
      simp [List.range'_succ]
    · have : n = 0 := by omega
      subst this
      rfl

theorem rowSamples_west (y z : Nat) : ∀ n x, n ≤ x → x < 65536 →
    rowSamples 65535 y z n x =
      ((List.range' (x + 1 - n) (n - 1)).reverse).map (fun i => (i, y, z)) := by
  intro n
  induction n with
  | zero => intro x _ _; rfl
  | succ n ih =>
    intro x hn1 hx
    unfold rowSamples
    by_cases hn : 0 < n
    · have hm : (x + 65535) % 65536 = x - 1 := by omega
      rw [if_pos hn, hm, ih (x - 1) (by omega) (by omega)]
      obtain ⟨k, rfl⟩ : ∃ k, n = k + 1 := ⟨n - 1, by omega⟩
      have e1 : x - 1 + 1 - (k + 1) = x + 1 - (k + 1 + 1) := by omega
      have e2 : k + 1 + 1 - 1 = k + 1 := rfl
      have e3 : k + 1 - 1 = k := rfl
      rw [e1, e2, e3, List.range'_concat, List.reverse_append, List.map_append]
      simp only [List.reverse_cons, List.reverse_nil, List.nil_append, List.map_cons,
        List.map_nil, List.singleton_append, Nat.mul_one]
      have e4 : x + 1 - (k + 1 + 1) + 1 * k = x - 1 := by omega
      rw [e4]
    · have : n = 0 := by omega
      subst this
      rfl

theorem columnSamples_south (x z : Nat) : ∀ n y, y + n ≤ 65536 →
    columnSamples 1 x z n y = (List.range' (y + 1) (n - 1)).map (fun i => (x, i, z)) := by
  intro n
  induction n with
  | zero => intro y _; rfl
  | succ n ih =>
    intro y hy
    unfold columnSamples
    by_cases hn : 0 < n
    · rw [if_pos hn, Nat.mod_eq_of_lt (by omega), ih (y + 1) (by omega)]
      obtain ⟨k, rfl⟩ : ∃ k, n = k + 1 := ⟨n - 1, by omega⟩
      simp [List.range'_succ]
    · have : n = 0 := by omega
      subst this
      rfl

theorem columnSamples_north (x z : Nat) : ∀ n y, n ≤ y → y < 65536 →
    columnSamples 65535 x z n y =
      ((List.range' (y + 1 - n) (n - 1)).reverse).map (fun i => (x, i, z)) := by
  intro n
  induction n with
  | zero => intro y _ _; rfl
  | succ n ih =>
    intro y hn1 hy
    unfold columnSamples
    by_cases hn : 0 < n
    · have hm : (y + 65535) % 65536 = y - 1 := by omega
      rw [if_pos hn, hm, ih (y - 1) (by omega) (by omega)]
      obtain ⟨k, rfl⟩ : ∃ k, n = k + 1 := ⟨n - 1, by omega⟩
      have e1 : y - 1 + 1 - (k + 1) = y + 1 - (k + 1 + 1) := by omega
      have e2 : k + 1 + 1 - 1 = k + 1 := rfl
      have e3 : k + 1 - 1 = k := rfl
      rw [e1, e2, e3, List.range'_concat, List.reverse_append, List.map_append]
      simp only [List.reverse_cons, List.reverse_nil, List.nil_append, List.map_cons,
        List.map_nil, List.singleton_append, Nat.mul_one]
      have e4 : y + 1 - (k + 1 + 1) + 1 * k = y - 1 := by omega
      rw [e4]
    · have : n = 0 := by omega
      subst this
      rfl

theorem steepSamples_rows (eAdj deltaX z : Nat) : ∀ n eAcc x y, y + n ≤ 65536 →
    (steepSamples eAdj deltaX z n eAcc x y).map (fun t => t.2.1) =
        List.range' (y + 1) (n - 1) ∧
      ∀ t ∈ steepSamples eAdj deltaX z n eAcc x y, t.2.2 = z := by
  intro n
  induction n with
  | zero => intro eAcc x y _; exact ⟨rfl, fun t h => by cases h⟩
  | succ n ih =>
    intro eAcc x y hy
    unfold steepSamples
    by_cases hn : 0 < n
    · rw [if_pos hn]
      simp only [List.map_cons, List.mem_cons]
      rw [Nat.mod_eq_of_lt (show y + 1 < 65536 by omega)]
      obtain ⟨h1, h2⟩ := ih ((eAcc + eAdj) % 65536)
        ((x + if (eAcc + eAdj) % 65536 ≤ eAcc then deltaX else 0) % 65536) (y + 1) (by omega)
      refine ⟨?_, ?_⟩
      · rw [h1]
        obtain ⟨k, rfl⟩ : ∃ k, n = k + 1 := ⟨n - 1, by omega⟩
        simp [List.range'_succ]
      · rintro t (rfl | ht)
        · rfl
        · exact h2 t ht
    · have : n = 0 := by omega
      subst this
      exact ⟨rfl, fun t h => by simp at h⟩

theorem shallowSamples_columns (eAdj deltaY z : Nat) : ∀ n eAcc x y, x + n ≤ 65536 →
    (shallowSamples eAdj deltaY z n eAcc x y).map (fun t => t.1) =
        List.range' (x + 1) (n - 1) ∧
      ∀ t ∈ shallowSamples eAdj deltaY z n eAcc x y, t.2.2 = z := by
  intro n
  induction n with
  | zero => intro eAcc x y _; exact ⟨rfl, fun t h => by cases h⟩
  | succ n ih =>
    intro eAcc x y hx
    unfold shallowSamples
    by_cases hn : 0 < n
    · rw [if_pos hn]
      simp only [List.map_cons, List.mem_cons]
      rw [Nat.mod_eq_of_lt (show x + 1 < 65536 by omega)]
      obtain ⟨h1, h2⟩ := ih ((eAcc + eAdj) % 65536) (x + 1)
        ((y + if (eAcc + eAdj) % 65536 ≤ eAcc then deltaY else 0) % 65536) (by omega)
      refine ⟨?_, ?_⟩
      · rw [h1]
        obtain ⟨k, rfl⟩ : ∃ k, n = k + 1 := ⟨n - 1, by omega⟩
        simp [List.range'_succ]
      · rintro t (rfl | ht)
        · rfl
        · exact h2 t ht
    · have : n = 0 := by omega
      subst this
      exact ⟨rfl, fun t h => by simp at h⟩

theorem sightSamples_row (a b : Position) (hy : a.y = b.y) (hx : a.x ≠ b.x)
    (hax : a.x < 65536) (hbx : b.x < 65536) :
    sightSamples a b =
      if a.x < b.x then (List.range' (a.x + 1) (b.x - a.x - 1)).map (fun i => (i, a.y, a.z))
      else ((List.range' (b.x + 1) (a.x - b.x - 1)).reverse).map (fun i => (i, a.y, a.z)) := by
  unfold sightSamples
  simp only [Position.getDistanceX, Position.getDistanceY, Position.getOffsetX,
    Position.getOffsetY, distance_toNat]
  rw [if_neg (fun h => hx h.1), if_pos hy]
  by_cases h : a.x < b.x
  · rw [if_pos h, if_pos h, Nat.max_eq_right (by omega), Nat.min_eq_left (by omega),
      rowSamples_east _ _ _ _ (by omega)]
  · rw [if_neg h, if_neg h, Nat.max_eq_left (by omega), Nat.min_eq_right (by omega),
      rowSamples_west _ _ _ _ (by omega) hax]
    have e : a.x + 1 - (a.x - b.x) = b.x + 1 := by omega
    rw [e]

theorem sightSamples_column (a b : Position) (hx : a.x = b.x) (hy : a.y ≠ b.y)
    (hay : a.y < 65536) (hby : b.y < 65536) :
    sightSamples a b =
      if a.y < b.y then (List.range' (a.y + 1) (b.y - a.y - 1)).map (fun i => (a.x, i, a.z))
      else ((List.range' (b.y + 1) (a.y - b.y - 1)).reverse).map (fun i => (a.x, i, a.z)) := by
  unfold sightSamples
  simp only [Position.getDistanceX, Position.getDistanceY, Position.getOffsetX,
    Position.getOffsetY, distance_toNat]
  rw [if_neg (fun h => hy h.2), if_neg hy, if_pos hx]
  by_cases h : a.y < b.y
  · rw [if_pos h, if_pos h, Nat.max_eq_right (by omega), Nat.min_eq_left (by omega),
      columnSamples_south _ _ _ _ (by omega)]
  · rw [if_neg h, if_neg h, Nat.max_eq_left (by omega), Nat.min_eq_right (by omega),
      columnSamples_north _ _ _ _ (by omega) hay]
    have e : a.y + 1 - (a.y - b.y) = b.y + 1 := by omega
    rw [e]

theorem sightSamples_steep (a b : Position) (hx : a.x ≠ b.x) (hy : a.y ≠ b.y)
    (hd : max a.y b.y - min a.y b.y > max a.x b.x - min a.x b.x)
    (hay : a.y < 65536) (hby : b.y < 65536) :
    (sightSamples a b).map (fun t => t.2.1) =
        List.range' (min a.y b.y + 1) (max a.y b.y - min a.y b.y - 1) ∧
      ∀ t ∈ sightSamples a b, t.2.2 = a.z := by
  unfold sightSamples
  simp only [Position.getDistanceX, Position.getDistanceY, Position.getOffsetX,
    Position.getOffsetY, distance_toNat]
  rw [if_neg (fun h => hx h.1), if_neg hy, if_neg hx, if_pos hd]
  by_cases h : a.y > b.y
  · simp only [if_pos h]
    have := steepSamples_rows
      (((max a.x b.x - min a.x b.x) <<< 16 % 4294967296 / (max a.y b.y - min a.y b.y)) % 65536)
      (if b.x > a.x then 65535 else 1) a.z (max a.y b.y - min a.y b.y)
      (if b.x > a.x then (0 + 65536 -
        ((max a.x b.x - min a.x b.x) <<< 16 % 4294967296 / (max a.y b.y - min a.y b.y)) %
          65536) % 65536 else 0) b.x b.y
      (by rw [Nat.max_eq_left (by omega), Nat.min_eq_right (by omega)]; omega)
    rw [Nat.min_eq_right (show b.y ≤ a.y by omega)] at this ⊢
    exact this
  · simp only [if_neg h]
    have := steepSamples_rows
      (((max a.x b.x - min a.x b.x) <<< 16 % 4294967296 / (max a.y b.y - min a.y b.y)) % 65536)
      (if a.x > b.x then 65535 else 1) a.z (max a.y b.y - min a.y b.y)
      (if a.x > b.x then (0 + 65536 -
        ((max a.x b.x - min a.x b.x) <<< 16 % 4294967296 / (max a.y b.y - min a.y b.y)) %
          65536) % 65536 else 0) a.x a.y
      (by rw [Nat.max_eq_right (by omega), Nat.min_eq_left (by omega)]; omega)
    rw [Nat.min_eq_left (show a.y ≤ b.y by omega)] at this ⊢
    exact this

theorem sightSamples_shallow (a b : Position) (hx : a.x ≠ b.x) (hy : a.y ≠ b.y)
    (hd : ¬ max a.y b.y - min a.y b.y > max a.x b.x - min a.x b.x)
    (hax : a.x < 65536) (hbx : b.x < 65536) :
    (sightSamples a b).map (fun t => t.1) =
        List.range' (min a.x b.x + 1) (max a.x b.x - min a.x b.x - 1) ∧
      ∀ t ∈ sightSamples a b, t.2.2 = a.z := by
  unfold sightSamples
  simp only [Position.getDistanceX, Position.getDistanceY, Position.getOffsetX,
    Position.getOffsetY, distance_toNat]
  rw [if_neg (fun h => hx h.1), if_neg hy, if_neg hx, if_neg hd]
  by_cases h : a.x > b.x
  · simp only [if_pos h]
    have := shallowSamples_columns
      (((max a.y b.y - min a.y b.y) <<< 16 % 4294967296 / (max a.x b.x - min a.x b.x)) % 65536)
      (if b.y > a.y then 65535 else 1) a.z (max a.x b.x - min a.x b.x)
      (if b.y > a.y then (0 + 65536 -
        ((max a.y b.y - min a.y b.y) <<< 16 % 4294967296 / (max a.x b.x - min a.x b.x)) %
          65536) % 65536 else 0) b.x b.y
      (by rw [Nat.max_eq_left (by omega), Nat.min_eq_right (by omega)]; omega)
    rw [Nat.min_eq_right (show b.x ≤ a.x by omega)] at this ⊢
    exact this
  · simp only [if_neg h]
    have := shallowSamples_columns
      (((max a.y b.y - min a.y b.y) <<< 16 % 4294967296 / (max a.x b.x - min a.x b.x)) % 65536)
      (if a.y > b.y then 65535 else 1) a.z (max a.x b.x - min a.x b.x)
      (if a.y > b.y then (0 + 65536 -
        ((max a.y b.y - min a.y b.y) <<< 16 % 4294967296 / (max a.x b.x - min a.x b.x)) %
          65536) % 65536 else 0) a.x a.y
      (by rw [Nat.max_eq_right (by omega), Nat.min_eq_left (by omega)]; omega)
    rw [Nat.min_eq_left (show a.x ≤ b.x by omega)] at this ⊢
    exact this

theorem sightSamples_same (a b : Position) (h : a.x = b.x ∧ a.y = b.y) :
    sightSamples a b = [] := by
  unfold sightSamples
  rw [if_pos h]

theorem mem_row_samples (lo n y z : Nat) (t : Nat × Nat × Nat) :
    t ∈ (List.range' lo n).map (fun i => (i, y, z)) ↔
      t.2.1 = y ∧ t.2.2 = z ∧ lo ≤ t.1 ∧ t.1 < lo + n := by
  simp only [List.mem_map, List.mem_range'_1]
  constructor
  · rintro ⟨i, ⟨h1, h2⟩, rfl⟩
    exact ⟨rfl, rfl, h1, h2⟩
  · rintro ⟨h1, h2, h3, h4⟩
    exact ⟨t.1, ⟨h3, h4⟩, by rw [← h1, ← h2]⟩

theorem mem_column_samples (lo n x z : Nat) (t : Nat × Nat × Nat) :
    t ∈ (List.range' lo n).map (fun i => (x, i, z)) ↔
      t.1 = x ∧ t.2.2 = z ∧ lo ≤ t.2.1 ∧ t.2.1 < lo + n := by
  simp only [List.mem_map, List.mem_range'_1]
  constructor
  · rintro ⟨i, ⟨h1, h2⟩, rfl⟩
    exact ⟨rfl, rfl, h1, h2⟩
  · rintro ⟨h1, h2, h3, h4⟩
    exact ⟨t.2.1, ⟨h3, h4⟩, by rw [← h1, ← h2]⟩

theorem sightSamples_row_mem (a b : Position) (hy : a.y = b.y)
    (hax : a.x < 65536) (hbx : b.x < 65536) (t : Nat × Nat × Nat) :
    t ∈ sightSamples a b ↔
      t.2.1 = a.y ∧ t.2.2 = a.z ∧ min a.x b.x < t.1 ∧ t.1 < max a.x b.x := by
  by_cases hx : a.x = b.x
  · rw [sightSamples_same a b ⟨hx, hy⟩, hx]
    simp only [List.not_mem_nil, min_self, max_self, false_iff]
    omega
  · rw [sightSamples_row a b hy hx hax hbx]
    by_cases h : a.x < b.x
    · rw [if_pos h, mem_row_samples, Nat.min_eq_left (by omega), Nat.max_eq_right (by omega)]
      constructor
      · rintro ⟨h1, h2, h3, h4⟩; exact ⟨h1, h2, by omega, by omega⟩
      · rintro ⟨h1, h2, h3, h4⟩; exact ⟨h1, h2, by omega, by omega⟩
    · rw [if_neg h, List.map_reverse, List.mem_reverse, mem_row_samples,
        Nat.min_eq_right (by omega), Nat.max_eq_left (by omega)]
      constructor
      · rintro ⟨h1, h2, h3, h4⟩; exact ⟨h1, h2, by omega, by omega⟩
      · rintro ⟨h1, h2, h3, h4⟩; exact ⟨h1, h2, by omega, by omega⟩

theorem sightSamples_column_mem (a b : Position) (hx : a.x = b.x)
    (hay : a.y < 65536) (hby : b.y < 65536) (t : Nat × Nat × Nat) :
    t ∈ sightSamples a b ↔
      t.1 = a.x ∧ t.2.2 = a.z ∧ min a.y b.y < t.2.1 ∧ t.2.1 < max a.y b.y := by
  by_cases hy : a.y = b.y
  · rw [sightSamples_same a b ⟨hx, hy⟩, hy]
    simp only [List.not_mem_nil, min_self, max_self, false_iff]
    omega
  · rw [sightSamples_column a b hx hy hay hby]
    by_cases h : a.y < b.y
    · rw [if_pos h, mem_column_samples, Nat.min_eq_left (by omega),
        Nat.max_eq_right (by omega)]
      constructor
      · rintro ⟨h1, h2, h3, h4⟩; exact ⟨h1, h2, by omega, by omega⟩
      · rintro ⟨h1, h2, h3, h4⟩; exact ⟨h1, h2, by omega, by omega⟩
    · rw [if_neg h, List.map_reverse, List.mem_reverse, mem_column_samples,
        Nat.min_eq_right (by omega), Nat.max_eq_left (by omega)]
      constructor
      · rintro ⟨h1, h2, h3, h4⟩; exact ⟨h1, h2, by omega, by omega⟩
      · rintro ⟨h1, h2, h3, h4⟩; exact ⟨h1, h2, by omega, by omega⟩

theorem sightSamples_length (a b : Position)
    (hax : a.x < 65536) (hay : a.y < 65536) (hbx : b.x < 65536) (hby : b.y < 65536) :
    (sightSamples a b).length =
      max (max a.x b.x - min a.x b.x) (max a.y b.y - min a.y b.y) - 1 := by
  by_cases hy : a.y = b.y
  · by_cases hx : a.x = b.x
    · rw [sightSamples_same a b ⟨hx, hy⟩, hx, hy]
      simp
    · rw [sightSamples_row a b hy hx hax hbx, hy]
      by_cases h : a.x < b.x
      · rw [if_pos h, List.length_map, List.length_range', Nat.max_eq_right (Nat.le_of_lt h),
          Nat.min_eq_left (Nat.le_of_lt h)]
        simp
      · rw [if_neg h, List.length_map, List.length_reverse, List.length_range',
          Nat.max_eq_left (show b.x ≤ a.x by omega), Nat.min_eq_right (show b.x ≤ a.x by omega)]
        simp
  · by_cases hx : a.x = b.x
    · rw [sightSamples_column a b hx hy hay hby, hx]
      by_cases h : a.y < b.y
      · rw [if_pos h, List.length_map, List.length_range', Nat.max_eq_right (Nat.le_of_lt h),
          Nat.min_eq_left (Nat.le_of_lt h)]
        simp
      · rw [if_neg h, List.length_map, List.length_reverse, List.length_range',
          Nat.max_eq_left (show b.y ≤ a.y by omega), Nat.min_eq_right (show b.y ≤ a.y by omega)]
        simp
    · by_cases hd : max a.y b.y - min a.y b.y > max a.x b.x - min a.x b.x
      · have := congrArg List.length (sightSamples_steep a b hx hy hd hay hby).1
        rw [List.length_map, List.length_range'] at this
        rw [this, Nat.max_eq_right (Nat.le_of_lt hd)]
      · have := congrArg List.length (sightSamples_shallow a b hx hy hd hax hbx).1
        rw [List.length_map, List.length_range'] at this
        rw [this, Nat.max_eq_left (Nat.le_of_not_lt hd)]

theorem sightSamples_nodup (a b : Position)
    (hax : a.x < 65536) (hay : a.y < 65536) (hbx : b.x < 65536) (hby : b.y < 65536) :
    (sightSamples a b).Nodup := by
  have inj1 : ∀ y z : Nat, Function.Injective (fun i : Nat => (i, y, z)) :=
    fun y z i j h => (Prod.mk.inj h).1
  have inj2 : ∀ x z : Nat, Function.Injective (fun i : Nat => (x, i, z)) :=
    fun x z i j h => (Prod.mk.inj (Prod.mk.inj h).2).1
  by_cases hy : a.y = b.y
  · by_cases hx : a.x = b.x
    · rw [sightSamples_same a b ⟨hx, hy⟩]
      exact List.nodup_nil
    · rw [sightSamples_row a b hy hx hax hbx]
      split
      · exact (List.nodup_range' _ _).map (inj1 _ _)
      · exact (List.nodup_reverse.2 (List.nodup_range' _ _)).map (inj1 _ _)
  · by_cases hx : a.x = b.x
    · rw [sightSamples_column a b hx hy hay hby]
      split
      · exact (List.nodup_range' _ _).map (inj2 _ _)
      · exact (List.nodup_reverse.2 (List.nodup_range' _ _)).map (inj2 _ _)
    · by_cases hd : max a.y b.y - min a.y b.y > max a.x b.x - min a.x b.x
      · have := (sightSamples_steep a b hx hy hd hay hby).1
        exact List.Nodup.of_map _ (by rw [this]; exact List.nodup_range' _ _)
      · have := (sightSamples_shallow a b hx hy hd hax hbx).1
        exact List.Nodup.of_map _ (by rw [this]; exact List.nodup_range' _ _)

theorem sightSamples_inner (a b : Position)
    (hax : a.x < 65536) (hay : a.y < 65536) (hbx : b.x < 65536) (hby : b.y < 65536) :
    ∀ t ∈ sightSamples a b,
      t.2.2 = a.z ∧ (t.1, t.2.1) ≠ (a.x, a.y) ∧ (t.1, t.2.1) ≠ (b.x, b.y) := by
  intro t ht
  by_cases hy : a.y = b.y
  · obtain ⟨h1, h2, h3, h4⟩ := (sightSamples_row_mem a b hy hax hbx t).1 ht
    refine ⟨h2, fun h => ?_, fun h => ?_⟩
    · have := (Prod.mk.inj h).1
      omega
    · have := (Prod.mk.inj h).1
      omega
  · by_cases hx : a.x = b.x
    · obtain ⟨h1, h2, h3, h4⟩ := (sightSamples_column_mem a b hx hay hby t).1 ht
      refine ⟨h2, fun h => ?_, fun h => ?_⟩
      · have := (Prod.mk.inj h).2
        omega
      · have := (Prod.mk.inj h).2
        omega
    · by_cases hd : max a.y b.y - min a.y b.y > max a.x b.x - min a.x b.x
      · obtain ⟨h1, h2⟩ := sightSamples_steep a b hx hy hd hay hby
        have hm : t.2.1 ∈ (sightSamples a b).map (fun t => t.2.1) :=
          List.mem_map.2 ⟨t, ht, rfl⟩
        rw [h1, List.mem_range'_1] at hm
        refine ⟨h2 t ht, fun h => ?_, fun h => ?_⟩
        · have := (Prod.mk.inj h).2
          omega
        · have := (Prod.mk.inj h).2
          omega
      · obtain ⟨h1, h2⟩ := sightSamples_shallow a b hx hy hd hax hbx
        have hm : t.1 ∈ (sightSamples a b).map (fun t => t.1) :=
          List.mem_map.2 ⟨t, ht, rfl⟩
        rw [h1, List.mem_range'_1] at hm
        refine ⟨h2 t ht, fun h => ?_, fun h => ?_⟩
        · have := (Prod.mk.inj h).1
          omega
        · have := (Prod.mk.inj h).1
          omega

/-- C34: for positions with 16-bit coordinates `checkSightLine` returns false exactly when
one of the tiles it samples blocks projectiles, so the adjacency exception inside the
diagonal loops never decides the result; for two positions of one row, or of one column,
the samples are exactly the coordinates strictly between them, on the level of the
start; in every case there are as many samples as the larger of the two axis distances
less one, no coordinate is sampled twice, and in the diagonal cases the samples take the
coordinates of the dominant axis strictly between the end points once each, in order;
no sample has the planar coordinates of the start or of the destination. -/
theorem checkSightLine_samples_between {T : Type} (w : SightMap T) (a b : Position)
    (hax : a.x < 65536) (hay : a.y < 65536) (hbx : b.x < 65536) (hby : b.y < 65536) :
    (checkSightLine w a b = false ↔ ∃ t ∈ sightSamples a b, w.blocksSample t = true) ∧
    (a.y = b.y → ∀ t, t ∈ sightSamples a b ↔
      t.2.1 = a.y ∧ t.2.2 = a.z ∧ min a.x b.x < t.1 ∧ t.1 < max a.x b.x) ∧
    (a.x = b.x → ∀ t, t ∈ sightSamples a b ↔
      t.1 = a.x ∧ t.2.2 = a.z ∧ min a.y b.y < t.2.1 ∧ t.2.1 < max a.y b.y) ∧
    (sightSamples a b).length =
      max (max a.x b.x - min a.x b.x) (max a.y b.y - min a.y b.y) - 1 ∧
    (sightSamples a b).Nodup ∧
    (a.x ≠ b.x → a.y ≠ b.y → max a.y b.y - min a.y b.y > max a.x b.x - min a.x b.x →
      (sightSamples a b).map (fun t => t.2.1) =
        List.range' (min a.y b.y + 1) (max a.y b.y - min a.y b.y - 1)) ∧
    (a.x ≠ b.x → a.y ≠ b.y → max a.y b.y - min a.y b.y ≤ max a.x b.x - min a.x b.x →
      (sightSamples a b).map (fun t => t.1) =
        List.range' (min a.x b.x + 1) (max a.x b.x - min a.x b.x - 1)) ∧
    (∀ t ∈ sightSamples a b,
      t.2.2 = a.z ∧ (t.1, t.2.1) ≠ (a.x, a.y) ∧ (t.1, t.2.1) ≠ (b.x, b.y)) := by
  refine ⟨?_, fun hy t => sightSamples_row_mem a b hy hax hbx t,
    fun hx t => sightSamples_column_mem a b hx hay hby t,
    sightSamples_length a b hax hay hbx hby, sightSamples_nodup a b hax hay hbx hby,
    fun hx hy hd => (sightSamples_steep a b hx hy hd hay hby).1,
    fun hx hy hd => (sightSamples_shallow a b hx hy (Nat.not_lt.2 hd) hax hbx).1,
    sightSamples_inner a b hax hay hbx hby⟩
  rw [checkSightLine_eq_samples w a b hax hay hbx hby]
  simp only [Bool.not_eq_false', List.any_eq_true]

theorem checkSightLine_samples_between_witness :
    (checkSightLine sampleSightMap ⟨100, 100, 7⟩ ⟨104, 102, 7⟩ = false ↔
      ∃ t ∈ sightSamples ⟨100, 100, 7⟩ ⟨104, 102, 7⟩, sampleSightMap.blocksSample t = true) ∧
    sightSamples ⟨100, 100, 7⟩ ⟨104, 102, 7⟩ = [(101, 100, 7), (102, 101, 7), (103, 101, 7)] :=
  ⟨(checkSightLine_samples_between sampleSightMap ⟨100, 100, 7⟩ ⟨104, 102, 7⟩
    (by decide) (by decide) (by decide) (by decide)).1, by decide⟩

theorem sightSamples_steep_eq (a b : Position) (hx : a.x ≠ b.x) (hy : a.y ≠ b.y)
    (hd : max a.y b.y - min a.y b.y > max a.x b.x - min a.x b.x) :
    sightSamples a b =
      if a.y > b.y then
        steepSamples
          (((max a.x b.x - min a.x b.x) <<< 16 % 4294967296 / (max a.y b.y - min a.y b.y)) %
            65536)
          (if b.x > a.x then 65535 else 1) a.z (max a.y b.y - min a.y b.y)
          (if b.x > a.x then (0 + 65536 - ((max a.x b.x - min a.x b.x) <<< 16 % 4294967296 /
            (max a.y b.y - min a.y b.y)) % 65536) % 65536 else 0) b.x b.y
      else
        steepSamples
          (((max a.x b.x - min a.x b.x) <<< 16 % 4294967296 / (max a.y b.y - min a.y b.y)) %
            65536)
          (if a.x > b.x then 65535 else 1) a.z (max a.y b.y - min a.y b.y)
          (if a.x > b.x then (0 + 65536 - ((max a.x b.x - min a.x b.x) <<< 16 % 4294967296 /
            (max a.y b.y - min a.y b.y)) % 65536) % 65536 else 0) a.x a.y := by
  unfold sightSamples
  simp only [Position.getDistanceX, Position.getDistanceY, Position.getOffsetX,
    Position.getOffsetY, distance_toNat]
  rw [if_neg (fun h => hx h.1), if_neg hy, if_neg hx, if_pos hd]
  by_cases h : a.y > b.y
  · simp only [if_pos h]
  · simp only [if_neg h]

theorem sightSamples_shallow_eq (a b : Position) (hx : a.x ≠ b.x) (hy : a.y ≠ b.y)
    (hd : ¬ max a.y b.y - min a.y b.y > max a.x b.x - min a.x b.x) :
    sightSamples a b =
      if a.x > b.x then
        shallowSamples
          (((max a.y b.y - min a.y b.y) <<< 16 % 4294967296 / (max a.x b.x - min a.x b.x)) %
            65536)
          (if b.y > a.y then 65535 else 1) a.z (max a.x b.x - min a.x b.x)
          (if b.y > a.y then (0 + 65536 - ((max a.y b.y - min a.y b.y) <<< 16 % 4294967296 /
            (max a.x b.x - min a.x b.x)) % 65536) % 65536 else 0) b.x b.y
      else
        shallowSamples
          (((max a.y b.y - min a.y b.y) <<< 16 % 4294967296 / (max a.x b.x - min a.x b.x)) %
            65536)
          (if a.y > b.y then 65535 else 1) a.z (max a.x b.x - min a.x b.x)
          (if a.y > b.y then (0 + 65536 - ((max a.y b.y - min a.y b.y) <<< 16 % 4294967296 /
            (max a.x b.x - min a.x b.x)) % 65536) % 65536 else 0) a.x a.y := by
  unfold sightSamples
  simp only [Position.getDistanceX, Position.getDistanceY, Position.getOffsetX,
    Position.getOffsetY, distance_toNat]
  rw [if_neg (fun h => hx h.1), if_neg hy, if_neg hx, if_neg hd]
  by_cases h : a.x > b.x
  · simp only [if_pos h]
  · simp only [if_neg h]

theorem sightSamples_diagonal_symm (a b : Position) (hx : a.x ≠ b.x) (hy : a.y ≠ b.y)
    (hz : a.z = b.z) : sightSamples a b = sightSamples b a := by
  have cx1 := Nat.max_comm b.x a.x
  have cx2 := Nat.min_comm b.x a.x
  have cy1 := Nat.max_comm b.y a.y
  have cy2 := Nat.min_comm b.y a.y
  by_cases hd : max a.y b.y - min a.y b.y > max a.x b.x - min a.x b.x
  · rw [sightSamples_steep_eq a b hx hy hd,
      sightSamples_steep_eq b a (Ne.symm hx) (Ne.symm hy) (by rw [cx1, cx2, cy1, cy2]; exact hd),
      cx1, cx2, cy1, cy2, hz]
    by_cases h : a.y > b.y
    · rw [if_pos h, if_neg (show ¬ b.y > a.y by omega)]
    · rw [if_neg h, if_pos (show b.y > a.y by omega)]
  · rw [sightSamples_shallow_eq a b hx hy hd,
      sightSamples_shallow_eq b a (Ne.symm hx) (Ne.symm hy)
        (by rw [cx1, cx2, cy1, cy2]; exact hd),
      cx1, cx2, cy1, cy2, hz]
    by_cases h : a.x > b.x
    · rw [if_pos h, if_neg (show ¬ b.x > a.x by omega)]
    · rw [if_neg h, if_pos (show b.x > a.x by omega)]

theorem sightSamples_symm_mem (a b : Position) (hz : a.z = b.z)
    (hax : a.x < 65536) (hay : a.y < 65536) (hbx : b.x < 65536) (hby : b.y < 65536)
    (t : Nat × Nat × Nat) : t ∈ sightSamples a b ↔ t ∈ sightSamples b a := by
  by_cases hy : a.y = b.y
  · rw [sightSamples_row_mem a b hy hax hbx, sightSamples_row_mem b a hy.symm hbx hax,
      Nat.min_comm b.x a.x, Nat.max_comm b.x a.x, hy, hz]
  · by_cases hx : a.x = b.x
    · rw [sightSamples_column_mem a b hx hay hby, sightSamples_column_mem b a hx.symm hby hay,
        Nat.min_comm b.y a.y, Nat.max_comm b.y a.y, hx, hz]
    · rw [sightSamples_diagonal_symm a b hx hy hz]

/-- C38: for two positions of one level, with 16-bit coordinates, `checkSightLine` gives
the same result in both directions, and both calls sample the same set of coordinates:
the same list in the diagonal cases, where the two swaps make both calls run from the
same end, and the coordinates strictly between the two positions, in opposite order, in
a row or a column. -/
theorem checkSightLine_symmetric {T : Type} (w : SightMap T) (a b : Position)
    (hz : a.z = b.z)
    (hax : a.x < 65536) (hay : a.y < 65536) (hbx : b.x < 65536) (hby : b.y < 65536) :
    checkSightLine w a b = checkSightLine w b a ∧
    (∀ t, t ∈ sightSamples a b ↔ t ∈ sightSamples b a) ∧
    (a.x ≠ b.x → a.y ≠ b.y → sightSamples a b = sightSamples b a) := by
  refine ⟨?_, sightSamples_symm_mem a b hz hax hay hbx hby,
    fun hx hy => sightSamples_diagonal_symm a b hx hy hz⟩
  rw [checkSightLine_eq_samples w a b hax hay hbx hby,
    checkSightLine_eq_samples w b a hbx hby hax hay]
  congr 1
  rw [Bool.eq_iff_iff]
  simp only [List.any_eq_true]
  constructor
  · rintro ⟨t, ht, hb⟩
    exact ⟨t, (sightSamples_symm_mem a b hz hax hay hbx hby t).1 ht, hb⟩
  · rintro ⟨t, ht, hb⟩
    exact ⟨t, (sightSamples_symm_mem a b hz hax hay hbx hby t).2 ht, hb⟩

theorem checkSightLine_symmetric_witness :
    checkSightLine sampleSightMap ⟨100, 100, 7⟩ ⟨105, 100, 7⟩ =
      checkSightLine sampleSightMap ⟨105, 100, 7⟩ ⟨100, 100, 7⟩ ∧
    checkSightLine sampleSightMap ⟨100, 100, 7⟩ ⟨105, 100, 7⟩ = false :=
  ⟨(checkSightLine_symmetric sampleSightMap ⟨100, 100, 7⟩ ⟨105, 100, 7⟩ rfl
    (by decide) (by decide) (by decide) (by decide)).1, by decide⟩

/-! ### `getSpectators` as a filter -/

theorem getMapSector_ptr {I : Type} (S : Nat) (ms : Nat → Option (MapSector I)) (x y : Nat) :
    (getMapSector S ms x y).map (fun p => p.1) = sectorPtr ms (sectorIndex S x y) := by
  unfold getMapSector sectorPtr
  cases h : ms (sectorIndex S x y) <;> simp

theorem spectatorsRow_eq_fold {I : Type} (k : SpectatorConsts) (world : SpectatorWorld I)
    (m : Nat) (hS : 2 ≤ k.SECTOR_SIZE) (hm : 65536 = k.SECTOR_SIZE * m)
    (hlinks : SectorLinks m world.mapSectors)
    (onlyPlayers onlyMonsters onlyNpcs : Bool) (ny : Nat) (hny : ny < 65536)
    (accept : Creature → Bool) :
    ∀ (n nx : Nat) (state : List Creature × List Nat),
      (∀ i, i < n → nx + i * k.SECTOR_SIZE < 65536) →
      spectatorsRow k world onlyPlayers onlyMonsters onlyNpcs ny accept n nx
          (sectorPtr world.mapSectors (sectorIndex k.SECTOR_SIZE nx ny)) state =
        ((List.range n).map (fun i =>
          sectorPtr world.mapSectors (sectorIndex k.SECTOR_SIZE (nx + i * k.SECTOR_SIZE) ny))).foldl
          (visitSector world onlyPlayers onlyMonsters onlyNpcs accept) state := by
  intro n
  induction n with
  | zero => intro nx state _; rfl
  | succ n ih =>
    intro nx state hb
    have hnx : nx < 65536 := by simpa using hb 0 (Nat.succ_pos n)
    have heast : sectorIndex k.SECTOR_SIZE (nx + k.SECTOR_SIZE) ny =
        sectorIndex k.SECTOR_SIZE nx ny + 1 := by
      have h1 := sectorIndex_east k.SECTOR_SIZE m nx ny hS hm hnx hny
      obtain ⟨_, _, g3, _⟩ := grid_bounds k.SECTOR_SIZE m hS hm
      rw [Nat.mod_eq_of_lt (by omega)] at h1
      rw [h1, sectorIndex_eq k.SECTOR_SIZE nx ny
        (by have := div_lt_grid k.SECTOR_SIZE m nx hm hnx; omega)
        (by have := div_lt_grid k.SECTOR_SIZE m ny hm hny; omega)]
      omega
    have hrest : ∀ i, i < n → nx + k.SECTOR_SIZE + i * k.SECTOR_SIZE < 65536 := by
      intro i hi
      have := hb (i + 1) (by omega)
      rw [Nat.add_mul, Nat.one_mul] at this
      omega
    have hlist : (List.range (n + 1)).map (fun i =>
        sectorPtr world.mapSectors (sectorIndex k.SECTOR_SIZE (nx + i * k.SECTOR_SIZE) ny)) =
        sectorPtr world.mapSectors (sectorIndex k.SECTOR_SIZE nx ny) ::
          (List.range n).map (fun i => sectorPtr world.mapSectors
            (sectorIndex k.SECTOR_SIZE (nx + k.SECTOR_SIZE + i * k.SECTOR_SIZE) ny)) := by
      rw [List.range_succ_eq_map, List.map_cons, List.map_map]
      simp only [Nat.zero_mul, Nat.add_zero, List.cons.injEq, true_and]
      apply List.map_congr_left
      intro i _
      simp only [Function.comp, Nat.succ_eq_add_one, Nat.add_mul, Nat.one_mul]
      congr 2
      omega
    rw [hlist, List.foldl_cons, ← ih (nx + k.SECTOR_SIZE) _ hrest]
    cases hp : sectorPtr world.mapSectors (sectorIndex k.SECTOR_SIZE nx ny) with
    | none =>
      simp only [spectatorsRow, visitSector, getMapSector_ptr]
    | some sector =>
      obtain ⟨hkey, hsome⟩ := (sectorPtr_eq_some _ _ _).1 hp
      obtain ⟨s, hs⟩ := Option.isSome_iff_exists.1 hsome
      have hl := (hlinks _ s hs).2.2.1
      rw [hkey] at hs
      simp only [spectatorsRow, visitSector, SpectatorWorld.nodeList, hs]
      rw [hl, heast]

theorem sectorGrid_succ {I : Type} (S : Nat) (ms : Nat → Option (MapSector I))
    (nx ny columns rows : Nat) :
    sectorGrid S ms nx ny columns (rows + 1) =
      (List.range columns).map (fun i => sectorPtr ms (sectorIndex S (nx + i * S) ny)) ++
        sectorGrid S ms nx (ny + S) columns rows := by
  unfold sectorGrid
  rw [List.range_succ_eq_map, List.flatMap_cons, List.flatMap_map]
  simp only [Nat.zero_mul, Nat.add_zero, Nat.succ_eq_add_one, Nat.add_mul, Nat.one_mul]
  have e : ∀ j, ny + (j * S + S) = ny + S + j * S := fun j => by omega
  simp only [e]

theorem spectatorsRows_eq_fold {I : Type} (k : SpectatorConsts) (world : SpectatorWorld I)
    (m : Nat) (hS : 2 ≤ k.SECTOR_SIZE) (hm : 65536 = k.SECTOR_SIZE * m)
    (hlinks : SectorLinks m world.mapSectors)
    (onlyPlayers onlyMonsters onlyNpcs : Bool) (startx1 endx2 : Nat) (hx : startx1 < 65536)
    (hcols : ∀ i, i < loopRounds startx1 endx2 k.SECTOR_SIZE →
      startx1 + i * k.SECTOR_SIZE < 65536)
    (accept : Creature → Bool) :
    ∀ (n ny : Nat) (state : List Creature × List Nat),
      (∀ j, j < n → ny + j * k.SECTOR_SIZE < 65536) →
      spectatorsRows k world onlyPlayers onlyMonsters onlyNpcs startx1 endx2 accept n ny
          (sectorPtr world.mapSectors (sectorIndex k.SECTOR_SIZE startx1 ny)) state =
        (sectorGrid k.SECTOR_SIZE world.mapSectors startx1 ny
          (loopRounds startx1 endx2 k.SECTOR_SIZE) n).foldl
          (visitSector world onlyPlayers onlyMonsters onlyNpcs accept) state := by
  intro n
  induction n with
  | zero => intro ny state _; rfl
  | succ n ih =>
    intro ny state hb
    have hny : ny < 65536 := by simpa using hb 0 (Nat.succ_pos n)
    have hsouth : sectorIndex k.SECTOR_SIZE startx1 (ny + k.SECTOR_SIZE) =
        sectorIndex k.SECTOR_SIZE startx1 ny + 65536 := by
      have h1 := sectorIndex_south k.SECTOR_SIZE m startx1 ny hS hm hx hny
      obtain ⟨_, _, g3, _⟩ := grid_bounds k.SECTOR_SIZE m hS hm
      rw [Nat.mod_eq_of_lt (by omega)] at h1
      rw [h1, sectorIndex_eq k.SECTOR_SIZE startx1 ny
        (by have := div_lt_grid k.SECTOR_SIZE m startx1 hm hx; omega)
        (by have := div_lt_grid k.SECTOR_SIZE m ny hm hny; omega)]
      omega
    have hrest : ∀ j, j < n → ny + k.SECTOR_SIZE + j * k.SECTOR_SIZE < 65536 := by
      intro j hj
      have := hb (j + 1) (by omega)
      rw [Nat.add_mul, Nat.one_mul] at this
      omega
    rw [sectorGrid_succ, List.foldl_append, ← ih (ny + k.SECTOR_SIZE) _ hrest,
      ← spectatorsRow_eq_fold k world m hS hm hlinks onlyPlayers onlyMonsters onlyNpcs ny hny
        accept _ startx1 state hcols]
    cases hp : sectorPtr world.mapSectors (sectorIndex k.SECTOR_SIZE startx1 ny) with
    | none =>
      simp only [spectatorsRows, getMapSector_ptr]
    | some sector =>
      obtain ⟨hkey, hsome⟩ := (sectorPtr_eq_some _ _ _).1 hp
      obtain ⟨s, hs⟩ := Option.isSome_iff_exists.1 hsome
      have hl := (hlinks _ s hs).2.2.2
      rw [hkey] at hs
      simp only [spectatorsRows, hs]
      rw [hl, hsouth]

theorem visitSector_fold_mem {I : Type} (world : SpectatorWorld I)
    (onlyPlayers onlyMonsters onlyNpcs : Bool) (accept : Creature → Bool)
    (ps : List (Option Nat)) :
    ∀ (st0 : List Creature × List Nat) (c : Creature),
      c ∈ (ps.foldl (visitSector world onlyPlayers onlyMonsters onlyNpcs accept) st0).1 ↔
        c ∈ st0.1 ∨ ∃ key, some key ∈ ps ∧ key ∉ st0.2 ∧
          c ∈ (world.nodeList onlyPlayers onlyMonsters onlyNpcs key).filter accept := by
  induction ps with
  | nil => intro st0 c; simp
  | cons p ps ih =>
    intro st0 c
    rw [List.foldl_cons, ih]
    cases p with
    | none =>
      simp only [visitSector, List.mem_cons, false_or, reduceCtorEq]
    | some s =>
      simp only [visitSector]
      by_cases hs : st0.2.contains s = true
      · rw [if_pos hs]
        have hs1 : s ∈ st0.2 := by simpa using hs
        constructor
        · rintro (h | ⟨key, h1, h2, h3⟩)
          · exact Or.inl h
          · exact Or.inr ⟨key, List.mem_cons_of_mem _ h1, h2, h3⟩
        · rintro (h | ⟨key, h1, h2, h3⟩)
          · exact Or.inl h
          · rcases List.mem_cons.1 h1 with h | h
            · cases h
              exact absurd hs1 h2
            · exact Or.inr ⟨key, h, h2, h3⟩
      · rw [if_neg hs]
        have hs1 : s ∉ st0.2 := by simpa using hs
        simp only [List.mem_append, List.mem_cons, not_or]
        constructor
        · rintro ((h | h) | ⟨key, h1, ⟨h2, h3⟩, h4⟩)
          · exact Or.inl h
          · exact Or.inr ⟨s, Or.inl rfl, hs1, h⟩
          · exact Or.inr ⟨key, Or.inr h1, h3, h4⟩
        · rintro (h | ⟨key, h1 | h1, h2, h3⟩)
          · exact Or.inl (Or.inl h)
          · cases h1
            exact Or.inl (Or.inr h3)
          · by_cases hk : key = s
            · subst hk
              exact Or.inl (Or.inr h3)
            · exact Or.inr ⟨key, h1, ⟨hk, h2⟩, h3⟩

theorem visitSector_fold_nodup {I : Type} (world : SpectatorWorld I)
    (onlyPlayers onlyMonsters onlyNpcs : Bool) (accept : Creature → Bool)
    (idx : Creature → Nat) (ps : List (Option Nat)) :
    (∀ key, some key ∈ ps →
      ∀ c ∈ world.nodeList onlyPlayers onlyMonsters onlyNpcs key, idx c = key) →
    (∀ key, some key ∈ ps → (world.nodeList onlyPlayers onlyMonsters onlyNpcs key).Nodup) →
    ∀ (st0 : List Creature × List Nat), st0.1.Nodup → (∀ c ∈ st0.1, idx c ∈ st0.2) →
      (ps.foldl (visitSector world onlyPlayers onlyMonsters onlyNpcs accept) st0).1.Nodup := by
  induction ps with
  | nil => intro _ _ st0 h _; exact h
  | cons p ps ih0 =>
    intro hb0 hn0 st0 h1 h2
    have ih := ih0 (fun key h => hb0 key (List.mem_cons_of_mem _ h))
      (fun key h => hn0 key (List.mem_cons_of_mem _ h))
    rw [List.foldl_cons]
    cases p with
    | none => exact ih st0 h1 h2
    | some s =>
      have hb := hb0 s (List.mem_cons_self _ _)
      have hn := hn0 s (List.mem_cons_self _ _)
      simp only [visitSector]
      by_cases hs : st0.2.contains s = true
      · rw [if_pos hs]
        exact ih st0 h1 h2
      · rw [if_neg hs]
        have hs1 : s ∉ st0.2 := by simpa using hs
        apply ih
        · simp only
          rw [List.nodup_append]
          refine ⟨h1, hn.filter _, ?_⟩
          intro c hc1 hc2
          have := hb c (List.mem_filter.1 hc2).1
          have := h2 c hc1
          simp_all
        · intro c hc
          simp only [List.mem_append] at hc
          rcases hc with hc | hc
          · exact List.mem_cons_of_mem _ (h2 c hc)
          · rw [hb c (List.mem_filter.1 hc).1]
            exact List.mem_cons_self _ _

theorem sectorGrid_mem {I : Type} (S : Nat) (ms : Nat → Option (MapSector I))
    (nx ny columns rows key : Nat) :
    some key ∈ sectorGrid S ms nx ny columns rows ↔
      ∃ i j, i < columns ∧ j < rows ∧
        sectorPtr ms (sectorIndex S (nx + i * S) (ny + j * S)) = some key := by
  simp only [sectorGrid, List.mem_flatMap, List.mem_map, List.mem_range]
  constructor
  · rintro ⟨j, hj, i, hi, h⟩
    exact ⟨i, j, hi, hj, h⟩
  · rintro ⟨i, j, hi, hj, h⟩
    exact ⟨j, hj, i, hi, h⟩

theorem sector_start (S x : Nat) : x - x % S = S * (x / S) := by
  have := Nat.div_add_mod x S
  omega

theorem grid_cover (S : Nat) (hS : 0 < S) (x1 x2 cx : Nat) (h1 : x1 ≤ cx) (h2 : cx ≤ x2) :
    ∃ i, i < loopRounds (x1 - x1 % S) (x2 - x2 % S) S ∧
      (x1 - x1 % S + i * S) / S = cx / S := by
  have q1 : x1 / S ≤ cx / S := Nat.div_le_div_right h1
  have q2 : cx / S ≤ x2 / S := Nat.div_le_div_right h2
  refine ⟨cx / S - x1 / S, ?_, ?_⟩
  · unfold loopRounds
    rw [sector_start, sector_start, if_pos (Nat.mul_le_mul_left S (Nat.le_trans q1 q2)),
      ← Nat.mul_sub, Nat.mul_div_cancel_left _ hS]
    omega
  · rw [sector_start, Nat.mul_comm S, ← Nat.add_mul, Nat.mul_div_cancel _ hS]
    omega

theorem grid_bound (S : Nat) (hS : 0 < S) (x1 x2 i : Nat)
    (hi : i < loopRounds (x1 - x1 % S) (x2 - x2 % S) S) :
    x1 - x1 % S + i * S ≤ x2 ∧ x1 / S ≤ (x1 - x1 % S + i * S) / S ∧
      (x1 - x1 % S + i * S) / S ≤ x2 / S ∧ x1 - x1 % S ≤ x1 := by
  unfold loopRounds at hi
  rw [sector_start, sector_start] at hi
  by_cases h : S * (x1 / S) ≤ S * (x2 / S)
  · rw [if_pos h, ← Nat.mul_sub, Nat.mul_div_cancel_left _ hS] at hi
    have hq : x1 / S ≤ x2 / S := Nat.le_of_mul_le_mul_left h hS
    have e : (x1 - x1 % S + i * S) / S = x1 / S + i := by
      rw [sector_start, Nat.mul_comm S, ← Nat.add_mul, Nat.mul_div_cancel _ hS]
    have hle : (x1 / S + i) * S ≤ x2 / S * S := Nat.mul_le_mul_right S (by omega)
    have h2 : x2 / S * S ≤ x2 := Nat.div_mul_le_self x2 S
    refine ⟨?_, by rw [e]; omega, by rw [e]; omega, Nat.sub_le _ _⟩
    rw [sector_start, Nat.mul_comm S, ← Nat.add_mul]
    omega
  · rw [if_neg h] at hi
    omega

theorem sectorIndex_congr (S x y x1 y1 : Nat) (hx : x / S = x1 / S) (hy : y / S = y1 / S) :
    sectorIndex S x y = sectorIndex S x1 y1 := by
  unfold sectorIndex
  rw [hx, hy]

theorem inSpectatorRange_iff (centerPos : Position) (mnZ mxZ min_x max_x min_y max_y : Int)
    (c : Creature)
    (hz : 0 ≤ mnZ ∧ mnZ ≤ mxZ ∧ mxZ ≤ 255) (hcz : c.position.z < 256)
    (hcenter : centerPos.z < 256)
    (hcx : c.position.x < 65536) (hcy : c.position.y < 65536)
    (hx : min_x ≤ max_x) (hy : min_y ≤ max_y)
    (hbx : -2000000000 ≤ min_x ∧ max_x ≤ 2000000000)
    (hby : -2000000000 ≤ min_y ∧ max_y ≤ 2000000000) :
    inSpectatorRange centerPos mnZ (toUInt32 (mxZ - mnZ)) (toUInt32 (max_x - min_x))
        (toUInt32 (max_y - min_y)) min_x min_y c = true ↔
      mnZ ≤ c.position.z ∧ (c.position.z : Int) ≤ mxZ ∧
      min_x ≤ (c.position.x : Int) - ((centerPos.z : Int) - (c.position.z : Int)) ∧
      (c.position.x : Int) - ((centerPos.z : Int) - (c.position.z : Int)) ≤ max_x ∧
      min_y ≤ (c.position.y : Int) - ((centerPos.z : Int) - (c.position.z : Int)) ∧
      (c.position.y : Int) - ((centerPos.z : Int) - (c.position.z : Int)) ≤ max_y := by
  unfold inSpectatorRange toUInt32 Position.getOffsetZ
  simp only
  by_cases h1 : ((c.position.z : Int) - mnZ) % 4294967296 > (mxZ - mnZ) % 4294967296
  · rw [if_pos h1]
    simp only [Bool.false_eq_true, false_iff]
    omega
  · rw [if_neg h1]
    simp only [Bool.and_eq_true, decide_eq_true_eq]
    omega

theorem getSpectators_eq {I : Type} (k : SpectatorConsts) (world : SpectatorWorld I)
    (centerPos : Position) (multifloor onlyPlayers onlyMonsters onlyNpcs : Bool)
    (minRangeX maxRangeX minRangeY maxRangeY : Int) (x1 y1 x2 y2 : Nat)
    (hc : spectatorCorners k centerPos multifloor minRangeX maxRangeX minRangeY maxRangeY =
      (x1, y1, x2, y2)) :
    getSpectators k world centerPos multifloor onlyPlayers onlyMonsters onlyNpcs
        minRangeX maxRangeX minRangeY maxRangeY =
      (spectatorsRows k world onlyPlayers onlyMonsters onlyNpcs
        (x1 - (x1 &&& k.SECTOR_MASK)) (x2 - (x2 &&& k.SECTOR_MASK))
        (inSpectatorRange centerPos (spectatorRangeZ k centerPos multifloor).1
          (toUInt32 ((spectatorRangeZ k centerPos multifloor).2 -
            (spectatorRangeZ k centerPos multifloor).1))
          (toUInt32 ((centerPos.x : Int) + maxRangeX - ((centerPos.x : Int) + minRangeX)))
          (toUInt32 ((centerPos.y : Int) + maxRangeY - ((centerPos.y : Int) + minRangeY)))
          ((centerPos.x : Int) + minRangeX) ((centerPos.y : Int) + minRangeY))
        (loopRounds (y1 - (y1 &&& k.SECTOR_MASK)) (y2 - (y2 &&& k.SECTOR_MASK)) k.SECTOR_SIZE)
        (y1 - (y1 &&& k.SECTOR_MASK))
        ((getMapSector k.SECTOR_SIZE world.mapSectors (x1 - (x1 &&& k.SECTOR_MASK))
          (y1 - (y1 &&& k.SECTOR_MASK))).map (fun p => p.1)) ([], [])).1 := by
  unfold spectatorCorners at hc
  simp only [Prod.mk.injEq] at hc
  obtain ⟨rfl, rfl, rfl, rfl⟩ := hc
  rfl

/-- C35: with consistent sector links, a mask that takes the remainder of the sector
size, every creature of a list of an existing sector listed once and under the sector of
its own 16-bit position, and ranges with minimum not above maximum, `getSpectators`
returns, once each, exactly the creatures of the requested lists of the existing sectors
whose level lies in [`minRangeZ`, `maxRangeZ`] and whose coordinates, shifted by the level
difference to the centre, lie in [`min_x`, `max_x`] and [`min_y`, `max_y`]. -/
theorem getSpectators_is_filter {I : Type} (k : SpectatorConsts) (world : SpectatorWorld I)
    (m : Nat) (hS : 2 ≤ k.SECTOR_SIZE) (hm : 65536 = k.SECTOR_SIZE * m)
    (hmask : ∀ x, x &&& k.SECTOR_MASK = x % k.SECTOR_SIZE)
    (hlinks : SectorLinks m world.mapSectors)
    (centerPos : Position) (multifloor onlyPlayers onlyMonsters onlyNpcs : Bool)
    (minRangeX maxRangeX minRangeY maxRangeY : Int)
    (hbucket : ∀ key, (world.mapSectors key).isSome →
      ∀ c ∈ world.nodeList onlyPlayers onlyMonsters onlyNpcs key,
        key = sectorIndex k.SECTOR_SIZE c.position.x c.position.y ∧
          c.position.x < 65536 ∧ c.position.y < 65536 ∧ c.position.z < 256)
    (hnodup : ∀ key, (world.mapSectors key).isSome →
      (world.nodeList onlyPlayers onlyMonsters onlyNpcs key).Nodup)
    (hcenter : centerPos.x < 65536 ∧ centerPos.y < 65536 ∧ centerPos.z < 256)
    (hrx : minRangeX ≤ maxRangeX) (hry : minRangeY ≤ maxRangeY)
    (hbx : -1073741824 ≤ minRangeX ∧ maxRangeX ≤ 1073741824)
    (hby : -1073741824 ≤ minRangeY ∧ maxRangeY ≤ 1073741824)
    (hz : 0 ≤ (spectatorRangeZ k centerPos multifloor).1 ∧
      (spectatorRangeZ k centerPos multifloor).1 ≤ (spectatorRangeZ k centerPos multifloor).2 ∧
      (spectatorRangeZ k centerPos multifloor).2 ≤ 255) :
    (getSpectators k world centerPos multifloor onlyPlayers onlyMonsters onlyNpcs
      minRangeX maxRangeX minRangeY maxRangeY).Nodup ∧
    ∀ c, c ∈ getSpectators k world centerPos multifloor onlyPlayers onlyMonsters onlyNpcs
        minRangeX maxRangeX minRangeY maxRangeY ↔
      (∃ key, (world.mapSectors key).isSome ∧
        c ∈ world.nodeList onlyPlayers onlyMonsters onlyNpcs key) ∧
      (spectatorRangeZ k centerPos multifloor).1 ≤ c.position.z ∧
      (c.position.z : Int) ≤ (spectatorRangeZ k centerPos multifloor).2 ∧
      (centerPos.x : Int) + minRangeX ≤
        (c.position.x : Int) - ((centerPos.z : Int) - (c.position.z : Int)) ∧
      (c.position.x : Int) - ((centerPos.z : Int) - (c.position.z : Int)) ≤
        (centerPos.x : Int) + maxRangeX ∧
      (centerPos.y : Int) + minRangeY ≤
        (c.position.y : Int) - ((centerPos.z : Int) - (c.position.z : Int)) ∧
      (c.position.y : Int) - ((centerPos.z : Int) - (c.position.z : Int)) ≤
        (centerPos.y : Int) + maxRangeY := by
  obtain ⟨hcx, hcy, hcz⟩ := hcenter
  have hS0 : 0 < k.SECTOR_SIZE := by omega
  generalize hrz : spectatorRangeZ k centerPos multifloor = rz at hz ⊢
  obtain ⟨mnZ, mxZ⟩ := rz
  simp only at hz ⊢
  obtain ⟨hz1, hz2, hz3⟩ := hz
  -- the corners of the scan
  have hcorners : spectatorCorners k centerPos multifloor minRangeX maxRangeX minRangeY
      maxRangeY =
      ((min 65535 (max 0 ((centerPos.x : Int) + minRangeX + ((centerPos.z : Int) - mxZ)))).toNat,
        (min 65535 (max 0 ((centerPos.y : Int) + minRangeY + ((centerPos.z : Int) - mxZ)))).toNat,
        (min 65535 (max 0 ((centerPos.x : Int) + maxRangeX + ((centerPos.z : Int) - mnZ)))).toNat,
        (min 65535 (max 0 ((centerPos.y : Int) + maxRangeY + ((centerPos.z : Int) - mnZ)))).toNat) := by
    unfold spectatorCorners
    rw [hrz]
  generalize hx1 : (min 65535 (max 0 ((centerPos.x : Int) + minRangeX +
    ((centerPos.z : Int) - mxZ)))).toNat = x1 at hcorners
  generalize hy1 : (min 65535 (max 0 ((centerPos.y : Int) + minRangeY +
    ((centerPos.z : Int) - mxZ)))).toNat = y1 at hcorners
  generalize hx2 : (min 65535 (max 0 ((centerPos.x : Int) + maxRangeX +
    ((centerPos.z : Int) - mnZ)))).toNat = x2 at hcorners
  generalize hy2 : (min 65535 (max 0 ((centerPos.y : Int) + maxRangeY +
    ((centerPos.z : Int) - mnZ)))).toNat = y2 at hcorners
  have bx1 : x1 ≤ 65535 := by omega
  have bx2 : x2 ≤ 65535 := by omega
  have by1 : y1 ≤ 65535 := by omega
  have by2 : y2 ≤ 65535 := by omega
  rw [getSpectators_eq k world centerPos multifloor onlyPlayers onlyMonsters onlyNpcs
    minRangeX maxRangeX minRangeY maxRangeY x1 y1 x2 y2 hcorners, hrz]
  simp only [hmask, getMapSector_ptr]
  have hcols : ∀ i, i < loopRounds (x1 - x1 % k.SECTOR_SIZE) (x2 - x2 % k.SECTOR_SIZE)
      k.SECTOR_SIZE → x1 - x1 % k.SECTOR_SIZE + i * k.SECTOR_SIZE < 65536 := by
    intro i hi
    have := (grid_bound k.SECTOR_SIZE hS0 x1 x2 i hi).1
    omega
  have hrows : ∀ j, j < loopRounds (y1 - y1 % k.SECTOR_SIZE) (y2 - y2 % k.SECTOR_SIZE)
      k.SECTOR_SIZE → y1 - y1 % k.SECTOR_SIZE + j * k.SECTOR_SIZE < 65536 := by
    intro j hj
    have := (grid_bound k.SECTOR_SIZE hS0 y1 y2 j hj).1
    omega
  rw [spectatorsRows_eq_fold k world m hS hm hlinks onlyPlayers onlyMonsters onlyNpcs
    (x1 - x1 % k.SECTOR_SIZE) (x2 - x2 % k.SECTOR_SIZE) (by omega) hcols _ _ _ _ hrows]
  have hexists : ∀ key, some key ∈ sectorGrid k.SECTOR_SIZE world.mapSectors
      (x1 - x1 % k.SECTOR_SIZE) (y1 - y1 % k.SECTOR_SIZE)
      (loopRounds (x1 - x1 % k.SECTOR_SIZE) (x2 - x2 % k.SECTOR_SIZE) k.SECTOR_SIZE)
      (loopRounds (y1 - y1 % k.SECTOR_SIZE) (y2 - y2 % k.SECTOR_SIZE) k.SECTOR_SIZE) →
      (world.mapSectors key).isSome := by
    intro key hkey
    obtain ⟨i, j, _, _, hp⟩ := (sectorGrid_mem _ _ _ _ _ _ _).1 hkey
    obtain ⟨h1, h2⟩ := (sectorPtr_eq_some _ _ _).1 hp
    rw [← h1]
    exact h2
  refine ⟨?_, ?_⟩
  · exact visitSector_fold_nodup world onlyPlayers onlyMonsters onlyNpcs _
      (fun c => sectorIndex k.SECTOR_SIZE c.position.x c.position.y) _
      (fun key hkey c hc => ((hbucket key (hexists key hkey) c hc).1).symm)
      (fun key hkey => hnodup key (hexists key hkey)) ([], []) List.nodup_nil
      (fun c hc => by cases hc)
  · intro c
    rw [visitSector_fold_mem]
    simp only [List.not_mem_nil, false_or, not_false_eq_true, true_and, List.mem_filter]
    constructor
    · rintro ⟨key, hkey, hc, hacc⟩
      have hex := hexists key hkey
      obtain ⟨_, b1, b2, b3⟩ := hbucket key hex c hc
      have := (inSpectatorRange_iff centerPos mnZ mxZ _ _ _ _ c ⟨hz1, hz2, hz3⟩ b3 hcz b1 b2
        (by omega) (by omega) (by omega) (by omega)).1 hacc
      exact ⟨⟨key, hex, hc⟩, this⟩
    · rintro ⟨⟨key, hex, hc⟩, hrange⟩
      obtain ⟨hk, b1, b2, b3⟩ := hbucket key hex c hc
      have hacc := (inSpectatorRange_iff centerPos mnZ mxZ _ _ _ _ c ⟨hz1, hz2, hz3⟩ b3 hcz
        b1 b2 (by omega) (by omega) (by omega) (by omega)).2 hrange
      refine ⟨key, ?_, hc, hacc⟩
      obtain ⟨r1, r2, r3, r4, r5, r6⟩ := hrange
      obtain ⟨i, hi, ei⟩ := grid_cover k.SECTOR_SIZE hS0 x1 x2 c.position.x
        (by omega) (by omega)
      obtain ⟨j, hj, ej⟩ := grid_cover k.SECTOR_SIZE hS0 y1 y2 c.position.y
        (by omega) (by omega)
      rw [sectorGrid_mem]
      refine ⟨i, j, hi, hj, ?_⟩
      rw [sectorIndex_congr _ _ _ _ _ ei ej, ← hk]
      exact (sectorPtr_eq_some _ _ _).2 ⟨rfl, hex⟩

theorem sampleSpectatorWorld_sector (key : Nat)
    (h : (sampleSpectatorWorld.mapSectors key).isSome) : key = sectorIndex 16 96 96 := by
  by_contra hne
  simp [sampleSpectatorWorld, hne] at h

theorem sampleSpectatorWorld_links : SectorLinks 4096 sampleSpectatorWorld.mapSectors := by
  intro key s hs
  have hkey := sampleSpectatorWorld_sector key (by rw [hs]; rfl)
  subst hkey
  have e : s = MapSector.new := by
    simp [sampleSpectatorWorld] at hs
    exact hs.symm
  subst e
  refine ⟨by decide, by decide, ?_, ?_⟩
  · simp [MapSector.new, sectorPtr, sampleSpectatorWorld]
  · simp [MapSector.new, sectorPtr, sampleSpectatorWorld]

theorem getSpectators_is_filter_witness :
    (getSpectators sampleSpectatorConsts sampleSpectatorWorld ⟨100, 100, 7⟩ false false true
      false (-2) 2 (-2) 2).Nodup ∧
    getSpectators sampleSpectatorConsts sampleSpectatorWorld ⟨100, 100, 7⟩ false false true
      false (-2) 2 (-2) 2 = [⟨2, ⟨101, 100, 7⟩, false, true, false⟩] :=
  ⟨(getSpectators_is_filter sampleSpectatorConsts sampleSpectatorWorld 4096 (by decide)
    (by decide) (fun x => Nat.and_pow_two_sub_one_eq_mod x 4) sampleSpectatorWorld_links
    ⟨100, 100, 7⟩ false false true false (-2) 2 (-2) 2
    (fun key hkey c hc => by
      have := sampleSpectatorWorld_sector key hkey
      subst this
      simp only [SpectatorWorld.nodeList, sampleSpectatorWorld, if_true, Bool.false_eq_true,
        if_false, List.mem_cons, List.mem_singleton, List.not_mem_nil, or_false] at hc
      rcases hc with rfl | rfl <;> decide)
    (fun key hkey => by
      have := sampleSpectatorWorld_sector key hkey
      subst this
      decide)
    (by decide) (by decide) (by decide) (by decide) (by decide) (by decide)).1, by decide⟩
